import Mathlib

/-! cbuff.h : circular byte buffers

A shallow embedding of the three circular byte buffers of the repository

* `Index`    : `cbuff_index.h`, head and tail indices plus a stored count,
* `Mirrored` : `cbuff_uint8.h`, head and tail indices counted over `2 * capacity`,
* `Pointer`  : `cbuff_uint8_pointer.h`, head and tail cursors plus a stored count,

followed by theorems about them.

Modelling conventions.

* A byte (`uint8_t`) is a `Fin 256`.
* `size_t` values are natural numbers.  In `Index` and `Pointer` the sums of
  `enqueue`, `enqueue_overwrite` and `dequeue` stay at or below the capacity, so
  they are the sums of the code on every word size; the sum `head + offset` of
  `peek` is not reduced there, and `IndexW`, `PointerW` give `peek` on a `w`-bit
  `size_t` (`peek` changes neither the structure nor the storage, so the
  reachable states are the same with either).  In `Mirrored` no arithmetic is
  reduced modulo the word size; `MirroredW` is the mirrored-index variant on a
  `w`-bit `size_t`, where `capacity * 2`, the differences of the count and the
  sums wrap modulo `2 ^ w`.  The two agree on the reachable states when
  `2 * capacity < 2 ^ w`, `peek` apart, which agrees when
  `head + offset < 2 ^ w`.  The theorems whose truth depends on the word size
  are stated on the `w`-bit functions.
* A pointer `uint8_t *` is an address (a natural number, `0` is `NULL`).  The
  only memory the buffers touch is the caller's storage array, `Mem`.
* A C function that writes through `cb` takes the structure (and the storage)
  and returns the new ones.  The out parameter `uint8_t *b` of `dequeue` and
  `peek` is passed as the byte the caller's variable holds and returned as the
  byte it holds afterwards.
* Undefined behaviour (an access outside the storage array, a remainder by
  zero, a difference of pointers that do not point into the same array) makes
  the operation return `none`.
-/

/-- A byte, the C type `uint8_t`. -/
abbrev Byte := Fin 256

/-- The storage array of the caller: the address of its first byte and its
contents. -/
structure Mem where
  base : Nat
  bytes : List Byte
deriving DecidableEq, Repr

/-- Read the byte at address `p`; `none` when `p` is outside the array. -/
def Mem.load (m : Mem) (p : Nat) : Option Byte :=
  if m.base ≤ p then m.bytes[p - m.base]? else none

/-- Write `b` at address `p`; `none` when `p` is outside the array. -/
def Mem.store (m : Mem) (p : Nat) (b : Byte) : Option Mem :=
  if m.base ≤ p ∧ p - m.base < m.bytes.length then
    some { m with bytes := m.bytes.set (p - m.base) b }
  else none

/-- The C operator `a % n` on `size_t`; `none` when `n` is zero. -/
def urem (a n : Nat) : Option Nat :=
  if n = 0 then none else some (a % n)

/-- The C pointer difference `p - q` converted to `size_t`; `none` when `p`
is below `q`. -/
def ptrdiff (p q : Nat) : Option Nat :=
  if q ≤ p then some (p - q) else none

/-- One call made by a user of a buffer.  `dequeue` and `peek` carry the byte
held by the caller's output variable before the call. -/
inductive Op where
  | reset
  | enqueue (b : Byte)
  | enqueue_overwrite (b : Byte)
  | dequeue (out : Byte)
  | peek (out : Byte) (offset : Nat)
deriving DecidableEq, Repr

/-- The bytes of `bytes` at the physical slots `(h + i) % C` for
`i = 0, .., n - 1`: the logical contents of a buffer of capacity `C` whose
head slot is `h % C` and which holds `n` bytes. -/
def slots (bytes : List Byte) (C h n : Nat) : List Byte :=
  (List.range n).map (fun i => bytes.getD ((h + i) % C) 0)

/-! ## Counted-index variant (`cbuff_index.h`) -/

namespace Index

/-- The structure `cbuff_t`. -/
structure cbuff_t where
  capacity : Nat
  count : Nat
  buffer : Nat
  head : Nat
  tail : Nat
deriving DecidableEq, Repr

/-- The macro `cbuff_struct_full_prefill(BuffSize, BuffPtr)`. -/
def cbuff_struct_full_prefill (BuffSize BuffPtr : Nat) : cbuff_t :=
  { capacity := BuffSize, count := 0, buffer := BuffPtr, head := 0, tail := 0 }

/-- The function `cbuff_init`.  `cb` is `none` for a `NULL` structure pointer,
`buffPtr` is `0` for a `NULL` storage pointer. -/
def cbuff_init (cb : Option cbuff_t) (capacity : Nat) (buffPtr : Nat) :
    Bool × Option cbuff_t :=
  match cb with
  | none => (false, none)
  | some old =>
    if buffPtr = 0 then (false, some old)
    else
      let emptyCB : cbuff_t := { capacity := 0, count := 0, buffer := 0, head := 0, tail := 0 }
      let cb1 := emptyCB
      let cb2 := { cb1 with capacity := capacity }
      let cb3 := { cb2 with buffer := buffPtr }
      let cb4 := { cb3 with count := 0 }
      let cb5 := { cb4 with head := 0 }
      let cb6 := { cb5 with tail := 0 }
      (true, some cb6)

/-- The function `cbuff_is_init`. -/
def cbuff_is_init (cb : cbuff_t) : Bool :=
  decide (cb.capacity ≠ 0) && decide (cb.buffer ≠ 0)

/-- The function `cbuff_reset`. -/
def cbuff_reset (cb : cbuff_t) : Bool × cbuff_t :=
  (true, { cb with count := 0, head := 0, tail := 0 })

/-- The function `cbuff_enqueue_overwrite`. -/
def cbuff_enqueue_overwrite (cb : cbuff_t) (m : Mem) (b : Byte) :
    Option (Bool × cbuff_t × Mem) :=
  if cb.count ≥ cb.capacity then
    (urem (cb.head + 1) cb.capacity).bind fun h =>
    let cb1 := { cb with head := h }
    (m.store (cb1.buffer + cb1.tail) b).bind fun m1 =>
    (urem (cb1.tail + 1) cb1.capacity).bind fun t =>
    some (true, { cb1 with tail := t }, m1)
  else
    let cb1 := { cb with count := cb.count + 1 }
    (m.store (cb1.buffer + cb1.tail) b).bind fun m1 =>
    (urem (cb1.tail + 1) cb1.capacity).bind fun t =>
    some (true, { cb1 with tail := t }, m1)

/-- The function `cbuff_enqueue`. -/
def cbuff_enqueue (cb : cbuff_t) (m : Mem) (b : Byte) :
    Option (Bool × cbuff_t × Mem) :=
  if cb.count ≥ cb.capacity then some (false, cb, m)
  else
    (m.store (cb.buffer + cb.tail) b).bind fun m1 =>
    (urem (cb.tail + 1) cb.capacity).bind fun t =>
    some (true, { cb with tail := t, count := cb.count + 1 }, m1)

/-- The function `cbuff_dequeue`; the second component of the result is the
caller's output byte after the call. -/
def cbuff_dequeue (cb : cbuff_t) (m : Mem) (b : Byte) :
    Option (Bool × Byte × cbuff_t × Mem) :=
  if cb.count = 0 then some (false, b, cb, m)
  else
    (m.load (cb.buffer + cb.head)).bind fun v =>
    (urem (cb.head + 1) cb.capacity).bind fun h =>
    some (true, v, { cb with head := h, count := cb.count - 1 }, m)

/-- The function `cbuff_peek`; the second component of the result is the
caller's output byte after the call. -/
def cbuff_peek (cb : cbuff_t) (m : Mem) (b : Byte) (offset : Nat) :
    Option (Bool × Byte × cbuff_t × Mem) :=
  if cb.count = 0 then some (false, b, cb, m)
  else if cb.count < offset then some (false, b, cb, m)
  else
    (urem (cb.head + offset) cb.capacity).bind fun i =>
    (m.load (cb.buffer + i)).bind fun v =>
    some (true, v, cb, m)

/-- The function `cbuff_capacity`. -/
def cbuff_capacity (cb : cbuff_t) : Nat := cb.capacity

/-- The function `cbuff_count`. -/
def cbuff_count (cb : cbuff_t) : Nat := cb.count

/-- The function `cbuff_is_full`. -/
def cbuff_is_full (cb : cbuff_t) : Bool := decide (cb.count ≥ cb.capacity)

/-- The function `cbuff_is_empty`. -/
def cbuff_is_empty (cb : cbuff_t) : Bool := decide (cb.count = 0)

/-- One call of a user on the buffer and its storage; the results returned to
the caller are dropped. -/
def step (s : cbuff_t × Mem) : Op → Option (cbuff_t × Mem)
  | .reset => some ((cbuff_reset s.1).2, s.2)
  | .enqueue b => (cbuff_enqueue s.1 s.2 b).map fun r => r.2
  | .enqueue_overwrite b => (cbuff_enqueue_overwrite s.1 s.2 b).map fun r => r.2
  | .dequeue out => (cbuff_dequeue s.1 s.2 out).map fun r => r.2.2
  | .peek out offset => (cbuff_peek s.1 s.2 out offset).map fun r => r.2.2

/-- A sequence of calls, in order. -/
def run (s : cbuff_t × Mem) : List Op → Option (cbuff_t × Mem)
  | [] => some s
  | op :: ops => (step s op).bind fun s1 => run s1 ops

/-- The states a user can reach: `cbuff_init` succeeds with capacity `C` on a
storage array of at least `C` bytes, then any calls are made. -/
def Reachable (C : Nat) (s : cbuff_t × Mem) : Prop :=
  ∃ (old cb0 : cbuff_t) (m0 : Mem) (ops : List Op),
    C ≤ m0.bytes.length ∧ cbuff_init (some old) C m0.base = (true, some cb0) ∧
    run (cb0, m0) ops = some s

/-- The logical contents, oldest byte first. -/
def contents (s : cbuff_t × Mem) : List Byte :=
  slots s.2.bytes s.1.capacity s.1.head (cbuff_count s.1)

/-- The invariant of the reachable states of capacity `C`. -/
structure Inv (C : Nat) (s : cbuff_t × Mem) : Prop where
  cap : s.1.capacity = C
  pos : 0 < C
  buf : s.1.buffer = s.2.base
  len : C ≤ s.2.bytes.length
  cnt : s.1.count ≤ C
  hd : s.1.head < C
  tl : s.1.tail = (s.1.head + s.1.count) % C

end Index

/-! ## Mirrored-index variant (`cbuff_uint8.h`) -/

namespace Mirrored

/-- The structure `cbuff_uint8_t` of `cbuff_uint8.h`. -/
structure cbuff_uint8_t where
  capacity : Nat
  buffer : Nat
  head : Nat
  tail : Nat
deriving DecidableEq, Repr

/-- The macro `cbuff_uint8_struct_full_prefill(BuffSize, BuffPtr)`. -/
def cbuff_uint8_struct_full_prefill (BuffSize BuffPtr : Nat) : cbuff_uint8_t :=
  { capacity := BuffSize, buffer := BuffPtr, head := 0, tail := 0 }

/-- The function `cbuff_uint8_init`.  `cb` is `none` for a `NULL` structure
pointer, `buffPtr` is `0` for a `NULL` storage pointer. -/
def cbuff_uint8_init (cb : Option cbuff_uint8_t) (capacity : Nat) (buffPtr : Nat) :
    Bool × Option cbuff_uint8_t :=
  match cb with
  | none => (false, none)
  | some old =>
    if buffPtr = 0 then (false, some old)
    else
      let emptyCB : cbuff_uint8_t := { capacity := 0, buffer := 0, head := 0, tail := 0 }
      let cb1 := emptyCB
      let cb2 := { cb1 with capacity := capacity }
      let cb3 := { cb2 with buffer := buffPtr }
      let cb4 := { cb3 with head := 0 }
      let cb5 := { cb4 with tail := 0 }
      (true, some cb5)

/-- The function `cbuff_uint8_is_init`. -/
def cbuff_uint8_is_init (cb : cbuff_uint8_t) : Bool :=
  decide (cb.capacity ≠ 0) && decide (cb.buffer ≠ 0)

/-- The function `cbuff_uint8_reset`. -/
def cbuff_uint8_reset (cb : cbuff_uint8_t) : Bool × cbuff_uint8_t :=
  (true, { cb with head := 0, tail := 0 })

/-- The function `cbuff_uint8_enqueue_overwrite`. -/
def cbuff_uint8_enqueue_overwrite (cb : cbuff_uint8_t) (m : Mem) (b : Byte) :
    Option (Bool × cbuff_uint8_t × Mem) :=
  let head_index := cb.head
  let tail_index := cb.tail
  let count := if tail_index ≥ head_index then tail_index - head_index
    else tail_index + (cb.capacity * 2 - head_index)
  if count ≥ cb.capacity then
    (urem (head_index + 1) (cb.capacity * 2)).bind fun h =>
    let cb1 := { cb with head := h }
    (urem tail_index cb1.capacity).bind fun i =>
    (m.store (cb1.buffer + i) b).bind fun m1 =>
    (urem (tail_index + 1) (cb1.capacity * 2)).bind fun t =>
    some (true, { cb1 with tail := t }, m1)
  else
    (urem tail_index cb.capacity).bind fun i =>
    (m.store (cb.buffer + i) b).bind fun m1 =>
    (urem (tail_index + 1) (cb.capacity * 2)).bind fun t =>
    some (true, { cb with tail := t }, m1)

/-- The function `cbuff_uint8_enqueue`. -/
def cbuff_uint8_enqueue (cb : cbuff_uint8_t) (m : Mem) (b : Byte) :
    Option (Bool × cbuff_uint8_t × Mem) :=
  let head_index := cb.head
  let tail_index := cb.tail
  let count := if tail_index ≥ head_index then tail_index - head_index
    else tail_index + (cb.capacity * 2 - head_index)
  if count ≥ cb.capacity then some (false, cb, m)
  else
    (urem tail_index cb.capacity).bind fun i =>
    (m.store (cb.buffer + i) b).bind fun m1 =>
    (urem (tail_index + 1) (cb.capacity * 2)).bind fun t =>
    some (true, { cb with tail := t }, m1)

/-- The function `cbuff_uint8_dequeue`; the second component of the result is
the caller's output byte after the call. -/
def cbuff_uint8_dequeue (cb : cbuff_uint8_t) (m : Mem) (b : Byte) :
    Option (Bool × Byte × cbuff_uint8_t × Mem) :=
  let head_index := cb.head
  let tail_index := cb.tail
  if tail_index = head_index then some (false, b, cb, m)
  else
    (urem head_index cb.capacity).bind fun i =>
    (m.load (cb.buffer + i)).bind fun v =>
    (urem (head_index + 1) (cb.capacity * 2)).bind fun h =>
    some (true, v, { cb with head := h }, m)

/-- The function `cbuff_uint8_peek`; the second component of the result is the
caller's output byte after the call. -/
def cbuff_uint8_peek (cb : cbuff_uint8_t) (m : Mem) (b : Byte) (offset : Nat) :
    Option (Bool × Byte × cbuff_uint8_t × Mem) :=
  let head_index := cb.head
  let tail_index := cb.tail
  if tail_index = head_index then some (false, b, cb, m)
  else
    let count := if tail_index ≥ head_index then tail_index - head_index
      else tail_index + (cb.capacity * 2 - head_index)
    if count < offset then some (false, b, cb, m)
    else
      (urem (head_index + offset) cb.capacity).bind fun i =>
      (m.load (cb.buffer + i)).bind fun v =>
      some (true, v, cb, m)

/-- The function `cbuff_uint8_capacity`. -/
def cbuff_uint8_capacity (cb : cbuff_uint8_t) : Nat := cb.capacity

/-- The function `cbuff_uint8_count`. -/
def cbuff_uint8_count (cb : cbuff_uint8_t) : Nat :=
  let head_index := cb.head
  let tail_index := cb.tail
  let count := if tail_index ≥ head_index then tail_index - head_index
    else tail_index + (cb.capacity * 2 - head_index)
  count

/-- The function `cbuff_uint8_is_full`.  It returns a `size_t`: the value of
the comparison, `1` or `0`. -/
def cbuff_uint8_is_full (cb : cbuff_uint8_t) : Nat :=
  let head_index := cb.head
  let tail_index := cb.tail
  let count := if tail_index ≥ head_index then tail_index - head_index
    else tail_index + (cb.capacity * 2 - head_index)
  if count ≥ cb.capacity then 1 else 0

/-- The function `cbuff_uint8_is_empty`. -/
def cbuff_uint8_is_empty (cb : cbuff_uint8_t) : Bool := decide (cb.tail = cb.head)

/-- One call of a user on the buffer and its storage; the results returned to
the caller are dropped. -/
def step (s : cbuff_uint8_t × Mem) : Op → Option (cbuff_uint8_t × Mem)
  | .reset => some ((cbuff_uint8_reset s.1).2, s.2)
  | .enqueue b => (cbuff_uint8_enqueue s.1 s.2 b).map fun r => r.2
  | .enqueue_overwrite b => (cbuff_uint8_enqueue_overwrite s.1 s.2 b).map fun r => r.2
  | .dequeue out => (cbuff_uint8_dequeue s.1 s.2 out).map fun r => r.2.2
  | .peek out offset => (cbuff_uint8_peek s.1 s.2 out offset).map fun r => r.2.2

/-- A sequence of calls, in order. -/
def run (s : cbuff_uint8_t × Mem) : List Op → Option (cbuff_uint8_t × Mem)
  | [] => some s
  | op :: ops => (step s op).bind fun s1 => run s1 ops

/-- The states a user can reach: `cbuff_uint8_init` succeeds with capacity `C`
on a storage array of at least `C` bytes, then any calls are made. -/
def Reachable (C : Nat) (s : cbuff_uint8_t × Mem) : Prop :=
  ∃ (old cb0 : cbuff_uint8_t) (m0 : Mem) (ops : List Op),
    C ≤ m0.bytes.length ∧ cbuff_uint8_init (some old) C m0.base = (true, some cb0) ∧
    run (cb0, m0) ops = some s

/-- The logical contents, oldest byte first. -/
def contents (s : cbuff_uint8_t × Mem) : List Byte :=
  slots s.2.bytes s.1.capacity s.1.head (cbuff_uint8_count s.1)

/-- The invariant of the reachable states of capacity `C`. -/
structure Inv (C : Nat) (s : cbuff_uint8_t × Mem) : Prop where
  cap : s.1.capacity = C
  pos : 0 < C
  buf : s.1.buffer = s.2.base
  len : C ≤ s.2.bytes.length
  hd : s.1.head < C * 2
  tl : s.1.tail < C * 2
  cnt : cbuff_uint8_count s.1 ≤ C

end Mirrored

/-! ## Pointer-based variant (`cbuff_uint8_pointer.h`) -/

namespace Pointer

/-- The structure `cbuff_uint8_t` of `cbuff_uint8_pointer.h`. -/
structure cbuff_uint8_t where
  capacity : Nat
  count : Nat
  buffer : Nat
  bufferEnd : Nat
  head : Nat
  tail : Nat
deriving DecidableEq, Repr

/-- The macro `cbuff_uint8_struct_full_prefill(BuffSize, BuffPtr)`. -/
def cbuff_uint8_struct_full_prefill (BuffSize BuffPtr : Nat) : cbuff_uint8_t :=
  { capacity := BuffSize, count := 0, buffer := BuffPtr, bufferEnd := BuffPtr + BuffSize,
    head := BuffPtr, tail := BuffPtr }

/-- The function `cbuff_uint8_init`.  `cb` is `none` for a `NULL` structure
pointer, `buffPtr` is `0` for a `NULL` storage pointer. -/
def cbuff_uint8_init (cb : Option cbuff_uint8_t) (capacity : Nat) (buffPtr : Nat) :
    Bool × Option cbuff_uint8_t :=
  match cb with
  | none => (false, none)
  | some old =>
    if buffPtr = 0 then (false, some old)
    else
      let cb1 := { old with capacity := capacity }
      let cb2 := { cb1 with count := 0 }
      let cb3 := { cb2 with buffer := buffPtr }
      let cb4 := { cb3 with bufferEnd := buffPtr + capacity }
      let cb5 := { cb4 with head := buffPtr }
      let cb6 := { cb5 with tail := buffPtr }
      (true, some cb6)

/-- The function `cbuff_uint8_is_init`. -/
def cbuff_uint8_is_init (cb : cbuff_uint8_t) : Bool :=
  decide (cb.capacity ≠ 0) && decide (cb.buffer ≠ 0)

/-- The function `cbuff_uint8_reset`. -/
def cbuff_uint8_reset (cb : cbuff_uint8_t) : Bool × cbuff_uint8_t :=
  (true, { cb with count := 0, head := cb.buffer, tail := cb.buffer })

/-- The cursor step shared by the three mutating functions: `p += 1;
p = (p == cb->bufferEnd) ? cb->buffer : p`. -/
def advance (cb : cbuff_uint8_t) (p : Nat) : Nat :=
  if p + 1 = cb.bufferEnd then cb.buffer else p + 1

/-- The function `cbuff_uint8_enqueue_overwrite`. -/
def cbuff_uint8_enqueue_overwrite (cb : cbuff_uint8_t) (m : Mem) (b : Byte) :
    Option (Bool × cbuff_uint8_t × Mem) :=
  let cb1 := if cb.count ≥ cb.capacity then { cb with head := advance cb cb.head }
    else { cb with count := cb.count + 1 }
  (m.store cb1.tail b).bind fun m1 =>
  some (true, { cb1 with tail := advance cb1 cb1.tail }, m1)

/-- The function `cbuff_uint8_enqueue`. -/
def cbuff_uint8_enqueue (cb : cbuff_uint8_t) (m : Mem) (b : Byte) :
    Option (Bool × cbuff_uint8_t × Mem) :=
  if cb.count ≥ cb.capacity then some (false, cb, m)
  else
    (m.store cb.tail b).bind fun m1 =>
    some (true, { cb with tail := advance cb cb.tail, count := cb.count + 1 }, m1)

/-- The function `cbuff_uint8_dequeue`; the second component of the result is
the caller's output byte after the call. -/
def cbuff_uint8_dequeue (cb : cbuff_uint8_t) (m : Mem) (b : Byte) :
    Option (Bool × Byte × cbuff_uint8_t × Mem) :=
  if cb.count = 0 then some (false, b, cb, m)
  else
    (m.load cb.head).bind fun v =>
    some (true, v, { cb with head := advance cb cb.head, count := cb.count - 1 }, m)

/-- The function `cbuff_uint8_peek`; the second component of the result is the
caller's output byte after the call. -/
def cbuff_uint8_peek (cb : cbuff_uint8_t) (m : Mem) (b : Byte) (offset : Nat) :
    Option (Bool × Byte × cbuff_uint8_t × Mem) :=
  if cb.count = 0 then some (false, b, cb, m)
  else if cb.count < offset then some (false, b, cb, m)
  else
    (ptrdiff cb.head cb.buffer).bind fun headIndex =>
    (urem (headIndex + offset) cb.capacity).bind fun i =>
    (m.load (cb.buffer + i)).bind fun v =>
    some (true, v, cb, m)

/-- The function `cbuff_uint8_capacity`. -/
def cbuff_uint8_capacity (cb : cbuff_uint8_t) : Nat := cb.capacity

/-- The function `cbuff_uint8_count`. -/
def cbuff_uint8_count (cb : cbuff_uint8_t) : Nat := cb.count

/-- The function `cbuff_uint8_is_full`. -/
def cbuff_uint8_is_full (cb : cbuff_uint8_t) : Bool := decide (cb.count ≥ cb.capacity)

/-- The function `cbuff_uint8_is_empty`. -/
def cbuff_uint8_is_empty (cb : cbuff_uint8_t) : Bool := decide (cb.count = 0)

/-- One call of a user on the buffer and its storage; the results returned to
the caller are dropped. -/
def step (s : cbuff_uint8_t × Mem) : Op → Option (cbuff_uint8_t × Mem)
  | .reset => some ((cbuff_uint8_reset s.1).2, s.2)
  | .enqueue b => (cbuff_uint8_enqueue s.1 s.2 b).map fun r => r.2
  | .enqueue_overwrite b => (cbuff_uint8_enqueue_overwrite s.1 s.2 b).map fun r => r.2
  | .dequeue out => (cbuff_uint8_dequeue s.1 s.2 out).map fun r => r.2.2
  | .peek out offset => (cbuff_uint8_peek s.1 s.2 out offset).map fun r => r.2.2

/-- A sequence of calls, in order. -/
def run (s : cbuff_uint8_t × Mem) : List Op → Option (cbuff_uint8_t × Mem)
  | [] => some s
  | op :: ops => (step s op).bind fun s1 => run s1 ops

/-- The states a user can reach: `cbuff_uint8_init` succeeds with capacity `C`
on a storage array of at least `C` bytes, then any calls are made. -/
def Reachable (C : Nat) (s : cbuff_uint8_t × Mem) : Prop :=
  ∃ (old cb0 : cbuff_uint8_t) (m0 : Mem) (ops : List Op),
    C ≤ m0.bytes.length ∧ cbuff_uint8_init (some old) C m0.base = (true, some cb0) ∧
    run (cb0, m0) ops = some s

/-- The logical contents, oldest byte first. -/
def contents (s : cbuff_uint8_t × Mem) : List Byte :=
  slots s.2.bytes s.1.capacity (s.1.head - s.1.buffer) (cbuff_uint8_count s.1)

/-- The invariant of the reachable states of capacity `C`. -/
structure Inv (C : Nat) (s : cbuff_uint8_t × Mem) : Prop where
  cap : s.1.capacity = C
  pos : 0 < C
  buf : s.1.buffer = s.2.base
  bend : s.1.bufferEnd = s.2.base + C
  len : C ≤ s.2.bytes.length
  cnt : s.1.count ≤ C
  hd_ge : s.2.base ≤ s.1.head
  hd_lt : s.1.head < s.2.base + C
  tl : s.1.tail = s.2.base + (s.1.head - s.2.base + s.1.count) % C

end Pointer

/-! ## Sequences of calls -/

/-- Call `enq` (an enqueue function of one of the variants) once for each byte
of the list, in order; the results of the calls are collected. -/
def enqueueSeq {α : Type} (enq : α → Mem → Byte → Option (Bool × α × Mem))
    (cb : α) (m : Mem) : List Byte → Option (List Bool × α × Mem)
  | [] => some ([], cb, m)
  | b :: bs =>
    (enq cb m b).bind fun r =>
    (enqueueSeq enq r.2.1 r.2.2 bs).map fun q => (r.1 :: q.1, q.2)

/-- Call `deq` (a dequeue function of one of the variants) `k` times with the
same output variable, which holds `out` at first; the result and the output
byte of each call are collected. -/
def dequeueSeq {α : Type} (deq : α → Mem → Byte → Option (Bool × Byte × α × Mem))
    (cb : α) (m : Mem) (out : Byte) : Nat → Option (List (Bool × Byte) × α × Mem)
  | 0 => some ([], cb, m)
  | k + 1 =>
    (deq cb m out).bind fun r =>
    (dequeueSeq deq r.2.2.1 r.2.2.2 r.2.1 k).map fun q => ((r.1, r.2.1) :: q.1, q.2)

/-! ## Example states -/

/-- Capacity 4, empty, after three bytes went through: head and tail sit at
the last slot. -/
def Index.exEmpty : Index.cbuff_t × Mem := (⟨4, 0, 100, 3, 3⟩, ⟨100, [1, 2, 3, 0]⟩)

/-- Capacity 4 holding 0, 1, 2, 3. -/
def Index.exFull : Index.cbuff_t × Mem := (⟨4, 4, 100, 0, 0⟩, ⟨100, [0, 1, 2, 3]⟩)

/-- Capacity 3 after `enqueue_overwrite` of 1, 2, 3, 4. -/
def Index.exPeek : Index.cbuff_t × Mem := (⟨3, 3, 100, 1, 1⟩, ⟨100, [4, 2, 3]⟩)

/-- Capacity 4 on a storage array filled with 9, after `enqueue` of 7. -/
def Index.exOne : Index.cbuff_t × Mem := (⟨4, 1, 100, 0, 1⟩, ⟨100, [7, 9, 9, 9]⟩)

/-- Capacity 4, empty, after seven bytes went through: head and tail sit at
`2 * 4 - 1`, the last index before the wrap. -/
def Mirrored.exEmpty : Mirrored.cbuff_uint8_t × Mem := (⟨4, 100, 7, 7⟩, ⟨100, [5, 6, 7, 4]⟩)

/-- Capacity 4 holding 0, 1, 2, 3. -/
def Mirrored.exFull : Mirrored.cbuff_uint8_t × Mem := (⟨4, 100, 0, 4⟩, ⟨100, [0, 1, 2, 3]⟩)

/-- Capacity 3 after `enqueue_overwrite` of 1, 2, 3, 4. -/
def Mirrored.exPeek : Mirrored.cbuff_uint8_t × Mem := (⟨3, 100, 1, 4⟩, ⟨100, [4, 2, 3]⟩)

/-- Capacity 4 on a storage array filled with 9, after `enqueue` of 7. -/
def Mirrored.exOne : Mirrored.cbuff_uint8_t × Mem := (⟨4, 100, 0, 1⟩, ⟨100, [7, 9, 9, 9]⟩)

/-- Capacity 4, empty, after three bytes went through: both cursors sit at the
last slot. -/
def Pointer.exEmpty : Pointer.cbuff_uint8_t × Mem :=
  (⟨4, 0, 100, 104, 103, 103⟩, ⟨100, [1, 2, 3, 0]⟩)

/-- Capacity 4 holding 0, 1, 2, 3. -/
def Pointer.exFull : Pointer.cbuff_uint8_t × Mem :=
  (⟨4, 4, 100, 104, 100, 100⟩, ⟨100, [0, 1, 2, 3]⟩)

/-- Capacity 3 after `enqueue_overwrite` of 1, 2, 3, 4. -/
def Pointer.exPeek : Pointer.cbuff_uint8_t × Mem :=
  (⟨3, 3, 100, 103, 101, 101⟩, ⟨100, [4, 2, 3]⟩)

/-- Capacity 4 on a storage array filled with 9, after `enqueue` of 7. -/
def Pointer.exOne : Pointer.cbuff_uint8_t × Mem :=
  (⟨4, 1, 100, 104, 100, 101⟩, ⟨100, [7, 9, 9, 9]⟩)

/-! ## The whole operation set, with the values returned -/

/-- One call of the operation set, the queries included.  `dequeue` and `peek`
carry the byte held by the output variable of the caller before the call. -/
inductive Call where
  | reset
  | enqueue (b : Byte)
  | enqueue_overwrite (b : Byte)
  | dequeue (out : Byte)
  | peek (out : Byte) (offset : Nat)
  | capacity
  | count
  | is_full
  | is_empty
deriving DecidableEq, Repr

/-- What the caller observes of one call: the truth value returned (`flag`),
the truth value returned together with the output byte after the call
(`out`), or the `size_t` returned (`size`). -/
inductive Ret where
  | flag (ok : Bool)
  | out (ok : Bool) (b : Byte)
  | size (n : Nat)
deriving DecidableEq, Repr

/-- One call of the operation set on the index buffer and its storage,
with what the caller observes. -/
def Index.call (s : Index.cbuff_t × Mem) : Call → Option (Ret × Index.cbuff_t × Mem)
  | .reset =>
    let r := Index.cbuff_reset s.1
    some (.flag r.1, r.2, s.2)
  | .enqueue b => (Index.cbuff_enqueue s.1 s.2 b).map fun r => (.flag r.1, r.2)
  | .enqueue_overwrite b =>
    (Index.cbuff_enqueue_overwrite s.1 s.2 b).map fun r => (.flag r.1, r.2)
  | .dequeue out => (Index.cbuff_dequeue s.1 s.2 out).map fun r => (.out r.1 r.2.1, r.2.2)
  | .peek out offset =>
    (Index.cbuff_peek s.1 s.2 out offset).map fun r => (.out r.1 r.2.1, r.2.2)
  | .capacity => some (.size (Index.cbuff_capacity s.1), s)
  | .count => some (.size (Index.cbuff_count s.1), s)
  | .is_full => some (.flag (Index.cbuff_is_full s.1), s)
  | .is_empty => some (.flag (Index.cbuff_is_empty s.1), s)

/-- A sequence of calls on the index buffer, in order, with the list of
what the caller observes. -/
def Index.calls (s : Index.cbuff_t × Mem) : List Call → Option (List Ret × Index.cbuff_t × Mem)
  | [] => some ([], s)
  | c :: cs =>
    (Index.call s c).bind fun r =>
    (Index.calls r.2 cs).map fun q => (r.1 :: q.1, q.2)

/-- One call of the operation set on the mirrored buffer and its storage,
with what the caller observes. -/
def Mirrored.call (s : Mirrored.cbuff_uint8_t × Mem) : Call → Option (Ret × Mirrored.cbuff_uint8_t × Mem)
  | .reset =>
    let r := Mirrored.cbuff_uint8_reset s.1
    some (.flag r.1, r.2, s.2)
  | .enqueue b => (Mirrored.cbuff_uint8_enqueue s.1 s.2 b).map fun r => (.flag r.1, r.2)
  | .enqueue_overwrite b =>
    (Mirrored.cbuff_uint8_enqueue_overwrite s.1 s.2 b).map fun r => (.flag r.1, r.2)
  | .dequeue out => (Mirrored.cbuff_uint8_dequeue s.1 s.2 out).map fun r => (.out r.1 r.2.1, r.2.2)
  | .peek out offset =>
    (Mirrored.cbuff_uint8_peek s.1 s.2 out offset).map fun r => (.out r.1 r.2.1, r.2.2)
  | .capacity => some (.size (Mirrored.cbuff_uint8_capacity s.1), s)
  | .count => some (.size (Mirrored.cbuff_uint8_count s.1), s)
  | .is_full => some (.flag (decide (Mirrored.cbuff_uint8_is_full s.1 ≠ 0)), s)
  | .is_empty => some (.flag (Mirrored.cbuff_uint8_is_empty s.1), s)

/-- A sequence of calls on the mirrored buffer, in order, with the list of
what the caller observes. -/
def Mirrored.calls (s : Mirrored.cbuff_uint8_t × Mem) : List Call → Option (List Ret × Mirrored.cbuff_uint8_t × Mem)
  | [] => some ([], s)
  | c :: cs =>
    (Mirrored.call s c).bind fun r =>
    (Mirrored.calls r.2 cs).map fun q => (r.1 :: q.1, q.2)

/-- One call of the operation set on the pointer buffer and its storage,
with what the caller observes. -/
def Pointer.call (s : Pointer.cbuff_uint8_t × Mem) : Call → Option (Ret × Pointer.cbuff_uint8_t × Mem)
  | .reset =>
    let r := Pointer.cbuff_uint8_reset s.1
    some (.flag r.1, r.2, s.2)
  | .enqueue b => (Pointer.cbuff_uint8_enqueue s.1 s.2 b).map fun r => (.flag r.1, r.2)
  | .enqueue_overwrite b =>
    (Pointer.cbuff_uint8_enqueue_overwrite s.1 s.2 b).map fun r => (.flag r.1, r.2)
  | .dequeue out => (Pointer.cbuff_uint8_dequeue s.1 s.2 out).map fun r => (.out r.1 r.2.1, r.2.2)
  | .peek out offset =>
    (Pointer.cbuff_uint8_peek s.1 s.2 out offset).map fun r => (.out r.1 r.2.1, r.2.2)
  | .capacity => some (.size (Pointer.cbuff_uint8_capacity s.1), s)
  | .count => some (.size (Pointer.cbuff_uint8_count s.1), s)
  | .is_full => some (.flag (Pointer.cbuff_uint8_is_full s.1), s)
  | .is_empty => some (.flag (Pointer.cbuff_uint8_is_empty s.1), s)

/-- A sequence of calls on the pointer buffer, in order, with the list of
what the caller observes. -/
def Pointer.calls (s : Pointer.cbuff_uint8_t × Mem) : List Call → Option (List Ret × Pointer.cbuff_uint8_t × Mem)
  | [] => some ([], s)
  | c :: cs =>
    (Pointer.call s c).bind fun r =>
    (Pointer.calls r.2 cs).map fun q => (r.1 :: q.1, q.2)

/-- The simulation relation between a mirrored-index state and a counted-index
state of capacity `C`: both satisfy their invariant, the storage is the same,
the mirrored head and tail reduced modulo `C` are the counted head and tail,
and the derived count is the stored count. -/
def SimMirrored (C : Nat) (sm : Mirrored.cbuff_uint8_t × Mem) (si : Index.cbuff_t × Mem) :
    Prop :=
  Mirrored.Inv C sm ∧ Index.Inv C si ∧ sm.2 = si.2 ∧ sm.1.head % C = si.1.head ∧
    sm.1.tail % C = si.1.tail ∧ Mirrored.cbuff_uint8_count sm.1 = si.1.count

/-- The simulation relation between a pointer-based state and a counted-index
state of capacity `C`: both satisfy their invariant, the storage is the same,
the offsets of the head and tail cursors from the start of storage are the
counted head and tail, and the counts are equal. -/
def SimPointer (C : Nat) (sp : Pointer.cbuff_uint8_t × Mem) (si : Index.cbuff_t × Mem) :
    Prop :=
  Pointer.Inv C sp ∧ Index.Inv C si ∧ sp.2 = si.2 ∧ sp.1.head - sp.1.buffer = si.1.head ∧
    sp.1.tail - sp.1.buffer = si.1.tail ∧ sp.1.count = si.1.count

/-- The storage `m1` is the storage `m` with the byte `b` written to the slot
`i` and nothing else changed. -/
def WritesOne (m m1 : Mem) (i : Nat) (b : Byte) : Prop :=
  m1.base = m.base ∧ m1.bytes.length = m.bytes.length ∧ m1.bytes[i]? = some b ∧
    ∀ j, j ≠ i → m1.bytes[j]? = m.bytes[j]?

/-! ## Mirrored-index variant on a `w`-bit `size_t` -/

/-- The sum of two `size_t` values on a `w`-bit word. -/
def wadd (w a b : Nat) : Nat := (a + b) % 2 ^ w

/-- The difference of two `size_t` values below `2 ^ w` on a `w`-bit word. -/
def wsub (w a b : Nat) : Nat := (a + (2 ^ w - b)) % 2 ^ w

/-- The product of two `size_t` values on a `w`-bit word. -/
def wmul (w a b : Nat) : Nat := (a * b) % 2 ^ w

namespace MirroredW

/-- The function `cbuff_uint8_enqueue_overwrite` of `cbuff_uint8.h`, on a
`w`-bit `size_t`. -/
def cbuff_uint8_enqueue_overwrite (w : Nat) (cb : Mirrored.cbuff_uint8_t) (m : Mem)
    (b : Byte) : Option (Bool × Mirrored.cbuff_uint8_t × Mem) :=
  let head_index := cb.head
  let tail_index := cb.tail
  let count := if tail_index ≥ head_index then wsub w tail_index head_index
    else wadd w tail_index (wsub w (wmul w cb.capacity 2) head_index)
  if count ≥ cb.capacity then
    (urem (wadd w head_index 1) (wmul w cb.capacity 2)).bind fun h =>
    let cb1 := { cb with head := h }
    (urem tail_index cb1.capacity).bind fun i =>
    (m.store (cb1.buffer + i) b).bind fun m1 =>
    (urem (wadd w tail_index 1) (wmul w cb1.capacity 2)).bind fun t =>
    some (true, { cb1 with tail := t }, m1)
  else
    (urem tail_index cb.capacity).bind fun i =>
    (m.store (cb.buffer + i) b).bind fun m1 =>
    (urem (wadd w tail_index 1) (wmul w cb.capacity 2)).bind fun t =>
    some (true, { cb with tail := t }, m1)

/-- The function `cbuff_uint8_enqueue` of `cbuff_uint8.h`, on a `w`-bit
`size_t`. -/
def cbuff_uint8_enqueue (w : Nat) (cb : Mirrored.cbuff_uint8_t) (m : Mem) (b : Byte) :
    Option (Bool × Mirrored.cbuff_uint8_t × Mem) :=
  let head_index := cb.head
  let tail_index := cb.tail
  let count := if tail_index ≥ head_index then wsub w tail_index head_index
    else wadd w tail_index (wsub w (wmul w cb.capacity 2) head_index)
  if count ≥ cb.capacity then some (false, cb, m)
  else
    (urem tail_index cb.capacity).bind fun i =>
    (m.store (cb.buffer + i) b).bind fun m1 =>
    (urem (wadd w tail_index 1) (wmul w cb.capacity 2)).bind fun t =>
    some (true, { cb with tail := t }, m1)

/-- The function `cbuff_uint8_dequeue` of `cbuff_uint8.h`, on a `w`-bit
`size_t`. -/
def cbuff_uint8_dequeue (w : Nat) (cb : Mirrored.cbuff_uint8_t) (m : Mem) (b : Byte) :
    Option (Bool × Byte × Mirrored.cbuff_uint8_t × Mem) :=
  let head_index := cb.head
  let tail_index := cb.tail
  if tail_index = head_index then some (false, b, cb, m)
  else
    (urem head_index cb.capacity).bind fun i =>
    (m.load (cb.buffer + i)).bind fun v =>
    (urem (wadd w head_index 1) (wmul w cb.capacity 2)).bind fun h =>
    some (true, v, { cb with head := h }, m)

/-- The function `cbuff_uint8_peek` of `cbuff_uint8.h`, on a `w`-bit
`size_t`. -/
def cbuff_uint8_peek (w : Nat) (cb : Mirrored.cbuff_uint8_t) (m : Mem) (b : Byte)
    (offset : Nat) : Option (Bool × Byte × Mirrored.cbuff_uint8_t × Mem) :=
  let head_index := cb.head
  let tail_index := cb.tail
  if tail_index = head_index then some (false, b, cb, m)
  else
    let count := if tail_index ≥ head_index then wsub w tail_index head_index
      else wadd w tail_index (wsub w (wmul w cb.capacity 2) head_index)
    if count < offset then some (false, b, cb, m)
    else
      (urem (wadd w head_index offset) cb.capacity).bind fun i =>
      (m.load (cb.buffer + i)).bind fun v =>
      some (true, v, cb, m)

/-- The function `cbuff_uint8_count` of `cbuff_uint8.h`, on a `w`-bit
`size_t`. -/
def cbuff_uint8_count (w : Nat) (cb : Mirrored.cbuff_uint8_t) : Nat :=
  let head_index := cb.head
  let tail_index := cb.tail
  let count := if tail_index ≥ head_index then wsub w tail_index head_index
    else wadd w tail_index (wsub w (wmul w cb.capacity 2) head_index)
  count

/-- One call of a user on the buffer and its storage, on a `w`-bit `size_t`;
the results returned to the caller are dropped.  `reset` has no arithmetic. -/
def step (w : Nat) (s : Mirrored.cbuff_uint8_t × Mem) :
    Op → Option (Mirrored.cbuff_uint8_t × Mem)
  | .reset => some ((Mirrored.cbuff_uint8_reset s.1).2, s.2)
  | .enqueue b => (cbuff_uint8_enqueue w s.1 s.2 b).map fun r => r.2
  | .enqueue_overwrite b => (cbuff_uint8_enqueue_overwrite w s.1 s.2 b).map fun r => r.2
  | .dequeue out => (cbuff_uint8_dequeue w s.1 s.2 out).map fun r => r.2.2
  | .peek out offset => (cbuff_uint8_peek w s.1 s.2 out offset).map fun r => r.2.2

/-- A sequence of calls, in order, on a `w`-bit `size_t`. -/
def run (w : Nat) (s : Mirrored.cbuff_uint8_t × Mem) :
    List Op → Option (Mirrored.cbuff_uint8_t × Mem)
  | [] => some s
  | op :: ops => (step w s op).bind fun s1 => run w s1 ops

/-- The states a user can reach on a `w`-bit `size_t`: `cbuff_uint8_init`
(which has no arithmetic) succeeds with a capacity `C` below `2 ^ w` on a
storage array of at least `C` bytes, then any calls are made. -/
def Reachable (w C : Nat) (s : Mirrored.cbuff_uint8_t × Mem) : Prop :=
  ∃ (old cb0 : Mirrored.cbuff_uint8_t) (m0 : Mem) (ops : List Op),
    C < 2 ^ w ∧ C ≤ m0.bytes.length ∧
    Mirrored.cbuff_uint8_init (some old) C m0.base = (true, some cb0) ∧
    run w (cb0, m0) ops = some s

/-- Capacity 6 on a 4-bit `size_t` (`2 * 6 < 2 ^ 4`): after `enqueue` of
1, .., 6 and `enqueue_overwrite` of 7, .., 17 the buffer is full with head 11
and holds 12, .., 17. -/
def exWrap : Mirrored.cbuff_uint8_t × Mem :=
  (⟨6, 100, 11, 5⟩, ⟨100, [13, 14, 15, 16, 17, 12]⟩)

end MirroredW

namespace MirroredW

/-- The function `cbuff_uint8_is_full` of `cbuff_uint8.h`, on a `w`-bit
`size_t`; the result is the `size_t` the function returns, 1 or 0. -/
def cbuff_uint8_is_full (w : Nat) (cb : Mirrored.cbuff_uint8_t) : Nat :=
  let head_index := cb.head
  let tail_index := cb.tail
  let count := if tail_index ≥ head_index then wsub w tail_index head_index
    else wadd w tail_index (wsub w (wmul w cb.capacity 2) head_index)
  if count ≥ cb.capacity then 1 else 0

/-- The logical contents on a `w`-bit `size_t`, oldest byte first: the bytes
at the slots `(head + i) % capacity` for `i` below the count the code
computes. -/
def contents (w : Nat) (s : Mirrored.cbuff_uint8_t × Mem) : List Byte :=
  slots s.2.bytes s.1.capacity s.1.head (cbuff_uint8_count w s.1)

/-- One call of the operation set on the mirrored buffer and its storage, on
a `w`-bit `size_t`, with what the caller observes.  `reset`, `capacity` and
`is_empty` have no arithmetic. -/
def call (w : Nat) (s : Mirrored.cbuff_uint8_t × Mem) :
    Call → Option (Ret × Mirrored.cbuff_uint8_t × Mem)
  | .reset =>
    let r := Mirrored.cbuff_uint8_reset s.1
    some (.flag r.1, r.2, s.2)
  | .enqueue b => (cbuff_uint8_enqueue w s.1 s.2 b).map fun r => (.flag r.1, r.2)
  | .enqueue_overwrite b =>
    (cbuff_uint8_enqueue_overwrite w s.1 s.2 b).map fun r => (.flag r.1, r.2)
  | .dequeue out => (cbuff_uint8_dequeue w s.1 s.2 out).map fun r => (.out r.1 r.2.1, r.2.2)
  | .peek out offset =>
    (cbuff_uint8_peek w s.1 s.2 out offset).map fun r => (.out r.1 r.2.1, r.2.2)
  | .capacity => some (.size (Mirrored.cbuff_uint8_capacity s.1), s)
  | .count => some (.size (cbuff_uint8_count w s.1), s)
  | .is_full => some (.flag (decide (cbuff_uint8_is_full w s.1 ≠ 0)), s)
  | .is_empty => some (.flag (Mirrored.cbuff_uint8_is_empty s.1), s)

/-- A sequence of calls on the mirrored buffer on a `w`-bit `size_t`, in order,
with the list of what the caller observes. -/
def calls (w : Nat) (s : Mirrored.cbuff_uint8_t × Mem) :
    List Call → Option (List Ret × Mirrored.cbuff_uint8_t × Mem)
  | [] => some ([], s)
  | c :: cs =>
    (call w s c).bind fun r =>
    (calls w r.2 cs).map fun q => (r.1 :: q.1, q.2)

/-- Capacity 8 on a 4-bit `size_t` (`8 * 2` wraps to 0), on eight bytes of
storage: the state `init` leaves. -/
def exHalf : Mirrored.cbuff_uint8_t × Mem :=
  (Mirrored.cbuff_uint8_struct_full_prefill 8 100, ⟨100, [0, 0, 0, 0, 0, 0, 0, 0]⟩)

/-- Capacity `2 ^ 15` on a 16-bit `size_t` (`2 ^ 15 * 2` wraps to 0), on
`2 ^ 15` bytes of storage: the state `init` leaves. -/
def exHalf16 : Mirrored.cbuff_uint8_t × Mem :=
  (Mirrored.cbuff_uint8_struct_full_prefill 32768 100, ⟨100, List.replicate 32768 0⟩)

/-- Capacity 10 on a 4-bit `size_t` (`10 * 2` wraps to 4), on ten bytes of
storage: the state `init` leaves. -/
def exTen : Mirrored.cbuff_uint8_t × Mem :=
  (Mirrored.cbuff_uint8_struct_full_prefill 10 100, ⟨100, [0, 0, 0, 0, 0, 0, 0, 0, 0, 0]⟩)

/-- Capacity 10 on a 4-bit `size_t`, after `enqueue` of 1, 2, 3. -/
def exTenThree : Mirrored.cbuff_uint8_t × Mem :=
  (⟨10, 100, 0, 3⟩, ⟨100, [1, 2, 3, 0, 0, 0, 0, 0, 0, 0]⟩)

/-- Capacity 10 on a 4-bit `size_t`, after `enqueue` of 1, 2, 3, three
`dequeue` calls and `enqueue` of 10, 20: head is 3 and tail is 1. -/
def exTenWrap : Mirrored.cbuff_uint8_t × Mem :=
  (⟨10, 100, 3, 1⟩, ⟨100, [20, 2, 3, 10, 0, 0, 0, 0, 0, 0]⟩)

end MirroredW

/-! ## The `peek` of the other two variants on a `w`-bit `size_t` -/

namespace IndexW

/-- The function `cbuff_peek` of `cbuff_index.h` on a `w`-bit `size_t`: the
sum `head + offset` is reduced modulo `2 ^ w`. -/
def cbuff_peek (w : Nat) (cb : Index.cbuff_t) (m : Mem) (b : Byte) (offset : Nat) :
    Option (Bool × Byte × Index.cbuff_t × Mem) :=
  if cb.count = 0 then some (false, b, cb, m)
  else if cb.count < offset then some (false, b, cb, m)
  else
    (urem (wadd w cb.head offset) cb.capacity).bind fun i =>
    (m.load (cb.buffer + i)).bind fun v =>
    some (true, v, cb, m)

/-- One call of the operation set on the index buffer and its storage, on a
`w`-bit `size_t`, with what the caller observes.  Only `peek` has arithmetic
that can leave the range of `size_t`. -/
def call (w : Nat) (s : Index.cbuff_t × Mem) : Call → Option (Ret × Index.cbuff_t × Mem)
  | .peek out offset =>
    (cbuff_peek w s.1 s.2 out offset).map fun r => (.out r.1 r.2.1, r.2.2)
  | c => Index.call s c

/-- A sequence of calls on the index buffer on a `w`-bit `size_t`, in order,
with the list of what the caller observes. -/
def calls (w : Nat) (s : Index.cbuff_t × Mem) :
    List Call → Option (List Ret × Index.cbuff_t × Mem)
  | [] => some ([], s)
  | c :: cs =>
    (call w s c).bind fun r =>
    (calls w r.2 cs).map fun q => (r.1 :: q.1, q.2)

end IndexW

namespace PointerW

/-- The function `cbuff_uint8_peek` of `cbuff_uint8_pointer.h` on a `w`-bit
`size_t`: the sum `headIndex + offset` is reduced modulo `2 ^ w`. -/
def cbuff_uint8_peek (w : Nat) (cb : Pointer.cbuff_uint8_t) (m : Mem) (b : Byte)
    (offset : Nat) : Option (Bool × Byte × Pointer.cbuff_uint8_t × Mem) :=
  if cb.count = 0 then some (false, b, cb, m)
  else if cb.count < offset then some (false, b, cb, m)
  else
    (ptrdiff cb.head cb.buffer).bind fun headIndex =>
    (urem (wadd w headIndex offset) cb.capacity).bind fun i =>
    (m.load (cb.buffer + i)).bind fun v =>
    some (true, v, cb, m)

end PointerW

/-! ## Arithmetic and list lemmas -/

theorem urem_pos {n : Nat} (a : Nat) (hn : 0 < n) : urem a n = some (a % n) := by
  simp [urem, Nat.pos_iff_ne_zero.mp hn]

theorem succ_mod_of_lt {x n : Nat} (hx : x < n) :
    (x + 1) % n = if x + 1 = n then 0 else x + 1 := by
  split
  · next h => rw [h, Nat.mod_self]
  · next h => exact Nat.mod_eq_of_lt (by omega)

theorem add_mod_ne {C h i n : Nat} (hi : i < n) (hn : n < C) :
    (h + i) % C ≠ (h + n) % C := by
  intro e
  have e1 : i % C = n % C := Nat.ModEq.add_left_cancel' h e
  rw [Nat.mod_eq_of_lt (by omega), Nat.mod_eq_of_lt hn] at e1
  omega

theorem slots_length (bytes : List Byte) (C h n : Nat) :
    (slots bytes C h n).length = n := by
  simp [slots]

theorem slots_getElem? (bytes : List Byte) (C h n i : Nat) (hi : i < n) :
    (slots bytes C h n)[i]? = some (bytes.getD ((h + i) % C) 0) := by
  simp [slots, List.getElem?_range hi]

theorem slots_succ_last (bytes : List Byte) (C h n : Nat) :
    slots bytes C h (n + 1) = slots bytes C h n ++ [bytes.getD ((h + n) % C) 0] := by
  simp [slots, List.range_succ]

theorem slots_succ (bytes : List Byte) (C h n : Nat) :
    slots bytes C h (n + 1) = bytes.getD (h % C) 0 :: slots bytes C (h + 1) n := by
  simp [slots, List.range_succ_eq_map, Function.comp_def, Nat.add_assoc, Nat.add_comm 1]

theorem slots_congr_head (bytes : List Byte) (C h k n : Nat) (hk : h % C = k % C) :
    slots bytes C h n = slots bytes C k n := by
  unfold slots
  apply List.map_congr_left
  intro i _
  have : (h + i) % C = (k + i) % C := Nat.ModEq.add_right i hk
  rw [this]

theorem slots_set_of_ne (bytes : List Byte) (C h n j : Nat) (b : Byte)
    (hj : ∀ i, i < n → (h + i) % C ≠ j) :
    slots (bytes.set j b) C h n = slots bytes C h n := by
  unfold slots
  apply List.map_congr_left
  intro i hi
  have hne := hj i (List.mem_range.mp hi)
  simp [List.getD_eq_getElem?_getD, List.getElem?_set_ne (Ne.symm hne)]

theorem slots_set_append (bytes : List Byte) (C h n : Nat) (b : Byte)
    (hlen : C ≤ bytes.length) (hn : n < C) :
    slots (bytes.set ((h + n) % C) b) C h (n + 1) = slots bytes C h n ++ [b] := by
  have hlt : (h + n) % C < bytes.length :=
    lt_of_lt_of_le (Nat.mod_lt _ (by omega)) hlen
  rw [slots_succ_last, slots_set_of_ne bytes C h n _ b (fun i hi => add_mod_ne hi hn)]
  simp [List.getD_eq_getElem?_getD, List.getElem?_set_self, hlt]

theorem Mem.store_offset (m : Mem) (i : Nat) (b : Byte) (hi : i < m.bytes.length) :
    m.store (m.base + i) b = some { m with bytes := m.bytes.set i b } := by
  simp [Mem.store, hi]

theorem Mem.load_offset (m : Mem) (i : Nat) (hi : i < m.bytes.length) :
    m.load (m.base + i) = some (m.bytes.getD i 0) := by
  simp [Mem.load, List.getD_eq_getElem?_getD, List.getElem?_eq_getElem hi]

/-! ## Counted-index variant: invariant and the effect of each function -/

namespace Index

theorem Inv.idx_tail_lt {C : Nat} {s : cbuff_t × Mem} (h : Inv C s) : s.1.tail < C := by
  rw [h.tl]; exact Nat.mod_lt _ h.pos

theorem idx_enqueue_eq {C : Nat} {cb : cbuff_t} {m : Mem} (h : Inv C (cb, m))
    (hlt : cb.count < C) (b : Byte) :
    cbuff_enqueue cb m b = some (true,
      { cb with tail := (cb.tail + 1) % C, count := cb.count + 1 },
      { m with bytes := m.bytes.set cb.tail b }) := by
  have hcap : cb.capacity = C := h.cap
  have hbuf : cb.buffer = m.base := h.buf
  have htl : cb.tail < m.bytes.length := lt_of_lt_of_le h.idx_tail_lt h.len
  simp [cbuff_enqueue, hcap, hbuf, Nat.not_le.mpr hlt, Mem.store_offset m _ b htl,
    urem_pos _ h.pos]

theorem idx_enqueue_full {C : Nat} {cb : cbuff_t} {m : Mem} (h : Inv C (cb, m))
    (hfull : C ≤ cb.count) (b : Byte) :
    cbuff_enqueue cb m b = some (false, cb, m) := by
  have hcap : cb.capacity = C := h.cap
  simp [cbuff_enqueue, hcap, hfull]

theorem idx_enqueue_overwrite_eq {C : Nat} {cb : cbuff_t} {m : Mem} (h : Inv C (cb, m))
    (hlt : cb.count < C) (b : Byte) :
    cbuff_enqueue_overwrite cb m b = some (true,
      { cb with tail := (cb.tail + 1) % C, count := cb.count + 1 },
      { m with bytes := m.bytes.set cb.tail b }) := by
  have hcap : cb.capacity = C := h.cap
  have hbuf : cb.buffer = m.base := h.buf
  have htl : cb.tail < m.bytes.length := lt_of_lt_of_le h.idx_tail_lt h.len
  simp [cbuff_enqueue_overwrite, hcap, hbuf, Nat.not_le.mpr hlt, Mem.store_offset m _ b htl,
    urem_pos _ h.pos]

theorem idx_enqueue_overwrite_full {C : Nat} {cb : cbuff_t} {m : Mem} (h : Inv C (cb, m))
    (hfull : C ≤ cb.count) (b : Byte) :
    cbuff_enqueue_overwrite cb m b = some (true,
      { cb with head := (cb.head + 1) % C, tail := (cb.tail + 1) % C },
      { m with bytes := m.bytes.set cb.tail b }) := by
  have hcap : cb.capacity = C := h.cap
  have hbuf : cb.buffer = m.base := h.buf
  have htl : cb.tail < m.bytes.length := lt_of_lt_of_le h.idx_tail_lt h.len
  simp [cbuff_enqueue_overwrite, hcap, hbuf, hfull, Mem.store_offset m _ b htl,
    urem_pos _ h.pos]

theorem idx_dequeue_eq {C : Nat} {cb : cbuff_t} {m : Mem} (h : Inv C (cb, m))
    (hne : cb.count ≠ 0) (d : Byte) :
    cbuff_dequeue cb m d = some (true, m.bytes.getD cb.head 0,
      { cb with head := (cb.head + 1) % C, count := cb.count - 1 }, m) := by
  have hcap : cb.capacity = C := h.cap
  have hbuf : cb.buffer = m.base := h.buf
  have hhd : cb.head < m.bytes.length := lt_of_lt_of_le h.hd h.len
  simp [cbuff_dequeue, hcap, hbuf, hne, Mem.load_offset m _ hhd, urem_pos _ h.pos]

theorem idx_dequeue_empty (cb : cbuff_t) (m : Mem) (hz : cb.count = 0) (d : Byte) :
    cbuff_dequeue cb m d = some (false, d, cb, m) := by
  simp [cbuff_dequeue, hz]

theorem idx_peek_eq {C : Nat} {cb : cbuff_t} {m : Mem} (h : Inv C (cb, m))
    (hne : cb.count ≠ 0) (d : Byte) (offset : Nat) (ho : offset ≤ cb.count) :
    cbuff_peek cb m d offset
      = some (true, m.bytes.getD ((cb.head + offset) % C) 0, cb, m) := by
  have hcap : cb.capacity = C := h.cap
  have hbuf : cb.buffer = m.base := h.buf
  have hi : (cb.head + offset) % C < m.bytes.length :=
    lt_of_lt_of_le (Nat.mod_lt _ h.pos) h.len
  simp [cbuff_peek, hcap, hbuf, hne, Nat.not_lt.mpr ho, Mem.load_offset m _ hi,
    urem_pos _ h.pos]

theorem idx_peek_fail (cb : cbuff_t) (m : Mem) (d : Byte) (offset : Nat)
    (hf : cb.count = 0 ∨ cb.count < offset) :
    cbuff_peek cb m d offset = some (false, d, cb, m) := by
  unfold cbuff_peek
  rcases hf with hf | hf
  · simp [hf]
  · simp [hf]

theorem idx_inv_enqueue {C : Nat} {cb : cbuff_t} {m : Mem} (h : Inv C (cb, m))
    (hlt : cb.count < C) (b : Byte) :
    Inv C ({ cb with tail := (cb.tail + 1) % C, count := cb.count + 1 },
      { m with bytes := m.bytes.set cb.tail b }) := by
  refine ⟨h.cap, h.pos, h.buf, ?_, ?_, h.hd, ?_⟩
  · simpa using h.len
  · exact hlt
  · have htl : cb.tail = (cb.head + cb.count) % C := h.tl
    show (cb.tail + 1) % C = (cb.head + (cb.count + 1)) % C
    rw [htl, Nat.mod_add_mod, Nat.add_assoc]

theorem idx_inv_overwrite_full {C : Nat} {cb : cbuff_t} {m : Mem} (h : Inv C (cb, m))
    (hfull : C ≤ cb.count) (b : Byte) :
    Inv C ({ cb with head := (cb.head + 1) % C, tail := (cb.tail + 1) % C },
      { m with bytes := m.bytes.set cb.tail b }) := by
  refine ⟨h.cap, h.pos, h.buf, ?_, h.cnt, Nat.mod_lt _ h.pos, ?_⟩
  · simpa using h.len
  · have htl : cb.tail = (cb.head + cb.count) % C := h.tl
    have hc : cb.count = C := le_antisymm h.cnt hfull
    show (cb.tail + 1) % C = ((cb.head + 1) % C + cb.count) % C
    rw [htl, hc, Nat.mod_add_mod, Nat.mod_add_mod]
    congr 1; omega

theorem idx_inv_dequeue {C : Nat} {cb : cbuff_t} {m : Mem} (h : Inv C (cb, m))
    (hne : cb.count ≠ 0) :
    Inv C ({ cb with head := (cb.head + 1) % C, count := cb.count - 1 }, m) := by
  refine ⟨h.cap, h.pos, h.buf, h.len, ?_, Nat.mod_lt _ h.pos, ?_⟩
  · exact le_trans (Nat.sub_le _ _) h.cnt
  · have htl : cb.tail = (cb.head + cb.count) % C := h.tl
    show cb.tail = ((cb.head + 1) % C + (cb.count - 1)) % C
    rw [htl, Nat.mod_add_mod]
    congr 1; omega

theorem idx_inv_reset {C : Nat} {cb : cbuff_t} {m : Mem} (h : Inv C (cb, m)) :
    Inv C ((cbuff_reset cb).2, m) := by
  refine ⟨h.cap, h.pos, h.buf, h.len, Nat.zero_le _, h.pos, ?_⟩
  simp [cbuff_reset]

end Index

namespace Index

theorem idx_inv_step {C : Nat} {s s1 : cbuff_t × Mem} (h : Inv C s) (op : Op)
    (hs : step s op = some s1) : Inv C s1 := by
  obtain ⟨cb, m⟩ := s
  cases op with
  | reset =>
    simp only [step, Option.some.injEq] at hs
    subst hs; exact idx_inv_reset h
  | enqueue b =>
    by_cases hlt : cb.count < C
    · simp only [step, idx_enqueue_eq h hlt, Option.map_some', Option.some.injEq] at hs
      subst hs; exact idx_inv_enqueue h hlt b
    · simp only [step, idx_enqueue_full h (Nat.not_lt.mp hlt), Option.map_some',
        Option.some.injEq] at hs
      subst hs; exact h
  | enqueue_overwrite b =>
    by_cases hlt : cb.count < C
    · simp only [step, idx_enqueue_overwrite_eq h hlt, Option.map_some', Option.some.injEq] at hs
      subst hs; exact idx_inv_enqueue h hlt b
    · simp only [step, idx_enqueue_overwrite_full h (Nat.not_lt.mp hlt), Option.map_some',
        Option.some.injEq] at hs
      subst hs; exact idx_inv_overwrite_full h (Nat.not_lt.mp hlt) b
  | dequeue d =>
    by_cases hz : cb.count = 0
    · simp only [step, idx_dequeue_empty cb m hz, Option.map_some', Option.some.injEq] at hs
      subst hs; exact h
    · simp only [step, idx_dequeue_eq h hz, Option.map_some', Option.some.injEq] at hs
      subst hs; exact idx_inv_dequeue h hz
  | peek d offset =>
    by_cases hf : cb.count = 0 ∨ cb.count < offset
    · simp only [step, idx_peek_fail cb m d offset hf, Option.map_some', Option.some.injEq] at hs
      subst hs; exact h
    · have hne : cb.count ≠ 0 := fun e => hf (Or.inl e)
      have ho : offset ≤ cb.count := Nat.not_lt.mp (fun e => hf (Or.inr e))
      simp only [step, idx_peek_eq h hne d offset ho, Option.map_some', Option.some.injEq] at hs
      subst hs; exact h

theorem idx_inv_run {C : Nat} (ops : List Op) : ∀ {s s1 : cbuff_t × Mem}, Inv C s →
    run s ops = some s1 → Inv C s1 := by
  induction ops with
  | nil =>
    intro s s1 h hs
    simp only [run, Option.some.injEq] at hs
    subst hs; exact h
  | cons op ops ih =>
    intro s s1 h hs
    simp only [run, Option.bind_eq_some] at hs
    obtain ⟨s2, h2, h3⟩ := hs
    exact ih (idx_inv_step h op h2) h3

theorem idx_inv_init {C : Nat} {old cb0 : cbuff_t} {m0 : Mem} (hC : 1 ≤ C)
    (hlen : C ≤ m0.bytes.length)
    (hi : cbuff_init (some old) C m0.base = (true, some cb0)) : Inv C (cb0, m0) := by
  unfold cbuff_init at hi
  by_cases hb : m0.base = 0
  · simp [hb] at hi
  · simp only [hb, if_false, Prod.mk.injEq, Option.some.injEq, true_and] at hi
    subst hi
    exact ⟨rfl, hC, rfl, hlen, Nat.zero_le _, hC, by simp⟩

theorem Reachable.idx_inv {C : Nat} {s : cbuff_t × Mem} (hC : 1 ≤ C) (h : Reachable C s) :
    Inv C s := by
  obtain ⟨old, cb0, m0, ops, hlen, hi, hr⟩ := h
  exact idx_inv_run ops (idx_inv_init hC hlen hi) hr

theorem idx_contents_length (s : cbuff_t × Mem) : (contents s).length = s.1.count := by
  simp [contents, slots_length, cbuff_count]

theorem idx_contents_enqueue {C : Nat} {cb : cbuff_t} {m : Mem} (h : Inv C (cb, m))
    (hlt : cb.count < C) (b : Byte) :
    contents ({ cb with tail := (cb.tail + 1) % C, count := cb.count + 1 },
      { m with bytes := m.bytes.set cb.tail b }) = contents (cb, m) ++ [b] := by
  have hcap : cb.capacity = C := h.cap
  have htl : cb.tail = (cb.head + cb.count) % C := h.tl
  simp only [contents, cbuff_count, hcap, htl]
  exact slots_set_append m.bytes C cb.head cb.count b h.len hlt

theorem idx_contents_dequeue {C : Nat} {cb : cbuff_t} {m : Mem} (h : Inv C (cb, m))
    (hne : cb.count ≠ 0) :
    contents (cb, m) = m.bytes.getD cb.head 0 ::
      contents ({ cb with head := (cb.head + 1) % C, count := cb.count - 1 }, m) := by
  have hcap : cb.capacity = C := h.cap
  have hhd : cb.head < C := h.hd
  obtain ⟨n, hn⟩ := Nat.exists_eq_succ_of_ne_zero hne
  simp only [contents, cbuff_count, hcap, hn, Nat.succ_eq_add_one, Nat.add_sub_cancel]
  rw [slots_succ, Nat.mod_eq_of_lt hhd,
    slots_congr_head m.bytes C ((cb.head + 1) % C) (cb.head + 1) n (Nat.mod_mod _ _)]

theorem idx_contents_overwrite_full {C : Nat} {cb : cbuff_t} {m : Mem} (h : Inv C (cb, m))
    (hfull : C ≤ cb.count) (b : Byte) :
    contents ({ cb with head := (cb.head + 1) % C, tail := (cb.tail + 1) % C },
      { m with bytes := m.bytes.set cb.tail b }) = (contents (cb, m)).tail ++ [b] := by
  have hcap : cb.capacity = C := h.cap
  have hhd : cb.head < C := h.hd
  have hc : cb.count = C := le_antisymm h.cnt hfull
  have hpos : 0 < C := h.pos
  have hlen : C ≤ m.bytes.length := h.len
  have htl0 : cb.tail = (cb.head + cb.count) % C := h.tl
  obtain ⟨n, rfl⟩ : ∃ n, C = n + 1 := ⟨C - 1, by omega⟩
  have htl : cb.tail = (cb.head + 1 + n) % (n + 1) := by
    rw [htl0, hc]; congr 1; omega
  simp only [contents, cbuff_count, hcap, hc]
  rw [slots_congr_head _ (n + 1) ((cb.head + 1) % (n + 1)) (cb.head + 1) (n + 1)
    (Nat.mod_mod _ _), htl,
    slots_set_append m.bytes (n + 1) (cb.head + 1) n b hlen (by omega),
    slots_succ, List.tail_cons]

end Index

/-! ## Mirrored-index variant: invariant and the effect of each function -/

namespace Mirrored

theorem mir_count_eq (cb : cbuff_uint8_t) :
    (if cb.tail ≥ cb.head then cb.tail - cb.head
      else cb.tail + (cb.capacity * 2 - cb.head)) = cbuff_uint8_count cb := rfl

theorem mir_count_tail_succ {C : Nat} {cb : cbuff_uint8_t} {m : Mem} (h : Inv C (cb, m))
    (hlt : cbuff_uint8_count cb < C) :
    cbuff_uint8_count ({ cb with tail := (cb.tail + 1) % (C * 2) })
      = cbuff_uint8_count cb + 1 := by
  have hcap : cb.capacity = C := h.cap
  have hhd : cb.head < C * 2 := h.hd
  have htl : cb.tail < C * 2 := h.tl
  simp only [cbuff_uint8_count, hcap] at hlt ⊢
  rw [succ_mod_of_lt htl]
  split_ifs at hlt ⊢ <;> omega

theorem mir_count_head_succ {C : Nat} {cb : cbuff_uint8_t} {m : Mem} (h : Inv C (cb, m))
    (hne : cb.tail ≠ cb.head) :
    cbuff_uint8_count ({ cb with head := (cb.head + 1) % (C * 2) })
      = cbuff_uint8_count cb - 1 := by
  have hcap : cb.capacity = C := h.cap
  have hhd : cb.head < C * 2 := h.hd
  have htl : cb.tail < C * 2 := h.tl
  have hcnt : cbuff_uint8_count cb ≤ C := h.cnt
  simp only [cbuff_uint8_count, hcap] at hcnt ⊢
  rw [succ_mod_of_lt hhd]
  split_ifs at hcnt ⊢ <;> omega

theorem mir_count_both_succ {C : Nat} {cb : cbuff_uint8_t} {m : Mem} (h : Inv C (cb, m))
    (hfull : C ≤ cbuff_uint8_count cb) :
    cbuff_uint8_count
      ({ cb with head := (cb.head + 1) % (C * 2), tail := (cb.tail + 1) % (C * 2) })
      = cbuff_uint8_count cb := by
  have hcap : cb.capacity = C := h.cap
  have hhd : cb.head < C * 2 := h.hd
  have htl : cb.tail < C * 2 := h.tl
  have hcnt : cbuff_uint8_count cb ≤ C := h.cnt
  have hpos : 0 < C := h.pos
  simp only [cbuff_uint8_count, hcap] at hcnt hfull ⊢
  rw [succ_mod_of_lt hhd, succ_mod_of_lt htl]
  split_ifs at hcnt hfull ⊢ <;> omega

theorem mir_count_zero_iff {C : Nat} {cb : cbuff_uint8_t} {m : Mem} (h : Inv C (cb, m)) :
    cbuff_uint8_count cb = 0 ↔ cb.tail = cb.head := by
  have hcap : cb.capacity = C := h.cap
  have hhd : cb.head < C * 2 := h.hd
  have htl : cb.tail < C * 2 := h.tl
  simp only [cbuff_uint8_count, hcap]
  split_ifs <;> omega

theorem mir_tail_mod {C : Nat} {cb : cbuff_uint8_t} {m : Mem} (h : Inv C (cb, m)) :
    cb.tail % C = (cb.head + cbuff_uint8_count cb) % C := by
  have hcap : cb.capacity = C := h.cap
  have hhd : cb.head < C * 2 := h.hd
  have htl : cb.tail < C * 2 := h.tl
  simp only [cbuff_uint8_count, hcap]
  split_ifs with hge
  · congr 1; omega
  · have e : cb.head + (cb.tail + (C * 2 - cb.head)) = cb.tail + C * 2 := by omega
    rw [e, Nat.add_mul_mod_self_left]

theorem mir_enqueue_eq {C : Nat} {cb : cbuff_uint8_t} {m : Mem} (h : Inv C (cb, m))
    (hlt : cbuff_uint8_count cb < C) (b : Byte) :
    cbuff_uint8_enqueue cb m b = some (true,
      { cb with tail := (cb.tail + 1) % (C * 2) },
      { m with bytes := m.bytes.set (cb.tail % C) b }) := by
  have hcap : cb.capacity = C := h.cap
  have hbuf : cb.buffer = m.base := h.buf
  have hpos : 0 < C := h.pos
  have htl : cb.tail % C < m.bytes.length := lt_of_lt_of_le (Nat.mod_lt _ h.pos) h.len
  simp only [cbuff_uint8_enqueue, mir_count_eq]
  simp [hcap, hbuf, Nat.not_le.mpr hlt, Mem.store_offset m _ b htl, urem_pos _ hpos,
    urem_pos _ (show 0 < C * 2 by omega)]

theorem mir_enqueue_full {C : Nat} {cb : cbuff_uint8_t} {m : Mem} (h : Inv C (cb, m))
    (hfull : C ≤ cbuff_uint8_count cb) (b : Byte) :
    cbuff_uint8_enqueue cb m b = some (false, cb, m) := by
  have hcap : cb.capacity = C := h.cap
  simp only [cbuff_uint8_enqueue, mir_count_eq]
  simp [hcap, hfull]

theorem mir_enqueue_overwrite_eq {C : Nat} {cb : cbuff_uint8_t} {m : Mem} (h : Inv C (cb, m))
    (hlt : cbuff_uint8_count cb < C) (b : Byte) :
    cbuff_uint8_enqueue_overwrite cb m b = some (true,
      { cb with tail := (cb.tail + 1) % (C * 2) },
      { m with bytes := m.bytes.set (cb.tail % C) b }) := by
  have hcap : cb.capacity = C := h.cap
  have hbuf : cb.buffer = m.base := h.buf
  have hpos : 0 < C := h.pos
  have htl : cb.tail % C < m.bytes.length := lt_of_lt_of_le (Nat.mod_lt _ h.pos) h.len
  simp only [cbuff_uint8_enqueue_overwrite, mir_count_eq]
  simp [hcap, hbuf, Nat.not_le.mpr hlt, Mem.store_offset m _ b htl, urem_pos _ hpos,
    urem_pos _ (show 0 < C * 2 by omega)]

theorem mir_enqueue_overwrite_full {C : Nat} {cb : cbuff_uint8_t} {m : Mem}
    (h : Inv C (cb, m)) (hfull : C ≤ cbuff_uint8_count cb) (b : Byte) :
    cbuff_uint8_enqueue_overwrite cb m b = some (true,
      { cb with head := (cb.head + 1) % (C * 2), tail := (cb.tail + 1) % (C * 2) },
      { m with bytes := m.bytes.set (cb.tail % C) b }) := by
  have hcap : cb.capacity = C := h.cap
  have hbuf : cb.buffer = m.base := h.buf
  have hpos : 0 < C := h.pos
  have htl : cb.tail % C < m.bytes.length := lt_of_lt_of_le (Nat.mod_lt _ h.pos) h.len
  simp only [cbuff_uint8_enqueue_overwrite, mir_count_eq]
  simp [hcap, hbuf, hfull, Mem.store_offset m _ b htl, urem_pos _ hpos,
    urem_pos _ (show 0 < C * 2 by omega)]

theorem mir_dequeue_eq {C : Nat} {cb : cbuff_uint8_t} {m : Mem} (h : Inv C (cb, m))
    (hne : cb.tail ≠ cb.head) (d : Byte) :
    cbuff_uint8_dequeue cb m d = some (true, m.bytes.getD (cb.head % C) 0,
      { cb with head := (cb.head + 1) % (C * 2) }, m) := by
  have hcap : cb.capacity = C := h.cap
  have hbuf : cb.buffer = m.base := h.buf
  have hpos : 0 < C := h.pos
  have hhd : cb.head % C < m.bytes.length := lt_of_lt_of_le (Nat.mod_lt _ h.pos) h.len
  simp [cbuff_uint8_dequeue, hcap, hbuf, hne, Mem.load_offset m _ hhd, urem_pos _ hpos,
    urem_pos _ (show 0 < C * 2 by omega)]

theorem mir_dequeue_empty (cb : cbuff_uint8_t) (m : Mem) (hz : cb.tail = cb.head) (d : Byte) :
    cbuff_uint8_dequeue cb m d = some (false, d, cb, m) := by
  simp [cbuff_uint8_dequeue, hz]

theorem mir_peek_eq {C : Nat} {cb : cbuff_uint8_t} {m : Mem} (h : Inv C (cb, m))
    (hne : cb.tail ≠ cb.head) (d : Byte) (offset : Nat)
    (ho : offset ≤ cbuff_uint8_count cb) :
    cbuff_uint8_peek cb m d offset
      = some (true, m.bytes.getD ((cb.head + offset) % C) 0, cb, m) := by
  have hcap : cb.capacity = C := h.cap
  have hbuf : cb.buffer = m.base := h.buf
  have hpos : 0 < C := h.pos
  have hi : (cb.head + offset) % C < m.bytes.length :=
    lt_of_lt_of_le (Nat.mod_lt _ h.pos) h.len
  simp only [cbuff_uint8_peek, mir_count_eq]
  simp [hcap, hbuf, hne, Nat.not_lt.mpr ho, Mem.load_offset m _ hi, urem_pos _ hpos]

theorem mir_peek_fail (cb : cbuff_uint8_t) (m : Mem) (d : Byte) (offset : Nat)
    (hf : cb.tail = cb.head ∨ cbuff_uint8_count cb < offset) :
    cbuff_uint8_peek cb m d offset = some (false, d, cb, m) := by
  simp only [cbuff_uint8_peek, mir_count_eq]
  rcases hf with hf | hf
  · simp [hf]
  · simp [hf]

end Mirrored

namespace Mirrored

theorem mir_inv_enqueue {C : Nat} {cb : cbuff_uint8_t} {m : Mem} (h : Inv C (cb, m))
    (hlt : cbuff_uint8_count cb < C) (b : Byte) :
    Inv C ({ cb with tail := (cb.tail + 1) % (C * 2) },
      { m with bytes := m.bytes.set (cb.tail % C) b }) := by
  have hpos : 0 < C := h.pos
  refine ⟨h.cap, h.pos, h.buf, ?_, h.hd, Nat.mod_lt _ (by omega), ?_⟩
  · simpa using h.len
  · show cbuff_uint8_count ({ cb with tail := (cb.tail + 1) % (C * 2) }) ≤ C
    rw [mir_count_tail_succ h hlt]; exact hlt

theorem mir_inv_overwrite_full {C : Nat} {cb : cbuff_uint8_t} {m : Mem} (h : Inv C (cb, m))
    (hfull : C ≤ cbuff_uint8_count cb) (b : Byte) :
    Inv C ({ cb with head := (cb.head + 1) % (C * 2), tail := (cb.tail + 1) % (C * 2) },
      { m with bytes := m.bytes.set (cb.tail % C) b }) := by
  have hpos : 0 < C := h.pos
  refine ⟨h.cap, h.pos, h.buf, ?_, Nat.mod_lt _ (by omega), Nat.mod_lt _ (by omega), ?_⟩
  · simpa using h.len
  · show cbuff_uint8_count
      ({ cb with head := (cb.head + 1) % (C * 2), tail := (cb.tail + 1) % (C * 2) }) ≤ C
    rw [mir_count_both_succ h hfull]; exact h.cnt

theorem mir_inv_dequeue {C : Nat} {cb : cbuff_uint8_t} {m : Mem} (h : Inv C (cb, m))
    (hne : cb.tail ≠ cb.head) :
    Inv C ({ cb with head := (cb.head + 1) % (C * 2) }, m) := by
  have hpos : 0 < C := h.pos
  refine ⟨h.cap, h.pos, h.buf, h.len, Nat.mod_lt _ (by omega), h.tl, ?_⟩
  show cbuff_uint8_count ({ cb with head := (cb.head + 1) % (C * 2) }) ≤ C
  rw [mir_count_head_succ h hne]; exact le_trans (Nat.sub_le _ _) h.cnt

theorem mir_inv_reset {C : Nat} {cb : cbuff_uint8_t} {m : Mem} (h : Inv C (cb, m)) :
    Inv C ((cbuff_uint8_reset cb).2, m) := by
  have hpos : 0 < C := h.pos
  refine ⟨h.cap, h.pos, h.buf, h.len, ?_, ?_, ?_⟩
  · show 0 < C * 2
    omega
  · show 0 < C * 2
    omega
  · simp [cbuff_uint8_reset, cbuff_uint8_count]

theorem mir_inv_step {C : Nat} {s s1 : cbuff_uint8_t × Mem} (h : Inv C s) (op : Op)
    (hs : step s op = some s1) : Inv C s1 := by
  obtain ⟨cb, m⟩ := s
  cases op with
  | reset =>
    simp only [step, Option.some.injEq] at hs
    subst hs; exact mir_inv_reset h
  | enqueue b =>
    by_cases hlt : cbuff_uint8_count cb < C
    · simp only [step, mir_enqueue_eq h hlt, Option.map_some', Option.some.injEq] at hs
      subst hs; exact mir_inv_enqueue h hlt b
    · simp only [step, mir_enqueue_full h (Nat.not_lt.mp hlt), Option.map_some',
        Option.some.injEq] at hs
      subst hs; exact h
  | enqueue_overwrite b =>
    by_cases hlt : cbuff_uint8_count cb < C
    · simp only [step, mir_enqueue_overwrite_eq h hlt, Option.map_some', Option.some.injEq] at hs
      subst hs; exact mir_inv_enqueue h hlt b
    · simp only [step, mir_enqueue_overwrite_full h (Nat.not_lt.mp hlt), Option.map_some',
        Option.some.injEq] at hs
      subst hs; exact mir_inv_overwrite_full h (Nat.not_lt.mp hlt) b
  | dequeue d =>
    by_cases hz : cb.tail = cb.head
    · simp only [step, mir_dequeue_empty cb m hz, Option.map_some', Option.some.injEq] at hs
      subst hs; exact h
    · simp only [step, mir_dequeue_eq h hz, Option.map_some', Option.some.injEq] at hs
      subst hs; exact mir_inv_dequeue h hz
  | peek d offset =>
    by_cases hf : cb.tail = cb.head ∨ cbuff_uint8_count cb < offset
    · simp only [step, mir_peek_fail cb m d offset hf, Option.map_some', Option.some.injEq] at hs
      subst hs; exact h
    · have hne : cb.tail ≠ cb.head := fun e => hf (Or.inl e)
      have ho : offset ≤ cbuff_uint8_count cb := Nat.not_lt.mp (fun e => hf (Or.inr e))
      simp only [step, mir_peek_eq h hne d offset ho, Option.map_some', Option.some.injEq] at hs
      subst hs; exact h

theorem mir_inv_run {C : Nat} (ops : List Op) : ∀ {s s1 : cbuff_uint8_t × Mem}, Inv C s →
    run s ops = some s1 → Inv C s1 := by
  induction ops with
  | nil =>
    intro s s1 h hs
    simp only [run, Option.some.injEq] at hs
    subst hs; exact h
  | cons op ops ih =>
    intro s s1 h hs
    simp only [run, Option.bind_eq_some] at hs
    obtain ⟨s2, h2, h3⟩ := hs
    exact ih (mir_inv_step h op h2) h3

theorem mir_inv_init {C : Nat} {old cb0 : cbuff_uint8_t} {m0 : Mem} (hC : 1 ≤ C)
    (hlen : C ≤ m0.bytes.length)
    (hi : cbuff_uint8_init (some old) C m0.base = (true, some cb0)) : Inv C (cb0, m0) := by
  unfold cbuff_uint8_init at hi
  by_cases hb : m0.base = 0
  · simp [hb] at hi
  · simp only [hb, if_false, Prod.mk.injEq, Option.some.injEq, true_and] at hi
    subst hi
    refine ⟨rfl, hC, rfl, hlen, ?_, ?_, ?_⟩
    · show 0 < C * 2
      omega
    · show 0 < C * 2
      omega
    · simp [cbuff_uint8_count]

theorem Reachable.mir_inv {C : Nat} {s : cbuff_uint8_t × Mem} (hC : 1 ≤ C)
    (h : Reachable C s) : Inv C s := by
  obtain ⟨old, cb0, m0, ops, hlen, hi, hr⟩ := h
  exact mir_inv_run ops (mir_inv_init hC hlen hi) hr

theorem mir_contents_length (s : cbuff_uint8_t × Mem) :
    (contents s).length = cbuff_uint8_count s.1 := by
  simp [contents, slots_length]

theorem mir_contents_enqueue {C : Nat} {cb : cbuff_uint8_t} {m : Mem} (h : Inv C (cb, m))
    (hlt : cbuff_uint8_count cb < C) (b : Byte) :
    contents ({ cb with tail := (cb.tail + 1) % (C * 2) },
      { m with bytes := m.bytes.set (cb.tail % C) b }) = contents (cb, m) ++ [b] := by
  have hcap : cb.capacity = C := h.cap
  have e := mir_count_tail_succ h hlt
  simp only [contents]
  rw [e, hcap, mir_tail_mod h]
  exact slots_set_append m.bytes C cb.head (cbuff_uint8_count cb) b h.len hlt

theorem mir_contents_dequeue {C : Nat} {cb : cbuff_uint8_t} {m : Mem} (h : Inv C (cb, m))
    (hne : cb.tail ≠ cb.head) :
    contents (cb, m) = m.bytes.getD (cb.head % C) 0 ::
      contents ({ cb with head := (cb.head + 1) % (C * 2) }, m) := by
  have hcap : cb.capacity = C := h.cap
  have e := mir_count_head_succ h hne
  have hnz : cbuff_uint8_count cb ≠ 0 := fun z => hne ((mir_count_zero_iff h).mp z)
  obtain ⟨n, hn⟩ := Nat.exists_eq_succ_of_ne_zero hnz
  simp only [contents]
  rw [e, hcap, hn, Nat.succ_eq_add_one, Nat.add_sub_cancel, slots_succ,
    slots_congr_head m.bytes C ((cb.head + 1) % (C * 2)) (cb.head + 1) n
    (Nat.mod_mul_right_mod _ _ _)]

theorem mir_contents_overwrite_full {C : Nat} {cb : cbuff_uint8_t} {m : Mem}
    (h : Inv C (cb, m)) (hfull : C ≤ cbuff_uint8_count cb) (b : Byte) :
    contents ({ cb with head := (cb.head + 1) % (C * 2), tail := (cb.tail + 1) % (C * 2) },
      { m with bytes := m.bytes.set (cb.tail % C) b }) = (contents (cb, m)).tail ++ [b] := by
  have hcap : cb.capacity = C := h.cap
  have hc : cbuff_uint8_count cb = C := le_antisymm h.cnt hfull
  have hpos : 0 < C := h.pos
  have hlen : C ≤ m.bytes.length := h.len
  have e := mir_count_both_succ h hfull
  have htl0 := mir_tail_mod h
  obtain ⟨n, rfl⟩ : ∃ n, C = n + 1 := ⟨C - 1, by omega⟩
  have htl : cb.tail % (n + 1) = (cb.head + 1 + n) % (n + 1) := by
    rw [htl0, hc]; congr 1; omega
  simp only [contents]
  rw [e, hcap, hc,
    slots_congr_head _ (n + 1) ((cb.head + 1) % ((n + 1) * 2)) (cb.head + 1) (n + 1)
    (Nat.mod_mul_right_mod _ _ _), htl,
    slots_set_append m.bytes (n + 1) (cb.head + 1) n b hlen (by omega),
    slots_succ, List.tail_cons]

end Mirrored

/-! ## Pointer-based variant: invariant and the effect of each function -/

theorem Mem.store_at (m : Mem) (p : Nat) (b : Byte) (hp : m.base ≤ p)
    (hi : p - m.base < m.bytes.length) :
    m.store p b = some { m with bytes := m.bytes.set (p - m.base) b } := by
  simp [Mem.store, hp, hi]

theorem Mem.load_at (m : Mem) (p : Nat) (hp : m.base ≤ p)
    (hi : p - m.base < m.bytes.length) :
    m.load p = some (m.bytes.getD (p - m.base) 0) := by
  simp [Mem.load, hp, List.getD_eq_getElem?_getD, List.getElem?_eq_getElem hi]

namespace Pointer

theorem ptr_advance_eq {C : Nat} {cb : cbuff_uint8_t} {m : Mem} (h : Inv C (cb, m)) (p : Nat)
    (hge : m.base ≤ p) (hlt : p < m.base + C) :
    advance cb p = m.base + (p - m.base + 1) % C := by
  have hbuf : cb.buffer = m.base := h.buf
  have hend : cb.bufferEnd = m.base + C := h.bend
  have hx : p - m.base < C := by omega
  simp only [advance, hbuf, hend]
  rw [succ_mod_of_lt hx]
  split_ifs <;> omega

theorem Inv.ptr_tail_ge {C : Nat} {s : cbuff_uint8_t × Mem} (h : Inv C s) :
    s.2.base ≤ s.1.tail := by
  rw [h.tl]; exact Nat.le_add_right _ _

theorem Inv.ptr_tail_sub {C : Nat} {s : cbuff_uint8_t × Mem} (h : Inv C s) :
    s.1.tail - s.2.base = (s.1.head - s.2.base + s.1.count) % C := by
  rw [h.tl]; exact Nat.add_sub_cancel_left _ _

theorem Inv.ptr_tail_lt {C : Nat} {s : cbuff_uint8_t × Mem} (h : Inv C s) :
    s.1.tail < s.2.base + C := by
  rw [h.tl]; exact Nat.add_lt_add_left (Nat.mod_lt _ h.pos) _

theorem Inv.ptr_tail_in {C : Nat} {s : cbuff_uint8_t × Mem} (h : Inv C s) :
    s.1.tail - s.2.base < s.2.bytes.length := by
  rw [h.ptr_tail_sub]; exact lt_of_lt_of_le (Nat.mod_lt _ h.pos) h.len

theorem Inv.ptr_head_in {C : Nat} {s : cbuff_uint8_t × Mem} (h : Inv C s) :
    s.1.head - s.2.base < s.2.bytes.length := by
  have h1 := h.hd_lt
  have h2 := h.len
  have h3 := h.pos
  omega

theorem ptr_enqueue_eq {C : Nat} {cb : cbuff_uint8_t} {m : Mem} (h : Inv C (cb, m))
    (hlt : cb.count < C) (b : Byte) :
    cbuff_uint8_enqueue cb m b = some (true,
      { cb with tail := advance cb cb.tail, count := cb.count + 1 },
      { m with bytes := m.bytes.set (cb.tail - m.base) b }) := by
  have hcap : cb.capacity = C := h.cap
  simp [cbuff_uint8_enqueue, hcap, Nat.not_le.mpr hlt,
    Mem.store_at m cb.tail b h.ptr_tail_ge h.ptr_tail_in]

theorem ptr_enqueue_full {C : Nat} {cb : cbuff_uint8_t} {m : Mem} (h : Inv C (cb, m))
    (hfull : C ≤ cb.count) (b : Byte) :
    cbuff_uint8_enqueue cb m b = some (false, cb, m) := by
  have hcap : cb.capacity = C := h.cap
  simp [cbuff_uint8_enqueue, hcap, hfull]

theorem ptr_enqueue_overwrite_eq {C : Nat} {cb : cbuff_uint8_t} {m : Mem} (h : Inv C (cb, m))
    (hlt : cb.count < C) (b : Byte) :
    cbuff_uint8_enqueue_overwrite cb m b = some (true,
      { cb with tail := advance cb cb.tail, count := cb.count + 1 },
      { m with bytes := m.bytes.set (cb.tail - m.base) b }) := by
  have hcap : cb.capacity = C := h.cap
  simp [cbuff_uint8_enqueue_overwrite, hcap, Nat.not_le.mpr hlt,
    Mem.store_at m cb.tail b h.ptr_tail_ge h.ptr_tail_in, advance]

theorem ptr_enqueue_overwrite_full {C : Nat} {cb : cbuff_uint8_t} {m : Mem}
    (h : Inv C (cb, m)) (hfull : C ≤ cb.count) (b : Byte) :
    cbuff_uint8_enqueue_overwrite cb m b = some (true,
      { cb with head := advance cb cb.head, tail := advance cb cb.tail },
      { m with bytes := m.bytes.set (cb.tail - m.base) b }) := by
  have hcap : cb.capacity = C := h.cap
  simp [cbuff_uint8_enqueue_overwrite, hcap, hfull,
    Mem.store_at m cb.tail b h.ptr_tail_ge h.ptr_tail_in, advance]

theorem ptr_dequeue_eq {C : Nat} {cb : cbuff_uint8_t} {m : Mem} (h : Inv C (cb, m))
    (hne : cb.count ≠ 0) (d : Byte) :
    cbuff_uint8_dequeue cb m d = some (true, m.bytes.getD (cb.head - m.base) 0,
      { cb with head := advance cb cb.head, count := cb.count - 1 }, m) := by
  simp [cbuff_uint8_dequeue, hne, Mem.load_at m cb.head h.hd_ge h.ptr_head_in]

theorem ptr_dequeue_empty (cb : cbuff_uint8_t) (m : Mem) (hz : cb.count = 0) (d : Byte) :
    cbuff_uint8_dequeue cb m d = some (false, d, cb, m) := by
  simp [cbuff_uint8_dequeue, hz]

theorem ptr_peek_eq {C : Nat} {cb : cbuff_uint8_t} {m : Mem} (h : Inv C (cb, m))
    (hne : cb.count ≠ 0) (d : Byte) (offset : Nat) (ho : offset ≤ cb.count) :
    cbuff_uint8_peek cb m d offset
      = some (true, m.bytes.getD ((cb.head - m.base + offset) % C) 0, cb, m) := by
  have hcap : cb.capacity = C := h.cap
  have hbuf : cb.buffer = m.base := h.buf
  have hge : m.base ≤ cb.head := h.hd_ge
  have hi : (cb.head - m.base + offset) % C < m.bytes.length :=
    lt_of_lt_of_le (Nat.mod_lt _ h.pos) h.len
  simp [cbuff_uint8_peek, ptrdiff, hcap, hbuf, hge, hne, Nat.not_lt.mpr ho,
    Mem.load_offset m _ hi, urem_pos _ h.pos]

theorem ptr_peek_fail (cb : cbuff_uint8_t) (m : Mem) (d : Byte) (offset : Nat)
    (hf : cb.count = 0 ∨ cb.count < offset) :
    cbuff_uint8_peek cb m d offset = some (false, d, cb, m) := by
  unfold cbuff_uint8_peek
  rcases hf with hf | hf
  · simp [hf]
  · simp [hf]

end Pointer

namespace Pointer

theorem ptr_advance_tail {C : Nat} {cb : cbuff_uint8_t} {m : Mem} (h : Inv C (cb, m)) :
    advance cb cb.tail = m.base + (cb.head - m.base + (cb.count + 1)) % C := by
  rw [ptr_advance_eq h cb.tail h.ptr_tail_ge h.ptr_tail_lt, h.ptr_tail_sub]
  simp only [Nat.mod_add_mod, Nat.add_assoc]

theorem ptr_advance_head {C : Nat} {cb : cbuff_uint8_t} {m : Mem} (h : Inv C (cb, m)) :
    advance cb cb.head = m.base + (cb.head - m.base + 1) % C :=
  ptr_advance_eq h cb.head h.hd_ge h.hd_lt

theorem ptr_inv_enqueue {C : Nat} {cb : cbuff_uint8_t} {m : Mem} (h : Inv C (cb, m))
    (hlt : cb.count < C) (b : Byte) :
    Inv C ({ cb with tail := advance cb cb.tail, count := cb.count + 1 },
      { m with bytes := m.bytes.set (cb.tail - m.base) b }) := by
  refine ⟨h.cap, h.pos, h.buf, h.bend, ?_, ?_, h.hd_ge, h.hd_lt, ?_⟩
  · simpa using h.len
  · exact hlt
  · have e := ptr_advance_tail h
    exact e

theorem ptr_inv_overwrite_full {C : Nat} {cb : cbuff_uint8_t} {m : Mem} (h : Inv C (cb, m))
    (hfull : C ≤ cb.count) (b : Byte) :
    Inv C ({ cb with head := advance cb cb.head, tail := advance cb cb.tail },
      { m with bytes := m.bytes.set (cb.tail - m.base) b }) := by
  have hc : cb.count = C := le_antisymm h.cnt hfull
  refine ⟨h.cap, h.pos, h.buf, h.bend, ?_, h.cnt, ?_, ?_, ?_⟩
  · simpa using h.len
  · show m.base ≤ advance cb cb.head
    rw [ptr_advance_head h]; exact Nat.le_add_right _ _
  · show advance cb cb.head < m.base + C
    rw [ptr_advance_head h]; exact Nat.add_lt_add_left (Nat.mod_lt _ h.pos) _
  · show advance cb cb.tail = m.base + (advance cb cb.head - m.base + cb.count) % C
    rw [ptr_advance_tail h, ptr_advance_head h, Nat.add_sub_cancel_left, Nat.mod_add_mod, hc]
    congr 2; omega

theorem ptr_inv_dequeue {C : Nat} {cb : cbuff_uint8_t} {m : Mem} (h : Inv C (cb, m))
    (hne : cb.count ≠ 0) :
    Inv C ({ cb with head := advance cb cb.head, count := cb.count - 1 }, m) := by
  refine ⟨h.cap, h.pos, h.buf, h.bend, h.len, ?_, ?_, ?_, ?_⟩
  · exact le_trans (Nat.sub_le _ _) h.cnt
  · show m.base ≤ advance cb cb.head
    rw [ptr_advance_head h]; exact Nat.le_add_right _ _
  · show advance cb cb.head < m.base + C
    rw [ptr_advance_head h]; exact Nat.add_lt_add_left (Nat.mod_lt _ h.pos) _
  · have htl : cb.tail = m.base + (cb.head - m.base + cb.count) % C := h.tl
    show cb.tail = m.base + (advance cb cb.head - m.base + (cb.count - 1)) % C
    rw [ptr_advance_head h, Nat.add_sub_cancel_left, Nat.mod_add_mod, htl]
    congr 2; omega

theorem ptr_inv_reset {C : Nat} {cb : cbuff_uint8_t} {m : Mem} (h : Inv C (cb, m)) :
    Inv C ((cbuff_uint8_reset cb).2, m) := by
  have hbuf : cb.buffer = m.base := h.buf
  have hpos : 0 < C := h.pos
  refine ⟨h.cap, h.pos, h.buf, h.bend, h.len, Nat.zero_le _, ?_, ?_, ?_⟩
  · show m.base ≤ cb.buffer
    omega
  · show cb.buffer < m.base + C
    omega
  · show cb.buffer = m.base + (cb.buffer - m.base + 0) % C
    rw [hbuf]; simp

theorem ptr_inv_step {C : Nat} {s s1 : cbuff_uint8_t × Mem} (h : Inv C s) (op : Op)
    (hs : step s op = some s1) : Inv C s1 := by
  obtain ⟨cb, m⟩ := s
  cases op with
  | reset =>
    simp only [step, Option.some.injEq] at hs
    subst hs; exact ptr_inv_reset h
  | enqueue b =>
    by_cases hlt : cb.count < C
    · simp only [step, ptr_enqueue_eq h hlt, Option.map_some', Option.some.injEq] at hs
      subst hs; exact ptr_inv_enqueue h hlt b
    · simp only [step, ptr_enqueue_full h (Nat.not_lt.mp hlt), Option.map_some',
        Option.some.injEq] at hs
      subst hs; exact h
  | enqueue_overwrite b =>
    by_cases hlt : cb.count < C
    · simp only [step, ptr_enqueue_overwrite_eq h hlt, Option.map_some', Option.some.injEq] at hs
      subst hs; exact ptr_inv_enqueue h hlt b
    · simp only [step, ptr_enqueue_overwrite_full h (Nat.not_lt.mp hlt), Option.map_some',
        Option.some.injEq] at hs
      subst hs; exact ptr_inv_overwrite_full h (Nat.not_lt.mp hlt) b
  | dequeue d =>
    by_cases hz : cb.count = 0
    · simp only [step, ptr_dequeue_empty cb m hz, Option.map_some', Option.some.injEq] at hs
      subst hs; exact h
    · simp only [step, ptr_dequeue_eq h hz, Option.map_some', Option.some.injEq] at hs
      subst hs; exact ptr_inv_dequeue h hz
  | peek d offset =>
    by_cases hf : cb.count = 0 ∨ cb.count < offset
    · simp only [step, ptr_peek_fail cb m d offset hf, Option.map_some', Option.some.injEq] at hs
      subst hs; exact h
    · have hne : cb.count ≠ 0 := fun e => hf (Or.inl e)
      have ho : offset ≤ cb.count := Nat.not_lt.mp (fun e => hf (Or.inr e))
      simp only [step, ptr_peek_eq h hne d offset ho, Option.map_some', Option.some.injEq] at hs
      subst hs; exact h

theorem ptr_inv_run {C : Nat} (ops : List Op) : ∀ {s s1 : cbuff_uint8_t × Mem}, Inv C s →
    run s ops = some s1 → Inv C s1 := by
  induction ops with
  | nil =>
    intro s s1 h hs
    simp only [run, Option.some.injEq] at hs
    subst hs; exact h
  | cons op ops ih =>
    intro s s1 h hs
    simp only [run, Option.bind_eq_some] at hs
    obtain ⟨s2, h2, h3⟩ := hs
    exact ih (ptr_inv_step h op h2) h3

theorem ptr_inv_init {C : Nat} {old cb0 : cbuff_uint8_t} {m0 : Mem} (hC : 1 ≤ C)
    (hlen : C ≤ m0.bytes.length)
    (hi : cbuff_uint8_init (some old) C m0.base = (true, some cb0)) : Inv C (cb0, m0) := by
  unfold cbuff_uint8_init at hi
  by_cases hb : m0.base = 0
  · simp [hb] at hi
  · simp only [hb, if_false, Prod.mk.injEq, Option.some.injEq, true_and] at hi
    subst hi
    refine ⟨rfl, hC, rfl, rfl, hlen, Nat.zero_le _, Nat.le_refl _, ?_, ?_⟩
    · show m0.base < m0.base + C
      omega
    · show m0.base = m0.base + (m0.base - m0.base + 0) % C
      simp

theorem Reachable.ptr_inv {C : Nat} {s : cbuff_uint8_t × Mem} (hC : 1 ≤ C)
    (h : Reachable C s) : Inv C s := by
  obtain ⟨old, cb0, m0, ops, hlen, hi, hr⟩ := h
  exact ptr_inv_run ops (ptr_inv_init hC hlen hi) hr

theorem ptr_contents_length (s : cbuff_uint8_t × Mem) : (contents s).length = s.1.count := by
  simp [contents, slots_length, cbuff_uint8_count]

theorem ptr_contents_enqueue {C : Nat} {cb : cbuff_uint8_t} {m : Mem} (h : Inv C (cb, m))
    (hlt : cb.count < C) (b : Byte) :
    contents ({ cb with tail := advance cb cb.tail, count := cb.count + 1 },
      { m with bytes := m.bytes.set (cb.tail - m.base) b }) = contents (cb, m) ++ [b] := by
  have hcap : cb.capacity = C := h.cap
  have hbuf : cb.buffer = m.base := h.buf
  have hts : cb.tail - m.base = (cb.head - m.base + cb.count) % C := h.ptr_tail_sub
  simp only [contents, cbuff_uint8_count, hcap, hbuf, hts]
  exact slots_set_append m.bytes C (cb.head - m.base) cb.count b h.len hlt

theorem ptr_contents_dequeue {C : Nat} {cb : cbuff_uint8_t} {m : Mem} (h : Inv C (cb, m))
    (hne : cb.count ≠ 0) :
    contents (cb, m) = m.bytes.getD (cb.head - m.base) 0 ::
      contents ({ cb with head := advance cb cb.head, count := cb.count - 1 }, m) := by
  have hcap : cb.capacity = C := h.cap
  have hbuf : cb.buffer = m.base := h.buf
  have hhd : cb.head - m.base < C := by
    have h1 : cb.head < m.base + C := h.hd_lt
    have h2 : 0 < C := h.pos
    omega
  obtain ⟨n, hn⟩ := Nat.exists_eq_succ_of_ne_zero hne
  simp only [contents, cbuff_uint8_count, hcap, hbuf, hn, Nat.succ_eq_add_one,
    Nat.add_sub_cancel, ptr_advance_head h, Nat.add_sub_cancel_left]
  rw [slots_succ, Nat.mod_eq_of_lt hhd,
    slots_congr_head m.bytes C ((cb.head - m.base + 1) % C) (cb.head - m.base + 1) n
      (Nat.mod_mod _ _)]

theorem ptr_contents_overwrite_full {C : Nat} {cb : cbuff_uint8_t} {m : Mem}
    (h : Inv C (cb, m)) (hfull : C ≤ cb.count) (b : Byte) :
    contents ({ cb with head := advance cb cb.head, tail := advance cb cb.tail },
      { m with bytes := m.bytes.set (cb.tail - m.base) b })
      = (contents (cb, m)).tail ++ [b] := by
  have hcap : cb.capacity = C := h.cap
  have hbuf : cb.buffer = m.base := h.buf
  have hc : cb.count = C := le_antisymm h.cnt hfull
  have hpos : 0 < C := h.pos
  have hlen : C ≤ m.bytes.length := h.len
  have hts : cb.tail - m.base = (cb.head - m.base + cb.count) % C := h.ptr_tail_sub
  have hah := ptr_advance_head h
  obtain ⟨n, rfl⟩ : ∃ n, C = n + 1 := ⟨C - 1, by omega⟩
  have htl : cb.tail - m.base = (cb.head - m.base + 1 + n) % (n + 1) := by
    rw [hts, hc]; congr 1; omega
  simp only [contents, cbuff_uint8_count, hcap, hbuf, hc, hah, Nat.add_sub_cancel_left]
  rw [slots_congr_head _ (n + 1) ((cb.head - m.base + 1) % (n + 1)) (cb.head - m.base + 1)
      (n + 1) (Nat.mod_mod _ _), htl,
    slots_set_append m.bytes (n + 1) (cb.head - m.base + 1) n b hlen (by omega),
    slots_succ, List.tail_cons]

end Pointer

/-! ## Sequences of calls: generic lemmas -/

theorem enqueueSeq_append {α : Type} (enq : α → Mem → Byte → Option (Bool × α × Mem))
    (I : α × Mem → Prop) (cont : α × Mem → List Byte) (C : Nat)
    (H : ∀ cb m b, I (cb, m) → (cont (cb, m)).length < C →
      ∃ cb1 m1, enq cb m b = some (true, cb1, m1) ∧ I (cb1, m1) ∧
        cont (cb1, m1) = cont (cb, m) ++ [b]) :
    ∀ (bs : List Byte) (cb : α) (m : Mem), I (cb, m) →
      (cont (cb, m)).length + bs.length ≤ C →
      ∃ cb1 m1, enqueueSeq enq cb m bs = some (List.replicate bs.length true, cb1, m1) ∧
        I (cb1, m1) ∧ cont (cb1, m1) = cont (cb, m) ++ bs := by
  intro bs
  induction bs with
  | nil =>
    intro cb m hI _
    exact ⟨cb, m, rfl, hI, by simp⟩
  | cons b bs ih =>
    intro cb m hI hlen
    simp only [List.length_cons] at hlen
    obtain ⟨cb1, m1, e1, hI1, c1⟩ := H cb m b hI (by omega)
    obtain ⟨cb2, m2, e2, hI2, c2⟩ := ih cb1 m1 hI1 (by
      rw [c1, List.length_append, List.length_singleton]; omega)
    refine ⟨cb2, m2, ?_, hI2, ?_⟩
    · simp [enqueueSeq, e1, e2, List.replicate_succ]
    · rw [c2, c1, List.append_assoc, List.singleton_append]

theorem enqueueSeq_rotate {α : Type} (enq : α → Mem → Byte → Option (Bool × α × Mem))
    (I : α × Mem → Prop) (cont : α × Mem → List Byte) (C : Nat) (hC : 1 ≤ C)
    (H : ∀ cb m b, I (cb, m) → (cont (cb, m)).length = C →
      ∃ cb1 m1, enq cb m b = some (true, cb1, m1) ∧ I (cb1, m1) ∧
        cont (cb1, m1) = (cont (cb, m)).tail ++ [b]) :
    ∀ (bs : List Byte) (cb : α) (m : Mem), I (cb, m) → (cont (cb, m)).length = C →
      ∃ cb1 m1, enqueueSeq enq cb m bs = some (List.replicate bs.length true, cb1, m1) ∧
        I (cb1, m1) ∧ cont (cb1, m1) = (cont (cb, m) ++ bs).drop bs.length := by
  intro bs
  induction bs with
  | nil =>
    intro cb m hI _
    exact ⟨cb, m, rfl, hI, by simp⟩
  | cons b bs ih =>
    intro cb m hI hlen
    obtain ⟨cb1, m1, e1, hI1, c1⟩ := H cb m b hI hlen
    have hl1 : (cont (cb1, m1)).length = C := by
      rw [c1, List.length_append, List.length_tail, List.length_singleton, hlen]; omega
    obtain ⟨cb2, m2, e2, hI2, c2⟩ := ih cb1 m1 hI1 hl1
    refine ⟨cb2, m2, ?_, hI2, ?_⟩
    · simp [enqueueSeq, e1, e2, List.replicate_succ]
    · rw [c2, c1]
      cases hc : cont (cb, m) with
      | nil => rw [hc] at hlen; simp at hlen; omega
      | cons x xs => simp

theorem dequeueSeq_take {α : Type}
    (deq : α → Mem → Byte → Option (Bool × Byte × α × Mem))
    (I : α × Mem → Prop) (cont : α × Mem → List Byte)
    (H : ∀ cb m d x xs, I (cb, m) → cont (cb, m) = x :: xs →
      ∃ cb1, deq cb m d = some (true, x, cb1, m) ∧ I (cb1, m) ∧ cont (cb1, m) = xs) :
    ∀ (xs ys : List Byte) (cb : α) (m : Mem) (d : Byte), I (cb, m) →
      cont (cb, m) = xs ++ ys →
      ∃ cb1, dequeueSeq deq cb m d xs.length
          = some (xs.map (fun x => (true, x)), cb1, m) ∧
        I (cb1, m) ∧ cont (cb1, m) = ys := by
  intro xs
  induction xs with
  | nil =>
    intro ys cb m d hI hc
    exact ⟨cb, rfl, hI, by simpa using hc⟩
  | cons x xs ih =>
    intro ys cb m d hI hc
    obtain ⟨cb1, e1, hI1, c1⟩ := H cb m d x (xs ++ ys) hI (by simpa using hc)
    obtain ⟨cb2, e2, hI2, c2⟩ := ih ys cb1 m x hI1 c1
    exact ⟨cb2, by simp [dequeueSeq, e1, e2], hI2, c2⟩

namespace Index

theorem idx_enqueue_spec {C : Nat} (cb : cbuff_t) (m : Mem) (b : Byte) (h : Inv C (cb, m))
    (hlt : (contents (cb, m)).length < C) :
    ∃ cb1 m1, cbuff_enqueue cb m b = some (true, cb1, m1) ∧ Inv C (cb1, m1) ∧
      contents (cb1, m1) = contents (cb, m) ++ [b] := by
  rw [idx_contents_length] at hlt
  exact ⟨_, _, idx_enqueue_eq h hlt b, idx_inv_enqueue h hlt b, idx_contents_enqueue h hlt b⟩

theorem idx_overwrite_spec {C : Nat} (cb : cbuff_t) (m : Mem) (b : Byte) (h : Inv C (cb, m))
    (hfull : (contents (cb, m)).length = C) :
    ∃ cb1 m1, cbuff_enqueue_overwrite cb m b = some (true, cb1, m1) ∧ Inv C (cb1, m1) ∧
      contents (cb1, m1) = (contents (cb, m)).tail ++ [b] := by
  rw [idx_contents_length] at hfull
  have hge : C ≤ cb.count := le_of_eq hfull.symm
  exact ⟨_, _, idx_enqueue_overwrite_full h hge b, idx_inv_overwrite_full h hge b,
    idx_contents_overwrite_full h hge b⟩

theorem idx_dequeue_spec {C : Nat} (cb : cbuff_t) (m : Mem) (d x : Byte) (xs : List Byte)
    (h : Inv C (cb, m)) (hc : contents (cb, m) = x :: xs) :
    ∃ cb1, cbuff_dequeue cb m d = some (true, x, cb1, m) ∧ Inv C (cb1, m) ∧
      contents (cb1, m) = xs := by
  have hlen : cb.count ≠ 0 := by
    have e := idx_contents_length (cb, m)
    rw [hc] at e
    simp only [List.length_cons] at e
    omega
  have hne : cb.count ≠ 0 := hlen
  have e := idx_contents_dequeue h hne
  rw [hc, List.cons.injEq] at e
  rw [e.1]
  exact ⟨_, idx_dequeue_eq h hne d, idx_inv_dequeue h hne, e.2.symm⟩

theorem idx_peek_spec {C : Nat} (cb : cbuff_t) (m : Mem) (d : Byte) (i : Nat)
    (h : Inv C (cb, m)) (hi : i < (contents (cb, m)).length) :
    ∃ v, cbuff_peek cb m d i = some (true, v, cb, m) ∧ (contents (cb, m))[i]? = some v := by
  rw [idx_contents_length] at hi
  have hi : i < cb.count := hi
  have hlen : cb.count ≠ 0 := by omega
  have hne : cb.count ≠ 0 := hlen
  have hcap : cb.capacity = C := h.cap
  have hbuf : cb.buffer = m.base := h.buf
  refine ⟨_, idx_peek_eq h hne d i (le_of_lt hi), ?_⟩
  simp only [contents, hcap, hbuf]
  exact slots_getElem? _ _ _ _ _ hi

end Index

namespace Mirrored

theorem mir_enqueue_spec {C : Nat} (cb : cbuff_uint8_t) (m : Mem) (b : Byte) (h : Inv C (cb, m))
    (hlt : (contents (cb, m)).length < C) :
    ∃ cb1 m1, cbuff_uint8_enqueue cb m b = some (true, cb1, m1) ∧ Inv C (cb1, m1) ∧
      contents (cb1, m1) = contents (cb, m) ++ [b] := by
  rw [mir_contents_length] at hlt
  exact ⟨_, _, mir_enqueue_eq h hlt b, mir_inv_enqueue h hlt b, mir_contents_enqueue h hlt b⟩

theorem mir_overwrite_spec {C : Nat} (cb : cbuff_uint8_t) (m : Mem) (b : Byte) (h : Inv C (cb, m))
    (hfull : (contents (cb, m)).length = C) :
    ∃ cb1 m1, cbuff_uint8_enqueue_overwrite cb m b = some (true, cb1, m1) ∧ Inv C (cb1, m1) ∧
      contents (cb1, m1) = (contents (cb, m)).tail ++ [b] := by
  rw [mir_contents_length] at hfull
  have hge : C ≤ cbuff_uint8_count cb := le_of_eq hfull.symm
  exact ⟨_, _, mir_enqueue_overwrite_full h hge b, mir_inv_overwrite_full h hge b,
    mir_contents_overwrite_full h hge b⟩

theorem mir_dequeue_spec {C : Nat} (cb : cbuff_uint8_t) (m : Mem) (d x : Byte) (xs : List Byte)
    (h : Inv C (cb, m)) (hc : contents (cb, m) = x :: xs) :
    ∃ cb1, cbuff_uint8_dequeue cb m d = some (true, x, cb1, m) ∧ Inv C (cb1, m) ∧
      contents (cb1, m) = xs := by
  have hlen : cbuff_uint8_count cb ≠ 0 := by
    have e := mir_contents_length (cb, m)
    rw [hc] at e
    simp only [List.length_cons] at e
    omega
  have hne : cb.tail ≠ cb.head := fun e => hlen ((mir_count_zero_iff h).mpr e)
  have e := mir_contents_dequeue h hne
  rw [hc, List.cons.injEq] at e
  rw [e.1]
  exact ⟨_, mir_dequeue_eq h hne d, mir_inv_dequeue h hne, e.2.symm⟩

theorem mir_peek_spec {C : Nat} (cb : cbuff_uint8_t) (m : Mem) (d : Byte) (i : Nat)
    (h : Inv C (cb, m)) (hi : i < (contents (cb, m)).length) :
    ∃ v, cbuff_uint8_peek cb m d i = some (true, v, cb, m) ∧ (contents (cb, m))[i]? = some v := by
  rw [mir_contents_length] at hi
  have hi : i < cbuff_uint8_count cb := hi
  have hlen : cbuff_uint8_count cb ≠ 0 := by omega
  have hne : cb.tail ≠ cb.head := fun e => hlen ((mir_count_zero_iff h).mpr e)
  have hcap : cb.capacity = C := h.cap
  have hbuf : cb.buffer = m.base := h.buf
  refine ⟨_, mir_peek_eq h hne d i (le_of_lt hi), ?_⟩
  simp only [contents, hcap, hbuf]
  exact slots_getElem? _ _ _ _ _ hi

end Mirrored

namespace Pointer

theorem ptr_enqueue_spec {C : Nat} (cb : cbuff_uint8_t) (m : Mem) (b : Byte) (h : Inv C (cb, m))
    (hlt : (contents (cb, m)).length < C) :
    ∃ cb1 m1, cbuff_uint8_enqueue cb m b = some (true, cb1, m1) ∧ Inv C (cb1, m1) ∧
      contents (cb1, m1) = contents (cb, m) ++ [b] := by
  rw [ptr_contents_length] at hlt
  exact ⟨_, _, ptr_enqueue_eq h hlt b, ptr_inv_enqueue h hlt b, ptr_contents_enqueue h hlt b⟩

theorem ptr_overwrite_spec {C : Nat} (cb : cbuff_uint8_t) (m : Mem) (b : Byte) (h : Inv C (cb, m))
    (hfull : (contents (cb, m)).length = C) :
    ∃ cb1 m1, cbuff_uint8_enqueue_overwrite cb m b = some (true, cb1, m1) ∧ Inv C (cb1, m1) ∧
      contents (cb1, m1) = (contents (cb, m)).tail ++ [b] := by
  rw [ptr_contents_length] at hfull
  have hge : C ≤ cb.count := le_of_eq hfull.symm
  exact ⟨_, _, ptr_enqueue_overwrite_full h hge b, ptr_inv_overwrite_full h hge b,
    ptr_contents_overwrite_full h hge b⟩

theorem ptr_dequeue_spec {C : Nat} (cb : cbuff_uint8_t) (m : Mem) (d x : Byte) (xs : List Byte)
    (h : Inv C (cb, m)) (hc : contents (cb, m) = x :: xs) :
    ∃ cb1, cbuff_uint8_dequeue cb m d = some (true, x, cb1, m) ∧ Inv C (cb1, m) ∧
      contents (cb1, m) = xs := by
  have hlen : cb.count ≠ 0 := by
    have e := ptr_contents_length (cb, m)
    rw [hc] at e
    simp only [List.length_cons] at e
    omega
  have hne : cb.count ≠ 0 := hlen
  have e := ptr_contents_dequeue h hne
  rw [hc, List.cons.injEq] at e
  rw [e.1]
  exact ⟨_, ptr_dequeue_eq h hne d, ptr_inv_dequeue h hne, e.2.symm⟩

theorem ptr_peek_spec {C : Nat} (cb : cbuff_uint8_t) (m : Mem) (d : Byte) (i : Nat)
    (h : Inv C (cb, m)) (hi : i < (contents (cb, m)).length) :
    ∃ v, cbuff_uint8_peek cb m d i = some (true, v, cb, m) ∧ (contents (cb, m))[i]? = some v := by
  rw [ptr_contents_length] at hi
  have hi : i < cb.count := hi
  have hlen : cb.count ≠ 0 := by omega
  have hne : cb.count ≠ 0 := hlen
  have hcap : cb.capacity = C := h.cap
  have hbuf : cb.buffer = m.base := h.buf
  refine ⟨_, ptr_peek_eq h hne d i (le_of_lt hi), ?_⟩
  simp only [contents, hcap, hbuf]
  exact slots_getElem? _ _ _ _ _ hi

end Pointer

/-! ## FIFO round trip -/

namespace Index

theorem idx_reachable_of_run {C : Nat} (m0 : Mem) (ops : List Op) {s : cbuff_t × Mem}
    (hlen : C ≤ m0.bytes.length) (hb : m0.base ≠ 0)
    (hr : run (cbuff_struct_full_prefill C m0.base, m0) ops = some s) : Reachable C s := by
  refine ⟨cbuff_struct_full_prefill C m0.base, _, m0, ops, hlen, ?_, hr⟩
  simp [cbuff_init, cbuff_struct_full_prefill, hb]

theorem idx_contents_eq_nil_iff {C : Nat} {cb : cbuff_t} {m : Mem} (_ : Inv C (cb, m)) :
    contents (cb, m) = [] ↔ cbuff_is_empty cb = true := by
  rw [← List.length_eq_zero, idx_contents_length]
  simp [cbuff_is_empty]

theorem idx_fifo_round_trip {C : Nat} (hC : 1 ≤ C) (s : cbuff_t × Mem) (hr : Reachable C s)
    (he : cbuff_is_empty s.1 = true) (bs : List Byte) (hk : bs.length ≤ C) (d : Byte) :
    ∃ cb1 m1 cb2,
      enqueueSeq cbuff_enqueue s.1 s.2 bs = some (List.replicate bs.length true, cb1, m1) ∧
      dequeueSeq cbuff_dequeue cb1 m1 d bs.length = some (bs.map (fun b => (true, b)), cb2, m1) ∧
      cbuff_is_empty cb2 = true := by
  obtain ⟨cb, m⟩ := s
  have h := hr.idx_inv hC
  have hnil : contents (cb, m) = [] := (idx_contents_eq_nil_iff h).mpr he
  obtain ⟨cb1, m1, e1, h1, c1⟩ := enqueueSeq_append cbuff_enqueue (Inv C) contents C
    (fun cb m b => idx_enqueue_spec cb m b) bs cb m h (by rw [hnil]; simpa using hk)
  rw [hnil, List.nil_append] at c1
  obtain ⟨cb2, e2, h2, c2⟩ := dequeueSeq_take cbuff_dequeue (Inv C) contents
    (fun cb m d x xs => idx_dequeue_spec cb m d x xs) bs [] cb1 m1 d h1 (by simpa using c1)
  exact ⟨cb1, m1, cb2, e1, e2, (idx_contents_eq_nil_iff h2).mp c2⟩

end Index

namespace Mirrored

theorem mir_reachable_of_run {C : Nat} (m0 : Mem) (ops : List Op) {s : cbuff_uint8_t × Mem}
    (hlen : C ≤ m0.bytes.length) (hb : m0.base ≠ 0)
    (hr : run (cbuff_uint8_struct_full_prefill C m0.base, m0) ops = some s) : Reachable C s := by
  refine ⟨cbuff_uint8_struct_full_prefill C m0.base, _, m0, ops, hlen, ?_, hr⟩
  simp [cbuff_uint8_init, cbuff_uint8_struct_full_prefill, hb]

theorem mir_contents_eq_nil_iff {C : Nat} {cb : cbuff_uint8_t} {m : Mem} (h : Inv C (cb, m)) :
    contents (cb, m) = [] ↔ cbuff_uint8_is_empty cb = true := by
  rw [← List.length_eq_zero, mir_contents_length]
  simp [cbuff_uint8_is_empty, mir_count_zero_iff h]

theorem mir_fifo_round_trip {C : Nat} (hC : 1 ≤ C) (s : cbuff_uint8_t × Mem) (hr : Reachable C s)
    (he : cbuff_uint8_is_empty s.1 = true) (bs : List Byte) (hk : bs.length ≤ C) (d : Byte) :
    ∃ cb1 m1 cb2,
      enqueueSeq cbuff_uint8_enqueue s.1 s.2 bs = some (List.replicate bs.length true, cb1, m1) ∧
      dequeueSeq cbuff_uint8_dequeue cb1 m1 d bs.length = some (bs.map (fun b => (true, b)), cb2, m1) ∧
      cbuff_uint8_is_empty cb2 = true := by
  obtain ⟨cb, m⟩ := s
  have h := hr.mir_inv hC
  have hnil : contents (cb, m) = [] := (mir_contents_eq_nil_iff h).mpr he
  obtain ⟨cb1, m1, e1, h1, c1⟩ := enqueueSeq_append cbuff_uint8_enqueue (Inv C) contents C
    (fun cb m b => mir_enqueue_spec cb m b) bs cb m h (by rw [hnil]; simpa using hk)
  rw [hnil, List.nil_append] at c1
  obtain ⟨cb2, e2, h2, c2⟩ := dequeueSeq_take cbuff_uint8_dequeue (Inv C) contents
    (fun cb m d x xs => mir_dequeue_spec cb m d x xs) bs [] cb1 m1 d h1 (by simpa using c1)
  exact ⟨cb1, m1, cb2, e1, e2, (mir_contents_eq_nil_iff h2).mp c2⟩

end Mirrored

namespace Pointer

theorem ptr_reachable_of_run {C : Nat} (m0 : Mem) (ops : List Op) {s : cbuff_uint8_t × Mem}
    (hlen : C ≤ m0.bytes.length) (hb : m0.base ≠ 0)
    (hr : run (cbuff_uint8_struct_full_prefill C m0.base, m0) ops = some s) : Reachable C s := by
  refine ⟨cbuff_uint8_struct_full_prefill C m0.base, _, m0, ops, hlen, ?_, hr⟩
  simp [cbuff_uint8_init, cbuff_uint8_struct_full_prefill, hb]

theorem ptr_contents_eq_nil_iff {C : Nat} {cb : cbuff_uint8_t} {m : Mem} (_ : Inv C (cb, m)) :
    contents (cb, m) = [] ↔ cbuff_uint8_is_empty cb = true := by
  rw [← List.length_eq_zero, ptr_contents_length]
  simp [cbuff_uint8_is_empty]

theorem ptr_fifo_round_trip {C : Nat} (hC : 1 ≤ C) (s : cbuff_uint8_t × Mem) (hr : Reachable C s)
    (he : cbuff_uint8_is_empty s.1 = true) (bs : List Byte) (hk : bs.length ≤ C) (d : Byte) :
    ∃ cb1 m1 cb2,
      enqueueSeq cbuff_uint8_enqueue s.1 s.2 bs = some (List.replicate bs.length true, cb1, m1) ∧
      dequeueSeq cbuff_uint8_dequeue cb1 m1 d bs.length = some (bs.map (fun b => (true, b)), cb2, m1) ∧
      cbuff_uint8_is_empty cb2 = true := by
  obtain ⟨cb, m⟩ := s
  have h := hr.ptr_inv hC
  have hnil : contents (cb, m) = [] := (ptr_contents_eq_nil_iff h).mpr he
  obtain ⟨cb1, m1, e1, h1, c1⟩ := enqueueSeq_append cbuff_uint8_enqueue (Inv C) contents C
    (fun cb m b => ptr_enqueue_spec cb m b) bs cb m h (by rw [hnil]; simpa using hk)
  rw [hnil, List.nil_append] at c1
  obtain ⟨cb2, e2, h2, c2⟩ := dequeueSeq_take cbuff_uint8_dequeue (Inv C) contents
    (fun cb m d x xs => ptr_dequeue_spec cb m d x xs) bs [] cb1 m1 d h1 (by simpa using c1)
  exact ⟨cb1, m1, cb2, e1, e2, (ptr_contents_eq_nil_iff h2).mp c2⟩

end Pointer

/-! ## Enqueue and dequeue, one call -/

namespace Index

theorem idx_enqueue_iff {C : Nat} (cb : cbuff_t) (m : Mem) (b : Byte) (h : Inv C (cb, m)) :
    ∃ r cb1 m1, cbuff_enqueue cb m b = some (r, cb1, m1) ∧
      (r = true ↔ cbuff_count cb < cbuff_capacity cb) ∧
      (r = true → cbuff_count cb1 = cbuff_count cb + 1 ∧
        contents (cb1, m1) = contents (cb, m) ++ [b]) := by
  have hcap : cbuff_capacity cb = C := h.cap
  by_cases hlt : cbuff_count cb < C
  · refine ⟨true, _, _, idx_enqueue_eq h hlt b, ?_,
      fun _ => ⟨?_, idx_contents_enqueue h hlt b⟩⟩
    · simp [hcap, hlt]
    · exact rfl
  · refine ⟨false, cb, m, idx_enqueue_full h (Nat.not_lt.mp hlt) b, ?_,
      fun e => by simp at e⟩
    simp [hcap, hlt]

theorem idx_enqueue_when_full {C : Nat} (cb : cbuff_t) (m : Mem) (b : Byte)
    (h : Inv C (cb, m)) (hf : cbuff_count cb = cbuff_capacity cb) :
    cbuff_enqueue cb m b = some (false, cb, m) := by
  have hcap : cbuff_capacity cb = C := h.cap
  exact idx_enqueue_full h (le_of_eq (hcap.symm.trans hf.symm)) b

theorem idx_count_eq_zero_iff {C : Nat} {cb : cbuff_t} {m : Mem} (h : Inv C (cb, m)) :
    cbuff_count cb = 0 ↔ cbuff_is_empty cb = true := by
  rw [← idx_contents_eq_nil_iff h, ← List.length_eq_zero, idx_contents_length]
  exact Iff.rfl

theorem idx_dequeue_of_empty {C : Nat} (cb : cbuff_t) (m : Mem) (d : Byte)
    (h : Inv C (cb, m)) (hz : cbuff_count cb = 0) :
    cbuff_dequeue cb m d = some (false, d, cb, m) := by
  have he := (idx_count_eq_zero_iff h).mp hz
  exact idx_dequeue_empty cb m hz d

theorem idx_dequeue_front {C : Nat} (cb : cbuff_t) (m : Mem) (d d2 x : Byte)
    (xs : List Byte) (h : Inv C (cb, m)) (hc : contents (cb, m) = x :: xs) :
    ∃ cb1, cbuff_dequeue cb m d = some (true, x, cb1, m) ∧
      cbuff_count cb1 + 1 = cbuff_count cb ∧ contents (cb1, m) = xs ∧
      (xs = [] → cbuff_dequeue cb1 m d2 = some (false, d2, cb1, m)) ∧
      (∀ x1 rest, xs = x1 :: rest →
        ∃ cb2, cbuff_dequeue cb1 m d2 = some (true, x1, cb2, m)) := by
  obtain ⟨cb1, e1, h1, c1⟩ := idx_dequeue_spec cb m d x xs h hc
  have l0 : (contents (cb, m)).length = cbuff_count cb := idx_contents_length (cb, m)
  have l1 : (contents (cb1, m)).length = cbuff_count cb1 := idx_contents_length (cb1, m)
  rw [hc, List.length_cons] at l0
  rw [c1] at l1
  refine ⟨cb1, e1, by omega, c1, ?_, ?_⟩
  · intro hx
    rw [hx, List.length_nil] at l1
    exact idx_dequeue_of_empty cb1 m d2 h1 l1.symm
  · intro x1 rest hx
    obtain ⟨cb2, e2, _, _⟩ := idx_dequeue_spec cb1 m d2 x1 rest h1 (by rw [c1, hx])
    exact ⟨cb2, e2⟩

theorem idx_dequeue_fail_iff {C : Nat} (cb : cbuff_t) (m : Mem) (d : Byte)
    (h : Inv C (cb, m)) :
    ∃ r d1 cb1 m1, cbuff_dequeue cb m d = some (r, d1, cb1, m1) ∧
      (r = false ↔ cbuff_is_empty cb = true) ∧ (r = false ↔ cbuff_count cb = 0) ∧
      (r = false → d1 = d ∧ cb1 = cb ∧ m1 = m) := by
  by_cases hz : cbuff_count cb = 0
  · refine ⟨false, d, cb, m, idx_dequeue_of_empty cb m d h hz, ?_, ?_, fun _ => ⟨rfl, rfl, rfl⟩⟩
    · simp [(idx_count_eq_zero_iff h).mp hz]
    · simp [hz]
  · have hne : contents (cb, m) ≠ [] := by
      intro e
      have l0 := idx_contents_length (cb, m)
      rw [e, List.length_nil] at l0
      exact hz l0.symm
    obtain ⟨x, xs, hc⟩ := List.exists_cons_of_ne_nil hne
    obtain ⟨cb1, e1, _, _⟩ := idx_dequeue_spec cb m d x xs h hc
    have hne2 : ¬ (cbuff_is_empty cb = true) := fun e => hz ((idx_count_eq_zero_iff h).mpr e)
    refine ⟨true, x, cb1, m, e1, ?_, ?_, fun e => by simp at e⟩
    · simp [hne2]
    · simp [hz]

end Index

namespace Mirrored

theorem mir_enqueue_iff {C : Nat} (cb : cbuff_uint8_t) (m : Mem) (b : Byte) (h : Inv C (cb, m)) :
    ∃ r cb1 m1, cbuff_uint8_enqueue cb m b = some (r, cb1, m1) ∧
      (r = true ↔ cbuff_uint8_count cb < cbuff_uint8_capacity cb) ∧
      (r = true → cbuff_uint8_count cb1 = cbuff_uint8_count cb + 1 ∧
        contents (cb1, m1) = contents (cb, m) ++ [b]) := by
  have hcap : cbuff_uint8_capacity cb = C := h.cap
  by_cases hlt : cbuff_uint8_count cb < C
  · refine ⟨true, _, _, mir_enqueue_eq h hlt b, ?_,
      fun _ => ⟨?_, mir_contents_enqueue h hlt b⟩⟩
    · simp [hcap, hlt]
    · exact mir_count_tail_succ h hlt
  · refine ⟨false, cb, m, mir_enqueue_full h (Nat.not_lt.mp hlt) b, ?_,
      fun e => by simp at e⟩
    simp [hcap, hlt]

theorem mir_enqueue_when_full {C : Nat} (cb : cbuff_uint8_t) (m : Mem) (b : Byte)
    (h : Inv C (cb, m)) (hf : cbuff_uint8_count cb = cbuff_uint8_capacity cb) :
    cbuff_uint8_enqueue cb m b = some (false, cb, m) := by
  have hcap : cbuff_uint8_capacity cb = C := h.cap
  exact mir_enqueue_full h (le_of_eq (hcap.symm.trans hf.symm)) b

theorem mir_count_eq_zero_iff {C : Nat} {cb : cbuff_uint8_t} {m : Mem} (h : Inv C (cb, m)) :
    cbuff_uint8_count cb = 0 ↔ cbuff_uint8_is_empty cb = true := by
  rw [← mir_contents_eq_nil_iff h, ← List.length_eq_zero, mir_contents_length]

theorem mir_dequeue_of_empty {C : Nat} (cb : cbuff_uint8_t) (m : Mem) (d : Byte)
    (h : Inv C (cb, m)) (hz : cbuff_uint8_count cb = 0) :
    cbuff_uint8_dequeue cb m d = some (false, d, cb, m) := by
  have he := (mir_count_eq_zero_iff h).mp hz
  exact mir_dequeue_empty cb m (by simpa [cbuff_uint8_is_empty] using he) d

theorem mir_dequeue_front {C : Nat} (cb : cbuff_uint8_t) (m : Mem) (d d2 x : Byte)
    (xs : List Byte) (h : Inv C (cb, m)) (hc : contents (cb, m) = x :: xs) :
    ∃ cb1, cbuff_uint8_dequeue cb m d = some (true, x, cb1, m) ∧
      cbuff_uint8_count cb1 + 1 = cbuff_uint8_count cb ∧ contents (cb1, m) = xs ∧
      (xs = [] → cbuff_uint8_dequeue cb1 m d2 = some (false, d2, cb1, m)) ∧
      (∀ x1 rest, xs = x1 :: rest →
        ∃ cb2, cbuff_uint8_dequeue cb1 m d2 = some (true, x1, cb2, m)) := by
  obtain ⟨cb1, e1, h1, c1⟩ := mir_dequeue_spec cb m d x xs h hc
  have l0 : (contents (cb, m)).length = cbuff_uint8_count cb := mir_contents_length (cb, m)
  have l1 : (contents (cb1, m)).length = cbuff_uint8_count cb1 := mir_contents_length (cb1, m)
  rw [hc, List.length_cons] at l0
  rw [c1] at l1
  refine ⟨cb1, e1, by omega, c1, ?_, ?_⟩
  · intro hx
    rw [hx, List.length_nil] at l1
    exact mir_dequeue_of_empty cb1 m d2 h1 l1.symm
  · intro x1 rest hx
    obtain ⟨cb2, e2, _, _⟩ := mir_dequeue_spec cb1 m d2 x1 rest h1 (by rw [c1, hx])
    exact ⟨cb2, e2⟩

theorem mir_dequeue_fail_iff {C : Nat} (cb : cbuff_uint8_t) (m : Mem) (d : Byte)
    (h : Inv C (cb, m)) :
    ∃ r d1 cb1 m1, cbuff_uint8_dequeue cb m d = some (r, d1, cb1, m1) ∧
      (r = false ↔ cbuff_uint8_is_empty cb = true) ∧ (r = false ↔ cbuff_uint8_count cb = 0) ∧
      (r = false → d1 = d ∧ cb1 = cb ∧ m1 = m) := by
  by_cases hz : cbuff_uint8_count cb = 0
  · refine ⟨false, d, cb, m, mir_dequeue_of_empty cb m d h hz, ?_, ?_, fun _ => ⟨rfl, rfl, rfl⟩⟩
    · simp [(mir_count_eq_zero_iff h).mp hz]
    · simp [hz]
  · have hne : contents (cb, m) ≠ [] := by
      intro e
      have l0 := mir_contents_length (cb, m)
      rw [e, List.length_nil] at l0
      exact hz l0.symm
    obtain ⟨x, xs, hc⟩ := List.exists_cons_of_ne_nil hne
    obtain ⟨cb1, e1, _, _⟩ := mir_dequeue_spec cb m d x xs h hc
    have hne2 : ¬ (cbuff_uint8_is_empty cb = true) := fun e => hz ((mir_count_eq_zero_iff h).mpr e)
    refine ⟨true, x, cb1, m, e1, ?_, ?_, fun e => by simp at e⟩
    · simp [hne2]
    · simp [hz]

end Mirrored

namespace Pointer

theorem ptr_enqueue_iff {C : Nat} (cb : cbuff_uint8_t) (m : Mem) (b : Byte) (h : Inv C (cb, m)) :
    ∃ r cb1 m1, cbuff_uint8_enqueue cb m b = some (r, cb1, m1) ∧
      (r = true ↔ cbuff_uint8_count cb < cbuff_uint8_capacity cb) ∧
      (r = true → cbuff_uint8_count cb1 = cbuff_uint8_count cb + 1 ∧
        contents (cb1, m1) = contents (cb, m) ++ [b]) := by
  have hcap : cbuff_uint8_capacity cb = C := h.cap
  by_cases hlt : cbuff_uint8_count cb < C
  · refine ⟨true, _, _, ptr_enqueue_eq h hlt b, ?_,
      fun _ => ⟨?_, ptr_contents_enqueue h hlt b⟩⟩
    · simp [hcap, hlt]
    · exact rfl
  · refine ⟨false, cb, m, ptr_enqueue_full h (Nat.not_lt.mp hlt) b, ?_,
      fun e => by simp at e⟩
    simp [hcap, hlt]

theorem ptr_enqueue_when_full {C : Nat} (cb : cbuff_uint8_t) (m : Mem) (b : Byte)
    (h : Inv C (cb, m)) (hf : cbuff_uint8_count cb = cbuff_uint8_capacity cb) :
    cbuff_uint8_enqueue cb m b = some (false, cb, m) := by
  have hcap : cbuff_uint8_capacity cb = C := h.cap
  exact ptr_enqueue_full h (le_of_eq (hcap.symm.trans hf.symm)) b

theorem ptr_count_eq_zero_iff {C : Nat} {cb : cbuff_uint8_t} {m : Mem} (h : Inv C (cb, m)) :
    cbuff_uint8_count cb = 0 ↔ cbuff_uint8_is_empty cb = true := by
  rw [← ptr_contents_eq_nil_iff h, ← List.length_eq_zero, ptr_contents_length]
  exact Iff.rfl

theorem ptr_dequeue_of_empty {C : Nat} (cb : cbuff_uint8_t) (m : Mem) (d : Byte)
    (h : Inv C (cb, m)) (hz : cbuff_uint8_count cb = 0) :
    cbuff_uint8_dequeue cb m d = some (false, d, cb, m) := by
  have he := (ptr_count_eq_zero_iff h).mp hz
  exact ptr_dequeue_empty cb m hz d

theorem ptr_dequeue_front {C : Nat} (cb : cbuff_uint8_t) (m : Mem) (d d2 x : Byte)
    (xs : List Byte) (h : Inv C (cb, m)) (hc : contents (cb, m) = x :: xs) :
    ∃ cb1, cbuff_uint8_dequeue cb m d = some (true, x, cb1, m) ∧
      cbuff_uint8_count cb1 + 1 = cbuff_uint8_count cb ∧ contents (cb1, m) = xs ∧
      (xs = [] → cbuff_uint8_dequeue cb1 m d2 = some (false, d2, cb1, m)) ∧
      (∀ x1 rest, xs = x1 :: rest →
        ∃ cb2, cbuff_uint8_dequeue cb1 m d2 = some (true, x1, cb2, m)) := by
  obtain ⟨cb1, e1, h1, c1⟩ := ptr_dequeue_spec cb m d x xs h hc
  have l0 : (contents (cb, m)).length = cbuff_uint8_count cb := ptr_contents_length (cb, m)
  have l1 : (contents (cb1, m)).length = cbuff_uint8_count cb1 := ptr_contents_length (cb1, m)
  rw [hc, List.length_cons] at l0
  rw [c1] at l1
  refine ⟨cb1, e1, by omega, c1, ?_, ?_⟩
  · intro hx
    rw [hx, List.length_nil] at l1
    exact ptr_dequeue_of_empty cb1 m d2 h1 l1.symm
  · intro x1 rest hx
    obtain ⟨cb2, e2, _, _⟩ := ptr_dequeue_spec cb1 m d2 x1 rest h1 (by rw [c1, hx])
    exact ⟨cb2, e2⟩

theorem ptr_dequeue_fail_iff {C : Nat} (cb : cbuff_uint8_t) (m : Mem) (d : Byte)
    (h : Inv C (cb, m)) :
    ∃ r d1 cb1 m1, cbuff_uint8_dequeue cb m d = some (r, d1, cb1, m1) ∧
      (r = false ↔ cbuff_uint8_is_empty cb = true) ∧ (r = false ↔ cbuff_uint8_count cb = 0) ∧
      (r = false → d1 = d ∧ cb1 = cb ∧ m1 = m) := by
  by_cases hz : cbuff_uint8_count cb = 0
  · refine ⟨false, d, cb, m, ptr_dequeue_of_empty cb m d h hz, ?_, ?_, fun _ => ⟨rfl, rfl, rfl⟩⟩
    · simp [(ptr_count_eq_zero_iff h).mp hz]
    · simp [hz]
  · have hne : contents (cb, m) ≠ [] := by
      intro e
      have l0 := ptr_contents_length (cb, m)
      rw [e, List.length_nil] at l0
      exact hz l0.symm
    obtain ⟨x, xs, hc⟩ := List.exists_cons_of_ne_nil hne
    obtain ⟨cb1, e1, _, _⟩ := ptr_dequeue_spec cb m d x xs h hc
    have hne2 : ¬ (cbuff_uint8_is_empty cb = true) := fun e => hz ((ptr_count_eq_zero_iff h).mpr e)
    refine ⟨true, x, cb1, m, e1, ?_, ?_, fun e => by simp at e⟩
    · simp [hne2]
    · simp [hz]

end Pointer

/-! ## Overwrite and peek -/

namespace Index

theorem idx_overwrite_total {C : Nat} (cb : cbuff_t) (m : Mem) (b : Byte)
    (h : Inv C (cb, m)) :
    ∃ cb1 m1, cbuff_enqueue_overwrite cb m b = some (true, cb1, m1) ∧
      (cbuff_count cb = cbuff_capacity cb →
        contents (cb1, m1) = (contents (cb, m)).tail ++ [b] ∧
        cbuff_count cb1 = cbuff_capacity cb1) := by
  have hcap : cbuff_capacity cb = C := h.cap
  by_cases hlt : cbuff_count cb < C
  · refine ⟨_, _, idx_enqueue_overwrite_eq h hlt b, fun hf => ?_⟩
    rw [hf, hcap] at hlt
    exact absurd hlt (Nat.lt_irrefl _)
  · have hge : C ≤ cbuff_count cb := Nat.not_lt.mp hlt
    refine ⟨_, _, idx_enqueue_overwrite_full h hge b, fun hf =>
      ⟨idx_contents_overwrite_full h hge b, ?_⟩⟩
    exact hf

theorem idx_overwrite_round {C : Nat} (hC : 1 ≤ C) (cb : cbuff_t) (m : Mem)
    (ys : List Byte) (d : Byte) (h : Inv C (cb, m))
    (hf : cbuff_count cb = cbuff_capacity cb) (hy : ys.length = C) :
    ∃ cb1 m1 cb2,
      enqueueSeq cbuff_enqueue_overwrite cb m ys = some (List.replicate C true, cb1, m1) ∧
      dequeueSeq cbuff_dequeue cb1 m1 d C = some (ys.map (fun y => (true, y)), cb2, m1) := by
  have hcap : cbuff_capacity cb = C := h.cap
  have hl : (contents (cb, m)).length = C := by
    rw [idx_contents_length]; exact hf.trans hcap
  obtain ⟨cb1, m1, e1, h1, c1⟩ := enqueueSeq_rotate cbuff_enqueue_overwrite (Inv C)
    contents C hC (fun cb m b => idx_overwrite_spec cb m b) ys cb m h hl
  rw [List.drop_left' (hl.trans hy.symm)] at c1
  obtain ⟨cb2, e2, _, _⟩ := dequeueSeq_take cbuff_dequeue (Inv C) contents
    (fun cb m d x xs => idx_dequeue_spec cb m d x xs) ys [] cb1 m1 d h1 (by simpa using c1)
  rw [hy] at e1 e2
  exact ⟨cb1, m1, cb2, e1, e2⟩

theorem idx_peek_as_dequeue {C : Nat} (cb : cbuff_t) (m : Mem) (d d2 : Byte) (i : Nat)
    (h : Inv C (cb, m)) (hi : i < cbuff_count cb) :
    ∃ v, cbuff_peek cb m d i = some (true, v, cb, m) ∧
      ∃ res cb1, dequeueSeq cbuff_dequeue cb m d2 (i + 1) = some (res, cb1, m) ∧
        res.length = i + 1 ∧ res[i]? = some (true, v) := by
  have hl : (contents (cb, m)).length = cbuff_count cb := idx_contents_length (cb, m)
  obtain ⟨v, e, hv⟩ := idx_peek_spec cb m d i h (by rw [hl]; exact hi)
  have hlt : ((contents (cb, m)).take (i + 1)).length = i + 1 := by
    rw [List.length_take, hl]; omega
  obtain ⟨cb1, e1, _, _⟩ := dequeueSeq_take cbuff_dequeue (Inv C) contents
    (fun cb m d x xs => idx_dequeue_spec cb m d x xs) ((contents (cb, m)).take (i + 1))
    ((contents (cb, m)).drop (i + 1)) cb m d2 h (List.take_append_drop _ _).symm
  rw [hlt] at e1
  refine ⟨v, e, _, cb1, e1, by rw [List.length_map, hlt], ?_⟩
  rw [List.getElem?_map, List.getElem?_take_of_lt (Nat.lt_succ_self i), hv]
  rfl

end Index

namespace Mirrored

theorem mir_overwrite_total {C : Nat} (cb : cbuff_uint8_t) (m : Mem) (b : Byte)
    (h : Inv C (cb, m)) :
    ∃ cb1 m1, cbuff_uint8_enqueue_overwrite cb m b = some (true, cb1, m1) ∧
      (cbuff_uint8_count cb = cbuff_uint8_capacity cb →
        contents (cb1, m1) = (contents (cb, m)).tail ++ [b] ∧
        cbuff_uint8_count cb1 = cbuff_uint8_capacity cb1) := by
  have hcap : cbuff_uint8_capacity cb = C := h.cap
  by_cases hlt : cbuff_uint8_count cb < C
  · refine ⟨_, _, mir_enqueue_overwrite_eq h hlt b, fun hf => ?_⟩
    rw [hf, hcap] at hlt
    exact absurd hlt (Nat.lt_irrefl _)
  · have hge : C ≤ cbuff_uint8_count cb := Nat.not_lt.mp hlt
    refine ⟨_, _, mir_enqueue_overwrite_full h hge b, fun hf =>
      ⟨mir_contents_overwrite_full h hge b, ?_⟩⟩
    exact (mir_count_both_succ h hge).trans hf

theorem mir_overwrite_round {C : Nat} (hC : 1 ≤ C) (cb : cbuff_uint8_t) (m : Mem)
    (ys : List Byte) (d : Byte) (h : Inv C (cb, m))
    (hf : cbuff_uint8_count cb = cbuff_uint8_capacity cb) (hy : ys.length = C) :
    ∃ cb1 m1 cb2,
      enqueueSeq cbuff_uint8_enqueue_overwrite cb m ys = some (List.replicate C true, cb1, m1) ∧
      dequeueSeq cbuff_uint8_dequeue cb1 m1 d C = some (ys.map (fun y => (true, y)), cb2, m1) := by
  have hcap : cbuff_uint8_capacity cb = C := h.cap
  have hl : (contents (cb, m)).length = C := by
    rw [mir_contents_length]; exact hf.trans hcap
  obtain ⟨cb1, m1, e1, h1, c1⟩ := enqueueSeq_rotate cbuff_uint8_enqueue_overwrite (Inv C)
    contents C hC (fun cb m b => mir_overwrite_spec cb m b) ys cb m h hl
  rw [List.drop_left' (hl.trans hy.symm)] at c1
  obtain ⟨cb2, e2, _, _⟩ := dequeueSeq_take cbuff_uint8_dequeue (Inv C) contents
    (fun cb m d x xs => mir_dequeue_spec cb m d x xs) ys [] cb1 m1 d h1 (by simpa using c1)
  rw [hy] at e1 e2
  exact ⟨cb1, m1, cb2, e1, e2⟩

theorem mir_peek_as_dequeue {C : Nat} (cb : cbuff_uint8_t) (m : Mem) (d d2 : Byte) (i : Nat)
    (h : Inv C (cb, m)) (hi : i < cbuff_uint8_count cb) :
    ∃ v, cbuff_uint8_peek cb m d i = some (true, v, cb, m) ∧
      ∃ res cb1, dequeueSeq cbuff_uint8_dequeue cb m d2 (i + 1) = some (res, cb1, m) ∧
        res.length = i + 1 ∧ res[i]? = some (true, v) := by
  have hl : (contents (cb, m)).length = cbuff_uint8_count cb := mir_contents_length (cb, m)
  obtain ⟨v, e, hv⟩ := mir_peek_spec cb m d i h (by rw [hl]; exact hi)
  have hlt : ((contents (cb, m)).take (i + 1)).length = i + 1 := by
    rw [List.length_take, hl]; omega
  obtain ⟨cb1, e1, _, _⟩ := dequeueSeq_take cbuff_uint8_dequeue (Inv C) contents
    (fun cb m d x xs => mir_dequeue_spec cb m d x xs) ((contents (cb, m)).take (i + 1))
    ((contents (cb, m)).drop (i + 1)) cb m d2 h (List.take_append_drop _ _).symm
  rw [hlt] at e1
  refine ⟨v, e, _, cb1, e1, by rw [List.length_map, hlt], ?_⟩
  rw [List.getElem?_map, List.getElem?_take_of_lt (Nat.lt_succ_self i), hv]
  rfl

end Mirrored

namespace Pointer

theorem ptr_overwrite_total {C : Nat} (cb : cbuff_uint8_t) (m : Mem) (b : Byte)
    (h : Inv C (cb, m)) :
    ∃ cb1 m1, cbuff_uint8_enqueue_overwrite cb m b = some (true, cb1, m1) ∧
      (cbuff_uint8_count cb = cbuff_uint8_capacity cb →
        contents (cb1, m1) = (contents (cb, m)).tail ++ [b] ∧
        cbuff_uint8_count cb1 = cbuff_uint8_capacity cb1) := by
  have hcap : cbuff_uint8_capacity cb = C := h.cap
  by_cases hlt : cbuff_uint8_count cb < C
  · refine ⟨_, _, ptr_enqueue_overwrite_eq h hlt b, fun hf => ?_⟩
    rw [hf, hcap] at hlt
    exact absurd hlt (Nat.lt_irrefl _)
  · have hge : C ≤ cbuff_uint8_count cb := Nat.not_lt.mp hlt
    refine ⟨_, _, ptr_enqueue_overwrite_full h hge b, fun hf =>
      ⟨ptr_contents_overwrite_full h hge b, ?_⟩⟩
    exact hf

theorem ptr_overwrite_round {C : Nat} (hC : 1 ≤ C) (cb : cbuff_uint8_t) (m : Mem)
    (ys : List Byte) (d : Byte) (h : Inv C (cb, m))
    (hf : cbuff_uint8_count cb = cbuff_uint8_capacity cb) (hy : ys.length = C) :
    ∃ cb1 m1 cb2,
      enqueueSeq cbuff_uint8_enqueue_overwrite cb m ys = some (List.replicate C true, cb1, m1) ∧
      dequeueSeq cbuff_uint8_dequeue cb1 m1 d C = some (ys.map (fun y => (true, y)), cb2, m1) := by
  have hcap : cbuff_uint8_capacity cb = C := h.cap
  have hl : (contents (cb, m)).length = C := by
    rw [ptr_contents_length]; exact hf.trans hcap
  obtain ⟨cb1, m1, e1, h1, c1⟩ := enqueueSeq_rotate cbuff_uint8_enqueue_overwrite (Inv C)
    contents C hC (fun cb m b => ptr_overwrite_spec cb m b) ys cb m h hl
  rw [List.drop_left' (hl.trans hy.symm)] at c1
  obtain ⟨cb2, e2, _, _⟩ := dequeueSeq_take cbuff_uint8_dequeue (Inv C) contents
    (fun cb m d x xs => ptr_dequeue_spec cb m d x xs) ys [] cb1 m1 d h1 (by simpa using c1)
  rw [hy] at e1 e2
  exact ⟨cb1, m1, cb2, e1, e2⟩

theorem ptr_peek_as_dequeue {C : Nat} (cb : cbuff_uint8_t) (m : Mem) (d d2 : Byte) (i : Nat)
    (h : Inv C (cb, m)) (hi : i < cbuff_uint8_count cb) :
    ∃ v, cbuff_uint8_peek cb m d i = some (true, v, cb, m) ∧
      ∃ res cb1, dequeueSeq cbuff_uint8_dequeue cb m d2 (i + 1) = some (res, cb1, m) ∧
        res.length = i + 1 ∧ res[i]? = some (true, v) := by
  have hl : (contents (cb, m)).length = cbuff_uint8_count cb := ptr_contents_length (cb, m)
  obtain ⟨v, e, hv⟩ := ptr_peek_spec cb m d i h (by rw [hl]; exact hi)
  have hlt : ((contents (cb, m)).take (i + 1)).length = i + 1 := by
    rw [List.length_take, hl]; omega
  obtain ⟨cb1, e1, _, _⟩ := dequeueSeq_take cbuff_uint8_dequeue (Inv C) contents
    (fun cb m d x xs => ptr_dequeue_spec cb m d x xs) ((contents (cb, m)).take (i + 1))
    ((contents (cb, m)).drop (i + 1)) cb m d2 h (List.take_append_drop _ _).symm
  rw [hlt] at e1
  refine ⟨v, e, _, cb1, e1, by rw [List.length_map, hlt], ?_⟩
  rw [List.getElem?_map, List.getElem?_take_of_lt (Nat.lt_succ_self i), hv]
  rfl

end Pointer

/-! ## Mirrored index: empty and full -/

namespace Mirrored

theorem mir_sub_emod {C : Nat} {cb : cbuff_uint8_t} {m : Mem} (h : Inv C (cb, m)) :
    ((cb.tail : Int) - (cb.head : Int)) % (2 * (C : Int)) = (cbuff_uint8_count cb : Int) := by
  have hcap : cb.capacity = C := h.cap
  have hhd : cb.head < C * 2 := h.hd
  have htl : cb.tail < C * 2 := h.tl
  simp only [cbuff_uint8_count, hcap]
  split_ifs with hge
  · rw [Int.emod_eq_of_lt (by omega) (by omega)]
    omega
  · have e : ((cb.tail : Int) - (cb.head : Int)) % (2 * (C : Int))
        = ((cb.tail : Int) - (cb.head : Int) + 2 * (C : Int)) % (2 * (C : Int)) := by
      rw [Int.add_emod_self]
    rw [e, Int.emod_eq_of_lt (by omega) (by omega)]
    omega

theorem mir_is_full_iff {C : Nat} {cb : cbuff_uint8_t} {m : Mem} (h : Inv C (cb, m)) :
    cbuff_uint8_is_full cb ≠ 0 ↔ cbuff_uint8_count cb = C := by
  have hcap : cb.capacity = C := h.cap
  have hcnt : cbuff_uint8_count cb ≤ C := h.cnt
  have e : cbuff_uint8_is_full cb = if cbuff_uint8_count cb ≥ cb.capacity then 1 else 0 := rfl
  rw [e, hcap]
  split_ifs with hge
  · simp; omega
  · simp; omega

theorem mir_empty_full {C : Nat} (cb : cbuff_uint8_t) (m : Mem) (h : Inv C (cb, m)) :
    (cbuff_uint8_is_empty cb = true ↔ cb.head = cb.tail) ∧
    (cb.head = cb.tail ↔ cbuff_uint8_count cb = 0) ∧
    (cbuff_uint8_is_full cb ≠ 0 ↔
      ((cb.tail : Int) - (cb.head : Int)) % (2 * (C : Int)) = (C : Int)) ∧
    (((cb.tail : Int) - (cb.head : Int)) % (2 * (C : Int)) = (C : Int) ↔
      cbuff_uint8_count cb = C) ∧
    ¬ (cbuff_uint8_is_empty cb = true ∧ cbuff_uint8_is_full cb ≠ 0) ∧
    (cbuff_uint8_is_empty cb = true → cb.head % C = cb.tail % C) ∧
    (cbuff_uint8_is_full cb ≠ 0 → cb.head % C = cb.tail % C) := by
  have hpos : 0 < C := h.pos
  have hz := mir_count_zero_iff h
  have hfull := mir_is_full_iff h
  have hmod := mir_sub_emod h
  have he : cbuff_uint8_is_empty cb = true ↔ cb.head = cb.tail := by
    simp [cbuff_uint8_is_empty, eq_comm]
  have hi : ((cb.tail : Int) - (cb.head : Int)) % (2 * (C : Int)) = (C : Int) ↔
      cbuff_uint8_count cb = C := by
    rw [hmod]; exact Int.ofNat_inj
  refine ⟨he, ?_, hfull.trans hi.symm, hi, ?_, ?_, ?_⟩
  · rw [hz]; exact eq_comm
  · rintro ⟨h1, h2⟩
    have a := hz.mpr (he.mp h1).symm
    have b := hfull.mp h2
    omega
  · intro h1
    rw [he.mp h1]
  · intro h2
    rw [mir_tail_mod h, hfull.mp h2, Nat.add_mod_right]

end Mirrored

/-! ## The example states are reachable -/

theorem Index.idx_exEmpty_reachable : Index.Reachable 4 Index.exEmpty :=
  Index.idx_reachable_of_run ⟨100, [0, 0, 0, 0]⟩
    [.enqueue 1, .enqueue 2, .enqueue 3, .dequeue 0, .dequeue 0, .dequeue 0]
    (by decide) (by decide) (by decide)

theorem Index.idx_exFull_reachable : Index.Reachable 4 Index.exFull :=
  Index.idx_reachable_of_run ⟨100, [0, 0, 0, 0]⟩
    [.enqueue 0, .enqueue 1, .enqueue 2, .enqueue 3]
    (by decide) (by decide) (by decide)

theorem Index.idx_exPeek_reachable : Index.Reachable 3 Index.exPeek :=
  Index.idx_reachable_of_run ⟨100, [0, 0, 0]⟩
    [.enqueue_overwrite 1, .enqueue_overwrite 2, .enqueue_overwrite 3,
      .enqueue_overwrite 4]
    (by decide) (by decide) (by decide)

theorem Index.idx_exOne_reachable : Index.Reachable 4 Index.exOne :=
  Index.idx_reachable_of_run ⟨100, [9, 9, 9, 9]⟩
    [.enqueue 7]
    (by decide) (by decide) (by decide)

theorem Mirrored.mir_exEmpty_reachable : Mirrored.Reachable 4 Mirrored.exEmpty :=
  Mirrored.mir_reachable_of_run ⟨100, [0, 0, 0, 0]⟩
    [.enqueue 1, .enqueue 2, .enqueue 3, .enqueue 4, .dequeue 0, .dequeue 0,
      .dequeue 0, .dequeue 0, .enqueue 5, .enqueue 6, .enqueue 7, .dequeue 0, .dequeue 0,
      .dequeue 0]
    (by decide) (by decide) (by decide)

theorem Mirrored.mir_exFull_reachable : Mirrored.Reachable 4 Mirrored.exFull :=
  Mirrored.mir_reachable_of_run ⟨100, [0, 0, 0, 0]⟩
    [.enqueue 0, .enqueue 1, .enqueue 2, .enqueue 3]
    (by decide) (by decide) (by decide)

theorem Mirrored.mir_exPeek_reachable : Mirrored.Reachable 3 Mirrored.exPeek :=
  Mirrored.mir_reachable_of_run ⟨100, [0, 0, 0]⟩
    [.enqueue_overwrite 1, .enqueue_overwrite 2, .enqueue_overwrite 3,
      .enqueue_overwrite 4]
    (by decide) (by decide) (by decide)

theorem Mirrored.mir_exOne_reachable : Mirrored.Reachable 4 Mirrored.exOne :=
  Mirrored.mir_reachable_of_run ⟨100, [9, 9, 9, 9]⟩
    [.enqueue 7]
    (by decide) (by decide) (by decide)

theorem Pointer.ptr_exEmpty_reachable : Pointer.Reachable 4 Pointer.exEmpty :=
  Pointer.ptr_reachable_of_run ⟨100, [0, 0, 0, 0]⟩
    [.enqueue 1, .enqueue 2, .enqueue 3, .dequeue 0, .dequeue 0, .dequeue 0]
    (by decide) (by decide) (by decide)

theorem Pointer.ptr_exFull_reachable : Pointer.Reachable 4 Pointer.exFull :=
  Pointer.ptr_reachable_of_run ⟨100, [0, 0, 0, 0]⟩
    [.enqueue 0, .enqueue 1, .enqueue 2, .enqueue 3]
    (by decide) (by decide) (by decide)

theorem Pointer.ptr_exPeek_reachable : Pointer.Reachable 3 Pointer.exPeek :=
  Pointer.ptr_reachable_of_run ⟨100, [0, 0, 0]⟩
    [.enqueue_overwrite 1, .enqueue_overwrite 2, .enqueue_overwrite 3,
      .enqueue_overwrite 4]
    (by decide) (by decide) (by decide)

theorem Pointer.ptr_exOne_reachable : Pointer.Reachable 4 Pointer.exOne :=
  Pointer.ptr_reachable_of_run ⟨100, [9, 9, 9, 9]⟩
    [.enqueue 7]
    (by decide) (by decide) (by decide)

/-! ## The claims -/

/-- C3. In each of the three variants, in every reachable state that is full
(`count = capacity`), `enqueue b` returns failure and the structure (head,
tail, the stored count) and every byte of storage are what they were. -/
theorem C3_enqueue_full_unchanged (C : Nat) (hC : 1 ≤ C) (b : Byte)
    (si : Index.cbuff_t × Mem) (hri : Index.Reachable C si)
    (hfi : Index.cbuff_count si.1 = Index.cbuff_capacity si.1)
    (sm : Mirrored.cbuff_uint8_t × Mem) (hrm : Mirrored.Reachable C sm)
    (hfm : Mirrored.cbuff_uint8_count sm.1 = Mirrored.cbuff_uint8_capacity sm.1)
    (sp : Pointer.cbuff_uint8_t × Mem) (hrp : Pointer.Reachable C sp)
    (hfp : Pointer.cbuff_uint8_count sp.1 = Pointer.cbuff_uint8_capacity sp.1)
    :
    (Index.cbuff_enqueue si.1 si.2 b = some (false, si.1, si.2)) ∧
    (Mirrored.cbuff_uint8_enqueue sm.1 sm.2 b = some (false, sm.1, sm.2)) ∧
    (Pointer.cbuff_uint8_enqueue sp.1 sp.2 b = some (false, sp.1, sp.2)) :=
  ⟨Index.idx_enqueue_when_full si.1 si.2 b (hri.idx_inv hC) hfi,
    Mirrored.mir_enqueue_when_full sm.1 sm.2 b (hrm.mir_inv hC) hfm,
    Pointer.ptr_enqueue_when_full sp.1 sp.2 b (hrp.ptr_inv hC) hfp⟩

/-- C3, witness: capacity 4 holding 0, 1, 2, 3; `enqueue 0x33` fails and
changes nothing, and four dequeue calls still return 0, 1, 2, 3. -/
theorem C3_enqueue_full_unchanged_witness :
    ((Index.cbuff_enqueue Index.exFull.1 Index.exFull.2 0x33 = some (false, Index.exFull.1, Index.exFull.2)) ∧
     (Mirrored.cbuff_uint8_enqueue Mirrored.exFull.1 Mirrored.exFull.2 0x33 = some (false, Mirrored.exFull.1, Mirrored.exFull.2)) ∧
     (Pointer.cbuff_uint8_enqueue Pointer.exFull.1 Pointer.exFull.2 0x33 = some (false, Pointer.exFull.1, Pointer.exFull.2))) ∧
    (∃ cb2, dequeueSeq Index.cbuff_dequeue Index.exFull.1 Index.exFull.2 0 4
      = some ([(true, 0), (true, 1), (true, 2), (true, 3)], cb2, Index.exFull.2)) ∧
    (∃ cb2, dequeueSeq Mirrored.cbuff_uint8_dequeue Mirrored.exFull.1 Mirrored.exFull.2 0 4
      = some ([(true, 0), (true, 1), (true, 2), (true, 3)], cb2, Mirrored.exFull.2)) ∧
    (∃ cb2, dequeueSeq Pointer.cbuff_uint8_dequeue Pointer.exFull.1 Pointer.exFull.2 0 4
      = some ([(true, 0), (true, 1), (true, 2), (true, 3)], cb2, Pointer.exFull.2)) :=
  ⟨C3_enqueue_full_unchanged 4 (by decide) 0x33
      Index.exFull Index.idx_exFull_reachable (by decide)
      Mirrored.exFull Mirrored.mir_exFull_reachable (by decide)
      Pointer.exFull Pointer.ptr_exFull_reachable (by decide),
    ⟨_, rfl⟩, ⟨_, rfl⟩, ⟨_, rfl⟩⟩

/-- C5. In each of the three variants, in every reachable state, `dequeue`
returns failure if and only if the buffer is empty (`count = 0`); when it
fails, the structure and the storage are unchanged and the output byte of the
caller is what it was. -/
theorem C5_dequeue_fail_iff_empty (C : Nat) (hC : 1 ≤ C) (d : Byte)
    (si : Index.cbuff_t × Mem) (hri : Index.Reachable C si)
    (sm : Mirrored.cbuff_uint8_t × Mem) (hrm : Mirrored.Reachable C sm)
    (sp : Pointer.cbuff_uint8_t × Mem) (hrp : Pointer.Reachable C sp)
    :
    (∃ r d1 cb1 m1, Index.cbuff_dequeue si.1 si.2 d = some (r, d1, cb1, m1) ∧
      (r = false ↔ Index.cbuff_is_empty si.1 = true) ∧
      (r = false ↔ Index.cbuff_count si.1 = 0) ∧
      (r = false → d1 = d ∧ cb1 = si.1 ∧ m1 = si.2)) ∧
    (∃ r d1 cb1 m1, Mirrored.cbuff_uint8_dequeue sm.1 sm.2 d = some (r, d1, cb1, m1) ∧
      (r = false ↔ Mirrored.cbuff_uint8_is_empty sm.1 = true) ∧
      (r = false ↔ Mirrored.cbuff_uint8_count sm.1 = 0) ∧
      (r = false → d1 = d ∧ cb1 = sm.1 ∧ m1 = sm.2)) ∧
    (∃ r d1 cb1 m1, Pointer.cbuff_uint8_dequeue sp.1 sp.2 d = some (r, d1, cb1, m1) ∧
      (r = false ↔ Pointer.cbuff_uint8_is_empty sp.1 = true) ∧
      (r = false ↔ Pointer.cbuff_uint8_count sp.1 = 0) ∧
      (r = false → d1 = d ∧ cb1 = sp.1 ∧ m1 = sp.2)) :=
  ⟨Index.idx_dequeue_fail_iff si.1 si.2 d (hri.idx_inv hC),
    Mirrored.mir_dequeue_fail_iff sm.1 sm.2 d (hrm.mir_inv hC),
    Pointer.ptr_dequeue_fail_iff sp.1 sp.2 d (hrp.ptr_inv hC)⟩

/-- C5, witness: capacity 4, empty with head at the last position before the
wrap; the output byte holds 0xFF. -/
theorem C5_dequeue_fail_iff_empty_witness :
    (∃ r d1 cb1 m1, Index.cbuff_dequeue Index.exEmpty.1 Index.exEmpty.2 0xFF = some (r, d1, cb1, m1) ∧
      (r = false ↔ Index.cbuff_is_empty Index.exEmpty.1 = true) ∧
      (r = false ↔ Index.cbuff_count Index.exEmpty.1 = 0) ∧
      (r = false → d1 = 0xFF ∧ cb1 = Index.exEmpty.1 ∧ m1 = Index.exEmpty.2)) ∧
    (∃ r d1 cb1 m1, Mirrored.cbuff_uint8_dequeue Mirrored.exEmpty.1 Mirrored.exEmpty.2 0xFF = some (r, d1, cb1, m1) ∧
      (r = false ↔ Mirrored.cbuff_uint8_is_empty Mirrored.exEmpty.1 = true) ∧
      (r = false ↔ Mirrored.cbuff_uint8_count Mirrored.exEmpty.1 = 0) ∧
      (r = false → d1 = 0xFF ∧ cb1 = Mirrored.exEmpty.1 ∧ m1 = Mirrored.exEmpty.2)) ∧
    (∃ r d1 cb1 m1, Pointer.cbuff_uint8_dequeue Pointer.exEmpty.1 Pointer.exEmpty.2 0xFF = some (r, d1, cb1, m1) ∧
      (r = false ↔ Pointer.cbuff_uint8_is_empty Pointer.exEmpty.1 = true) ∧
      (r = false ↔ Pointer.cbuff_uint8_count Pointer.exEmpty.1 = 0) ∧
      (r = false → d1 = 0xFF ∧ cb1 = Pointer.exEmpty.1 ∧ m1 = Pointer.exEmpty.2)) :=
  C5_dequeue_fail_iff_empty 4 (by decide) 0xFF
    Index.exEmpty Index.idx_exEmpty_reachable
    Mirrored.exEmpty Mirrored.mir_exEmpty_reachable
    Pointer.exEmpty Pointer.ptr_exEmpty_reachable

/-- C7. In the counted-index and mirrored-index variants, from every
reachable full state of capacity `C >= 1` and for every list `ys` of `C` bytes:
the `C` calls of `enqueue_overwrite` all return success, and `C` dequeue calls
then all return success and yield exactly the bytes of `ys`, in order. -/
theorem C7_overwrite_then_dequeue (C : Nat) (hC : 1 ≤ C) (ys : List Byte)
    (hy : ys.length = C) (d : Byte)
    (si : Index.cbuff_t × Mem) (hri : Index.Reachable C si)
    (hfi : Index.cbuff_count si.1 = Index.cbuff_capacity si.1)
    (sm : Mirrored.cbuff_uint8_t × Mem) (hrm : Mirrored.Reachable C sm)
    (hfm : Mirrored.cbuff_uint8_count sm.1 = Mirrored.cbuff_uint8_capacity sm.1)
    :
    (∃ cb1 m1 cb2,
      enqueueSeq Index.cbuff_enqueue_overwrite si.1 si.2 ys
        = some (List.replicate C true, cb1, m1) ∧
      dequeueSeq Index.cbuff_dequeue cb1 m1 d C = some (ys.map (fun y => (true, y)), cb2, m1)) ∧
    (∃ cb1 m1 cb2,
      enqueueSeq Mirrored.cbuff_uint8_enqueue_overwrite sm.1 sm.2 ys
        = some (List.replicate C true, cb1, m1) ∧
      dequeueSeq Mirrored.cbuff_uint8_dequeue cb1 m1 d C = some (ys.map (fun y => (true, y)), cb2, m1)) :=
  ⟨Index.idx_overwrite_round hC si.1 si.2 ys d (hri.idx_inv hC) hfi hy,
    Mirrored.mir_overwrite_round hC sm.1 sm.2 ys d (hrm.mir_inv hC) hfm hy⟩

/-- C7, witness: capacity 4 holding 0, 1, 2, 3, then `enqueue_overwrite` of
1, 2, 3, 4; the dequeue calls give 1, 2, 3, 4. -/
theorem C7_overwrite_then_dequeue_witness :
    (∃ cb1 m1 cb2,
      enqueueSeq Index.cbuff_enqueue_overwrite Index.exFull.1 Index.exFull.2 [1, 2, 3, 4]
        = some (List.replicate 4 true, cb1, m1) ∧
      dequeueSeq Index.cbuff_dequeue cb1 m1 0xFF 4 = some ([1, 2, 3, 4].map (fun y => (true, y)), cb2, m1)) ∧
    (∃ cb1 m1 cb2,
      enqueueSeq Mirrored.cbuff_uint8_enqueue_overwrite Mirrored.exFull.1 Mirrored.exFull.2 [1, 2, 3, 4]
        = some (List.replicate 4 true, cb1, m1) ∧
      dequeueSeq Mirrored.cbuff_uint8_dequeue cb1 m1 0xFF 4 = some ([1, 2, 3, 4].map (fun y => (true, y)), cb2, m1)) :=
  C7_overwrite_then_dequeue 4 (by decide) [1, 2, 3, 4] (by decide) 0xFF
    Index.exFull Index.idx_exFull_reachable (by decide)
    Mirrored.exFull Mirrored.mir_exFull_reachable (by decide)

/-- C9. The code at the failing input: capacity 4 on a storage array filled
with 9, after `enqueue 7` the buffer holds the single byte 7 (`count = 1`);
in each of the three variants `peek` with offset 1, which is the count,
returns success with the byte 9 of the slot at tail, a byte that was never
enqueued. -/
theorem C9_peek_at_count_succeeds :
    (Index.Reachable 4 Index.exOne ∧ Index.cbuff_count Index.exOne.1 = 1 ∧
      Index.contents Index.exOne = [7] ∧
      Index.cbuff_peek Index.exOne.1 Index.exOne.2 0xFF 1
        = some (true, 9, Index.exOne.1, Index.exOne.2)) ∧
    (Mirrored.Reachable 4 Mirrored.exOne ∧ Mirrored.cbuff_uint8_count Mirrored.exOne.1 = 1 ∧
      Mirrored.contents Mirrored.exOne = [7] ∧
      Mirrored.cbuff_uint8_peek Mirrored.exOne.1 Mirrored.exOne.2 0xFF 1
        = some (true, 9, Mirrored.exOne.1, Mirrored.exOne.2)) ∧
    (Pointer.Reachable 4 Pointer.exOne ∧ Pointer.cbuff_uint8_count Pointer.exOne.1 = 1 ∧
      Pointer.contents Pointer.exOne = [7] ∧
      Pointer.cbuff_uint8_peek Pointer.exOne.1 Pointer.exOne.2 0xFF 1
        = some (true, 9, Pointer.exOne.1, Pointer.exOne.2)) :=
  ⟨⟨Index.idx_exOne_reachable, by decide, by decide, by decide⟩,
    ⟨Mirrored.mir_exOne_reachable, by decide, by decide, by decide⟩,
    ⟨Pointer.ptr_exOne_reachable, by decide, by decide, by decide⟩⟩

/-- C10. Mirrored-index variant: in every reachable state of capacity
`C >= 1`, `is_empty` is true iff `head = tail` iff `count = 0`, and `is_full`
is true (non-zero) iff `(tail - head) mod (2 * C) = C` (over the integers) iff
`count = C`; `is_empty` and `is_full` are never both true, although
`head % C = tail % C` holds both when empty and when full. -/
theorem C10_mirrored_empty_full (C : Nat) (hC : 1 ≤ C)
    (s : Mirrored.cbuff_uint8_t × Mem) (hr : Mirrored.Reachable C s) :
    (Mirrored.cbuff_uint8_is_empty s.1 = true ↔ s.1.head = s.1.tail) ∧
    (s.1.head = s.1.tail ↔ Mirrored.cbuff_uint8_count s.1 = 0) ∧
    (Mirrored.cbuff_uint8_is_full s.1 ≠ 0 ↔
      ((s.1.tail : Int) - (s.1.head : Int)) % (2 * (C : Int)) = (C : Int)) ∧
    (((s.1.tail : Int) - (s.1.head : Int)) % (2 * (C : Int)) = (C : Int) ↔
      Mirrored.cbuff_uint8_count s.1 = C) ∧
    ¬ (Mirrored.cbuff_uint8_is_empty s.1 = true ∧ Mirrored.cbuff_uint8_is_full s.1 ≠ 0) ∧
    (Mirrored.cbuff_uint8_is_empty s.1 = true → s.1.head % C = s.1.tail % C) ∧
    (Mirrored.cbuff_uint8_is_full s.1 ≠ 0 → s.1.head % C = s.1.tail % C) :=
  Mirrored.mir_empty_full s.1 s.2 (hr.mir_inv hC)

/-- C10, witness: capacity 4, the full state holding 0, 1, 2, 3 (head 0,
tail 4, so `head % 4 = tail % 4` and `is_full` is 1), next to the empty state
with head and tail at 7. -/
theorem C10_mirrored_empty_full_witness :
    ((Mirrored.cbuff_uint8_is_empty Mirrored.exFull.1 = true ↔ Mirrored.exFull.1.head = Mirrored.exFull.1.tail) ∧
     (Mirrored.exFull.1.head = Mirrored.exFull.1.tail ↔ Mirrored.cbuff_uint8_count Mirrored.exFull.1 = 0) ∧
     (Mirrored.cbuff_uint8_is_full Mirrored.exFull.1 ≠ 0 ↔
       ((Mirrored.exFull.1.tail : Int) - (Mirrored.exFull.1.head : Int)) % (2 * ((4 : Nat) : Int)) = ((4 : Nat) : Int)) ∧
     (((Mirrored.exFull.1.tail : Int) - (Mirrored.exFull.1.head : Int)) % (2 * ((4 : Nat) : Int)) = ((4 : Nat) : Int) ↔
       Mirrored.cbuff_uint8_count Mirrored.exFull.1 = (4 : Nat)) ∧
     ¬ (Mirrored.cbuff_uint8_is_empty Mirrored.exFull.1 = true ∧
       Mirrored.cbuff_uint8_is_full Mirrored.exFull.1 ≠ 0) ∧
     (Mirrored.cbuff_uint8_is_empty Mirrored.exFull.1 = true →
       Mirrored.exFull.1.head % (4 : Nat) = Mirrored.exFull.1.tail % (4 : Nat)) ∧
     (Mirrored.cbuff_uint8_is_full Mirrored.exFull.1 ≠ 0 →
       Mirrored.exFull.1.head % (4 : Nat) = Mirrored.exFull.1.tail % (4 : Nat))) ∧
    (Mirrored.cbuff_uint8_is_full Mirrored.exFull.1 = 1 ∧
      Mirrored.cbuff_uint8_is_empty Mirrored.exFull.1 = false ∧
      Mirrored.cbuff_uint8_count Mirrored.exFull.1 = 4) ∧
    (Mirrored.cbuff_uint8_is_full Mirrored.exEmpty.1 = 0 ∧
      Mirrored.cbuff_uint8_is_empty Mirrored.exEmpty.1 = true ∧
      Mirrored.cbuff_uint8_count Mirrored.exEmpty.1 = 0) :=
  ⟨C10_mirrored_empty_full 4 (by decide) Mirrored.exFull Mirrored.mir_exFull_reachable,
    by decide, by decide⟩

/-! ## Invariants of the reachable states; the bytes written -/

theorem writesOne_set (m : Mem) (i : Nat) (b : Byte) (hi : i < m.bytes.length) :
    WritesOne m { m with bytes := m.bytes.set i b } i b := by
  refine ⟨rfl, by simp, ?_, ?_⟩
  · simp [List.getElem?_set_self, hi]
  · intro j hj
    simp [List.getElem?_set_ne (Ne.symm hj)]

namespace Index

theorem idx_enqueue_writes {C : Nat} (cb : cbuff_t) (m : Mem) (b : Byte) (h : Inv C (cb, m)) :
    ∃ r cb1 m1, cbuff_enqueue cb m b = some (r, cb1, m1) ∧
      (r = true → cb.tail < C ∧ WritesOne m m1 (cb.tail) b) ∧
      (r = false → m1 = m) := by
  have hlen : C ≤ m.bytes.length := h.len
  by_cases hlt : cb.count < C
  · refine ⟨true, _, _, idx_enqueue_eq h hlt b, fun _ => ⟨h.idx_tail_lt, ?_⟩,
      fun e => by simp at e⟩
    exact writesOne_set m _ b (lt_of_lt_of_le (h.idx_tail_lt) hlen)
  · exact ⟨false, cb, m, idx_enqueue_full h (Nat.not_lt.mp hlt) b, fun e => by simp at e,
      fun _ => rfl⟩

theorem idx_overwrite_writes {C : Nat} (cb : cbuff_t) (m : Mem) (b : Byte)
    (h : Inv C (cb, m)) :
    ∃ cb1 m1, cbuff_enqueue_overwrite cb m b = some (true, cb1, m1) ∧
      cb.tail < C ∧ WritesOne m m1 (cb.tail) b := by
  have hlen : C ≤ m.bytes.length := h.len
  by_cases hlt : cb.count < C
  · refine ⟨_, _, idx_enqueue_overwrite_eq h hlt b, h.idx_tail_lt, ?_⟩
    exact writesOne_set m _ b (lt_of_lt_of_le (h.idx_tail_lt) hlen)
  · refine ⟨_, _, idx_enqueue_overwrite_full h (Nat.not_lt.mp hlt) b, h.idx_tail_lt, ?_⟩
    exact writesOne_set m _ b (lt_of_lt_of_le (h.idx_tail_lt) hlen)

end Index

namespace Mirrored

theorem mir_enqueue_writes {C : Nat} (cb : cbuff_uint8_t) (m : Mem) (b : Byte) (h : Inv C (cb, m)) :
    ∃ r cb1 m1, cbuff_uint8_enqueue cb m b = some (r, cb1, m1) ∧
      (r = true → cb.tail % C < C ∧ WritesOne m m1 (cb.tail % C) b) ∧
      (r = false → m1 = m) := by
  have hlen : C ≤ m.bytes.length := h.len
  by_cases hlt : cbuff_uint8_count cb < C
  · refine ⟨true, _, _, mir_enqueue_eq h hlt b, fun _ => ⟨Nat.mod_lt _ h.pos, ?_⟩,
      fun e => by simp at e⟩
    exact writesOne_set m _ b (lt_of_lt_of_le (Nat.mod_lt _ h.pos) hlen)
  · exact ⟨false, cb, m, mir_enqueue_full h (Nat.not_lt.mp hlt) b, fun e => by simp at e,
      fun _ => rfl⟩

theorem mir_overwrite_writes {C : Nat} (cb : cbuff_uint8_t) (m : Mem) (b : Byte)
    (h : Inv C (cb, m)) :
    ∃ cb1 m1, cbuff_uint8_enqueue_overwrite cb m b = some (true, cb1, m1) ∧
      cb.tail % C < C ∧ WritesOne m m1 (cb.tail % C) b := by
  have hlen : C ≤ m.bytes.length := h.len
  by_cases hlt : cbuff_uint8_count cb < C
  · refine ⟨_, _, mir_enqueue_overwrite_eq h hlt b, Nat.mod_lt _ h.pos, ?_⟩
    exact writesOne_set m _ b (lt_of_lt_of_le (Nat.mod_lt _ h.pos) hlen)
  · refine ⟨_, _, mir_enqueue_overwrite_full h (Nat.not_lt.mp hlt) b, Nat.mod_lt _ h.pos, ?_⟩
    exact writesOne_set m _ b (lt_of_lt_of_le (Nat.mod_lt _ h.pos) hlen)

end Mirrored

namespace Pointer

theorem ptr_enqueue_writes {C : Nat} (cb : cbuff_uint8_t) (m : Mem) (b : Byte) (h : Inv C (cb, m)) :
    ∃ r cb1 m1, cbuff_uint8_enqueue cb m b = some (r, cb1, m1) ∧
      (r = true → cb.tail - cb.buffer < C ∧ WritesOne m m1 (cb.tail - cb.buffer) b) ∧
      (r = false → m1 = m) := by
  have hbuf : cb.buffer = m.base := h.buf
  have hslot : cb.tail - cb.buffer < C := by
    have h1 : cb.tail < m.base + C := h.ptr_tail_lt
    have h2 : 0 < C := h.pos
    omega
  rw [hbuf] at hslot ⊢
  have hlen : C ≤ m.bytes.length := h.len
  by_cases hlt : cb.count < C
  · refine ⟨true, _, _, ptr_enqueue_eq h hlt b, fun _ => ⟨hslot, ?_⟩,
      fun e => by simp at e⟩
    exact writesOne_set m _ b (lt_of_lt_of_le (hslot) hlen)
  · exact ⟨false, cb, m, ptr_enqueue_full h (Nat.not_lt.mp hlt) b, fun e => by simp at e,
      fun _ => rfl⟩

theorem ptr_overwrite_writes {C : Nat} (cb : cbuff_uint8_t) (m : Mem) (b : Byte)
    (h : Inv C (cb, m)) :
    ∃ cb1 m1, cbuff_uint8_enqueue_overwrite cb m b = some (true, cb1, m1) ∧
      cb.tail - cb.buffer < C ∧ WritesOne m m1 (cb.tail - cb.buffer) b := by
  have hbuf : cb.buffer = m.base := h.buf
  have hslot : cb.tail - cb.buffer < C := by
    have h1 : cb.tail < m.base + C := h.ptr_tail_lt
    have h2 : 0 < C := h.pos
    omega
  rw [hbuf] at hslot ⊢
  have hlen : C ≤ m.bytes.length := h.len
  by_cases hlt : cb.count < C
  · refine ⟨_, _, ptr_enqueue_overwrite_eq h hlt b, hslot, ?_⟩
    exact writesOne_set m _ b (lt_of_lt_of_le (hslot) hlen)
  · refine ⟨_, _, ptr_enqueue_overwrite_full h (Nat.not_lt.mp hlt) b, hslot, ?_⟩
    exact writesOne_set m _ b (lt_of_lt_of_le (hslot) hlen)

end Pointer

namespace Pointer

theorem ptr_cursors {C : Nat} (cb : cbuff_uint8_t) (m : Mem) (h : Inv C (cb, m)) :
    cb.buffer ≤ cb.head ∧ cb.head - cb.buffer < C ∧ cb.head ≠ cb.bufferEnd ∧
    cb.buffer ≤ cb.tail ∧ cb.tail - cb.buffer < C ∧ cb.tail ≠ cb.bufferEnd := by
  have hbuf : cb.buffer = m.base := h.buf
  have hend : cb.bufferEnd = m.base + C := h.bend
  have h1 : m.base ≤ cb.head := h.hd_ge
  have h2 : cb.head < m.base + C := h.hd_lt
  have h3 : m.base ≤ cb.tail := h.ptr_tail_ge
  have h4 : cb.tail < m.base + C := h.ptr_tail_lt
  rw [hbuf, hend]
  refine ⟨h1, ?_, ?_, h3, ?_, ?_⟩ <;> omega

end Pointer

/-! ## The claims, continued -/

/-- C11. Occupancy invariant, in each of the three variants: in every
reachable state of capacity `C >= 1`, `0 <= count <= C`, where `count` is the
stored counter (counted-index, pointer-based) or the value derived from head
and tail (mirrored-index). -/
theorem C11_count_bounds (C : Nat) (hC : 1 ≤ C)
    (si : Index.cbuff_t × Mem) (hri : Index.Reachable C si)
    (sm : Mirrored.cbuff_uint8_t × Mem) (hrm : Mirrored.Reachable C sm)
    (sp : Pointer.cbuff_uint8_t × Mem) (hrp : Pointer.Reachable C sp)
    :
    (0 ≤ Index.cbuff_count si.1 ∧ Index.cbuff_count si.1 ≤ C) ∧
    (0 ≤ Mirrored.cbuff_uint8_count sm.1 ∧ Mirrored.cbuff_uint8_count sm.1 ≤ C) ∧
    (0 ≤ Pointer.cbuff_uint8_count sp.1 ∧ Pointer.cbuff_uint8_count sp.1 ≤ C) :=
  ⟨⟨Nat.zero_le _, (hri.idx_inv hC).cnt⟩, ⟨Nat.zero_le _, (hrm.mir_inv hC).cnt⟩,
    ⟨Nat.zero_le _, (hrp.ptr_inv hC).cnt⟩⟩

/-- C11, witness: capacity 4, the full states holding 0, 1, 2, 3. -/
theorem C11_count_bounds_witness :
    (0 ≤ Index.cbuff_count Index.exFull.1 ∧ Index.cbuff_count Index.exFull.1 ≤ 4) ∧
    (0 ≤ Mirrored.cbuff_uint8_count Mirrored.exFull.1 ∧ Mirrored.cbuff_uint8_count Mirrored.exFull.1 ≤ 4) ∧
    (0 ≤ Pointer.cbuff_uint8_count Pointer.exFull.1 ∧ Pointer.cbuff_uint8_count Pointer.exFull.1 ≤ 4) :=
  C11_count_bounds 4 (by decide)
    Index.exFull Index.idx_exFull_reachable
    Mirrored.exFull Mirrored.mir_exFull_reachable
    Pointer.exFull Pointer.ptr_exFull_reachable

/-- C12. Index-domain invariant: in every reachable state of capacity
`C >= 1`, the counted-index variant has `head < C` and `tail < C`, the
mirrored-index variant has `head < 2 * C` and `tail < 2 * C`, and in the
pointer-based variant both cursors are at an offset in `[0, C)` from the start
of storage, so neither equals `bufferEnd`. -/
theorem C12_index_domains (C : Nat) (hC : 1 ≤ C)
    (si : Index.cbuff_t × Mem) (hri : Index.Reachable C si)
    (sm : Mirrored.cbuff_uint8_t × Mem) (hrm : Mirrored.Reachable C sm)
    (sp : Pointer.cbuff_uint8_t × Mem) (hrp : Pointer.Reachable C sp)
    :
    (si.1.head < C ∧ si.1.tail < C) ∧
    (sm.1.head < 2 * C ∧ sm.1.tail < 2 * C) ∧
    (sp.1.buffer ≤ sp.1.head ∧ sp.1.head - sp.1.buffer < C ∧
      sp.1.head ≠ sp.1.bufferEnd ∧
      sp.1.buffer ≤ sp.1.tail ∧ sp.1.tail - sp.1.buffer < C ∧
      sp.1.tail ≠ sp.1.bufferEnd) := by
  have hi := hri.idx_inv hC
  have hm := hrm.mir_inv hC
  have h1 : sm.1.head < C * 2 := hm.hd
  have h2 : sm.1.tail < C * 2 := hm.tl
  exact ⟨⟨hi.hd, hi.idx_tail_lt⟩, ⟨by omega, by omega⟩,
    Pointer.ptr_cursors sp.1 sp.2 (hrp.ptr_inv hC)⟩

/-- C12, witness: capacity 4, the empty states whose head and tail sit at the
last position before the wrap. -/
theorem C12_index_domains_witness :
    (Index.exEmpty.1.head < 4 ∧ Index.exEmpty.1.tail < 4) ∧
    (Mirrored.exEmpty.1.head < 2 * 4 ∧ Mirrored.exEmpty.1.tail < 2 * 4) ∧
    (Pointer.exEmpty.1.buffer ≤ Pointer.exEmpty.1.head ∧ Pointer.exEmpty.1.head - Pointer.exEmpty.1.buffer < 4 ∧
      Pointer.exEmpty.1.head ≠ Pointer.exEmpty.1.bufferEnd ∧
      Pointer.exEmpty.1.buffer ≤ Pointer.exEmpty.1.tail ∧ Pointer.exEmpty.1.tail - Pointer.exEmpty.1.buffer < 4 ∧
      Pointer.exEmpty.1.tail ≠ Pointer.exEmpty.1.bufferEnd) :=
  C12_index_domains 4 (by decide)
    Index.exEmpty Index.idx_exEmpty_reachable
    Mirrored.exEmpty Mirrored.mir_exEmpty_reachable
    Pointer.exEmpty Pointer.ptr_exEmpty_reachable

/-! ## Construction and reset -/

namespace Index

theorem idx_init_eq (old : cbuff_t) (C p : Nat) (hp : p ≠ 0) :
    cbuff_init (some old) C p = (true, some (cbuff_struct_full_prefill C p)) := by
  simp [cbuff_init, cbuff_struct_full_prefill, hp]

theorem idx_init_null (old : cbuff_t) (C : Nat) :
    cbuff_init (some old) C 0 = (false, some old) ∧ cbuff_init none C 0 = (false, none) := by
  simp [cbuff_init]

theorem idx_step_base {C : Nat} {s s1 : cbuff_t × Mem} (h : Inv C s) (op : Op)
    (hs : step s op = some s1) : s1.2.base = s.2.base := by
  obtain ⟨cb, m⟩ := s
  cases op with
  | reset =>
    simp only [step, Option.some.injEq] at hs
    subst hs; rfl
  | enqueue b =>
    by_cases hlt : cb.count < C
    · simp only [step, idx_enqueue_eq h hlt, Option.map_some', Option.some.injEq] at hs
      subst hs; rfl
    · simp only [step, idx_enqueue_full h (Nat.not_lt.mp hlt), Option.map_some',
        Option.some.injEq] at hs
      subst hs; rfl
  | enqueue_overwrite b =>
    by_cases hlt : cb.count < C
    · simp only [step, idx_enqueue_overwrite_eq h hlt, Option.map_some',
        Option.some.injEq] at hs
      subst hs; rfl
    · simp only [step, idx_enqueue_overwrite_full h (Nat.not_lt.mp hlt), Option.map_some',
        Option.some.injEq] at hs
      subst hs; rfl
  | dequeue d =>
    by_cases hz : cb.count = 0
    · simp only [step, idx_dequeue_empty cb m hz, Option.map_some', Option.some.injEq] at hs
      subst hs; rfl
    · simp only [step, idx_dequeue_eq h hz, Option.map_some', Option.some.injEq] at hs
      subst hs; rfl
  | peek d offset =>
    by_cases hf : cb.count = 0 ∨ cb.count < offset
    · simp only [step, idx_peek_fail cb m d offset hf, Option.map_some',
        Option.some.injEq] at hs
      subst hs; rfl
    · have hne : cb.count ≠ 0 := fun e => hf (Or.inl e)
      have ho : offset ≤ cb.count := Nat.not_lt.mp (fun e => hf (Or.inr e))
      simp only [step, idx_peek_eq h hne d offset ho, Option.map_some',
        Option.some.injEq] at hs
      subst hs; rfl

theorem idx_run_base {C : Nat} (ops : List Op) : ∀ {s s1 : cbuff_t × Mem}, Inv C s →
    run s ops = some s1 → s1.2.base = s.2.base := by
  induction ops with
  | nil =>
    intro s s1 _ hs
    simp only [run, Option.some.injEq] at hs
    subst hs; rfl
  | cons op ops ih =>
    intro s s1 h hs
    simp only [run, Option.bind_eq_some] at hs
    obtain ⟨s2, h2, h3⟩ := hs
    rw [ih (idx_inv_step h op h2) h3, idx_step_base h op h2]

theorem idx_reset_eq_prefill {C : Nat} (hC : 1 ≤ C) (m0 : Mem) (hb : m0.base ≠ 0)
    (hlen : C ≤ m0.bytes.length) (ops : List Op) (s : cbuff_t × Mem)
    (hr : run (cbuff_struct_full_prefill C m0.base, m0) ops = some s) :
    (cbuff_reset s.1).2 = cbuff_struct_full_prefill C m0.base := by
  have h0 : Inv C (cbuff_struct_full_prefill C m0.base, m0) :=
    idx_inv_init hC hlen (idx_init_eq (cbuff_struct_full_prefill C m0.base) C m0.base hb)
  have h := idx_inv_run ops h0 hr
  have hbase : s.2.base = m0.base := idx_run_base ops h0 hr
  obtain ⟨cb, m⟩ := s
  have hcap : cb.capacity = C := h.cap
  have hbuf : cb.buffer = m.base := h.buf
  have hbase2 : m.base = m0.base := hbase
  simp [cbuff_reset, cbuff_struct_full_prefill, hcap, hbuf, hbase2]

theorem idx_fresh_queries {C : Nat} (hC : 1 ≤ C) (p : Nat) :
    cbuff_count (cbuff_struct_full_prefill C p) = 0 ∧
    cbuff_is_empty (cbuff_struct_full_prefill C p) = true ∧
    cbuff_is_full (cbuff_struct_full_prefill C p) = false ∧
    cbuff_capacity (cbuff_struct_full_prefill C p) = C := by
  have hC2 : ¬ C ≤ 0 := by omega
  simp [cbuff_count, cbuff_is_empty, cbuff_is_full, cbuff_capacity, cbuff_struct_full_prefill,
    hC2]

end Index

namespace Mirrored

theorem mir_init_eq (old : cbuff_uint8_t) (C p : Nat) (hp : p ≠ 0) :
    cbuff_uint8_init (some old) C p = (true, some (cbuff_uint8_struct_full_prefill C p)) := by
  simp [cbuff_uint8_init, cbuff_uint8_struct_full_prefill, hp]

theorem mir_init_null (old : cbuff_uint8_t) (C : Nat) :
    cbuff_uint8_init (some old) C 0 = (false, some old) ∧ cbuff_uint8_init none C 0 = (false, none) := by
  simp [cbuff_uint8_init]

theorem mir_step_base {C : Nat} {s s1 : cbuff_uint8_t × Mem} (h : Inv C s) (op : Op)
    (hs : step s op = some s1) : s1.2.base = s.2.base := by
  obtain ⟨cb, m⟩ := s
  cases op with
  | reset =>
    simp only [step, Option.some.injEq] at hs
    subst hs; rfl
  | enqueue b =>
    by_cases hlt : cbuff_uint8_count cb < C
    · simp only [step, mir_enqueue_eq h hlt, Option.map_some', Option.some.injEq] at hs
      subst hs; rfl
    · simp only [step, mir_enqueue_full h (Nat.not_lt.mp hlt), Option.map_some',
        Option.some.injEq] at hs
      subst hs; rfl
  | enqueue_overwrite b =>
    by_cases hlt : cbuff_uint8_count cb < C
    · simp only [step, mir_enqueue_overwrite_eq h hlt, Option.map_some',
        Option.some.injEq] at hs
      subst hs; rfl
    · simp only [step, mir_enqueue_overwrite_full h (Nat.not_lt.mp hlt), Option.map_some',
        Option.some.injEq] at hs
      subst hs; rfl
  | dequeue d =>
    by_cases hz : cb.tail = cb.head
    · simp only [step, mir_dequeue_empty cb m hz, Option.map_some', Option.some.injEq] at hs
      subst hs; rfl
    · simp only [step, mir_dequeue_eq h hz, Option.map_some', Option.some.injEq] at hs
      subst hs; rfl
  | peek d offset =>
    by_cases hf : cb.tail = cb.head ∨ cbuff_uint8_count cb < offset
    · simp only [step, mir_peek_fail cb m d offset hf, Option.map_some',
        Option.some.injEq] at hs
      subst hs; rfl
    · have hne : cb.tail ≠ cb.head := fun e => hf (Or.inl e)
      have ho : offset ≤ cbuff_uint8_count cb := Nat.not_lt.mp (fun e => hf (Or.inr e))
      simp only [step, mir_peek_eq h hne d offset ho, Option.map_some',
        Option.some.injEq] at hs
      subst hs; rfl

theorem mir_run_base {C : Nat} (ops : List Op) : ∀ {s s1 : cbuff_uint8_t × Mem}, Inv C s →
    run s ops = some s1 → s1.2.base = s.2.base := by
  induction ops with
  | nil =>
    intro s s1 _ hs
    simp only [run, Option.some.injEq] at hs
    subst hs; rfl
  | cons op ops ih =>
    intro s s1 h hs
    simp only [run, Option.bind_eq_some] at hs
    obtain ⟨s2, h2, h3⟩ := hs
    rw [ih (mir_inv_step h op h2) h3, mir_step_base h op h2]

theorem mir_reset_eq_prefill {C : Nat} (hC : 1 ≤ C) (m0 : Mem) (hb : m0.base ≠ 0)
    (hlen : C ≤ m0.bytes.length) (ops : List Op) (s : cbuff_uint8_t × Mem)
    (hr : run (cbuff_uint8_struct_full_prefill C m0.base, m0) ops = some s) :
    (cbuff_uint8_reset s.1).2 = cbuff_uint8_struct_full_prefill C m0.base := by
  have h0 : Inv C (cbuff_uint8_struct_full_prefill C m0.base, m0) :=
    mir_inv_init hC hlen (mir_init_eq (cbuff_uint8_struct_full_prefill C m0.base) C m0.base hb)
  have h := mir_inv_run ops h0 hr
  have hbase : s.2.base = m0.base := mir_run_base ops h0 hr
  obtain ⟨cb, m⟩ := s
  have hcap : cb.capacity = C := h.cap
  have hbuf : cb.buffer = m.base := h.buf
  have hbase2 : m.base = m0.base := hbase
  simp [cbuff_uint8_reset, cbuff_uint8_struct_full_prefill, hcap, hbuf, hbase2]

theorem mir_fresh_queries {C : Nat} (hC : 1 ≤ C) (p : Nat) :
    cbuff_uint8_count (cbuff_uint8_struct_full_prefill C p) = 0 ∧
    cbuff_uint8_is_empty (cbuff_uint8_struct_full_prefill C p) = true ∧
    cbuff_uint8_is_full (cbuff_uint8_struct_full_prefill C p) = 0 ∧
    cbuff_uint8_capacity (cbuff_uint8_struct_full_prefill C p) = C := by
  have hC2 : ¬ C ≤ 0 := by omega
  simp [cbuff_uint8_count, cbuff_uint8_is_empty, cbuff_uint8_is_full, cbuff_uint8_capacity, cbuff_uint8_struct_full_prefill,
    hC2]

end Mirrored

namespace Pointer

theorem ptr_init_eq (old : cbuff_uint8_t) (C p : Nat) (hp : p ≠ 0) :
    cbuff_uint8_init (some old) C p = (true, some (cbuff_uint8_struct_full_prefill C p)) := by
  simp [cbuff_uint8_init, cbuff_uint8_struct_full_prefill, hp]

theorem ptr_init_null (old : cbuff_uint8_t) (C : Nat) :
    cbuff_uint8_init (some old) C 0 = (false, some old) ∧ cbuff_uint8_init none C 0 = (false, none) := by
  simp [cbuff_uint8_init]

theorem ptr_step_base {C : Nat} {s s1 : cbuff_uint8_t × Mem} (h : Inv C s) (op : Op)
    (hs : step s op = some s1) : s1.2.base = s.2.base := by
  obtain ⟨cb, m⟩ := s
  cases op with
  | reset =>
    simp only [step, Option.some.injEq] at hs
    subst hs; rfl
  | enqueue b =>
    by_cases hlt : cb.count < C
    · simp only [step, ptr_enqueue_eq h hlt, Option.map_some', Option.some.injEq] at hs
      subst hs; rfl
    · simp only [step, ptr_enqueue_full h (Nat.not_lt.mp hlt), Option.map_some',
        Option.some.injEq] at hs
      subst hs; rfl
  | enqueue_overwrite b =>
    by_cases hlt : cb.count < C
    · simp only [step, ptr_enqueue_overwrite_eq h hlt, Option.map_some',
        Option.some.injEq] at hs
      subst hs; rfl
    · simp only [step, ptr_enqueue_overwrite_full h (Nat.not_lt.mp hlt), Option.map_some',
        Option.some.injEq] at hs
      subst hs; rfl
  | dequeue d =>
    by_cases hz : cb.count = 0
    · simp only [step, ptr_dequeue_empty cb m hz, Option.map_some', Option.some.injEq] at hs
      subst hs; rfl
    · simp only [step, ptr_dequeue_eq h hz, Option.map_some', Option.some.injEq] at hs
      subst hs; rfl
  | peek d offset =>
    by_cases hf : cb.count = 0 ∨ cb.count < offset
    · simp only [step, ptr_peek_fail cb m d offset hf, Option.map_some',
        Option.some.injEq] at hs
      subst hs; rfl
    · have hne : cb.count ≠ 0 := fun e => hf (Or.inl e)
      have ho : offset ≤ cb.count := Nat.not_lt.mp (fun e => hf (Or.inr e))
      simp only [step, ptr_peek_eq h hne d offset ho, Option.map_some',
        Option.some.injEq] at hs
      subst hs; rfl

theorem ptr_run_base {C : Nat} (ops : List Op) : ∀ {s s1 : cbuff_uint8_t × Mem}, Inv C s →
    run s ops = some s1 → s1.2.base = s.2.base := by
  induction ops with
  | nil =>
    intro s s1 _ hs
    simp only [run, Option.some.injEq] at hs
    subst hs; rfl
  | cons op ops ih =>
    intro s s1 h hs
    simp only [run, Option.bind_eq_some] at hs
    obtain ⟨s2, h2, h3⟩ := hs
    rw [ih (ptr_inv_step h op h2) h3, ptr_step_base h op h2]

theorem ptr_reset_eq_prefill {C : Nat} (hC : 1 ≤ C) (m0 : Mem) (hb : m0.base ≠ 0)
    (hlen : C ≤ m0.bytes.length) (ops : List Op) (s : cbuff_uint8_t × Mem)
    (hr : run (cbuff_uint8_struct_full_prefill C m0.base, m0) ops = some s) :
    (cbuff_uint8_reset s.1).2 = cbuff_uint8_struct_full_prefill C m0.base := by
  have h0 : Inv C (cbuff_uint8_struct_full_prefill C m0.base, m0) :=
    ptr_inv_init hC hlen (ptr_init_eq (cbuff_uint8_struct_full_prefill C m0.base) C m0.base hb)
  have h := ptr_inv_run ops h0 hr
  have hbase : s.2.base = m0.base := ptr_run_base ops h0 hr
  obtain ⟨cb, m⟩ := s
  have hcap : cb.capacity = C := h.cap
  have hbuf : cb.buffer = m.base := h.buf
  have hbase2 : m.base = m0.base := hbase
  have hend : cb.bufferEnd = m.base + C := h.bend
  simp [cbuff_uint8_reset, cbuff_uint8_struct_full_prefill, hcap, hbuf, hbase2, hend]

theorem ptr_fresh_queries {C : Nat} (hC : 1 ≤ C) (p : Nat) :
    cbuff_uint8_count (cbuff_uint8_struct_full_prefill C p) = 0 ∧
    cbuff_uint8_is_empty (cbuff_uint8_struct_full_prefill C p) = true ∧
    cbuff_uint8_is_full (cbuff_uint8_struct_full_prefill C p) = false ∧
    cbuff_uint8_capacity (cbuff_uint8_struct_full_prefill C p) = C := by
  have hC2 : ¬ C ≤ 0 := by omega
  simp [cbuff_uint8_count, cbuff_uint8_is_empty, cbuff_uint8_is_full, cbuff_uint8_capacity, cbuff_uint8_struct_full_prefill,
    hC2]

end Pointer

/-! ## The claims on construction and reset -/

/-- C14. The code at the failing input: `init` with capacity 0 and the
non-null storage pointer 100 returns success in each of the three variants,
although `is_init` is false on the structure it leaves and the next
`enqueue_overwrite` is undefined: a remainder by zero in the counted-index and
mirrored-index variants (here on a storage array of four bytes), a write
outside the storage array of zero bytes in the pointer-based variant. -/
theorem C14_init_accepts_zero_capacity :
    (Index.cbuff_init (some Index.exOne.1) 0 100
        = (true, some (Index.cbuff_struct_full_prefill 0 100)) ∧
      Index.cbuff_is_init (Index.cbuff_struct_full_prefill 0 100) = false ∧
      Index.cbuff_enqueue_overwrite (Index.cbuff_struct_full_prefill 0 100) ⟨100, [9, 9, 9, 9]⟩ 7 = none) ∧
    (Mirrored.cbuff_uint8_init (some Mirrored.exOne.1) 0 100
        = (true, some (Mirrored.cbuff_uint8_struct_full_prefill 0 100)) ∧
      Mirrored.cbuff_uint8_is_init (Mirrored.cbuff_uint8_struct_full_prefill 0 100) = false ∧
      Mirrored.cbuff_uint8_enqueue_overwrite (Mirrored.cbuff_uint8_struct_full_prefill 0 100) ⟨100, [9, 9, 9, 9]⟩ 7 = none) ∧
    (Pointer.cbuff_uint8_init (some Pointer.exOne.1) 0 100
        = (true, some (Pointer.cbuff_uint8_struct_full_prefill 0 100)) ∧
      Pointer.cbuff_uint8_is_init (Pointer.cbuff_uint8_struct_full_prefill 0 100) = false ∧
      Pointer.cbuff_uint8_enqueue_overwrite (Pointer.cbuff_uint8_struct_full_prefill 0 100) ⟨100, []⟩ 7 = none) :=
  ⟨⟨by decide, by decide, by decide⟩, ⟨by decide, by decide, by decide⟩,
    ⟨by decide, by decide, by decide⟩⟩

/-- C15. In each of the three variants, for every capacity `C >= 1`: a
successful `init` with capacity `C` and the non-null storage pointer `p` leaves
the structure `struct_full_prefill C p`, on which `count` is 0, `is_empty` is
true, `is_full` is false and `capacity` is `C`; and the same four values are
returned after `reset` of any reachable state. -/
theorem C15_fresh_or_reset_is_empty (C : Nat) (hC : 1 ≤ C) (p : Nat) (hp : p ≠ 0)
    (oldi : Index.cbuff_t) (si : Index.cbuff_t × Mem) (hri : Index.Reachable C si)
    (oldm : Mirrored.cbuff_uint8_t) (sm : Mirrored.cbuff_uint8_t × Mem)
    (hrm : Mirrored.Reachable C sm)
    (oldp : Pointer.cbuff_uint8_t) (sp : Pointer.cbuff_uint8_t × Mem)
    (hrp : Pointer.Reachable C sp) :
    (Index.cbuff_init (some oldi) C p
        = (true, some (Index.cbuff_struct_full_prefill C p)) ∧
      (Index.cbuff_count (Index.cbuff_struct_full_prefill C p) = 0 ∧
        Index.cbuff_is_empty (Index.cbuff_struct_full_prefill C p) = true ∧
        Index.cbuff_is_full (Index.cbuff_struct_full_prefill C p) = false ∧
        Index.cbuff_capacity (Index.cbuff_struct_full_prefill C p) = C) ∧
      (Index.cbuff_count (Index.cbuff_reset si.1).2 = 0 ∧
        Index.cbuff_is_empty (Index.cbuff_reset si.1).2 = true ∧
        Index.cbuff_is_full (Index.cbuff_reset si.1).2 = false ∧
        Index.cbuff_capacity (Index.cbuff_reset si.1).2 = C)) ∧
    (Mirrored.cbuff_uint8_init (some oldm) C p
        = (true, some (Mirrored.cbuff_uint8_struct_full_prefill C p)) ∧
      (Mirrored.cbuff_uint8_count (Mirrored.cbuff_uint8_struct_full_prefill C p) = 0 ∧
        Mirrored.cbuff_uint8_is_empty (Mirrored.cbuff_uint8_struct_full_prefill C p) = true ∧
        Mirrored.cbuff_uint8_is_full (Mirrored.cbuff_uint8_struct_full_prefill C p) = 0 ∧
        Mirrored.cbuff_uint8_capacity (Mirrored.cbuff_uint8_struct_full_prefill C p) = C) ∧
      (Mirrored.cbuff_uint8_count (Mirrored.cbuff_uint8_reset sm.1).2 = 0 ∧
        Mirrored.cbuff_uint8_is_empty (Mirrored.cbuff_uint8_reset sm.1).2 = true ∧
        Mirrored.cbuff_uint8_is_full (Mirrored.cbuff_uint8_reset sm.1).2 = 0 ∧
        Mirrored.cbuff_uint8_capacity (Mirrored.cbuff_uint8_reset sm.1).2 = C)) ∧
    (Pointer.cbuff_uint8_init (some oldp) C p
        = (true, some (Pointer.cbuff_uint8_struct_full_prefill C p)) ∧
      (Pointer.cbuff_uint8_count (Pointer.cbuff_uint8_struct_full_prefill C p) = 0 ∧
        Pointer.cbuff_uint8_is_empty (Pointer.cbuff_uint8_struct_full_prefill C p) = true ∧
        Pointer.cbuff_uint8_is_full (Pointer.cbuff_uint8_struct_full_prefill C p) = false ∧
        Pointer.cbuff_uint8_capacity (Pointer.cbuff_uint8_struct_full_prefill C p) = C) ∧
      (Pointer.cbuff_uint8_count (Pointer.cbuff_uint8_reset sp.1).2 = 0 ∧
        Pointer.cbuff_uint8_is_empty (Pointer.cbuff_uint8_reset sp.1).2 = true ∧
        Pointer.cbuff_uint8_is_full (Pointer.cbuff_uint8_reset sp.1).2 = false ∧
        Pointer.cbuff_uint8_capacity (Pointer.cbuff_uint8_reset sp.1).2 = C)) := by
  have hi := hri.idx_inv hC
  have hm := hrm.mir_inv hC
  have hq := hrp.ptr_inv hC
  have ci : si.1.capacity = C := hi.cap
  have cm : sm.1.capacity = C := hm.cap
  have cp : sp.1.capacity = C := hq.cap
  have hC2 : ¬ C ≤ 0 := by omega
  refine ⟨⟨Index.idx_init_eq oldi C p hp, Index.idx_fresh_queries hC p, ?_⟩,
    ⟨Mirrored.mir_init_eq oldm C p hp, Mirrored.mir_fresh_queries hC p, ?_⟩,
    ⟨Pointer.ptr_init_eq oldp C p hp, Pointer.ptr_fresh_queries hC p, ?_⟩⟩
  · simp [Index.cbuff_reset, Index.cbuff_count, Index.cbuff_is_empty, Index.cbuff_is_full,
      Index.cbuff_capacity, ci, hC2]
  · simp [Mirrored.cbuff_uint8_reset, Mirrored.cbuff_uint8_count,
      Mirrored.cbuff_uint8_is_empty, Mirrored.cbuff_uint8_is_full,
      Mirrored.cbuff_uint8_capacity, cm, hC2]
  · simp [Pointer.cbuff_uint8_reset, Pointer.cbuff_uint8_count,
      Pointer.cbuff_uint8_is_empty, Pointer.cbuff_uint8_is_full,
      Pointer.cbuff_uint8_capacity, cp, hC2]

/-- C15, witness: capacity 4, storage pointer 100, `init` on the structures of
the full states and `reset` of the full states holding 0, 1, 2, 3. -/
theorem C15_fresh_or_reset_is_empty_witness :
    (Index.cbuff_init (some Index.exFull.1) 4 100
        = (true, some (Index.cbuff_struct_full_prefill 4 100)) ∧
      (Index.cbuff_count (Index.cbuff_struct_full_prefill 4 100) = 0 ∧
        Index.cbuff_is_empty (Index.cbuff_struct_full_prefill 4 100) = true ∧
        Index.cbuff_is_full (Index.cbuff_struct_full_prefill 4 100) = false ∧
        Index.cbuff_capacity (Index.cbuff_struct_full_prefill 4 100) = 4) ∧
      (Index.cbuff_count (Index.cbuff_reset Index.exFull.1).2 = 0 ∧
        Index.cbuff_is_empty (Index.cbuff_reset Index.exFull.1).2 = true ∧
        Index.cbuff_is_full (Index.cbuff_reset Index.exFull.1).2 = false ∧
        Index.cbuff_capacity (Index.cbuff_reset Index.exFull.1).2 = 4)) ∧
    (Mirrored.cbuff_uint8_init (some Mirrored.exFull.1) 4 100
        = (true, some (Mirrored.cbuff_uint8_struct_full_prefill 4 100)) ∧
      (Mirrored.cbuff_uint8_count (Mirrored.cbuff_uint8_struct_full_prefill 4 100) = 0 ∧
        Mirrored.cbuff_uint8_is_empty (Mirrored.cbuff_uint8_struct_full_prefill 4 100) = true ∧
        Mirrored.cbuff_uint8_is_full (Mirrored.cbuff_uint8_struct_full_prefill 4 100) = 0 ∧
        Mirrored.cbuff_uint8_capacity (Mirrored.cbuff_uint8_struct_full_prefill 4 100) = 4) ∧
      (Mirrored.cbuff_uint8_count (Mirrored.cbuff_uint8_reset Mirrored.exFull.1).2 = 0 ∧
        Mirrored.cbuff_uint8_is_empty (Mirrored.cbuff_uint8_reset Mirrored.exFull.1).2 = true ∧
        Mirrored.cbuff_uint8_is_full (Mirrored.cbuff_uint8_reset Mirrored.exFull.1).2 = 0 ∧
        Mirrored.cbuff_uint8_capacity (Mirrored.cbuff_uint8_reset Mirrored.exFull.1).2 = 4)) ∧
    (Pointer.cbuff_uint8_init (some Pointer.exFull.1) 4 100
        = (true, some (Pointer.cbuff_uint8_struct_full_prefill 4 100)) ∧
      (Pointer.cbuff_uint8_count (Pointer.cbuff_uint8_struct_full_prefill 4 100) = 0 ∧
        Pointer.cbuff_uint8_is_empty (Pointer.cbuff_uint8_struct_full_prefill 4 100) = true ∧
        Pointer.cbuff_uint8_is_full (Pointer.cbuff_uint8_struct_full_prefill 4 100) = false ∧
        Pointer.cbuff_uint8_capacity (Pointer.cbuff_uint8_struct_full_prefill 4 100) = 4) ∧
      (Pointer.cbuff_uint8_count (Pointer.cbuff_uint8_reset Pointer.exFull.1).2 = 0 ∧
        Pointer.cbuff_uint8_is_empty (Pointer.cbuff_uint8_reset Pointer.exFull.1).2 = true ∧
        Pointer.cbuff_uint8_is_full (Pointer.cbuff_uint8_reset Pointer.exFull.1).2 = false ∧
        Pointer.cbuff_uint8_capacity (Pointer.cbuff_uint8_reset Pointer.exFull.1).2 = 4)) :=
  C15_fresh_or_reset_is_empty 4 (by decide) 100 (by decide)
    Index.exFull.1 Index.exFull Index.idx_exFull_reachable
    Mirrored.exFull.1 Mirrored.exFull Mirrored.mir_exFull_reachable
    Pointer.exFull.1 Pointer.exFull Pointer.ptr_exFull_reachable

/-- C16. For every capacity `C >= 1` and non-null storage, in each of the
three variants: a successful `init` leaves exactly the structure built by
`struct_full_prefill` (equal in every field: capacity, buffer, head, tail, and
count and bufferEnd where present), so the states reachable from either are
the same; and `reset` of any state reached from it by a sequence of calls
gives that structure again, so head, tail and count are back at the values
of the prefilled construction. -/
theorem C16_prefill_agrees_with_init (C : Nat) (hC : 1 ≤ C) (m0 : Mem) (hb : m0.base ≠ 0)
    (hlen : C ≤ m0.bytes.length) (ops : List Op)
    (oldi : Index.cbuff_t) (si : Index.cbuff_t × Mem)
    (hri : Index.run (Index.cbuff_struct_full_prefill C m0.base, m0) ops = some si)
    (oldm : Mirrored.cbuff_uint8_t) (sm : Mirrored.cbuff_uint8_t × Mem)
    (hrm : Mirrored.run (Mirrored.cbuff_uint8_struct_full_prefill C m0.base, m0) ops
      = some sm)
    (oldp : Pointer.cbuff_uint8_t) (sp : Pointer.cbuff_uint8_t × Mem)
    (hrp : Pointer.run (Pointer.cbuff_uint8_struct_full_prefill C m0.base, m0) ops
      = some sp) :
    (Index.cbuff_init (some oldi) C m0.base
        = (true, some (Index.cbuff_struct_full_prefill C m0.base)) ∧
      (Index.cbuff_reset si.1).2 = Index.cbuff_struct_full_prefill C m0.base) ∧
    (Mirrored.cbuff_uint8_init (some oldm) C m0.base
        = (true, some (Mirrored.cbuff_uint8_struct_full_prefill C m0.base)) ∧
      (Mirrored.cbuff_uint8_reset sm.1).2 = Mirrored.cbuff_uint8_struct_full_prefill C m0.base) ∧
    (Pointer.cbuff_uint8_init (some oldp) C m0.base
        = (true, some (Pointer.cbuff_uint8_struct_full_prefill C m0.base)) ∧
      (Pointer.cbuff_uint8_reset sp.1).2 = Pointer.cbuff_uint8_struct_full_prefill C m0.base) :=
  ⟨⟨Index.idx_init_eq oldi C m0.base hb,
      Index.idx_reset_eq_prefill hC m0 hb hlen ops si hri⟩,
    ⟨Mirrored.mir_init_eq oldm C m0.base hb,
      Mirrored.mir_reset_eq_prefill hC m0 hb hlen ops sm hrm⟩,
    ⟨Pointer.ptr_init_eq oldp C m0.base hb,
      Pointer.ptr_reset_eq_prefill hC m0 hb hlen ops sp hrp⟩⟩

/-- C16, witness: capacity 3 on a storage array of three bytes at address 100,
after `enqueue_overwrite` of 1, 2, 3, 4. -/
theorem C16_prefill_agrees_with_init_witness :
    (Index.cbuff_init (some Index.exOne.1) 3 (⟨100, [0, 0, 0]⟩ : Mem).base
        = (true, some (Index.cbuff_struct_full_prefill 3 (⟨100, [0, 0, 0]⟩ : Mem).base)) ∧
      (Index.cbuff_reset Index.exPeek.1).2 = Index.cbuff_struct_full_prefill 3 (⟨100, [0, 0, 0]⟩ : Mem).base) ∧
    (Mirrored.cbuff_uint8_init (some Mirrored.exOne.1) 3 (⟨100, [0, 0, 0]⟩ : Mem).base
        = (true, some (Mirrored.cbuff_uint8_struct_full_prefill 3 (⟨100, [0, 0, 0]⟩ : Mem).base)) ∧
      (Mirrored.cbuff_uint8_reset Mirrored.exPeek.1).2 = Mirrored.cbuff_uint8_struct_full_prefill 3 (⟨100, [0, 0, 0]⟩ : Mem).base) ∧
    (Pointer.cbuff_uint8_init (some Pointer.exOne.1) 3 (⟨100, [0, 0, 0]⟩ : Mem).base
        = (true, some (Pointer.cbuff_uint8_struct_full_prefill 3 (⟨100, [0, 0, 0]⟩ : Mem).base)) ∧
      (Pointer.cbuff_uint8_reset Pointer.exPeek.1).2 = Pointer.cbuff_uint8_struct_full_prefill 3 (⟨100, [0, 0, 0]⟩ : Mem).base) :=
  C16_prefill_agrees_with_init 3 (by decide) ⟨100, [0, 0, 0]⟩ (by decide) (by decide)
    [.enqueue_overwrite 1, .enqueue_overwrite 2, .enqueue_overwrite 3, .enqueue_overwrite 4]
    Index.exOne.1 Index.exPeek (by decide)
    Mirrored.exOne.1 Mirrored.exPeek (by decide)
    Pointer.exOne.1 Pointer.exPeek (by decide)

/-- C17. In each of the three variants, for every state: `reset` returns
success, sets head and tail to 0 (to the start of storage in the pointer-based
variant) and the count to 0, leaves the capacity, the storage pointer (and
bufferEnd) and the storage unchanged, and is idempotent. -/
theorem C17_reset_frame :
    (∀ (cb : Index.cbuff_t) (m : Mem), let r := Index.cbuff_reset cb
      r.1 = true ∧ (r.2.head = 0 ∧ r.2.tail = 0 ∧ r.2.count = 0) ∧
      r.2.capacity = cb.capacity ∧ r.2.buffer = cb.buffer ∧
      Index.step (cb, m) .reset = some (r.2, m) ∧ Index.cbuff_reset r.2 = r) ∧
    (∀ (cb : Mirrored.cbuff_uint8_t) (m : Mem), let r := Mirrored.cbuff_uint8_reset cb
      r.1 = true ∧ (r.2.head = 0 ∧ r.2.tail = 0 ∧ Mirrored.cbuff_uint8_count r.2 = 0) ∧
      r.2.capacity = cb.capacity ∧ r.2.buffer = cb.buffer ∧
      Mirrored.step (cb, m) .reset = some (r.2, m) ∧ Mirrored.cbuff_uint8_reset r.2 = r) ∧
    (∀ (cb : Pointer.cbuff_uint8_t) (m : Mem), let r := Pointer.cbuff_uint8_reset cb
      r.1 = true ∧ (r.2.head = cb.buffer ∧ r.2.tail = cb.buffer ∧ r.2.count = 0) ∧
      r.2.capacity = cb.capacity ∧ r.2.buffer = cb.buffer ∧ r.2.bufferEnd = cb.bufferEnd ∧
      Pointer.step (cb, m) .reset = some (r.2, m) ∧ Pointer.cbuff_uint8_reset r.2 = r) := by
  refine ⟨fun cb m => ?_, fun cb m => ?_, fun cb m => ?_⟩
  · simp [Index.cbuff_reset, Index.step]
  · simp [Mirrored.cbuff_uint8_reset, Mirrored.step, Mirrored.cbuff_uint8_count]
  · simp [Pointer.cbuff_uint8_reset, Pointer.step]

/-! ## Mirrored-index and counted-index variants: simulation -/

theorem mod_two_mul_succ {C a x : Nat} (h : a % C = x) :
    ((a + 1) % (C * 2)) % C = (x + 1) % C := by
  rw [Nat.mod_mul_right_mod, ← h, Nat.mod_add_mod]

theorem simMirrored_init {C : Nat} (hC : 1 ≤ C) (m0 : Mem) (hb : m0.base ≠ 0)
    (hlen : C ≤ m0.bytes.length) :
    SimMirrored C (Mirrored.cbuff_uint8_struct_full_prefill C m0.base, m0)
      (Index.cbuff_struct_full_prefill C m0.base, m0) := by
  refine ⟨?_, ?_, rfl, ?_, ?_, ?_⟩
  · exact Mirrored.mir_inv_init hC hlen
      (Mirrored.mir_init_eq (Mirrored.cbuff_uint8_struct_full_prefill C m0.base) C m0.base hb)
  · exact Index.idx_inv_init hC hlen
      (Index.idx_init_eq (Index.cbuff_struct_full_prefill C m0.base) C m0.base hb)
  · simp [Mirrored.cbuff_uint8_struct_full_prefill, Index.cbuff_struct_full_prefill]
  · simp [Mirrored.cbuff_uint8_struct_full_prefill, Index.cbuff_struct_full_prefill]
  · simp [Mirrored.cbuff_uint8_struct_full_prefill, Index.cbuff_struct_full_prefill,
      Mirrored.cbuff_uint8_count]

theorem simMirrored_call {C : Nat} {sm : Mirrored.cbuff_uint8_t × Mem}
    {si : Index.cbuff_t × Mem} (h : SimMirrored C sm si) (c : Call) :
    ∃ r sm1 si1, Mirrored.call sm c = some (r, sm1) ∧ Index.call si c = some (r, si1) ∧
      SimMirrored C sm1 si1 := by
  obtain ⟨cm, mm⟩ := sm
  obtain ⟨ci, mi⟩ := si
  obtain ⟨hm, hi, hmem, hhd, htl, hcnt⟩ := h
  have hmem2 : mm = mi := hmem
  subst hmem2
  have hhd2 : cm.head % C = ci.head := hhd
  have htl2 : cm.tail % C = ci.tail := htl
  have hcnt2 : Mirrored.cbuff_uint8_count cm = ci.count := hcnt
  have hcm : cm.capacity = C := hm.cap
  have hci : ci.capacity = C := hi.cap
  have hz : cm.tail = cm.head ↔ ci.count = 0 := by
    rw [← Mirrored.mir_count_zero_iff hm, hcnt2]
  cases c with
  | reset =>
    refine ⟨.flag true, ((Mirrored.cbuff_uint8_reset cm).2, mm), ((Index.cbuff_reset ci).2, mm),
      rfl, rfl, Mirrored.mir_inv_reset hm, Index.idx_inv_reset hi, rfl, ?_, ?_, ?_⟩
    · simp [Mirrored.cbuff_uint8_reset, Index.cbuff_reset]
    · simp [Mirrored.cbuff_uint8_reset, Index.cbuff_reset]
    · simp [Mirrored.cbuff_uint8_reset, Index.cbuff_reset, Mirrored.cbuff_uint8_count]
  | enqueue b =>
    by_cases hlt : Mirrored.cbuff_uint8_count cm < C
    · have hlt2 : ci.count < C := hcnt2 ▸ hlt
      refine ⟨.flag true, _, _, by simp [Mirrored.call, Mirrored.mir_enqueue_eq hm hlt],
        by simp [Index.call, Index.idx_enqueue_eq hi hlt2],
        Mirrored.mir_inv_enqueue hm hlt b, Index.idx_inv_enqueue hi hlt2 b, ?_, hhd2, ?_, ?_⟩
      · simp [htl2]
      · exact mod_two_mul_succ htl2
      · show Mirrored.cbuff_uint8_count _ = ci.count + 1
        rw [Mirrored.mir_count_tail_succ hm hlt, hcnt2]
    · have hge : C ≤ Mirrored.cbuff_uint8_count cm := Nat.not_lt.mp hlt
      have hge2 : C ≤ ci.count := hcnt2 ▸ hge
      exact ⟨.flag false, (cm, mm), (ci, mm),
        by simp [Mirrored.call, Mirrored.mir_enqueue_full hm hge],
        by simp [Index.call, Index.idx_enqueue_full hi hge2],
        hm, hi, rfl, hhd2, htl2, hcnt2⟩
  | enqueue_overwrite b =>
    by_cases hlt : Mirrored.cbuff_uint8_count cm < C
    · have hlt2 : ci.count < C := hcnt2 ▸ hlt
      refine ⟨.flag true, _, _,
        by simp [Mirrored.call, Mirrored.mir_enqueue_overwrite_eq hm hlt],
        by simp [Index.call, Index.idx_enqueue_overwrite_eq hi hlt2],
        Mirrored.mir_inv_enqueue hm hlt b, Index.idx_inv_enqueue hi hlt2 b, ?_, hhd2, ?_, ?_⟩
      · simp [htl2]
      · exact mod_two_mul_succ htl2
      · show Mirrored.cbuff_uint8_count _ = ci.count + 1
        rw [Mirrored.mir_count_tail_succ hm hlt, hcnt2]
    · have hge : C ≤ Mirrored.cbuff_uint8_count cm := Nat.not_lt.mp hlt
      have hge2 : C ≤ ci.count := hcnt2 ▸ hge
      refine ⟨.flag true, _, _,
        by simp [Mirrored.call, Mirrored.mir_enqueue_overwrite_full hm hge],
        by simp [Index.call, Index.idx_enqueue_overwrite_full hi hge2],
        Mirrored.mir_inv_overwrite_full hm hge b, Index.idx_inv_overwrite_full hi hge2 b,
        ?_, ?_, ?_, ?_⟩
      · simp [htl2]
      · exact mod_two_mul_succ hhd2
      · exact mod_two_mul_succ htl2
      · show Mirrored.cbuff_uint8_count _ = ci.count
        rw [Mirrored.mir_count_both_succ hm hge, hcnt2]
  | dequeue d =>
    by_cases he : cm.tail = cm.head
    · have he2 : ci.count = 0 := hz.mp he
      exact ⟨.out false d, (cm, mm), (ci, mm),
        by simp [Mirrored.call, Mirrored.mir_dequeue_empty cm mm he],
        by simp [Index.call, Index.idx_dequeue_empty ci mm he2],
        hm, hi, rfl, hhd2, htl2, hcnt2⟩
    · have he2 : ci.count ≠ 0 := fun e => he (hz.mpr e)
      refine ⟨.out true (mm.bytes.getD ci.head 0), _, _,
        by simp [Mirrored.call, Mirrored.mir_dequeue_eq hm he, hhd2],
        by simp [Index.call, Index.idx_dequeue_eq hi he2],
        Mirrored.mir_inv_dequeue hm he, Index.idx_inv_dequeue hi he2, rfl, ?_, htl2, ?_⟩
      · exact mod_two_mul_succ hhd2
      · show Mirrored.cbuff_uint8_count _ = ci.count - 1
        rw [Mirrored.mir_count_head_succ hm he, hcnt2]
  | peek d offset =>
    by_cases hf : cm.tail = cm.head ∨ Mirrored.cbuff_uint8_count cm < offset
    · have hf2 : ci.count = 0 ∨ ci.count < offset := by
        rcases hf with e | e
        · exact Or.inl (hz.mp e)
        · exact Or.inr (hcnt2 ▸ e)
      exact ⟨.out false d, (cm, mm), (ci, mm),
        by simp [Mirrored.call, Mirrored.mir_peek_fail cm mm d offset hf],
        by simp [Index.call, Index.idx_peek_fail ci mm d offset hf2],
        hm, hi, rfl, hhd2, htl2, hcnt2⟩
    · have hne : cm.tail ≠ cm.head := fun e => hf (Or.inl e)
      have ho : offset ≤ Mirrored.cbuff_uint8_count cm :=
        Nat.not_lt.mp (fun e => hf (Or.inr e))
      have hne2 : ci.count ≠ 0 := fun e => hne (hz.mpr e)
      have ho2 : offset ≤ ci.count := hcnt2 ▸ ho
      have hslot : (cm.head + offset) % C = (ci.head + offset) % C := by
        rw [← hhd2, Nat.mod_add_mod]
      exact ⟨.out true (mm.bytes.getD ((ci.head + offset) % C) 0), (cm, mm), (ci, mm),
        by simp [Mirrored.call, Mirrored.mir_peek_eq hm hne d offset ho, hslot],
        by simp [Index.call, Index.idx_peek_eq hi hne2 d offset ho2],
        hm, hi, rfl, hhd2, htl2, hcnt2⟩
  | capacity =>
    exact ⟨.size C, (cm, mm), (ci, mm),
      by simp [Mirrored.call, Mirrored.cbuff_uint8_capacity, hcm],
      by simp [Index.call, Index.cbuff_capacity, hci],
      hm, hi, rfl, hhd2, htl2, hcnt2⟩
  | count =>
    exact ⟨.size ci.count, (cm, mm), (ci, mm),
      by simp [Mirrored.call, hcnt2],
      by simp [Index.call, Index.cbuff_count],
      hm, hi, rfl, hhd2, htl2, hcnt2⟩
  | is_full =>
    refine ⟨.flag (Index.cbuff_is_full ci), (cm, mm), (ci, mm), ?_,
      by simp [Index.call], hm, hi, rfl, hhd2, htl2, hcnt2⟩
    have e : Mirrored.cbuff_uint8_is_full cm
        = if Mirrored.cbuff_uint8_count cm ≥ cm.capacity then 1 else 0 := rfl
    simp only [Mirrored.call, e, hcnt2, hcm, Index.cbuff_is_full, hci]
    by_cases hge : ci.count ≥ C <;> simp [hge]
  | is_empty =>
    refine ⟨.flag (Index.cbuff_is_empty ci), (cm, mm), (ci, mm), ?_,
      by simp [Index.call], hm, hi, rfl, hhd2, htl2, hcnt2⟩
    simp only [Mirrored.call, Mirrored.cbuff_uint8_is_empty, Index.cbuff_is_empty]
    by_cases e : ci.count = 0
    · simp [e, hz.mpr e]
    · have ne : ¬ cm.tail = cm.head := fun x => e (hz.mp x)
      simp [e, ne]

theorem simMirrored_calls {C : Nat} (cs : List Call) :
    ∀ (sm : Mirrored.cbuff_uint8_t × Mem) (si : Index.cbuff_t × Mem), SimMirrored C sm si →
      ∃ rs sm1 si1, Mirrored.calls sm cs = some (rs, sm1) ∧
        Index.calls si cs = some (rs, si1) ∧ SimMirrored C sm1 si1 := by
  induction cs with
  | nil =>
    intro sm si h
    exact ⟨[], sm, si, rfl, rfl, h⟩
  | cons c cs ih =>
    intro sm si h
    obtain ⟨r, sm1, si1, e1, e2, h1⟩ := simMirrored_call h c
    obtain ⟨rs, sm2, si2, e3, e4, h2⟩ := ih sm1 si1 h1
    exact ⟨r :: rs, sm2, si2, by simp [Mirrored.calls, e1, e3], by simp [Index.calls, e2, e4],
      h2⟩

/-! ## Pointer-based and counted-index variants: simulation -/

theorem Pointer.ptr_advance_sub {C : Nat} {cb : Pointer.cbuff_uint8_t} {m : Mem}
    (h : Pointer.Inv C (cb, m)) (p x : Nat) (hge : m.base ≤ p) (hlt : p < m.base + C)
    (hx : p - cb.buffer = x) : Pointer.advance cb p - cb.buffer = (x + 1) % C := by
  have hbuf : cb.buffer = m.base := h.buf
  rw [Pointer.ptr_advance_eq h p hge hlt, ← hx, hbuf, Nat.add_sub_cancel_left]

theorem simPointer_init {C : Nat} (hC : 1 ≤ C) (m0 : Mem) (hb : m0.base ≠ 0)
    (hlen : C ≤ m0.bytes.length) :
    SimPointer C (Pointer.cbuff_uint8_struct_full_prefill C m0.base, m0)
      (Index.cbuff_struct_full_prefill C m0.base, m0) := by
  refine ⟨?_, ?_, rfl, ?_, ?_, ?_⟩
  · exact Pointer.ptr_inv_init hC hlen
      (Pointer.ptr_init_eq (Pointer.cbuff_uint8_struct_full_prefill C m0.base) C m0.base hb)
  · exact Index.idx_inv_init hC hlen
      (Index.idx_init_eq (Index.cbuff_struct_full_prefill C m0.base) C m0.base hb)
  · simp [Pointer.cbuff_uint8_struct_full_prefill, Index.cbuff_struct_full_prefill]
  · simp [Pointer.cbuff_uint8_struct_full_prefill, Index.cbuff_struct_full_prefill]
  · simp [Pointer.cbuff_uint8_struct_full_prefill, Index.cbuff_struct_full_prefill]

theorem simPointer_call {C : Nat} {sp : Pointer.cbuff_uint8_t × Mem}
    {si : Index.cbuff_t × Mem} (h : SimPointer C sp si) (c : Call) :
    ∃ r sp1 si1, Pointer.call sp c = some (r, sp1) ∧ Index.call si c = some (r, si1) ∧
      SimPointer C sp1 si1 := by
  obtain ⟨cp, mp⟩ := sp
  obtain ⟨ci, mi⟩ := si
  obtain ⟨hp, hi, hmem, hhd, htl, hcnt⟩ := h
  have hmem2 : mp = mi := hmem
  subst hmem2
  have hhd2 : cp.head - cp.buffer = ci.head := hhd
  have htl2 : cp.tail - cp.buffer = ci.tail := htl
  have hcnt2 : cp.count = ci.count := hcnt
  have hcp : cp.capacity = C := hp.cap
  have hci : ci.capacity = C := hi.cap
  have hbuf : cp.buffer = mp.base := hp.buf
  have hhd3 : cp.head - mp.base = ci.head := hbuf ▸ hhd2
  have htl3 : cp.tail - mp.base = ci.tail := hbuf ▸ htl2
  have ahd : Pointer.advance cp cp.head - cp.buffer = (ci.head + 1) % C :=
    Pointer.ptr_advance_sub hp cp.head ci.head hp.hd_ge hp.hd_lt hhd2
  have atl : Pointer.advance cp cp.tail - cp.buffer = (ci.tail + 1) % C :=
    Pointer.ptr_advance_sub hp cp.tail ci.tail hp.ptr_tail_ge hp.ptr_tail_lt htl2
  cases c with
  | reset =>
    refine ⟨.flag true, ((Pointer.cbuff_uint8_reset cp).2, mp), ((Index.cbuff_reset ci).2, mp),
      rfl, rfl, Pointer.ptr_inv_reset hp, Index.idx_inv_reset hi, rfl, ?_, ?_, ?_⟩
    · simp [Pointer.cbuff_uint8_reset, Index.cbuff_reset]
    · simp [Pointer.cbuff_uint8_reset, Index.cbuff_reset]
    · simp [Pointer.cbuff_uint8_reset, Index.cbuff_reset]
  | enqueue b =>
    by_cases hlt : cp.count < C
    · have hlt2 : ci.count < C := hcnt2 ▸ hlt
      refine ⟨.flag true, _, _, by simp [Pointer.call, Pointer.ptr_enqueue_eq hp hlt],
        by simp [Index.call, Index.idx_enqueue_eq hi hlt2],
        Pointer.ptr_inv_enqueue hp hlt b, Index.idx_inv_enqueue hi hlt2 b, ?_, hhd2, atl, ?_⟩
      · simp [htl3]
      · show cp.count + 1 = ci.count + 1
        rw [hcnt2]
    · have hge : C ≤ cp.count := Nat.not_lt.mp hlt
      have hge2 : C ≤ ci.count := hcnt2 ▸ hge
      exact ⟨.flag false, (cp, mp), (ci, mp),
        by simp [Pointer.call, Pointer.ptr_enqueue_full hp hge],
        by simp [Index.call, Index.idx_enqueue_full hi hge2],
        hp, hi, rfl, hhd2, htl2, hcnt2⟩
  | enqueue_overwrite b =>
    by_cases hlt : cp.count < C
    · have hlt2 : ci.count < C := hcnt2 ▸ hlt
      refine ⟨.flag true, _, _,
        by simp [Pointer.call, Pointer.ptr_enqueue_overwrite_eq hp hlt],
        by simp [Index.call, Index.idx_enqueue_overwrite_eq hi hlt2],
        Pointer.ptr_inv_enqueue hp hlt b, Index.idx_inv_enqueue hi hlt2 b, ?_, hhd2, atl, ?_⟩
      · simp [htl3]
      · show cp.count + 1 = ci.count + 1
        rw [hcnt2]
    · have hge : C ≤ cp.count := Nat.not_lt.mp hlt
      have hge2 : C ≤ ci.count := hcnt2 ▸ hge
      refine ⟨.flag true, _, _,
        by simp [Pointer.call, Pointer.ptr_enqueue_overwrite_full hp hge],
        by simp [Index.call, Index.idx_enqueue_overwrite_full hi hge2],
        Pointer.ptr_inv_overwrite_full hp hge b, Index.idx_inv_overwrite_full hi hge2 b,
        ?_, ahd, atl, hcnt2⟩
      simp [htl3]
  | dequeue d =>
    by_cases he : cp.count = 0
    · have he2 : ci.count = 0 := hcnt2 ▸ he
      exact ⟨.out false d, (cp, mp), (ci, mp),
        by simp [Pointer.call, Pointer.ptr_dequeue_empty cp mp he],
        by simp [Index.call, Index.idx_dequeue_empty ci mp he2],
        hp, hi, rfl, hhd2, htl2, hcnt2⟩
    · have he2 : ci.count ≠ 0 := hcnt2 ▸ he
      refine ⟨.out true (mp.bytes.getD ci.head 0), _, _,
        by simp [Pointer.call, Pointer.ptr_dequeue_eq hp he, hhd3],
        by simp [Index.call, Index.idx_dequeue_eq hi he2],
        Pointer.ptr_inv_dequeue hp he, Index.idx_inv_dequeue hi he2, rfl, ahd, htl2, ?_⟩
      show cp.count - 1 = ci.count - 1
      rw [hcnt2]
  | peek d offset =>
    by_cases hf : cp.count = 0 ∨ cp.count < offset
    · have hf2 : ci.count = 0 ∨ ci.count < offset := hcnt2 ▸ hf
      exact ⟨.out false d, (cp, mp), (ci, mp),
        by simp [Pointer.call, Pointer.ptr_peek_fail cp mp d offset hf],
        by simp [Index.call, Index.idx_peek_fail ci mp d offset hf2],
        hp, hi, rfl, hhd2, htl2, hcnt2⟩
    · have hne : cp.count ≠ 0 := fun e => hf (Or.inl e)
      have ho : offset ≤ cp.count := Nat.not_lt.mp (fun e => hf (Or.inr e))
      have hne2 : ci.count ≠ 0 := hcnt2 ▸ hne
      have ho2 : offset ≤ ci.count := hcnt2 ▸ ho
      exact ⟨.out true (mp.bytes.getD ((ci.head + offset) % C) 0), (cp, mp), (ci, mp),
        by simp [Pointer.call, Pointer.ptr_peek_eq hp hne d offset ho, hhd3],
        by simp [Index.call, Index.idx_peek_eq hi hne2 d offset ho2],
        hp, hi, rfl, hhd2, htl2, hcnt2⟩
  | capacity =>
    exact ⟨.size C, (cp, mp), (ci, mp),
      by simp [Pointer.call, Pointer.cbuff_uint8_capacity, hcp],
      by simp [Index.call, Index.cbuff_capacity, hci],
      hp, hi, rfl, hhd2, htl2, hcnt2⟩
  | count =>
    exact ⟨.size ci.count, (cp, mp), (ci, mp),
      by simp [Pointer.call, Pointer.cbuff_uint8_count, hcnt2],
      by simp [Index.call, Index.cbuff_count],
      hp, hi, rfl, hhd2, htl2, hcnt2⟩
  | is_full =>
    exact ⟨.flag (Index.cbuff_is_full ci), (cp, mp), (ci, mp),
      by simp [Pointer.call, Pointer.cbuff_uint8_is_full, Index.cbuff_is_full, hcnt2, hcp, hci],
      by simp [Index.call], hp, hi, rfl, hhd2, htl2, hcnt2⟩
  | is_empty =>
    exact ⟨.flag (Index.cbuff_is_empty ci), (cp, mp), (ci, mp),
      by simp [Pointer.call, Pointer.cbuff_uint8_is_empty, Index.cbuff_is_empty, hcnt2],
      by simp [Index.call], hp, hi, rfl, hhd2, htl2, hcnt2⟩

theorem simPointer_calls {C : Nat} (cs : List Call) :
    ∀ (sp : Pointer.cbuff_uint8_t × Mem) (si : Index.cbuff_t × Mem), SimPointer C sp si →
      ∃ rs sp1 si1, Pointer.calls sp cs = some (rs, sp1) ∧
        Index.calls si cs = some (rs, si1) ∧ SimPointer C sp1 si1 := by
  induction cs with
  | nil =>
    intro sp si h
    exact ⟨[], sp, si, rfl, rfl, h⟩
  | cons c cs ih =>
    intro sp si h
    obtain ⟨r, sp1, si1, e1, e2, h1⟩ := simPointer_call h c
    obtain ⟨rs, sp2, si2, e3, e4, h2⟩ := ih sp1 si1 h1
    exact ⟨r :: rs, sp2, si2, by simp [Pointer.calls, e1, e3], by simp [Index.calls, e2, e4],
      h2⟩

/-! ## Mirrored-index variant: what enqueue and dequeue write -/

theorem Mem.store_some {m m1 : Mem} {p : Nat} {b : Byte} (h : m.store p b = some m1) :
    ∃ i, i < m.bytes.length ∧ m1 = { m with bytes := m.bytes.set i b } := by
  unfold Mem.store at h
  split at h
  · next hc =>
    simp only [Option.some.injEq] at h
    exact ⟨p - m.base, hc.2, h.symm⟩
  · simp at h

namespace Mirrored

theorem mir_enqueue_frame (cb : cbuff_uint8_t) (m : Mem) (b : Byte) (r : Bool)
    (cb1 : cbuff_uint8_t) (m1 : Mem) (h : cbuff_uint8_enqueue cb m b = some (r, cb1, m1)) :
    cb1.head = cb.head ∧ cb1.capacity = cb.capacity ∧ cb1.buffer = cb.buffer ∧
      (m1 = m ∨ ∃ i, WritesOne m m1 i b) := by
  simp only [cbuff_uint8_enqueue, mir_count_eq] at h
  split at h
  · simp only [Option.some.injEq, Prod.mk.injEq] at h
    obtain ⟨_, rfl, rfl⟩ := h
    exact ⟨rfl, rfl, rfl, Or.inl rfl⟩
  · simp only [Option.bind_eq_some, Option.some.injEq, Prod.mk.injEq] at h
    obtain ⟨i, _, m2, hst, t, _, _, rfl, rfl⟩ := h
    obtain ⟨j, hj, rfl⟩ := Mem.store_some hst
    exact ⟨rfl, rfl, rfl, Or.inr ⟨j, writesOne_set m j b hj⟩⟩

theorem mir_dequeue_frame (cb : cbuff_uint8_t) (m : Mem) (d : Byte) (r : Bool) (d1 : Byte)
    (cb1 : cbuff_uint8_t) (m1 : Mem)
    (h : cbuff_uint8_dequeue cb m d = some (r, d1, cb1, m1)) :
    cb1.tail = cb.tail ∧ cb1.capacity = cb.capacity ∧ cb1.buffer = cb.buffer ∧ m1 = m := by
  simp only [cbuff_uint8_dequeue] at h
  split at h
  · simp only [Option.some.injEq, Prod.mk.injEq] at h
    obtain ⟨_, _, rfl, rfl⟩ := h
    exact ⟨rfl, rfl, rfl, rfl⟩
  · simp only [Option.bind_eq_some, Option.some.injEq, Prod.mk.injEq] at h
    obtain ⟨i, _, v, _, t, _, _, _, rfl, rfl⟩ := h
    exact ⟨rfl, rfl, rfl, rfl⟩

end Mirrored

/-! ## The claims on equivalence and on write ownership -/

/-- C19. The pointer-based variant has the semantics of the counted-index
variant: for every capacity `C >= 1`, `init` with capacity `C` on the same
non-null storage succeeds in both, and for every finite sequence of calls
(reset, enqueue, enqueue_overwrite, dequeue, peek, capacity, count, is_full,
is_empty) made on both, every call returns the same result and the same output
byte in both, and afterwards the storage and the count are equal and the
offsets of the head and tail cursors from the start of storage are the counted
head and tail; the cursor step with its reset at `bufferEnd` gives the offset
`(index + 1) % C`.  As the sequence is arbitrary this holds after each step. -/
theorem C19_pointer_refines_counted (C : Nat) (hC : 1 ≤ C) (m0 : Mem) (hb : m0.base ≠ 0)
    (hlen : C ≤ m0.bytes.length) (oldp : Pointer.cbuff_uint8_t) (oldi : Index.cbuff_t)
    (cs : List Call) :
    Pointer.cbuff_uint8_init (some oldp) C m0.base
      = (true, some (Pointer.cbuff_uint8_struct_full_prefill C m0.base)) ∧
    Index.cbuff_init (some oldi) C m0.base
      = (true, some (Index.cbuff_struct_full_prefill C m0.base)) ∧
    ∃ rs sp si,
      Pointer.calls (Pointer.cbuff_uint8_struct_full_prefill C m0.base, m0) cs
        = some (rs, sp) ∧
      Index.calls (Index.cbuff_struct_full_prefill C m0.base, m0) cs = some (rs, si) ∧
      sp.2 = si.2 ∧ Pointer.cbuff_uint8_count sp.1 = Index.cbuff_count si.1 ∧
      sp.1.head - sp.1.buffer = si.1.head ∧ sp.1.tail - sp.1.buffer = si.1.tail ∧
      Pointer.advance sp.1 sp.1.head - sp.1.buffer = (si.1.head + 1) % C ∧
      Pointer.advance sp.1 sp.1.tail - sp.1.buffer = (si.1.tail + 1) % C := by
  refine ⟨Pointer.ptr_init_eq oldp C m0.base hb, Index.idx_init_eq oldi C m0.base hb, ?_⟩
  obtain ⟨rs, sp, si, e1, e2, hp, _, hmem, hhd, htl, hcnt⟩ :=
    simPointer_calls cs _ _ (simPointer_init hC m0 hb hlen)
  exact ⟨rs, sp, si, e1, e2, hmem, hcnt, hhd, htl,
    Pointer.ptr_advance_sub hp sp.1.head si.1.head hp.hd_ge hp.hd_lt hhd,
    Pointer.ptr_advance_sub hp sp.1.tail si.1.tail hp.ptr_tail_ge hp.ptr_tail_lt htl⟩

/-- C19, witness: capacity 3 on three bytes at address 100, with a sequence
that fills the buffer, overwrites, peeks (also at the count), empties it and
resets. -/
theorem C19_pointer_refines_counted_witness :
    Pointer.cbuff_uint8_init (some Pointer.exOne.1) 3 (⟨100, [0, 0, 0]⟩ : Mem).base
      = (true, some (Pointer.cbuff_uint8_struct_full_prefill 3 (⟨100, [0, 0, 0]⟩ : Mem).base)) ∧
    Index.cbuff_init (some Index.exOne.1) 3 (⟨100, [0, 0, 0]⟩ : Mem).base
      = (true, some (Index.cbuff_struct_full_prefill 3 (⟨100, [0, 0, 0]⟩ : Mem).base)) ∧
    ∃ rs sp si,
      Pointer.calls
          (Pointer.cbuff_uint8_struct_full_prefill 3 (⟨100, [0, 0, 0]⟩ : Mem).base,
            ⟨100, [0, 0, 0]⟩)
          [.is_empty, .enqueue 1, .enqueue 2, .peek 0 2, .enqueue 3, .enqueue 4, .is_full,
            .enqueue_overwrite 5, .count, .dequeue 0, .dequeue 0, .dequeue 0, .dequeue 0,
            .enqueue 6, .enqueue 7, .enqueue 8, .peek 0 1, .capacity, .reset, .is_empty]
        = some (rs, sp) ∧
      Index.calls
          (Index.cbuff_struct_full_prefill 3 (⟨100, [0, 0, 0]⟩ : Mem).base, ⟨100, [0, 0, 0]⟩)
          [.is_empty, .enqueue 1, .enqueue 2, .peek 0 2, .enqueue 3, .enqueue 4, .is_full,
            .enqueue_overwrite 5, .count, .dequeue 0, .dequeue 0, .dequeue 0, .dequeue 0,
            .enqueue 6, .enqueue 7, .enqueue 8, .peek 0 1, .capacity, .reset, .is_empty]
        = some (rs, si) ∧
      sp.2 = si.2 ∧ Pointer.cbuff_uint8_count sp.1 = Index.cbuff_count si.1 ∧
      sp.1.head - sp.1.buffer = si.1.head ∧ sp.1.tail - sp.1.buffer = si.1.tail ∧
      Pointer.advance sp.1 sp.1.head - sp.1.buffer = (si.1.head + 1) % 3 ∧
      Pointer.advance sp.1 sp.1.tail - sp.1.buffer = (si.1.tail + 1) % 3 :=
  C19_pointer_refines_counted 3 (by decide) ⟨100, [0, 0, 0]⟩ (by decide) (by decide)
    Pointer.exOne.1 Index.exOne.1
    [.is_empty, .enqueue 1, .enqueue 2, .peek 0 2, .enqueue 3, .enqueue 4, .is_full,
      .enqueue_overwrite 5, .count, .dequeue 0, .dequeue 0, .dequeue 0, .dequeue 0,
      .enqueue 6, .enqueue 7, .enqueue 8, .peek 0 1, .capacity, .reset, .is_empty]

/-- C20. Mirrored-index variant, for every state and every byte `b`: a call
of `enqueue b` that returns leaves head (and the capacity and the storage
pointer) unchanged and either leaves the storage as it was or writes `b` to
one slot of it; a call of `dequeue` that returns leaves tail (and the capacity
and the storage pointer) and the whole storage unchanged. -/
theorem C20_mirrored_write_ownership (cb : Mirrored.cbuff_uint8_t) (m : Mem) (b d : Byte)
    (re : Bool) (cbe : Mirrored.cbuff_uint8_t) (me : Mem)
    (he : Mirrored.cbuff_uint8_enqueue cb m b = some (re, cbe, me))
    (rd : Bool) (od : Byte) (cbd : Mirrored.cbuff_uint8_t) (md : Mem)
    (hd : Mirrored.cbuff_uint8_dequeue cb m d = some (rd, od, cbd, md)) :
    (cbe.head = cb.head ∧ cbe.capacity = cb.capacity ∧ cbe.buffer = cb.buffer ∧
      (me = m ∨ ∃ i, WritesOne m me i b)) ∧
    (cbd.tail = cb.tail ∧ cbd.capacity = cb.capacity ∧ cbd.buffer = cb.buffer ∧ md = m) :=
  ⟨Mirrored.mir_enqueue_frame cb m b re cbe me he,
    Mirrored.mir_dequeue_frame cb m d rd od cbd md hd⟩

/-- C20, witness: capacity 4 holding the byte 7; `enqueue 5` moves tail from 1
to 2 and writes slot 1, `dequeue` moves head from 0 to 1. -/
theorem C20_mirrored_write_ownership_witness :
    ((⟨4, 100, 0, 2⟩ : Mirrored.cbuff_uint8_t).head = Mirrored.exOne.1.head ∧
      (⟨4, 100, 0, 2⟩ : Mirrored.cbuff_uint8_t).capacity = Mirrored.exOne.1.capacity ∧
      (⟨4, 100, 0, 2⟩ : Mirrored.cbuff_uint8_t).buffer = Mirrored.exOne.1.buffer ∧
      ((⟨100, [7, 5, 9, 9]⟩ : Mem) = Mirrored.exOne.2 ∨
        ∃ i, WritesOne Mirrored.exOne.2 ⟨100, [7, 5, 9, 9]⟩ i 5)) ∧
    ((⟨4, 100, 1, 1⟩ : Mirrored.cbuff_uint8_t).tail = Mirrored.exOne.1.tail ∧
      (⟨4, 100, 1, 1⟩ : Mirrored.cbuff_uint8_t).capacity = Mirrored.exOne.1.capacity ∧
      (⟨4, 100, 1, 1⟩ : Mirrored.cbuff_uint8_t).buffer = Mirrored.exOne.1.buffer ∧
      Mirrored.exOne.2 = Mirrored.exOne.2) :=
  C20_mirrored_write_ownership Mirrored.exOne.1 Mirrored.exOne.2 5 0xFF
    true ⟨4, 100, 0, 2⟩ ⟨100, [7, 5, 9, 9]⟩ (by decide)
    true 7 ⟨4, 100, 1, 1⟩ Mirrored.exOne.2 (by decide)

/-! ## The bound check of peek -/

namespace Index

theorem idx_peek_exact {C : Nat} (cb : cbuff_t) (m : Mem) (d : Byte) (offset : Nat)
    (h : Inv C (cb, m)) :
    (∃ r d1, cbuff_peek cb m d offset = some (r, d1, cb, m) ∧
        (r = false ↔ cbuff_count cb = 0 ∨ cbuff_count cb < offset)) ∧
      (cbuff_count cb ≠ 0 →
        cbuff_peek cb m d (cbuff_count cb)
          = some (true, m.bytes.getD ((cb.head + cbuff_count cb) % C) 0, cb, m) ∧
        (cb.head + cbuff_count cb) % C = cb.tail ∧
        (cbuff_count cb = C →
          (cb.head + cbuff_count cb) % C = cb.head % C ∧
          cbuff_peek cb m d (cbuff_count cb) = cbuff_peek cb m d 0)) := by
  refine ⟨?_, fun hnz => ?_⟩
  · by_cases hf : cb.count = 0 ∨ cb.count < offset
    · exact ⟨false, d, idx_peek_fail cb m d offset hf, by simpa [cbuff_count] using hf⟩
    · have hne : cb.count ≠ 0 := fun e => hf (Or.inl e)
      have ho : offset ≤ cb.count := Nat.not_lt.mp (fun e => hf (Or.inr e))
      exact ⟨true, _, idx_peek_eq h hne d offset ho, by simpa [cbuff_count] using hf⟩
  · have hne : cb.count ≠ 0 := hnz
    have e1 := idx_peek_eq h hne d cb.count (Nat.le_refl _)
    have e0 := idx_peek_eq h hne d 0 (Nat.zero_le _)
    refine ⟨e1, h.tl.symm, fun hfull => ?_⟩
    have hfull2 : cb.count = C := hfull
    have hmod : (cb.head + cb.count) % C = cb.head % C := by
      rw [hfull2, Nat.add_mod_right]
    refine ⟨hmod, ?_⟩
    show cbuff_peek cb m d cb.count = cbuff_peek cb m d 0
    rw [e1, e0, hmod, Nat.add_zero]

end Index

namespace Mirrored

theorem mir_peek_exact {C : Nat} (cb : cbuff_uint8_t) (m : Mem) (d : Byte) (offset : Nat)
    (h : Inv C (cb, m)) :
    (∃ r d1, cbuff_uint8_peek cb m d offset = some (r, d1, cb, m) ∧
        (r = false ↔ cbuff_uint8_count cb = 0 ∨ cbuff_uint8_count cb < offset)) ∧
      (cbuff_uint8_count cb ≠ 0 →
        cbuff_uint8_peek cb m d (cbuff_uint8_count cb)
          = some (true, m.bytes.getD ((cb.head + cbuff_uint8_count cb) % C) 0, cb, m) ∧
        (cb.head + cbuff_uint8_count cb) % C = cb.tail % C ∧
        (cbuff_uint8_count cb = C →
          (cb.head + cbuff_uint8_count cb) % C = cb.head % C ∧
          cbuff_uint8_peek cb m d (cbuff_uint8_count cb) = cbuff_uint8_peek cb m d 0)) := by
  have hz := mir_count_zero_iff h
  refine ⟨?_, fun hnz => ?_⟩
  · by_cases hf : cb.tail = cb.head ∨ cbuff_uint8_count cb < offset
    · refine ⟨false, d, mir_peek_fail cb m d offset hf, ?_⟩
      have hf2 : cbuff_uint8_count cb = 0 ∨ cbuff_uint8_count cb < offset := by
        rcases hf with e | e
        · exact Or.inl (hz.mpr e)
        · exact Or.inr e
      simpa using hf2
    · have hne : cb.tail ≠ cb.head := fun e => hf (Or.inl e)
      have ho : offset ≤ cbuff_uint8_count cb := Nat.not_lt.mp (fun e => hf (Or.inr e))
      refine ⟨true, _, mir_peek_eq h hne d offset ho, ?_⟩
      have hnf : ¬ (cbuff_uint8_count cb = 0 ∨ cbuff_uint8_count cb < offset) := by
        rintro (e | e)
        · exact hne (hz.mp e)
        · exact hf (Or.inr e)
      simpa using hnf
  · have hne : cb.tail ≠ cb.head := fun e => hnz (hz.mpr e)
    have e1 := mir_peek_eq h hne d (cbuff_uint8_count cb) (Nat.le_refl _)
    have e0 := mir_peek_eq h hne d 0 (Nat.zero_le _)
    refine ⟨e1, (mir_tail_mod h).symm, fun hfull => ?_⟩
    have hmod : (cb.head + cbuff_uint8_count cb) % C = cb.head % C := by
      rw [hfull, Nat.add_mod_right]
    refine ⟨hmod, ?_⟩
    rw [e1, e0, hmod, Nat.add_zero]

end Mirrored

namespace Pointer

theorem ptr_peek_exact {C : Nat} (cb : cbuff_uint8_t) (m : Mem) (d : Byte) (offset : Nat)
    (h : Inv C (cb, m)) :
    (∃ r d1, cbuff_uint8_peek cb m d offset = some (r, d1, cb, m) ∧
        (r = false ↔ cbuff_uint8_count cb = 0 ∨ cbuff_uint8_count cb < offset)) ∧
      (cbuff_uint8_count cb ≠ 0 →
        cbuff_uint8_peek cb m d (cbuff_uint8_count cb)
          = some (true, m.bytes.getD ((cb.head - cb.buffer + cbuff_uint8_count cb) % C) 0,
            cb, m) ∧
        (cb.head - cb.buffer + cbuff_uint8_count cb) % C = cb.tail - cb.buffer ∧
        (cbuff_uint8_count cb = C →
          (cb.head - cb.buffer + cbuff_uint8_count cb) % C = (cb.head - cb.buffer) % C ∧
          cbuff_uint8_peek cb m d (cbuff_uint8_count cb) = cbuff_uint8_peek cb m d 0)) := by
  have hbuf : cb.buffer = m.base := h.buf
  rw [hbuf]
  refine ⟨?_, fun hnz => ?_⟩
  · by_cases hf : cb.count = 0 ∨ cb.count < offset
    · exact ⟨false, d, ptr_peek_fail cb m d offset hf,
        by simpa [cbuff_uint8_count] using hf⟩
    · have hne : cb.count ≠ 0 := fun e => hf (Or.inl e)
      have ho : offset ≤ cb.count := Nat.not_lt.mp (fun e => hf (Or.inr e))
      exact ⟨true, _, ptr_peek_eq h hne d offset ho,
        by simpa [cbuff_uint8_count] using hf⟩
  · have hne : cb.count ≠ 0 := hnz
    have e1 := ptr_peek_eq h hne d cb.count (Nat.le_refl _)
    have e0 := ptr_peek_eq h hne d 0 (Nat.zero_le _)
    have ets : cb.tail - m.base = (cb.head - m.base + cb.count) % C := h.ptr_tail_sub
    refine ⟨e1, ets.symm, fun hfull => ?_⟩
    have hfull2 : cb.count = C := hfull
    have hmod : (cb.head - m.base + cb.count) % C = (cb.head - m.base) % C := by
      rw [hfull2, Nat.add_mod_right]
    refine ⟨hmod, ?_⟩
    show cbuff_uint8_peek cb m d cb.count = cbuff_uint8_peek cb m d 0
    rw [e1, e0, hmod, Nat.add_zero]

end Pointer

/-! ## Enqueue against enqueue_overwrite; head, tail and count -/

theorem head_eq_tail_iff {C h n t : Nat} (hh : h < C) (hn : n ≤ C)
    (ht : t = (h + n) % C) : h = t ↔ n = 0 ∨ n = C := by
  constructor
  · intro e
    by_contra hne
    have h1 : 0 < n := by omega
    have h2 : n < C := by omega
    have h3 := add_mod_ne (h := h) h1 h2
    rw [Nat.add_zero, Nat.mod_eq_of_lt hh, ← ht] at h3
    exact h3 e
  · rintro (e | e)
    · rw [ht, e, Nat.add_zero, Nat.mod_eq_of_lt hh]
    · rw [ht, e, Nat.add_mod_right, Nat.mod_eq_of_lt hh]

namespace Index

theorem idx_overwrite_vs_enqueue {C : Nat} (cb : cbuff_t) (m : Mem) (b : Byte)
    (h : Inv C (cb, m)) :
    (cbuff_count cb < cbuff_capacity cb →
      cbuff_enqueue_overwrite cb m b = cbuff_enqueue cb m b ∧
      ∃ cb1 m1, cbuff_enqueue cb m b = some (true, cb1, m1)) ∧
    (cbuff_count cb = cbuff_capacity cb →
      cbuff_enqueue_overwrite cb m b ≠ cbuff_enqueue cb m b) := by
  have hcap : cb.capacity = C := h.cap
  refine ⟨fun hlt => ?_, fun hf => ?_⟩
  · have hlt2 : cb.count < C := hcap ▸ hlt
    exact ⟨by rw [idx_enqueue_overwrite_eq h hlt2, idx_enqueue_eq h hlt2],
      _, _, idx_enqueue_eq h hlt2 b⟩
  · have hge : C ≤ cb.count := le_of_eq (hcap.symm.trans hf.symm)
    rw [idx_enqueue_overwrite_full h hge, idx_enqueue_full h hge]
    simp

theorem idx_tail_head_count {C : Nat} (cb : cbuff_t) (m : Mem) (h : Inv C (cb, m)) :
    cb.tail = (cb.head + cbuff_count cb) % C ∧
    (cb.head = cb.tail ↔ cbuff_is_empty cb = true ∨ cbuff_is_full cb = true) ∧
    ¬ (cbuff_is_empty cb = true ∧ cbuff_is_full cb = true) := by
  have hcap : cb.capacity = C := h.cap
  have hcnt : cb.count ≤ C := h.cnt
  have hpos : 0 < C := h.pos
  have htl : cb.tail = (cb.head + cb.count) % C := h.tl
  refine ⟨htl, ?_, ?_⟩
  · rw [head_eq_tail_iff h.hd hcnt htl]
    simp only [cbuff_is_empty, cbuff_is_full, hcap, decide_eq_true_eq]
    constructor
    · rintro (e | e)
      · exact Or.inl e
      · exact Or.inr (le_of_eq e.symm)
    · rintro (e | e)
      · exact Or.inl e
      · exact Or.inr (le_antisymm hcnt e)
  · simp only [cbuff_is_empty, cbuff_is_full, hcap, decide_eq_true_eq]
    omega

end Index

namespace Mirrored

theorem mir_overwrite_vs_enqueue {C : Nat} (cb : cbuff_uint8_t) (m : Mem) (b : Byte)
    (h : Inv C (cb, m)) :
    (cbuff_uint8_count cb < cbuff_uint8_capacity cb →
      cbuff_uint8_enqueue_overwrite cb m b = cbuff_uint8_enqueue cb m b ∧
      ∃ cb1 m1, cbuff_uint8_enqueue cb m b = some (true, cb1, m1)) ∧
    (cbuff_uint8_count cb = cbuff_uint8_capacity cb →
      cbuff_uint8_enqueue_overwrite cb m b ≠ cbuff_uint8_enqueue cb m b) := by
  have hcap : cb.capacity = C := h.cap
  refine ⟨fun hlt => ?_, fun hf => ?_⟩
  · have hlt2 : cbuff_uint8_count cb < C := hcap ▸ hlt
    exact ⟨by rw [mir_enqueue_overwrite_eq h hlt2, mir_enqueue_eq h hlt2],
      _, _, mir_enqueue_eq h hlt2 b⟩
  · have hge : C ≤ cbuff_uint8_count cb := le_of_eq (hcap.symm.trans hf.symm)
    rw [mir_enqueue_overwrite_full h hge, mir_enqueue_full h hge]
    simp

end Mirrored

namespace Pointer

theorem ptr_overwrite_vs_enqueue {C : Nat} (cb : cbuff_uint8_t) (m : Mem) (b : Byte)
    (h : Inv C (cb, m)) :
    (cbuff_uint8_count cb < cbuff_uint8_capacity cb →
      cbuff_uint8_enqueue_overwrite cb m b = cbuff_uint8_enqueue cb m b ∧
      ∃ cb1 m1, cbuff_uint8_enqueue cb m b = some (true, cb1, m1)) ∧
    (cbuff_uint8_count cb = cbuff_uint8_capacity cb →
      cbuff_uint8_enqueue_overwrite cb m b ≠ cbuff_uint8_enqueue cb m b) := by
  have hcap : cb.capacity = C := h.cap
  refine ⟨fun hlt => ?_, fun hf => ?_⟩
  · have hlt2 : cb.count < C := hcap ▸ hlt
    exact ⟨by rw [ptr_enqueue_overwrite_eq h hlt2, ptr_enqueue_eq h hlt2],
      _, _, ptr_enqueue_eq h hlt2 b⟩
  · have hge : C ≤ cb.count := le_of_eq (hcap.symm.trans hf.symm)
    rw [ptr_enqueue_overwrite_full h hge, ptr_enqueue_full h hge]
    simp

theorem ptr_tail_head_count {C : Nat} (cb : cbuff_uint8_t) (m : Mem) (h : Inv C (cb, m)) :
    cb.tail - cb.buffer = (cb.head - cb.buffer + cbuff_uint8_count cb) % C ∧
    (cb.head = cb.tail ↔ cbuff_uint8_is_empty cb = true ∨ cbuff_uint8_is_full cb = true) ∧
    ¬ (cbuff_uint8_is_empty cb = true ∧ cbuff_uint8_is_full cb = true) := by
  have hcap : cb.capacity = C := h.cap
  have hbuf : cb.buffer = m.base := h.buf
  have hcnt : cb.count ≤ C := h.cnt
  have hpos : 0 < C := h.pos
  have hts : cb.tail - m.base = (cb.head - m.base + cb.count) % C := h.ptr_tail_sub
  have h1 : m.base ≤ cb.head := h.hd_ge
  have h2 : cb.head < m.base + C := h.hd_lt
  have h3 : m.base ≤ cb.tail := h.ptr_tail_ge
  have hoff : cb.head = cb.tail ↔ cb.head - m.base = cb.tail - m.base := by omega
  rw [hbuf]
  refine ⟨hts, ?_, ?_⟩
  · rw [hoff, head_eq_tail_iff (by omega) hcnt hts]
    simp only [cbuff_uint8_is_empty, cbuff_uint8_is_full, hcap, decide_eq_true_eq]
    constructor
    · rintro (e | e)
      · exact Or.inl e
      · exact Or.inr (le_of_eq e.symm)
    · rintro (e | e)
      · exact Or.inl e
      · exact Or.inr (le_antisymm hcnt e)
  · simp only [cbuff_uint8_is_empty, cbuff_uint8_is_full, hcap, decide_eq_true_eq]
    omega

end Pointer

/-! ## The last claims -/

/-- C25. Counter and index consistency: in every reachable state of capacity
`C >= 1`, the counted-index variant has `tail = (head + count) % C` and the
pointer-based variant has the same for the offsets of the cursors from the
start of storage; hence `head = tail` exactly when the buffer is empty or
full, and the two cases, told apart by the stored count, never hold
together. -/
theorem C25_tail_is_head_plus_count (C : Nat) (hC : 1 ≤ C)
    (si : Index.cbuff_t × Mem) (hri : Index.Reachable C si)
    (sp : Pointer.cbuff_uint8_t × Mem) (hrp : Pointer.Reachable C sp)
    :
    (si.1.tail = (si.1.head + Index.cbuff_count si.1) % C ∧
      (si.1.head = si.1.tail ↔
        Index.cbuff_is_empty si.1 = true ∨ Index.cbuff_is_full si.1 = true) ∧
      ¬ (Index.cbuff_is_empty si.1 = true ∧ Index.cbuff_is_full si.1 = true)) ∧
    (sp.1.tail - sp.1.buffer = (sp.1.head - sp.1.buffer + Pointer.cbuff_uint8_count sp.1) % C ∧
      (sp.1.head = sp.1.tail ↔
        Pointer.cbuff_uint8_is_empty sp.1 = true ∨ Pointer.cbuff_uint8_is_full sp.1 = true) ∧
      ¬ (Pointer.cbuff_uint8_is_empty sp.1 = true ∧ Pointer.cbuff_uint8_is_full sp.1 = true)) :=
  ⟨Index.idx_tail_head_count si.1 si.2 (hri.idx_inv hC),
    Pointer.ptr_tail_head_count sp.1 sp.2 (hrp.ptr_inv hC)⟩

/-- C25, witness: capacity 3 after `enqueue_overwrite` of 1, 2, 3, 4: full,
with head and tail both at slot 1. -/
theorem C25_tail_is_head_plus_count_witness :
    (Index.exPeek.1.tail = (Index.exPeek.1.head + Index.cbuff_count Index.exPeek.1) % 3 ∧
      (Index.exPeek.1.head = Index.exPeek.1.tail ↔
        Index.cbuff_is_empty Index.exPeek.1 = true ∨ Index.cbuff_is_full Index.exPeek.1 = true) ∧
      ¬ (Index.cbuff_is_empty Index.exPeek.1 = true ∧ Index.cbuff_is_full Index.exPeek.1 = true)) ∧
    (Pointer.exPeek.1.tail - Pointer.exPeek.1.buffer = (Pointer.exPeek.1.head - Pointer.exPeek.1.buffer + Pointer.cbuff_uint8_count Pointer.exPeek.1) % 3 ∧
      (Pointer.exPeek.1.head = Pointer.exPeek.1.tail ↔
        Pointer.cbuff_uint8_is_empty Pointer.exPeek.1 = true ∨ Pointer.cbuff_uint8_is_full Pointer.exPeek.1 = true) ∧
      ¬ (Pointer.cbuff_uint8_is_empty Pointer.exPeek.1 = true ∧ Pointer.cbuff_uint8_is_full Pointer.exPeek.1 = true)) :=
  C25_tail_is_head_plus_count 3 (by decide)
    Index.exPeek Index.idx_exPeek_reachable
    Pointer.exPeek Pointer.ptr_exPeek_reachable

/-! ## Mirrored-index variant: enqueue_overwrite and the head index -/

namespace Mirrored

theorem mir_overwrite_head {C : Nat} (cb : cbuff_uint8_t) (m : Mem) (b : Byte)
    (h : Inv C (cb, m)) :
    ∃ cb1 m1, cbuff_uint8_enqueue_overwrite cb m b = some (true, cb1, m1) ∧
      (cbuff_uint8_count cb < cbuff_uint8_capacity cb → cb1.head = cb.head) ∧
      (cbuff_uint8_count cb = cbuff_uint8_capacity cb →
        cb1.head = (cb.head + 1) % (2 * C) ∧ cb1.head ≠ cb.head) ∧
      cb1.tail = (cb.tail + 1) % (2 * C) := by
  have hcap : cbuff_uint8_capacity cb = C := h.cap
  have hpos : 0 < C := h.pos
  have hhd : cb.head < C * 2 := h.hd
  rw [hcap, Nat.mul_comm 2 C]
  by_cases hlt : cbuff_uint8_count cb < C
  · refine ⟨_, _, mir_enqueue_overwrite_eq h hlt b, fun _ => rfl, fun hf => ?_, rfl⟩
    omega
  · have hge : C ≤ cbuff_uint8_count cb := Nat.not_lt.mp hlt
    refine ⟨_, _, mir_enqueue_overwrite_full h hge b, fun hl => absurd hl hlt,
      fun _ => ⟨rfl, ?_⟩, rfl⟩
    show (cb.head + 1) % (C * 2) ≠ cb.head
    rw [succ_mod_of_lt hhd]
    split_ifs <;> omega

end Mirrored

/-- C26. The code at the failing input: `init` with capacity 0 and the non-null
storage pointer 100 returns success in the counted-index and the
mirrored-index variant; on the structure it leaves, `enqueue`, `dequeue` and
`peek` return failure without a remainder, and `enqueue_overwrite` takes the
remainder `(head + 1) % capacity` (counted-index) or
`(head + 1) % (capacity * 2)` (mirrored-index) with the divisor zero, which is
undefined, so the sequence that consists of this one call has no result. -/
theorem C26_remainder_by_zero_after_init :
    (Index.cbuff_init (some Index.exOne.1) 0 100
        = (true, some (Index.cbuff_struct_full_prefill 0 100)) ∧
      Index.cbuff_enqueue (Index.cbuff_struct_full_prefill 0 100) ⟨100, [9, 9, 9, 9]⟩ 7
        = some (false, Index.cbuff_struct_full_prefill 0 100, ⟨100, [9, 9, 9, 9]⟩) ∧
      Index.cbuff_dequeue (Index.cbuff_struct_full_prefill 0 100) ⟨100, [9, 9, 9, 9]⟩ 0xFF
        = some (false, 0xFF, Index.cbuff_struct_full_prefill 0 100, ⟨100, [9, 9, 9, 9]⟩) ∧
      Index.cbuff_peek (Index.cbuff_struct_full_prefill 0 100) ⟨100, [9, 9, 9, 9]⟩ 0xFF 0
        = some (false, 0xFF, Index.cbuff_struct_full_prefill 0 100, ⟨100, [9, 9, 9, 9]⟩) ∧
      (Index.cbuff_struct_full_prefill 0 100).capacity = 0 ∧
      urem ((Index.cbuff_struct_full_prefill 0 100).head + 1)
        (Index.cbuff_struct_full_prefill 0 100).capacity = none ∧
      Index.run (Index.cbuff_struct_full_prefill 0 100, ⟨100, [9, 9, 9, 9]⟩)
        [.enqueue_overwrite 7] = none) ∧
    (Mirrored.cbuff_uint8_init (some Mirrored.exOne.1) 0 100
        = (true, some (Mirrored.cbuff_uint8_struct_full_prefill 0 100)) ∧
      Mirrored.cbuff_uint8_enqueue (Mirrored.cbuff_uint8_struct_full_prefill 0 100)
          ⟨100, [9, 9, 9, 9]⟩ 7
        = some (false, Mirrored.cbuff_uint8_struct_full_prefill 0 100, ⟨100, [9, 9, 9, 9]⟩) ∧
      Mirrored.cbuff_uint8_dequeue (Mirrored.cbuff_uint8_struct_full_prefill 0 100)
          ⟨100, [9, 9, 9, 9]⟩ 0xFF
        = some (false, 0xFF, Mirrored.cbuff_uint8_struct_full_prefill 0 100,
          ⟨100, [9, 9, 9, 9]⟩) ∧
      Mirrored.cbuff_uint8_peek (Mirrored.cbuff_uint8_struct_full_prefill 0 100)
          ⟨100, [9, 9, 9, 9]⟩ 0xFF 0
        = some (false, 0xFF, Mirrored.cbuff_uint8_struct_full_prefill 0 100,
          ⟨100, [9, 9, 9, 9]⟩) ∧
      (Mirrored.cbuff_uint8_struct_full_prefill 0 100).capacity * 2 = 0 ∧
      urem ((Mirrored.cbuff_uint8_struct_full_prefill 0 100).head + 1)
        ((Mirrored.cbuff_uint8_struct_full_prefill 0 100).capacity * 2) = none ∧
      Mirrored.run (Mirrored.cbuff_uint8_struct_full_prefill 0 100, ⟨100, [9, 9, 9, 9]⟩)
        [.enqueue_overwrite 7] = none) :=
  ⟨⟨by decide, by decide, by decide, by decide, by decide, by decide, by decide⟩,
    ⟨by decide, by decide, by decide, by decide, by decide, by decide, by decide⟩⟩

/-! ## Mirrored-index variant on a `w`-bit `size_t`: agreement and wrap -/

theorem wadd_of_lt {w a b : Nat} (h : a + b < 2 ^ w) : wadd w a b = a + b :=
  Nat.mod_eq_of_lt h

theorem wmul_of_lt {w a b : Nat} (h : a * b < 2 ^ w) : wmul w a b = a * b :=
  Nat.mod_eq_of_lt h

theorem wsub_of_le {w a b : Nat} (hb : b ≤ a) (ha : a < 2 ^ w) : wsub w a b = a - b := by
  unfold wsub
  have e : a + (2 ^ w - b) = (a - b) + 2 ^ w := by omega
  rw [e, Nat.add_mod_right, Nat.mod_eq_of_lt (by omega)]

namespace MirroredW

theorem mw_count_expr {w C : Nat} {cb : Mirrored.cbuff_uint8_t} {m : Mem}
    (h : Mirrored.Inv C (cb, m)) (hw : 2 * C < 2 ^ w) :
    (if cb.tail ≥ cb.head then wsub w cb.tail cb.head
      else wadd w cb.tail (wsub w (wmul w cb.capacity 2) cb.head))
      = Mirrored.cbuff_uint8_count cb := by
  have hcap : cb.capacity = C := h.cap
  have hhd : cb.head < C * 2 := h.hd
  have htl : cb.tail < C * 2 := h.tl
  have e1 : wmul w C 2 = C * 2 := wmul_of_lt (by omega)
  simp only [Mirrored.cbuff_uint8_count, hcap, e1]
  split_ifs with hge
  · exact wsub_of_le hge (by omega)
  · rw [wsub_of_le (by omega) (by omega), wadd_of_lt (by omega)]

theorem mw_count_eq {w C : Nat} {cb : Mirrored.cbuff_uint8_t} {m : Mem}
    (h : Mirrored.Inv C (cb, m)) (hw : 2 * C < 2 ^ w) :
    cbuff_uint8_count w cb = Mirrored.cbuff_uint8_count cb :=
  mw_count_expr h hw

theorem mw_enqueue_eq {w C : Nat} {cb : Mirrored.cbuff_uint8_t} {m : Mem}
    (h : Mirrored.Inv C (cb, m)) (hw : 2 * C < 2 ^ w) (b : Byte) :
    cbuff_uint8_enqueue w cb m b = Mirrored.cbuff_uint8_enqueue cb m b := by
  have hcap : cb.capacity = C := h.cap
  have htl : cb.tail < C * 2 := h.tl
  have e1 : wmul w cb.capacity 2 = cb.capacity * 2 := wmul_of_lt (by omega)
  have e2 : wadd w cb.tail 1 = cb.tail + 1 := wadd_of_lt (by omega)
  simp only [cbuff_uint8_enqueue, mw_count_expr h hw]
  simp only [Mirrored.cbuff_uint8_enqueue, Mirrored.mir_count_eq, e1, e2]

theorem mw_enqueue_overwrite_eq {w C : Nat} {cb : Mirrored.cbuff_uint8_t} {m : Mem}
    (h : Mirrored.Inv C (cb, m)) (hw : 2 * C < 2 ^ w) (b : Byte) :
    cbuff_uint8_enqueue_overwrite w cb m b = Mirrored.cbuff_uint8_enqueue_overwrite cb m b := by
  have hcap : cb.capacity = C := h.cap
  have hhd : cb.head < C * 2 := h.hd
  have htl : cb.tail < C * 2 := h.tl
  have e1 : wmul w cb.capacity 2 = cb.capacity * 2 := wmul_of_lt (by omega)
  have e2 : wadd w cb.tail 1 = cb.tail + 1 := wadd_of_lt (by omega)
  have e3 : wadd w cb.head 1 = cb.head + 1 := wadd_of_lt (by omega)
  simp only [cbuff_uint8_enqueue_overwrite, mw_count_expr h hw]
  simp only [Mirrored.cbuff_uint8_enqueue_overwrite, Mirrored.mir_count_eq, e1, e2, e3]

theorem mw_dequeue_eq {w C : Nat} {cb : Mirrored.cbuff_uint8_t} {m : Mem}
    (h : Mirrored.Inv C (cb, m)) (hw : 2 * C < 2 ^ w) (d : Byte) :
    cbuff_uint8_dequeue w cb m d = Mirrored.cbuff_uint8_dequeue cb m d := by
  have hcap : cb.capacity = C := h.cap
  have hhd : cb.head < C * 2 := h.hd
  have e1 : wmul w cb.capacity 2 = cb.capacity * 2 := wmul_of_lt (by omega)
  have e3 : wadd w cb.head 1 = cb.head + 1 := wadd_of_lt (by omega)
  simp only [cbuff_uint8_dequeue, Mirrored.cbuff_uint8_dequeue, e1, e3]

theorem mw_peek_slot {w C : Nat} {cb : Mirrored.cbuff_uint8_t} {m : Mem}
    (h : Mirrored.Inv C (cb, m)) (hw : 2 * C < 2 ^ w) (d : Byte) (offset : Nat) :
    cbuff_uint8_peek w cb m d offset =
      if cb.tail = cb.head ∨ Mirrored.cbuff_uint8_count cb < offset then
        some (false, d, cb, m)
      else some (true, m.bytes.getD (wadd w cb.head offset % C) 0, cb, m) := by
  have hcap : cb.capacity = C := h.cap
  have hbuf : cb.buffer = m.base := h.buf
  have hpos : 0 < C := h.pos
  have hi : wadd w cb.head offset % C < m.bytes.length :=
    lt_of_lt_of_le (Nat.mod_lt _ hpos) h.len
  simp only [cbuff_uint8_peek, mw_count_expr h hw]
  by_cases he : cb.tail = cb.head
  · simp [he]
  · by_cases ho : Mirrored.cbuff_uint8_count cb < offset
    · simp [he, ho]
    · simp [he, ho, hcap, hbuf, urem_pos _ hpos, Mem.load_offset m _ hi]

theorem mw_peek_eq {w C : Nat} {cb : Mirrored.cbuff_uint8_t} {m : Mem}
    (h : Mirrored.Inv C (cb, m)) (hw : 2 * C < 2 ^ w) (d : Byte) (offset : Nat)
    (hsum : cb.head + offset < 2 ^ w) :
    cbuff_uint8_peek w cb m d offset = Mirrored.cbuff_uint8_peek cb m d offset := by
  rw [mw_peek_slot h hw, wadd_of_lt hsum]
  by_cases hf : cb.tail = cb.head ∨ Mirrored.cbuff_uint8_count cb < offset
  · rw [if_pos hf, Mirrored.mir_peek_fail cb m d offset hf]
  · rw [if_neg hf]
    have hne : cb.tail ≠ cb.head := fun e => hf (Or.inl e)
    have ho : offset ≤ Mirrored.cbuff_uint8_count cb :=
      Nat.not_lt.mp (fun e => hf (Or.inr e))
    rw [Mirrored.mir_peek_eq h hne d offset ho]

theorem mw_step_state {w C : Nat} {s : Mirrored.cbuff_uint8_t × Mem}
    (h : Mirrored.Inv C s) (hw : 2 * C < 2 ^ w) (op : Op) :
    step w s op = Mirrored.step s op := by
  obtain ⟨cb, m⟩ := s
  cases op with
  | reset => rfl
  | enqueue b => simp only [step, Mirrored.step, mw_enqueue_eq h hw]
  | enqueue_overwrite b => simp only [step, Mirrored.step, mw_enqueue_overwrite_eq h hw]
  | dequeue d => simp only [step, Mirrored.step, mw_dequeue_eq h hw]
  | peek d offset =>
    have e1 : (cbuff_uint8_peek w cb m d offset).map (fun r => r.2.2) = some (cb, m) := by
      rw [mw_peek_slot h hw]
      split_ifs <;> rfl
    have e2 : (Mirrored.cbuff_uint8_peek cb m d offset).map (fun r => r.2.2)
        = some (cb, m) := by
      by_cases hf : cb.tail = cb.head ∨ Mirrored.cbuff_uint8_count cb < offset
      · rw [Mirrored.mir_peek_fail cb m d offset hf]; rfl
      · have hne : cb.tail ≠ cb.head := fun e => hf (Or.inl e)
        have ho : offset ≤ Mirrored.cbuff_uint8_count cb :=
          Nat.not_lt.mp (fun e => hf (Or.inr e))
        rw [Mirrored.mir_peek_eq h hne d offset ho]; rfl
    show (cbuff_uint8_peek w cb m d offset).map (fun r => r.2.2)
      = (Mirrored.cbuff_uint8_peek cb m d offset).map (fun r => r.2.2)
    rw [e1, e2]

theorem mw_run_state {w C : Nat} (hw : 2 * C < 2 ^ w) (ops : List Op) :
    ∀ {s : Mirrored.cbuff_uint8_t × Mem}, Mirrored.Inv C s →
      run w s ops = Mirrored.run s ops := by
  induction ops with
  | nil => intro s _; rfl
  | cons op ops ih =>
    intro s h
    simp only [run, Mirrored.run, mw_step_state h hw op]
    cases hs : Mirrored.step s op with
    | none => rfl
    | some s1 => exact ih (Mirrored.mir_inv_step h op hs)

theorem mw_reachable {w C : Nat} (hC : 1 ≤ C) (hw : 2 * C < 2 ^ w)
    {s : Mirrored.cbuff_uint8_t × Mem} (hr : Reachable w C s) :
    Mirrored.Reachable C s := by
  obtain ⟨old, cb0, m0, ops, _, hlen, hi, hrun⟩ := hr
  refine ⟨old, cb0, m0, ops, hlen, hi, ?_⟩
  rw [← mw_run_state hw ops (Mirrored.mir_inv_init hC hlen hi)]
  exact hrun

/-- On a `w`-bit `size_t` with `2 * C < 2 ^ w`, in every reachable state:
`count` is the unbounded count, and `peek` is the unbounded `peek` for every
offset with `head + offset < 2 ^ w`, which covers every offset below the count
when `3 * C <= 2 ^ w + 1`. -/
theorem mw_agrees {w C : Nat} (hC : 1 ≤ C) (hw : 2 * C < 2 ^ w)
    (s : Mirrored.cbuff_uint8_t × Mem) (hr : Reachable w C s) (d : Byte) (offset : Nat) :
    cbuff_uint8_count w s.1 = Mirrored.cbuff_uint8_count s.1 ∧
    (s.1.head + offset < 2 ^ w →
      cbuff_uint8_peek w s.1 s.2 d offset = Mirrored.cbuff_uint8_peek s.1 s.2 d offset) ∧
    (3 * C ≤ 2 ^ w + 1 → offset < Mirrored.cbuff_uint8_count s.1 →
      cbuff_uint8_peek w s.1 s.2 d offset = Mirrored.cbuff_uint8_peek s.1 s.2 d offset) := by
  have h := (mw_reachable hC hw hr).mir_inv hC
  have hhd : s.1.head < C * 2 := h.hd
  have hcnt : Mirrored.cbuff_uint8_count s.1 ≤ C := h.cnt
  refine ⟨mw_count_eq h hw, fun hs => mw_peek_eq h hw d offset hs, fun h3 ho => ?_⟩
  exact mw_peek_eq h hw d offset (by omega)

theorem mw_exWrap_reachable : Reachable 4 6 exWrap :=
  ⟨Mirrored.exOne.1, Mirrored.cbuff_uint8_struct_full_prefill 6 100, ⟨100, [0, 0, 0, 0, 0, 0]⟩,
    [.enqueue 1, .enqueue 2, .enqueue 3, .enqueue 4, .enqueue 5, .enqueue 6,
      .enqueue_overwrite 7, .enqueue_overwrite 8, .enqueue_overwrite 9, .enqueue_overwrite 10,
      .enqueue_overwrite 11, .enqueue_overwrite 12, .enqueue_overwrite 13,
      .enqueue_overwrite 14, .enqueue_overwrite 15, .enqueue_overwrite 16,
      .enqueue_overwrite 17],
    by decide, by decide, by decide, by decide⟩

end MirroredW

/-- C27. The code at the failing input, on a 4-bit `size_t`: capacity 6
(`2 * 6 < 2 ^ 4`), the reachable full state with head 11 that holds
12, 13, 14, 15, 16, 17.  `count` is 6, as over the unbounded integers, but in
`peek` with offset 5 the sum `head + offset` is `2 ^ 4` and wraps to 0, so
the slot is 0 instead of `(11 + 5) % 6 = 4` and `peek` returns 13, where the
unbounded computation and the sixth of six `dequeue` calls return 17.  The
same arithmetic on a 16-bit `size_t`: capacity 24576, head 49151, offset 24575
give slot 8190 instead of 24574. -/
theorem C27_peek_sum_wraps :
    MirroredW.Reachable 4 6 MirroredW.exWrap ∧ 2 * 6 < 2 ^ 4 ∧
    MirroredW.cbuff_uint8_count 4 MirroredW.exWrap.1 = 6 ∧
    Mirrored.cbuff_uint8_count MirroredW.exWrap.1 = 6 ∧
    Mirrored.contents MirroredW.exWrap = [12, 13, 14, 15, 16, 17] ∧
    MirroredW.exWrap.1.head + 5 = 2 ^ 4 ∧
    wadd 4 MirroredW.exWrap.1.head 5 % 6 = 0 ∧ (MirroredW.exWrap.1.head + 5) % 6 = 4 ∧
    MirroredW.cbuff_uint8_peek 4 MirroredW.exWrap.1 MirroredW.exWrap.2 0xFF 5
      = some (true, 13, MirroredW.exWrap.1, MirroredW.exWrap.2) ∧
    Mirrored.cbuff_uint8_peek MirroredW.exWrap.1 MirroredW.exWrap.2 0xFF 5
      = some (true, 17, MirroredW.exWrap.1, MirroredW.exWrap.2) ∧
    (∃ cb1, dequeueSeq (MirroredW.cbuff_uint8_dequeue 4) MirroredW.exWrap.1
        MirroredW.exWrap.2 0xFF 6
      = some ([(true, 12), (true, 13), (true, 14), (true, 15), (true, 16), (true, 17)],
        cb1, MirroredW.exWrap.2)) ∧
    (2 * 24576 < 2 ^ 16 ∧ 49151 < 2 * 24576 ∧ 24575 < 24576 ∧
      wadd 16 49151 24575 % 24576 = 8190 ∧ (49151 + 24575) % 24576 = 24574) :=
  ⟨MirroredW.mw_exWrap_reachable, by decide, by decide, by decide, by decide, by decide,
    by decide, by decide, by decide, by decide, ⟨_, rfl⟩, by decide⟩

/-! ## With a capacity of at least one, no call is undefined -/

namespace Index

theorem idx_step_total {C : Nat} {s : cbuff_t × Mem} (h : Inv C s) (op : Op) :
    (s.1.capacity ≠ 0) ∧ ∃ s1, step s op = some s1 := by
  have hcap : s.1.capacity = C := h.cap
  have hpos : 0 < C := h.pos
  refine ⟨by omega, ?_⟩
  obtain ⟨cb, m⟩ := s
  cases op with
  | reset => exact ⟨_, rfl⟩
  | enqueue b =>
    by_cases hlt : cb.count < C
    · exact ⟨_, by simp only [step, idx_enqueue_eq h hlt, Option.map_some']; rfl⟩
    · exact ⟨_, by simp only [step, idx_enqueue_full h (Nat.not_lt.mp hlt),
        Option.map_some']; rfl⟩
  | enqueue_overwrite b =>
    by_cases hlt : cb.count < C
    · exact ⟨_, by simp only [step, idx_enqueue_overwrite_eq h hlt, Option.map_some']; rfl⟩
    · exact ⟨_, by simp only [step, idx_enqueue_overwrite_full h (Nat.not_lt.mp hlt),
        Option.map_some']; rfl⟩
  | dequeue d =>
    by_cases hz : cb.count = 0
    · exact ⟨_, by simp only [step, idx_dequeue_empty cb m hz, Option.map_some']; rfl⟩
    · exact ⟨_, by simp only [step, idx_dequeue_eq h hz, Option.map_some']; rfl⟩
  | peek d offset =>
    by_cases hf : cb.count = 0 ∨ cb.count < offset
    · exact ⟨_, by simp only [step, idx_peek_fail cb m d offset hf, Option.map_some']; rfl⟩
    · have hne : cb.count ≠ 0 := fun e => hf (Or.inl e)
      have ho : offset ≤ cb.count := Nat.not_lt.mp (fun e => hf (Or.inr e))
      exact ⟨_, by simp only [step, idx_peek_eq h hne d offset ho, Option.map_some']; rfl⟩

end Index

namespace Mirrored

theorem mir_step_total {C : Nat} {s : cbuff_uint8_t × Mem} (h : Inv C s) (op : Op) :
    (s.1.capacity ≠ 0 ∧ s.1.capacity * 2 ≠ 0) ∧ ∃ s1, step s op = some s1 := by
  have hcap : s.1.capacity = C := h.cap
  have hpos : 0 < C := h.pos
  refine ⟨⟨by omega, by omega⟩, ?_⟩
  obtain ⟨cb, m⟩ := s
  cases op with
  | reset => exact ⟨_, rfl⟩
  | enqueue b =>
    by_cases hlt : cbuff_uint8_count cb < C
    · exact ⟨_, by simp only [step, mir_enqueue_eq h hlt, Option.map_some']; rfl⟩
    · exact ⟨_, by simp only [step, mir_enqueue_full h (Nat.not_lt.mp hlt),
        Option.map_some']; rfl⟩
  | enqueue_overwrite b =>
    by_cases hlt : cbuff_uint8_count cb < C
    · exact ⟨_, by simp only [step, mir_enqueue_overwrite_eq h hlt, Option.map_some']; rfl⟩
    · exact ⟨_, by simp only [step, mir_enqueue_overwrite_full h (Nat.not_lt.mp hlt),
        Option.map_some']; rfl⟩
  | dequeue d =>
    by_cases hz : cb.tail = cb.head
    · exact ⟨_, by simp only [step, mir_dequeue_empty cb m hz, Option.map_some']; rfl⟩
    · exact ⟨_, by simp only [step, mir_dequeue_eq h hz, Option.map_some']; rfl⟩
  | peek d offset =>
    by_cases hf : cb.tail = cb.head ∨ cbuff_uint8_count cb < offset
    · exact ⟨_, by simp only [step, mir_peek_fail cb m d offset hf, Option.map_some']; rfl⟩
    · have hne : cb.tail ≠ cb.head := fun e => hf (Or.inl e)
      have ho : offset ≤ cbuff_uint8_count cb := Nat.not_lt.mp (fun e => hf (Or.inr e))
      exact ⟨_, by simp only [step, mir_peek_eq h hne d offset ho, Option.map_some']; rfl⟩

end Mirrored

/-! ## The `w`-bit functions on the states where the arithmetic does not wrap -/

namespace Mirrored

theorem mir_inv_of_enqueue {C : Nat} {cb cb1 : cbuff_uint8_t} {m m1 : Mem} {b : Byte}
    {r : Bool} (h : Inv C (cb, m)) (e : cbuff_uint8_enqueue cb m b = some (r, cb1, m1)) :
    Inv C (cb1, m1) :=
  mir_inv_step h (.enqueue b) (by simp only [step, e, Option.map_some'])

theorem mir_inv_of_overwrite {C : Nat} {cb cb1 : cbuff_uint8_t} {m m1 : Mem} {b : Byte}
    {r : Bool} (h : Inv C (cb, m))
    (e : cbuff_uint8_enqueue_overwrite cb m b = some (r, cb1, m1)) : Inv C (cb1, m1) :=
  mir_inv_step h (.enqueue_overwrite b) (by simp only [step, e, Option.map_some'])

theorem mir_inv_of_dequeue {C : Nat} {cb cb1 : cbuff_uint8_t} {m m1 : Mem} {d d1 : Byte}
    {r : Bool} (h : Inv C (cb, m))
    (e : cbuff_uint8_dequeue cb m d = some (r, d1, cb1, m1)) : Inv C (cb1, m1) :=
  mir_inv_step h (.dequeue d) (by simp only [step, e, Option.map_some'])

end Mirrored

namespace MirroredW

theorem mw_inv {w C : Nat} (hC : 1 ≤ C) (hw : 2 * C < 2 ^ w)
    {s : Mirrored.cbuff_uint8_t × Mem} (hr : Reachable w C s) : Mirrored.Inv C s :=
  (mw_reachable hC hw hr).mir_inv hC

theorem mw_reachable_of_run {w C : Nat} (m0 : Mem) (ops : List Op)
    {s : Mirrored.cbuff_uint8_t × Mem} (hcap : C < 2 ^ w) (hlen : C ≤ m0.bytes.length)
    (hb : m0.base ≠ 0)
    (hr : run w (Mirrored.cbuff_uint8_struct_full_prefill C m0.base, m0) ops = some s) :
    Reachable w C s :=
  ⟨Mirrored.cbuff_uint8_struct_full_prefill C m0.base, _, m0, ops, hcap, hlen,
    Mirrored.mir_init_eq _ C m0.base hb, hr⟩

theorem mw_is_full_eq {w C : Nat} {cb : Mirrored.cbuff_uint8_t} {m : Mem}
    (h : Mirrored.Inv C (cb, m)) (hw : 2 * C < 2 ^ w) :
    cbuff_uint8_is_full w cb = Mirrored.cbuff_uint8_is_full cb := by
  simp only [cbuff_uint8_is_full, mw_count_expr h hw]
  simp only [Mirrored.cbuff_uint8_is_full, Mirrored.mir_count_eq]

theorem mw_contents_eq {w C : Nat} {cb : Mirrored.cbuff_uint8_t} {m : Mem}
    (h : Mirrored.Inv C (cb, m)) (hw : 2 * C < 2 ^ w) :
    contents w (cb, m) = Mirrored.contents (cb, m) := by
  simp only [contents, Mirrored.contents, mw_count_eq h hw]

theorem mw_enqueueSeq_eq {w C : Nat} (hw : 2 * C < 2 ^ w) (bs : List Byte) :
    ∀ (cb : Mirrored.cbuff_uint8_t) (m : Mem), Mirrored.Inv C (cb, m) →
      enqueueSeq (cbuff_uint8_enqueue w) cb m bs
        = enqueueSeq Mirrored.cbuff_uint8_enqueue cb m bs := by
  induction bs with
  | nil => intro cb m _; rfl
  | cons b bs ih =>
    intro cb m h
    simp only [enqueueSeq, mw_enqueue_eq h hw]
    cases e : Mirrored.cbuff_uint8_enqueue cb m b with
    | none => rfl
    | some r =>
      obtain ⟨r, cb1, m1⟩ := r
      simp only [Option.some_bind]
      rw [ih cb1 m1 (Mirrored.mir_inv_of_enqueue h e)]

theorem mw_dequeueSeq_eq {w C : Nat} (hw : 2 * C < 2 ^ w) (k : Nat) :
    ∀ (cb : Mirrored.cbuff_uint8_t) (m : Mem) (d : Byte), Mirrored.Inv C (cb, m) →
      dequeueSeq (cbuff_uint8_dequeue w) cb m d k
        = dequeueSeq Mirrored.cbuff_uint8_dequeue cb m d k := by
  induction k with
  | zero => intro cb m d _; rfl
  | succ k ih =>
    intro cb m d h
    simp only [dequeueSeq, mw_dequeue_eq h hw]
    cases e : Mirrored.cbuff_uint8_dequeue cb m d with
    | none => rfl
    | some r =>
      obtain ⟨r, d1, cb1, m1⟩ := r
      simp only [Option.some_bind]
      rw [ih cb1 m1 d1 (Mirrored.mir_inv_of_dequeue h e)]

theorem mw_fifo_round_trip {w C : Nat} (hC : 1 ≤ C) (hw : 2 * C < 2 ^ w)
    (s : Mirrored.cbuff_uint8_t × Mem) (hr : Reachable w C s)
    (he : Mirrored.cbuff_uint8_is_empty s.1 = true) (bs : List Byte) (hk : bs.length ≤ C)
    (d : Byte) :
    ∃ cb1 m1 cb2,
      enqueueSeq (cbuff_uint8_enqueue w) s.1 s.2 bs
        = some (List.replicate bs.length true, cb1, m1) ∧
      dequeueSeq (cbuff_uint8_dequeue w) cb1 m1 d bs.length
        = some (bs.map (fun b => (true, b)), cb2, m1) ∧
      Mirrored.cbuff_uint8_is_empty cb2 = true := by
  obtain ⟨cb, m⟩ := s
  have h := mw_inv hC hw hr
  have hnil : Mirrored.contents (cb, m) = [] := (Mirrored.mir_contents_eq_nil_iff h).mpr he
  obtain ⟨cb1, m1, e1, h1, c1⟩ := enqueueSeq_append Mirrored.cbuff_uint8_enqueue
    (Mirrored.Inv C) Mirrored.contents C
    (fun cb m b => Mirrored.mir_enqueue_spec cb m b) bs cb m h (by rw [hnil]; simpa using hk)
  rw [hnil, List.nil_append] at c1
  obtain ⟨cb2, e2, h2, c2⟩ := dequeueSeq_take Mirrored.cbuff_uint8_dequeue (Mirrored.Inv C)
    Mirrored.contents (fun cb m d x xs => Mirrored.mir_dequeue_spec cb m d x xs) bs [] cb1 m1 d
    h1 (by simpa using c1)
  exact ⟨cb1, m1, cb2, (mw_enqueueSeq_eq hw bs cb m h).trans e1,
    (mw_dequeueSeq_eq hw bs.length cb1 m1 d h1).trans e2,
    (Mirrored.mir_contents_eq_nil_iff h2).mp c2⟩

theorem mw_enqueue_iff {w C : Nat} (cb : Mirrored.cbuff_uint8_t) (m : Mem) (b : Byte)
    (h : Mirrored.Inv C (cb, m)) (hw : 2 * C < 2 ^ w) :
    ∃ r cb1 m1, cbuff_uint8_enqueue w cb m b = some (r, cb1, m1) ∧
      (r = true ↔ cbuff_uint8_count w cb < Mirrored.cbuff_uint8_capacity cb) ∧
      (r = true → cbuff_uint8_count w cb1 = cbuff_uint8_count w cb + 1 ∧
        contents w (cb1, m1) = contents w (cb, m) ++ [b]) := by
  obtain ⟨r, cb1, m1, e, hiff, hs⟩ := Mirrored.mir_enqueue_iff cb m b h
  have h1 := Mirrored.mir_inv_of_enqueue h e
  refine ⟨r, cb1, m1, (mw_enqueue_eq h hw b).trans e, ?_, ?_⟩
  · rw [mw_count_eq h hw]; exact hiff
  · rw [mw_count_eq h hw, mw_count_eq h1 hw, mw_contents_eq h hw, mw_contents_eq h1 hw]
    exact hs

theorem mw_dequeue_front {w C : Nat} (cb : Mirrored.cbuff_uint8_t) (m : Mem) (d d2 x : Byte)
    (xs : List Byte) (h : Mirrored.Inv C (cb, m)) (hw : 2 * C < 2 ^ w)
    (hc : contents w (cb, m) = x :: xs) :
    ∃ cb1, cbuff_uint8_dequeue w cb m d = some (true, x, cb1, m) ∧
      cbuff_uint8_count w cb1 + 1 = cbuff_uint8_count w cb ∧ contents w (cb1, m) = xs ∧
      (xs = [] → cbuff_uint8_dequeue w cb1 m d2 = some (false, d2, cb1, m)) ∧
      (∀ x1 rest, xs = x1 :: rest →
        ∃ cb2, cbuff_uint8_dequeue w cb1 m d2 = some (true, x1, cb2, m)) := by
  rw [mw_contents_eq h hw] at hc
  obtain ⟨cb1, e1, hcnt, c1, hnil, hcons⟩ := Mirrored.mir_dequeue_front cb m d d2 x xs h hc
  have h1 := Mirrored.mir_inv_of_dequeue h e1
  refine ⟨cb1, (mw_dequeue_eq h hw d).trans e1, ?_, ?_, ?_, ?_⟩
  · rw [mw_count_eq h hw, mw_count_eq h1 hw]; exact hcnt
  · rw [mw_contents_eq h1 hw]; exact c1
  · intro hx
    exact (mw_dequeue_eq h1 hw d2).trans (hnil hx)
  · intro x1 rest hx
    obtain ⟨cb2, e2⟩ := hcons x1 rest hx
    exact ⟨cb2, (mw_dequeue_eq h1 hw d2).trans e2⟩

theorem mw_overwrite_total {w C : Nat} (cb : Mirrored.cbuff_uint8_t) (m : Mem) (b : Byte)
    (h : Mirrored.Inv C (cb, m)) (hw : 2 * C < 2 ^ w) :
    ∃ cb1 m1, cbuff_uint8_enqueue_overwrite w cb m b = some (true, cb1, m1) ∧
      (cbuff_uint8_count w cb = Mirrored.cbuff_uint8_capacity cb →
        contents w (cb1, m1) = (contents w (cb, m)).tail ++ [b] ∧
        cbuff_uint8_count w cb1 = Mirrored.cbuff_uint8_capacity cb1) := by
  obtain ⟨cb1, m1, e, hf⟩ := Mirrored.mir_overwrite_total cb m b h
  have h1 := Mirrored.mir_inv_of_overwrite h e
  refine ⟨cb1, m1, (mw_enqueue_overwrite_eq h hw b).trans e, ?_⟩
  rw [mw_count_eq h hw, mw_count_eq h1 hw, mw_contents_eq h hw, mw_contents_eq h1 hw]
  exact hf

theorem mw_peek_as_dequeue {w C : Nat} (cb : Mirrored.cbuff_uint8_t) (m : Mem) (d d2 : Byte)
    (i : Nat) (h : Mirrored.Inv C (cb, m)) (hw : 2 * C < 2 ^ w)
    (hi : i < cbuff_uint8_count w cb) (hsum : cb.head + i < 2 ^ w) :
    ∃ v, cbuff_uint8_peek w cb m d i = some (true, v, cb, m) ∧
      ∃ res cb1, dequeueSeq (cbuff_uint8_dequeue w) cb m d2 (i + 1) = some (res, cb1, m) ∧
        res.length = i + 1 ∧ res[i]? = some (true, v) := by
  rw [mw_count_eq h hw] at hi
  rw [mw_peek_eq h hw d i hsum, mw_dequeueSeq_eq hw (i + 1) cb m d2 h]
  exact Mirrored.mir_peek_as_dequeue cb m d d2 i h hi

theorem mw_enqueue_writes {w C : Nat} (cb : Mirrored.cbuff_uint8_t) (m : Mem) (b : Byte)
    (h : Mirrored.Inv C (cb, m)) (hw : 2 * C < 2 ^ w) :
    ∃ r cb1 m1, cbuff_uint8_enqueue w cb m b = some (r, cb1, m1) ∧
      (r = true → cb.tail % C < C ∧ WritesOne m m1 (cb.tail % C) b) ∧
      (r = false → m1 = m) := by
  rw [mw_enqueue_eq h hw]
  exact Mirrored.mir_enqueue_writes cb m b h

theorem mw_overwrite_writes {w C : Nat} (cb : Mirrored.cbuff_uint8_t) (m : Mem) (b : Byte)
    (h : Mirrored.Inv C (cb, m)) (hw : 2 * C < 2 ^ w) :
    ∃ cb1 m1, cbuff_uint8_enqueue_overwrite w cb m b = some (true, cb1, m1) ∧
      cb.tail % C < C ∧ WritesOne m m1 (cb.tail % C) b := by
  rw [mw_enqueue_overwrite_eq h hw]
  exact Mirrored.mir_overwrite_writes cb m b h

theorem mw_overwrite_vs_enqueue {w C : Nat} (cb : Mirrored.cbuff_uint8_t) (m : Mem) (b : Byte)
    (h : Mirrored.Inv C (cb, m)) (hw : 2 * C < 2 ^ w) :
    (cbuff_uint8_count w cb < Mirrored.cbuff_uint8_capacity cb →
      cbuff_uint8_enqueue_overwrite w cb m b = cbuff_uint8_enqueue w cb m b ∧
      ∃ cb1 m1, cbuff_uint8_enqueue w cb m b = some (true, cb1, m1)) ∧
    (cbuff_uint8_count w cb = Mirrored.cbuff_uint8_capacity cb →
      cbuff_uint8_enqueue_overwrite w cb m b ≠ cbuff_uint8_enqueue w cb m b) := by
  rw [mw_count_eq h hw, mw_enqueue_overwrite_eq h hw, mw_enqueue_eq h hw]
  exact Mirrored.mir_overwrite_vs_enqueue cb m b h

theorem mw_overwrite_head {w C : Nat} (cb : Mirrored.cbuff_uint8_t) (m : Mem) (b : Byte)
    (h : Mirrored.Inv C (cb, m)) (hw : 2 * C < 2 ^ w) :
    (∃ r cb1 m1, cbuff_uint8_enqueue w cb m b = some (r, cb1, m1) ∧ cb1.head = cb.head) ∧
    (∃ cb1 m1, cbuff_uint8_enqueue_overwrite w cb m b = some (true, cb1, m1) ∧
      (cbuff_uint8_count w cb < Mirrored.cbuff_uint8_capacity cb → cb1.head = cb.head) ∧
      (cbuff_uint8_count w cb = Mirrored.cbuff_uint8_capacity cb →
        cb1.head = (cb.head + 1) % (2 * C) ∧ cb1.head ≠ cb.head) ∧
      cb1.tail = (cb.tail + 1) % (2 * C)) := by
  rw [mw_count_eq h hw, mw_enqueue_overwrite_eq h hw, mw_enqueue_eq h hw]
  refine ⟨?_, Mirrored.mir_overwrite_head cb m b h⟩
  obtain ⟨r, cb1, m1, e, _⟩ := Mirrored.mir_enqueue_iff cb m b h
  exact ⟨r, cb1, m1, e, (Mirrored.mir_enqueue_frame cb m b r cb1 m1 e).1⟩

theorem mw_peek_exact {w C : Nat} (cb : Mirrored.cbuff_uint8_t) (m : Mem) (d : Byte)
    (offset : Nat) (h : Mirrored.Inv C (cb, m)) (hw : 2 * C < 2 ^ w) :
    (∃ r d1, cbuff_uint8_peek w cb m d offset = some (r, d1, cb, m) ∧
        (r = false ↔ cbuff_uint8_count w cb = 0 ∨ cbuff_uint8_count w cb < offset)) ∧
      (cbuff_uint8_count w cb ≠ 0 →
        (∃ v, cbuff_uint8_peek w cb m d (cbuff_uint8_count w cb) = some (true, v, cb, m)) ∧
        (cb.head + cbuff_uint8_count w cb < 2 ^ w →
          cbuff_uint8_peek w cb m d (cbuff_uint8_count w cb)
            = some (true, m.bytes.getD ((cb.head + cbuff_uint8_count w cb) % C) 0, cb, m) ∧
          (cb.head + cbuff_uint8_count w cb) % C = cb.tail % C ∧
          (cbuff_uint8_count w cb = C →
            (cb.head + cbuff_uint8_count w cb) % C = cb.head % C ∧
            cbuff_uint8_peek w cb m d (cbuff_uint8_count w cb)
              = cbuff_uint8_peek w cb m d 0))) := by
  have hz := Mirrored.mir_count_zero_iff h
  have hhd : cb.head < C * 2 := h.hd
  rw [mw_count_eq h hw]
  refine ⟨?_, fun hnz => ⟨?_, fun hsum => ?_⟩⟩
  · rw [mw_peek_slot h hw]
    by_cases hf : cb.tail = cb.head ∨ Mirrored.cbuff_uint8_count cb < offset
    · rw [if_pos hf]
      refine ⟨false, d, rfl, ?_⟩
      have hf2 : Mirrored.cbuff_uint8_count cb = 0 ∨ Mirrored.cbuff_uint8_count cb < offset := by
        rcases hf with e | e
        · exact Or.inl (hz.mpr e)
        · exact Or.inr e
      simpa using hf2
    · rw [if_neg hf]
      refine ⟨true, _, rfl, ?_⟩
      have hnf : ¬ (Mirrored.cbuff_uint8_count cb = 0 ∨ Mirrored.cbuff_uint8_count cb < offset) := by
        rintro (e | e)
        · exact hf (Or.inl (hz.mp e))
        · exact hf (Or.inr e)
      simpa using hnf
  · rw [mw_peek_slot h hw]
    have hnf : ¬ (cb.tail = cb.head ∨
        Mirrored.cbuff_uint8_count cb < Mirrored.cbuff_uint8_count cb) := by
      rintro (e | e)
      · exact hnz (hz.mpr e)
      · exact Nat.lt_irrefl _ e
    rw [if_neg hnf]
    exact ⟨_, rfl⟩
  · rw [mw_peek_eq h hw d _ hsum, mw_peek_eq h hw d 0 (by omega)]
    exact (Mirrored.mir_peek_exact cb m d offset h).2 hnz

end MirroredW

namespace IndexW

theorem iw_peek_eq (w : Nat) (cb : Index.cbuff_t) (m : Mem) (d : Byte) (offset : Nat)
    (hsum : cb.head + offset < 2 ^ w) :
    cbuff_peek w cb m d offset = Index.cbuff_peek cb m d offset := by
  simp only [cbuff_peek, Index.cbuff_peek, wadd_of_lt hsum]

theorem iw_peek_slot {w C : Nat} {cb : Index.cbuff_t} {m : Mem} (h : Index.Inv C (cb, m))
    (d : Byte) (offset : Nat) :
    cbuff_peek w cb m d offset =
      if cb.count = 0 ∨ cb.count < offset then some (false, d, cb, m)
      else some (true, m.bytes.getD (wadd w cb.head offset % C) 0, cb, m) := by
  have hcap : cb.capacity = C := h.cap
  have hbuf : cb.buffer = m.base := h.buf
  have hpos : 0 < C := h.pos
  have hi : wadd w cb.head offset % C < m.bytes.length :=
    lt_of_lt_of_le (Nat.mod_lt _ hpos) h.len
  simp only [cbuff_peek]
  by_cases he : cb.count = 0
  · simp [he]
  · by_cases ho : cb.count < offset
    · simp [he, ho]
    · simp [he, ho, hcap, hbuf, urem_pos _ hpos, Mem.load_offset m _ hi]

theorem iw_peek_as_dequeue {w C : Nat} (cb : Index.cbuff_t) (m : Mem) (d d2 : Byte) (i : Nat)
    (h : Index.Inv C (cb, m)) (hi : i < Index.cbuff_count cb) (hsum : cb.head + i < 2 ^ w) :
    ∃ v, cbuff_peek w cb m d i = some (true, v, cb, m) ∧
      ∃ res cb1, dequeueSeq Index.cbuff_dequeue cb m d2 (i + 1) = some (res, cb1, m) ∧
        res.length = i + 1 ∧ res[i]? = some (true, v) := by
  rw [iw_peek_eq w cb m d i hsum]
  exact Index.idx_peek_as_dequeue cb m d d2 i h hi

theorem iw_peek_exact {w C : Nat} (cb : Index.cbuff_t) (m : Mem) (d : Byte) (offset : Nat)
    (h : Index.Inv C (cb, m)) :
    (∃ r d1, cbuff_peek w cb m d offset = some (r, d1, cb, m) ∧
        (r = false ↔ Index.cbuff_count cb = 0 ∨ Index.cbuff_count cb < offset)) ∧
      (Index.cbuff_count cb ≠ 0 →
        (∃ v, cbuff_peek w cb m d (Index.cbuff_count cb) = some (true, v, cb, m)) ∧
        (cb.head + Index.cbuff_count cb < 2 ^ w →
          cbuff_peek w cb m d (Index.cbuff_count cb)
            = some (true, m.bytes.getD ((cb.head + Index.cbuff_count cb) % C) 0, cb, m) ∧
          (cb.head + Index.cbuff_count cb) % C = cb.tail ∧
          (Index.cbuff_count cb = C →
            (cb.head + Index.cbuff_count cb) % C = cb.head % C ∧
            cbuff_peek w cb m d (Index.cbuff_count cb) = cbuff_peek w cb m d 0))) := by
  refine ⟨?_, fun hnz => ⟨?_, fun hsum => ?_⟩⟩
  · rw [iw_peek_slot h]
    by_cases hf : cb.count = 0 ∨ cb.count < offset
    · rw [if_pos hf]
      exact ⟨false, d, rfl, by simpa [Index.cbuff_count] using hf⟩
    · rw [if_neg hf]
      exact ⟨true, _, rfl, by simpa [Index.cbuff_count] using hf⟩
  · rw [iw_peek_slot h]
    have hnf : ¬ (cb.count = 0 ∨ cb.count < Index.cbuff_count cb) := by
      rintro (e | e)
      · exact hnz e
      · exact Nat.lt_irrefl _ e
    rw [if_neg hnf]
    exact ⟨_, rfl⟩
  · rw [iw_peek_eq w cb m d _ hsum, iw_peek_eq w cb m d 0 (by omega)]
    exact (Index.idx_peek_exact cb m d offset h).2 hnz

end IndexW

namespace PointerW

theorem pw_peek_eq (w : Nat) (cb : Pointer.cbuff_uint8_t) (m : Mem) (d : Byte) (offset : Nat)
    (hsum : cb.head - cb.buffer + offset < 2 ^ w) :
    cbuff_uint8_peek w cb m d offset = Pointer.cbuff_uint8_peek cb m d offset := by
  simp only [cbuff_uint8_peek, Pointer.cbuff_uint8_peek, ptrdiff]
  by_cases hle : cb.buffer ≤ cb.head
  · simp only [if_pos hle, Option.some_bind, wadd_of_lt hsum]
  · simp only [if_neg hle, Option.none_bind]

theorem pw_peek_slot {w C : Nat} {cb : Pointer.cbuff_uint8_t} {m : Mem}
    (h : Pointer.Inv C (cb, m)) (d : Byte) (offset : Nat) :
    cbuff_uint8_peek w cb m d offset =
      if cb.count = 0 ∨ cb.count < offset then some (false, d, cb, m)
      else some (true, m.bytes.getD (wadd w (cb.head - cb.buffer) offset % C) 0, cb, m) := by
  have hcap : cb.capacity = C := h.cap
  have hbuf : cb.buffer = m.base := h.buf
  have hpos : 0 < C := h.pos
  have hge : m.base ≤ cb.head := h.hd_ge
  have hi : wadd w (cb.head - m.base) offset % C < m.bytes.length :=
    lt_of_lt_of_le (Nat.mod_lt _ hpos) h.len
  simp only [cbuff_uint8_peek]
  by_cases he : cb.count = 0
  · simp [he]
  · by_cases ho : cb.count < offset
    · simp [he, ho]
    · simp [he, ho, hcap, hbuf, ptrdiff, hge, urem_pos _ hpos, Mem.load_offset m _ hi]

theorem pw_peek_as_dequeue {w C : Nat} (cb : Pointer.cbuff_uint8_t) (m : Mem) (d d2 : Byte)
    (i : Nat) (h : Pointer.Inv C (cb, m)) (hi : i < Pointer.cbuff_uint8_count cb)
    (hsum : cb.head - cb.buffer + i < 2 ^ w) :
    ∃ v, cbuff_uint8_peek w cb m d i = some (true, v, cb, m) ∧
      ∃ res cb1, dequeueSeq Pointer.cbuff_uint8_dequeue cb m d2 (i + 1)
          = some (res, cb1, m) ∧
        res.length = i + 1 ∧ res[i]? = some (true, v) := by
  rw [pw_peek_eq w cb m d i hsum]
  exact Pointer.ptr_peek_as_dequeue cb m d d2 i h hi

theorem pw_peek_exact {w C : Nat} (cb : Pointer.cbuff_uint8_t) (m : Mem) (d : Byte)
    (offset : Nat) (h : Pointer.Inv C (cb, m)) :
    (∃ r d1, cbuff_uint8_peek w cb m d offset = some (r, d1, cb, m) ∧
        (r = false ↔ Pointer.cbuff_uint8_count cb = 0 ∨ Pointer.cbuff_uint8_count cb < offset)) ∧
      (Pointer.cbuff_uint8_count cb ≠ 0 →
        (∃ v, cbuff_uint8_peek w cb m d (Pointer.cbuff_uint8_count cb)
          = some (true, v, cb, m)) ∧
        (cb.head - cb.buffer + Pointer.cbuff_uint8_count cb < 2 ^ w →
          cbuff_uint8_peek w cb m d (Pointer.cbuff_uint8_count cb)
            = some (true,
                m.bytes.getD ((cb.head - cb.buffer + Pointer.cbuff_uint8_count cb) % C) 0,
                cb, m) ∧
          (cb.head - cb.buffer + Pointer.cbuff_uint8_count cb) % C = cb.tail - cb.buffer ∧
          (Pointer.cbuff_uint8_count cb = C →
            (cb.head - cb.buffer + Pointer.cbuff_uint8_count cb) % C
              = (cb.head - cb.buffer) % C ∧
            cbuff_uint8_peek w cb m d (Pointer.cbuff_uint8_count cb)
              = cbuff_uint8_peek w cb m d 0))) := by
  refine ⟨?_, fun hnz => ⟨?_, fun hsum => ?_⟩⟩
  · rw [pw_peek_slot h]
    by_cases hf : cb.count = 0 ∨ cb.count < offset
    · rw [if_pos hf]
      exact ⟨false, d, rfl, by simpa [Pointer.cbuff_uint8_count] using hf⟩
    · rw [if_neg hf]
      exact ⟨true, _, rfl, by simpa [Pointer.cbuff_uint8_count] using hf⟩
  · rw [pw_peek_slot h]
    have hnf : ¬ (cb.count = 0 ∨ cb.count < Pointer.cbuff_uint8_count cb) := by
      rintro (e | e)
      · exact hnz e
      · exact Nat.lt_irrefl _ e
    rw [if_neg hnf]
    exact ⟨_, rfl⟩
  · rw [pw_peek_eq w cb m d _ hsum, pw_peek_eq w cb m d 0 (by omega)]
    exact (Pointer.ptr_peek_exact cb m d offset h).2 hnz

end PointerW

/-! ## The two index variants on a `w`-bit `size_t`: simulation -/

namespace MirroredW

theorem mw_call_eq {w C : Nat} {s : Mirrored.cbuff_uint8_t × Mem} (h : Mirrored.Inv C s)
    (h3 : 3 * C ≤ 2 ^ w) (c : Call) : call w s c = Mirrored.call s c := by
  have hpos : 0 < C := h.pos
  have hw : 2 * C < 2 ^ w := by omega
  obtain ⟨cb, m⟩ := s
  cases c with
  | reset => rfl
  | enqueue b => simp only [call, Mirrored.call, mw_enqueue_eq h hw]
  | enqueue_overwrite b => simp only [call, Mirrored.call, mw_enqueue_overwrite_eq h hw]
  | dequeue d => simp only [call, Mirrored.call, mw_dequeue_eq h hw]
  | peek d offset =>
    have e : cbuff_uint8_peek w cb m d offset = Mirrored.cbuff_uint8_peek cb m d offset := by
      by_cases hsum : cb.head + offset < 2 ^ w
      · exact mw_peek_eq h hw d offset hsum
      · have hhd : cb.head < C * 2 := h.hd
        have hcnt : Mirrored.cbuff_uint8_count cb ≤ C := h.cnt
        have hf : cb.tail = cb.head ∨ Mirrored.cbuff_uint8_count cb < offset :=
          Or.inr (by omega)
        rw [mw_peek_slot h hw, if_pos hf, Mirrored.mir_peek_fail cb m d offset hf]
    simp only [call, Mirrored.call, e]
  | capacity => rfl
  | count => simp only [call, Mirrored.call, mw_count_eq h hw]
  | is_full => simp only [call, Mirrored.call, mw_is_full_eq h hw]
  | is_empty => rfl

end MirroredW

namespace IndexW

theorem iw_call_eq {w C : Nat} {s : Index.cbuff_t × Mem} (h : Index.Inv C s)
    (hw : 2 * C ≤ 2 ^ w) (c : Call) : call w s c = Index.call s c := by
  obtain ⟨cb, m⟩ := s
  cases c with
  | peek d offset =>
    have e : cbuff_peek w cb m d offset = Index.cbuff_peek cb m d offset := by
      by_cases hsum : cb.head + offset < 2 ^ w
      · exact iw_peek_eq w cb m d offset hsum
      · have hhd : cb.head < C := h.hd
        have hcnt : cb.count ≤ C := h.cnt
        have hf : cb.count = 0 ∨ cb.count < offset := Or.inr (by omega)
        rw [iw_peek_slot h, if_pos hf, Index.idx_peek_fail cb m d offset hf]
    simp only [call, Index.call, e]
  | reset => rfl
  | enqueue b => rfl
  | enqueue_overwrite b => rfl
  | dequeue d => rfl
  | capacity => rfl
  | count => rfl
  | is_full => rfl
  | is_empty => rfl

end IndexW

theorem simMirroredW_calls {w C : Nat} (h3 : 3 * C ≤ 2 ^ w) (cs : List Call) :
    ∀ (sm : Mirrored.cbuff_uint8_t × Mem) (si : Index.cbuff_t × Mem), SimMirrored C sm si →
      ∃ rs sm1 si1, MirroredW.calls w sm cs = some (rs, sm1) ∧
        IndexW.calls w si cs = some (rs, si1) ∧ SimMirrored C sm1 si1 := by
  induction cs with
  | nil =>
    intro sm si h
    exact ⟨[], sm, si, rfl, rfl, h⟩
  | cons c cs ih =>
    intro sm si h
    obtain ⟨r, sm1, si1, e1, e2, h1⟩ := simMirrored_call h c
    obtain ⟨rs, sm2, si2, e3, e4, h2⟩ := ih sm1 si1 h1
    have hpos : 0 < C := h.1.pos
    have hw : 2 * C ≤ 2 ^ w := by omega
    refine ⟨r :: rs, sm2, si2, ?_, ?_, h2⟩
    · simp [MirroredW.calls, MirroredW.mw_call_eq h.1 h3 c, e1, e3]
    · simp [IndexW.calls, IndexW.iw_call_eq h.2.1 hw c, e2, e4]

/-! ## The example states are reachable on a `w`-bit `size_t` -/

theorem wmul_half {w : Nat} (hw : 1 ≤ w) : wmul w (2 ^ (w - 1)) 2 = 0 := by
  unfold wmul
  have e : 2 ^ (w - 1) * 2 = 2 ^ w := by
    obtain ⟨n, rfl⟩ : ∃ n, w = n + 1 := ⟨w - 1, by omega⟩
    simp [pow_succ]
  rw [e, Nat.mod_self]

namespace MirroredW

theorem mw_exEmpty_reachable : Reachable 16 4 Mirrored.exEmpty :=
  mw_reachable_of_run ⟨100, [0, 0, 0, 0]⟩
    [.enqueue 1, .enqueue 2, .enqueue 3, .enqueue 4, .dequeue 0, .dequeue 0,
      .dequeue 0, .dequeue 0, .enqueue 5, .enqueue 6, .enqueue 7, .dequeue 0, .dequeue 0,
      .dequeue 0]
    (by decide) (by decide) (by decide) (by decide)

theorem mw_exFull_reachable : Reachable 16 4 Mirrored.exFull :=
  mw_reachable_of_run ⟨100, [0, 0, 0, 0]⟩
    [.enqueue 0, .enqueue 1, .enqueue 2, .enqueue 3]
    (by decide) (by decide) (by decide) (by decide)

theorem mw_exPeek_reachable : Reachable 16 3 Mirrored.exPeek :=
  mw_reachable_of_run ⟨100, [0, 0, 0]⟩
    [.enqueue_overwrite 1, .enqueue_overwrite 2, .enqueue_overwrite 3,
      .enqueue_overwrite 4]
    (by decide) (by decide) (by decide) (by decide)

theorem mw_exOne_reachable : Reachable 16 4 Mirrored.exOne :=
  mw_reachable_of_run ⟨100, [9, 9, 9, 9]⟩
    [.enqueue 7]
    (by decide) (by decide) (by decide) (by decide)

theorem mw_exHalf_reachable : Reachable 4 8 exHalf :=
  mw_reachable_of_run ⟨100, [0, 0, 0, 0, 0, 0, 0, 0]⟩ []
    (by decide) (by decide) (by decide) (by decide)

theorem mw_half_undefined (w : Nat) (hw : 1 ≤ w) (m : Mem) (b : Byte)
    (hlen : 0 < m.bytes.length) :
    cbuff_uint8_enqueue w
        (Mirrored.cbuff_uint8_struct_full_prefill (2 ^ (w - 1)) m.base) m b = none ∧
    cbuff_uint8_enqueue_overwrite w
        (Mirrored.cbuff_uint8_struct_full_prefill (2 ^ (w - 1)) m.base) m b = none := by
  have hpos : 0 < 2 ^ (w - 1) := Nat.two_pow_pos (w - 1)
  have e0 : wsub w 0 0 = 0 := by simp [wsub]
  have hst := Mem.store_offset m 0 b hlen
  rw [Nat.add_zero] at hst
  have hu : urem 0 (2 ^ (w - 1)) = some 0 := by simp [urem, Nat.pos_iff_ne_zero.mp hpos]
  have hz : urem (wadd w 0 1) (wmul w (2 ^ (w - 1)) 2) = none := by
    simp [urem, wmul_half hw]
  constructor
  · simp [cbuff_uint8_enqueue, Mirrored.cbuff_uint8_struct_full_prefill, e0,
      Nat.not_le.mpr hpos, hu, hst, hz]
  · simp [cbuff_uint8_enqueue_overwrite, Mirrored.cbuff_uint8_struct_full_prefill, e0,
      Nat.not_le.mpr hpos, hu, hst, hz]

theorem mw_exHalf16_reachable : Reachable 16 32768 exHalf16 :=
  mw_reachable_of_run ⟨100, List.replicate 32768 0⟩ []
    (by decide) (le_of_eq (List.length_replicate 32768 (0 : Byte)).symm) (by decide) rfl

theorem mw_exHalf16_undefined (b : Byte) :
    cbuff_uint8_enqueue 16 exHalf16.1 exHalf16.2 b = none ∧
    cbuff_uint8_enqueue_overwrite 16 exHalf16.1 exHalf16.2 b = none :=
  mw_half_undefined 16 (by decide) exHalf16.2 b
    (lt_of_lt_of_le (by decide : 0 < 32768)
      (le_of_eq (List.length_replicate 32768 (0 : Byte)).symm))

theorem mw_exTen_reachable : Reachable 4 10 exTen :=
  mw_reachable_of_run ⟨100, [0, 0, 0, 0, 0, 0, 0, 0, 0, 0]⟩ []
    (by decide) (by decide) (by decide) (by decide)

theorem mw_exTenThree_reachable : Reachable 4 10 exTenThree :=
  mw_reachable_of_run ⟨100, [0, 0, 0, 0, 0, 0, 0, 0, 0, 0]⟩
    [.enqueue 1, .enqueue 2, .enqueue 3]
    (by decide) (by decide) (by decide) (by decide)

theorem mw_exTenWrap_reachable : Reachable 4 10 exTenWrap :=
  mw_reachable_of_run ⟨100, [0, 0, 0, 0, 0, 0, 0, 0, 0, 0]⟩
    [.enqueue 1, .enqueue 2, .enqueue 3, .dequeue 0, .dequeue 0, .dequeue 0, .enqueue 10,
      .enqueue 20]
    (by decide) (by decide) (by decide) (by decide)

end MirroredW

/-! ## The claims that depend on the width of `size_t` -/

/-- C1, counterexample: the mirrored-index variant on a 4-bit `size_t`.  With
capacity 8 on eight bytes of storage `init` leaves a reachable empty state, but
`capacity * 2` wraps to 0 and the first `enqueue` takes the remainder
`(tail + 1) % (capacity * 2)` by zero, so the call has no result.  With
capacity 10 (`capacity * 2` wraps to 4) four `enqueue` calls return success and
leave head = tail = 0, and the four `dequeue` calls that follow all fail.
The first case on a 16-bit `size_t`: capacity `2 ^ 15` on `2 ^ 15` bytes of
storage. -/
theorem C1_fifo_round_trip_wraps :
    (MirroredW.Reachable 4 8 MirroredW.exHalf ∧
      Mirrored.cbuff_uint8_is_empty MirroredW.exHalf.1 = true ∧
      wmul 4 MirroredW.exHalf.1.capacity 2 = 0 ∧
      enqueueSeq (MirroredW.cbuff_uint8_enqueue 4) MirroredW.exHalf.1 MirroredW.exHalf.2 [1]
        = none) ∧
    (MirroredW.Reachable 4 10 MirroredW.exTen ∧
      Mirrored.cbuff_uint8_is_empty MirroredW.exTen.1 = true ∧
      wmul 4 MirroredW.exTen.1.capacity 2 = 4 ∧
      enqueueSeq (MirroredW.cbuff_uint8_enqueue 4) MirroredW.exTen.1 MirroredW.exTen.2
          [1, 2, 3, 4]
        = some ([true, true, true, true], ⟨10, 100, 0, 0⟩,
            ⟨100, [1, 2, 3, 4, 0, 0, 0, 0, 0, 0]⟩) ∧
      dequeueSeq (MirroredW.cbuff_uint8_dequeue 4) ⟨10, 100, 0, 0⟩
          ⟨100, [1, 2, 3, 4, 0, 0, 0, 0, 0, 0]⟩ 0xFF 4
        = some ([(false, 0xFF), (false, 0xFF), (false, 0xFF), (false, 0xFF)],
            ⟨10, 100, 0, 0⟩, ⟨100, [1, 2, 3, 4, 0, 0, 0, 0, 0, 0]⟩)) ∧
    (MirroredW.Reachable 16 32768 MirroredW.exHalf16 ∧
      Mirrored.cbuff_uint8_is_empty MirroredW.exHalf16.1 = true ∧
      enqueueSeq (MirroredW.cbuff_uint8_enqueue 16) MirroredW.exHalf16.1
        MirroredW.exHalf16.2 [1] = none) :=
  ⟨⟨MirroredW.mw_exHalf_reachable, by decide, by decide, by decide⟩,
    ⟨MirroredW.mw_exTen_reachable, by decide, by decide, by decide, by decide⟩,
    ⟨MirroredW.mw_exHalf16_reachable, by decide,
      by simp [enqueueSeq, (MirroredW.mw_exHalf16_undefined 1).1]⟩⟩

/-- C1, amended. FIFO round trip: in the counted-index and the pointer-based
variant for every capacity `C >= 1`, and in the mirrored-index variant on a
`w`-bit `size_t` for every capacity `C >= 1` with `2 * C < 2 ^ w`: from every
reachable empty state (head at any position), for every list `bs` of at most
`C` bytes, the enqueue calls for `bs` all return success, the same number of
dequeue calls then all return success and yield the bytes of `bs` in order,
and the buffer is empty afterwards. -/
theorem C1_fifo_round_trip_bounded (w C : Nat) (hC : 1 ≤ C) (bs : List Byte)
    (hk : bs.length ≤ C) (d : Byte)
    (si : Index.cbuff_t × Mem) (hri : Index.Reachable C si)
    (hei : Index.cbuff_is_empty si.1 = true)
    (sm : Mirrored.cbuff_uint8_t × Mem)
    (sp : Pointer.cbuff_uint8_t × Mem) (hrp : Pointer.Reachable C sp)
    (hep : Pointer.cbuff_uint8_is_empty sp.1 = true) :
    (∃ cb1 m1 cb2,
      enqueueSeq Index.cbuff_enqueue si.1 si.2 bs
        = some (List.replicate bs.length true, cb1, m1) ∧
      dequeueSeq Index.cbuff_dequeue cb1 m1 d bs.length
        = some (bs.map (fun b => (true, b)), cb2, m1) ∧
      Index.cbuff_is_empty cb2 = true) ∧
    (2 * C < 2 ^ w → MirroredW.Reachable w C sm →
      Mirrored.cbuff_uint8_is_empty sm.1 = true →
      ∃ cb1 m1 cb2,
        enqueueSeq (MirroredW.cbuff_uint8_enqueue w) sm.1 sm.2 bs
          = some (List.replicate bs.length true, cb1, m1) ∧
        dequeueSeq (MirroredW.cbuff_uint8_dequeue w) cb1 m1 d bs.length
          = some (bs.map (fun b => (true, b)), cb2, m1) ∧
        Mirrored.cbuff_uint8_is_empty cb2 = true) ∧
    (∃ cb1 m1 cb2,
      enqueueSeq Pointer.cbuff_uint8_enqueue sp.1 sp.2 bs
        = some (List.replicate bs.length true, cb1, m1) ∧
      dequeueSeq Pointer.cbuff_uint8_dequeue cb1 m1 d bs.length
        = some (bs.map (fun b => (true, b)), cb2, m1) ∧
      Pointer.cbuff_uint8_is_empty cb2 = true) :=
  ⟨Index.idx_fifo_round_trip hC si hri hei bs hk d,
    fun hw hrm hem => MirroredW.mw_fifo_round_trip hC hw sm hrm hem bs hk d,
    Pointer.ptr_fifo_round_trip hC sp hrp hep bs hk d⟩

/-- C1, witness: capacity 4 on a 16-bit `size_t`, the empty states whose head
sits at the last position before the wrap, and the bytes 10, 20, 30, 40. -/
theorem C1_fifo_round_trip_bounded_witness :
    (∃ cb1 m1 cb2,
      enqueueSeq Index.cbuff_enqueue Index.exEmpty.1 Index.exEmpty.2 [10, 20, 30, 40]
        = some ([true, true, true, true], cb1, m1) ∧
      dequeueSeq Index.cbuff_dequeue cb1 m1 0 4
        = some ([(true, 10), (true, 20), (true, 30), (true, 40)], cb2, m1) ∧
      Index.cbuff_is_empty cb2 = true) ∧
    (∃ cb1 m1 cb2,
      enqueueSeq (MirroredW.cbuff_uint8_enqueue 16) Mirrored.exEmpty.1 Mirrored.exEmpty.2
        [10, 20, 30, 40] = some ([true, true, true, true], cb1, m1) ∧
      dequeueSeq (MirroredW.cbuff_uint8_dequeue 16) cb1 m1 0 4
        = some ([(true, 10), (true, 20), (true, 30), (true, 40)], cb2, m1) ∧
      Mirrored.cbuff_uint8_is_empty cb2 = true) ∧
    (∃ cb1 m1 cb2,
      enqueueSeq Pointer.cbuff_uint8_enqueue Pointer.exEmpty.1 Pointer.exEmpty.2
        [10, 20, 30, 40] = some ([true, true, true, true], cb1, m1) ∧
      dequeueSeq Pointer.cbuff_uint8_dequeue cb1 m1 0 4
        = some ([(true, 10), (true, 20), (true, 30), (true, 40)], cb2, m1) ∧
      Pointer.cbuff_uint8_is_empty cb2 = true) :=
  have t := C1_fifo_round_trip_bounded 16 4 (by decide) [10, 20, 30, 40] (by decide) 0
    Index.exEmpty Index.idx_exEmpty_reachable (by decide)
    Mirrored.exEmpty
    Pointer.exEmpty Pointer.ptr_exEmpty_reachable (by decide)
  ⟨t.1, t.2.1 (by decide) MirroredW.mw_exEmpty_reachable (by decide), t.2.2⟩

/-- C2, counterexample: the mirrored-index variant on a 4-bit `size_t`.  With
capacity 10 (`capacity * 2` wraps to 4), in the reachable state after `enqueue`
of 1, 2, 3 the count is 3, below the capacity; `enqueue 4` returns success and
moves tail from 3 to `(3 + 1) % 4 = 0`, so the count afterwards is 0 and not 4,
and the logical contents are empty.  With capacity 8 the count of the fresh
state is 0, below the capacity, and `enqueue` has no result; the same on a
16-bit `size_t` with capacity `2 ^ 15`. -/
theorem C2_enqueue_count_wraps :
    (MirroredW.Reachable 4 10 MirroredW.exTenThree ∧
      MirroredW.cbuff_uint8_count 4 MirroredW.exTenThree.1 = 3 ∧
      Mirrored.cbuff_uint8_capacity MirroredW.exTenThree.1 = 10 ∧
      MirroredW.contents 4 MirroredW.exTenThree = [1, 2, 3] ∧
      MirroredW.cbuff_uint8_enqueue 4 MirroredW.exTenThree.1 MirroredW.exTenThree.2 4
        = some (true, ⟨10, 100, 0, 0⟩, ⟨100, [1, 2, 3, 4, 0, 0, 0, 0, 0, 0]⟩) ∧
      MirroredW.cbuff_uint8_count 4 ⟨10, 100, 0, 0⟩ = 0 ∧
      MirroredW.contents 4 (⟨10, 100, 0, 0⟩, ⟨100, [1, 2, 3, 4, 0, 0, 0, 0, 0, 0]⟩) = []) ∧
    (MirroredW.Reachable 4 8 MirroredW.exHalf ∧
      MirroredW.cbuff_uint8_count 4 MirroredW.exHalf.1 = 0 ∧
      Mirrored.cbuff_uint8_capacity MirroredW.exHalf.1 = 8 ∧
      MirroredW.cbuff_uint8_enqueue 4 MirroredW.exHalf.1 MirroredW.exHalf.2 4 = none) ∧
    (MirroredW.Reachable 16 32768 MirroredW.exHalf16 ∧
      MirroredW.cbuff_uint8_count 16 MirroredW.exHalf16.1 = 0 ∧
      Mirrored.cbuff_uint8_capacity MirroredW.exHalf16.1 = 32768 ∧
      MirroredW.cbuff_uint8_enqueue 16 MirroredW.exHalf16.1 MirroredW.exHalf16.2 4 = none) :=
  ⟨⟨MirroredW.mw_exTenThree_reachable, by decide, by decide, by decide, by decide, by decide,
      by decide⟩,
    ⟨MirroredW.mw_exHalf_reachable, by decide, by decide, by decide⟩,
    ⟨MirroredW.mw_exHalf16_reachable, by decide, by decide,
      (MirroredW.mw_exHalf16_undefined 4).1⟩⟩

/-- C2, amended. In the counted-index and the pointer-based variant for every
capacity `C >= 1`, and in the mirrored-index variant on a `w`-bit `size_t` for
every capacity `C >= 1` with `2 * C < 2 ^ w`: in every reachable state,
`enqueue b` returns success if and only if `count < capacity`; when it succeeds
the count grows by exactly one and the logical contents (the bytes at the slots
`(head + i) % C` for `i < count`) become the old contents followed by `b`. -/
theorem C2_enqueue_success_iff_bounded (w C : Nat) (hC : 1 ≤ C) (b : Byte)
    (si : Index.cbuff_t × Mem) (hri : Index.Reachable C si)
    (sm : Mirrored.cbuff_uint8_t × Mem)
    (sp : Pointer.cbuff_uint8_t × Mem) (hrp : Pointer.Reachable C sp) :
    (∃ r cb1 m1, Index.cbuff_enqueue si.1 si.2 b = some (r, cb1, m1) ∧
      (r = true ↔ Index.cbuff_count si.1 < Index.cbuff_capacity si.1) ∧
      (r = true → Index.cbuff_count cb1 = Index.cbuff_count si.1 + 1 ∧
        Index.contents (cb1, m1) = Index.contents si ++ [b])) ∧
    (2 * C < 2 ^ w → MirroredW.Reachable w C sm →
      ∃ r cb1 m1, MirroredW.cbuff_uint8_enqueue w sm.1 sm.2 b = some (r, cb1, m1) ∧
        (r = true ↔
          MirroredW.cbuff_uint8_count w sm.1 < Mirrored.cbuff_uint8_capacity sm.1) ∧
        (r = true →
          MirroredW.cbuff_uint8_count w cb1 = MirroredW.cbuff_uint8_count w sm.1 + 1 ∧
          MirroredW.contents w (cb1, m1) = MirroredW.contents w sm ++ [b])) ∧
    (∃ r cb1 m1, Pointer.cbuff_uint8_enqueue sp.1 sp.2 b = some (r, cb1, m1) ∧
      (r = true ↔ Pointer.cbuff_uint8_count sp.1 < Pointer.cbuff_uint8_capacity sp.1) ∧
      (r = true → Pointer.cbuff_uint8_count cb1 = Pointer.cbuff_uint8_count sp.1 + 1 ∧
        Pointer.contents (cb1, m1) = Pointer.contents sp ++ [b])) :=
  ⟨Index.idx_enqueue_iff si.1 si.2 b (hri.idx_inv hC),
    fun hw hrm => MirroredW.mw_enqueue_iff sm.1 sm.2 b (MirroredW.mw_inv hC hw hrm) hw,
    Pointer.ptr_enqueue_iff sp.1 sp.2 b (hrp.ptr_inv hC)⟩

/-- C2, witness: capacity 4 on a 16-bit `size_t` holding one byte, `enqueue 5`. -/
theorem C2_enqueue_success_iff_bounded_witness :
    (∃ r cb1 m1, Index.cbuff_enqueue Index.exOne.1 Index.exOne.2 5 = some (r, cb1, m1) ∧
      (r = true ↔ Index.cbuff_count Index.exOne.1 < Index.cbuff_capacity Index.exOne.1) ∧
      (r = true → Index.cbuff_count cb1 = Index.cbuff_count Index.exOne.1 + 1 ∧
        Index.contents (cb1, m1) = Index.contents Index.exOne ++ [5])) ∧
    (∃ r cb1 m1,
      MirroredW.cbuff_uint8_enqueue 16 Mirrored.exOne.1 Mirrored.exOne.2 5
        = some (r, cb1, m1) ∧
      (r = true ↔ MirroredW.cbuff_uint8_count 16 Mirrored.exOne.1
        < Mirrored.cbuff_uint8_capacity Mirrored.exOne.1) ∧
      (r = true →
        MirroredW.cbuff_uint8_count 16 cb1 = MirroredW.cbuff_uint8_count 16 Mirrored.exOne.1 + 1 ∧
        MirroredW.contents 16 (cb1, m1) = MirroredW.contents 16 Mirrored.exOne ++ [5])) ∧
    (∃ r cb1 m1, Pointer.cbuff_uint8_enqueue Pointer.exOne.1 Pointer.exOne.2 5 = some (r, cb1, m1) ∧
      (r = true ↔ Pointer.cbuff_uint8_count Pointer.exOne.1 < Pointer.cbuff_uint8_capacity Pointer.exOne.1) ∧
      (r = true → Pointer.cbuff_uint8_count cb1 = Pointer.cbuff_uint8_count Pointer.exOne.1 + 1 ∧
        Pointer.contents (cb1, m1) = Pointer.contents Pointer.exOne ++ [5])) :=
  have t := C2_enqueue_success_iff_bounded 16 4 (by decide) 5
    Index.exOne Index.idx_exOne_reachable
    Mirrored.exOne
    Pointer.exOne Pointer.ptr_exOne_reachable
  ⟨t.1, t.2.1 (by decide) MirroredW.mw_exOne_reachable, t.2.2⟩

/-- C4, counterexample: the mirrored-index variant on a 4-bit `size_t` with
capacity 10 (`capacity * 2` wraps to 4).  In the reachable state with head 3
and tail 1 the count is 2 and the logical contents, the bytes at the slots
`(head + i) % 10` for `i < 2`, are 10, 0.  `dequeue` returns success with 10
and moves head to `(3 + 1) % 4 = 0`; the logical contents afterwards are 20 and
not 0, and the next `dequeue` returns 20. -/
theorem C4_dequeue_front_wraps :
    MirroredW.Reachable 4 10 MirroredW.exTenWrap ∧
    MirroredW.cbuff_uint8_count 4 MirroredW.exTenWrap.1 = 2 ∧
    MirroredW.contents 4 MirroredW.exTenWrap = [10, 0] ∧
    MirroredW.cbuff_uint8_dequeue 4 MirroredW.exTenWrap.1 MirroredW.exTenWrap.2 0xFF
      = some (true, 10, ⟨10, 100, 0, 1⟩, MirroredW.exTenWrap.2) ∧
    MirroredW.contents 4 (⟨10, 100, 0, 1⟩, MirroredW.exTenWrap.2) = [20] ∧
    MirroredW.cbuff_uint8_dequeue 4 ⟨10, 100, 0, 1⟩ MirroredW.exTenWrap.2 0xFF
      = some (true, 20, ⟨10, 100, 1, 1⟩, MirroredW.exTenWrap.2) :=
  ⟨MirroredW.mw_exTenWrap_reachable, by decide, by decide, by decide, by decide, by decide⟩

/-- C4, amended. In the counted-index and the pointer-based variant for every
capacity `C >= 1`, and in the mirrored-index variant on a `w`-bit `size_t` for
every capacity `C >= 1` with `2 * C < 2 ^ w`: in every reachable state whose
logical contents are `x :: xs`, `dequeue` returns success with `x`, the count
drops by exactly one, the logical contents become `xs` and the storage is not
modified; the next `dequeue` fails when `xs` is empty and otherwise returns the
first byte of `xs`. -/
theorem C4_dequeue_front_bounded (w C : Nat) (hC : 1 ≤ C) (d d2 : Byte)
    (si : Index.cbuff_t × Mem) (hri : Index.Reachable C si)
    (xi : Byte) (xsi : List Byte) (hci : Index.contents si = xi :: xsi)
    (sm : Mirrored.cbuff_uint8_t × Mem) (xm : Byte) (xsm : List Byte)
    (sp : Pointer.cbuff_uint8_t × Mem) (hrp : Pointer.Reachable C sp)
    (xp : Byte) (xsp : List Byte) (hcp : Pointer.contents sp = xp :: xsp) :
    (∃ cb1, Index.cbuff_dequeue si.1 si.2 d = some (true, xi, cb1, si.2) ∧
      Index.cbuff_count cb1 + 1 = Index.cbuff_count si.1 ∧ Index.contents (cb1, si.2) = xsi ∧
      (xsi = [] → Index.cbuff_dequeue cb1 si.2 d2 = some (false, d2, cb1, si.2)) ∧
      (∀ x1 rest, xsi = x1 :: rest →
        ∃ cb2, Index.cbuff_dequeue cb1 si.2 d2 = some (true, x1, cb2, si.2))) ∧
    (2 * C < 2 ^ w → MirroredW.Reachable w C sm → MirroredW.contents w sm = xm :: xsm →
      ∃ cb1, MirroredW.cbuff_uint8_dequeue w sm.1 sm.2 d = some (true, xm, cb1, sm.2) ∧
        MirroredW.cbuff_uint8_count w cb1 + 1 = MirroredW.cbuff_uint8_count w sm.1 ∧
        MirroredW.contents w (cb1, sm.2) = xsm ∧
        (xsm = [] →
          MirroredW.cbuff_uint8_dequeue w cb1 sm.2 d2 = some (false, d2, cb1, sm.2)) ∧
        (∀ x1 rest, xsm = x1 :: rest →
          ∃ cb2, MirroredW.cbuff_uint8_dequeue w cb1 sm.2 d2 = some (true, x1, cb2, sm.2))) ∧
    (∃ cb1, Pointer.cbuff_uint8_dequeue sp.1 sp.2 d = some (true, xp, cb1, sp.2) ∧
      Pointer.cbuff_uint8_count cb1 + 1 = Pointer.cbuff_uint8_count sp.1 ∧ Pointer.contents (cb1, sp.2) = xsp ∧
      (xsp = [] → Pointer.cbuff_uint8_dequeue cb1 sp.2 d2 = some (false, d2, cb1, sp.2)) ∧
      (∀ x1 rest, xsp = x1 :: rest →
        ∃ cb2, Pointer.cbuff_uint8_dequeue cb1 sp.2 d2 = some (true, x1, cb2, sp.2))) :=
  ⟨Index.idx_dequeue_front si.1 si.2 d d2 xi xsi (hri.idx_inv hC) hci,
    fun hw hrm hcm =>
      MirroredW.mw_dequeue_front sm.1 sm.2 d d2 xm xsm (MirroredW.mw_inv hC hw hrm) hw hcm,
    Pointer.ptr_dequeue_front sp.1 sp.2 d d2 xp xsp (hrp.ptr_inv hC) hcp⟩

/-- C4, witness: capacity 4 on a 16-bit `size_t` holding 0, 1, 2, 3. -/
theorem C4_dequeue_front_bounded_witness :
    (∃ cb1, Index.cbuff_dequeue Index.exFull.1 Index.exFull.2 0xFF = some (true, 0, cb1, Index.exFull.2) ∧
      Index.cbuff_count cb1 + 1 = Index.cbuff_count Index.exFull.1 ∧ Index.contents (cb1, Index.exFull.2) = ([1, 2, 3] : List Byte) ∧
      (([1, 2, 3] : List Byte) = [] → Index.cbuff_dequeue cb1 Index.exFull.2 0xFF = some (false, 0xFF, cb1, Index.exFull.2)) ∧
      (∀ x1 rest, ([1, 2, 3] : List Byte) = x1 :: rest →
        ∃ cb2, Index.cbuff_dequeue cb1 Index.exFull.2 0xFF = some (true, x1, cb2, Index.exFull.2))) ∧
    (∃ cb1, MirroredW.cbuff_uint8_dequeue 16 Mirrored.exFull.1 Mirrored.exFull.2 0xFF = some (true, 0, cb1, Mirrored.exFull.2) ∧
      MirroredW.cbuff_uint8_count 16 cb1 + 1 = MirroredW.cbuff_uint8_count 16 Mirrored.exFull.1 ∧
      MirroredW.contents 16 (cb1, Mirrored.exFull.2) = ([1, 2, 3] : List Byte) ∧
      (([1, 2, 3] : List Byte) = [] → MirroredW.cbuff_uint8_dequeue 16 cb1 Mirrored.exFull.2 0xFF = some (false, 0xFF, cb1, Mirrored.exFull.2)) ∧
      (∀ x1 rest, ([1, 2, 3] : List Byte) = x1 :: rest →
        ∃ cb2, MirroredW.cbuff_uint8_dequeue 16 cb1 Mirrored.exFull.2 0xFF = some (true, x1, cb2, Mirrored.exFull.2))) ∧
    (∃ cb1, Pointer.cbuff_uint8_dequeue Pointer.exFull.1 Pointer.exFull.2 0xFF = some (true, 0, cb1, Pointer.exFull.2) ∧
      Pointer.cbuff_uint8_count cb1 + 1 = Pointer.cbuff_uint8_count Pointer.exFull.1 ∧ Pointer.contents (cb1, Pointer.exFull.2) = ([1, 2, 3] : List Byte) ∧
      (([1, 2, 3] : List Byte) = [] → Pointer.cbuff_uint8_dequeue cb1 Pointer.exFull.2 0xFF = some (false, 0xFF, cb1, Pointer.exFull.2)) ∧
      (∀ x1 rest, ([1, 2, 3] : List Byte) = x1 :: rest →
        ∃ cb2, Pointer.cbuff_uint8_dequeue cb1 Pointer.exFull.2 0xFF = some (true, x1, cb2, Pointer.exFull.2))) :=
  have t := C4_dequeue_front_bounded 16 4 (by decide) 0xFF 0xFF
    Index.exFull Index.idx_exFull_reachable 0 [1, 2, 3] (by decide)
    Mirrored.exFull 0 [1, 2, 3]
    Pointer.exFull Pointer.ptr_exFull_reachable 0 [1, 2, 3] (by decide)
  ⟨t.1, t.2.1 (by decide) MirroredW.mw_exFull_reachable (by decide), t.2.2⟩

/-- C6, counterexample: the mirrored-index variant on a 4-bit `size_t` with
capacity 8 on eight bytes of storage.  The state `init` leaves is reachable;
`capacity * 2` wraps to 0; `enqueue_overwrite` stores its byte at slot 0 and
then takes the remainder `(tail + 1) % (capacity * 2)` by zero, so the call
has no result and does not return success.  The same on a 16-bit `size_t` with
capacity `2 ^ 15` on `2 ^ 15` bytes of storage. -/
theorem C6_enqueue_overwrite_undefined :
    MirroredW.Reachable 4 8 MirroredW.exHalf ∧
    wmul 4 MirroredW.exHalf.1.capacity 2 = 0 ∧
    urem (wadd 4 MirroredW.exHalf.1.tail 1) (wmul 4 MirroredW.exHalf.1.capacity 2) = none ∧
    MirroredW.cbuff_uint8_enqueue_overwrite 4 MirroredW.exHalf.1 MirroredW.exHalf.2 9 = none ∧
    (MirroredW.Reachable 16 32768 MirroredW.exHalf16 ∧
      wmul 16 MirroredW.exHalf16.1.capacity 2 = 0 ∧
      MirroredW.cbuff_uint8_enqueue_overwrite 16 MirroredW.exHalf16.1 MirroredW.exHalf16.2 9
        = none) :=
  ⟨MirroredW.mw_exHalf_reachable, by decide, by decide, by decide,
    ⟨MirroredW.mw_exHalf16_reachable, by decide, (MirroredW.mw_exHalf16_undefined 9).2⟩⟩

/-- C6, amended. In the counted-index and the pointer-based variant for every
capacity `C >= 1`, and in the mirrored-index variant on a `w`-bit `size_t` for
every capacity `C >= 1` with `2 * C < 2 ^ w`: `enqueue_overwrite b` returns
success in every reachable state; when the buffer is full the logical contents
afterwards are the old contents without their first byte, followed by `b`, and
the count is still the capacity. -/
theorem C6_enqueue_overwrite_bounded (w C : Nat) (hC : 1 ≤ C) (b : Byte)
    (si : Index.cbuff_t × Mem) (hri : Index.Reachable C si)
    (sm : Mirrored.cbuff_uint8_t × Mem)
    (sp : Pointer.cbuff_uint8_t × Mem) (hrp : Pointer.Reachable C sp) :
    (∃ cb1 m1, Index.cbuff_enqueue_overwrite si.1 si.2 b = some (true, cb1, m1) ∧
      (Index.cbuff_count si.1 = Index.cbuff_capacity si.1 →
        Index.contents (cb1, m1) = (Index.contents si).tail ++ [b] ∧
        Index.cbuff_count cb1 = Index.cbuff_capacity cb1)) ∧
    (2 * C < 2 ^ w → MirroredW.Reachable w C sm →
      ∃ cb1 m1, MirroredW.cbuff_uint8_enqueue_overwrite w sm.1 sm.2 b = some (true, cb1, m1) ∧
        (MirroredW.cbuff_uint8_count w sm.1 = Mirrored.cbuff_uint8_capacity sm.1 →
          MirroredW.contents w (cb1, m1) = (MirroredW.contents w sm).tail ++ [b] ∧
          MirroredW.cbuff_uint8_count w cb1 = Mirrored.cbuff_uint8_capacity cb1)) ∧
    (∃ cb1 m1, Pointer.cbuff_uint8_enqueue_overwrite sp.1 sp.2 b = some (true, cb1, m1) ∧
      (Pointer.cbuff_uint8_count sp.1 = Pointer.cbuff_uint8_capacity sp.1 →
        Pointer.contents (cb1, m1) = (Pointer.contents sp).tail ++ [b] ∧
        Pointer.cbuff_uint8_count cb1 = Pointer.cbuff_uint8_capacity cb1)) :=
  ⟨Index.idx_overwrite_total si.1 si.2 b (hri.idx_inv hC),
    fun hw hrm => MirroredW.mw_overwrite_total sm.1 sm.2 b (MirroredW.mw_inv hC hw hrm) hw,
    Pointer.ptr_overwrite_total sp.1 sp.2 b (hrp.ptr_inv hC)⟩

/-- C6, witness: capacity 4 on a 16-bit `size_t` holding 0, 1, 2, 3;
`enqueue_overwrite 9` leaves 1, 2, 3, 9. -/
theorem C6_enqueue_overwrite_bounded_witness :
    ((∃ cb1 m1, Index.cbuff_enqueue_overwrite Index.exFull.1 Index.exFull.2 9 = some (true, cb1, m1) ∧
      (Index.cbuff_count Index.exFull.1 = Index.cbuff_capacity Index.exFull.1 →
        Index.contents (cb1, m1) = (Index.contents Index.exFull).tail ++ [9] ∧
        Index.cbuff_count cb1 = Index.cbuff_capacity cb1)) ∧
     (∃ cb1 m1, MirroredW.cbuff_uint8_enqueue_overwrite 16 Mirrored.exFull.1 Mirrored.exFull.2 9 = some (true, cb1, m1) ∧
      (MirroredW.cbuff_uint8_count 16 Mirrored.exFull.1 = Mirrored.cbuff_uint8_capacity Mirrored.exFull.1 →
        MirroredW.contents 16 (cb1, m1) = (MirroredW.contents 16 Mirrored.exFull).tail ++ [9] ∧
        MirroredW.cbuff_uint8_count 16 cb1 = Mirrored.cbuff_uint8_capacity cb1)) ∧
     (∃ cb1 m1, Pointer.cbuff_uint8_enqueue_overwrite Pointer.exFull.1 Pointer.exFull.2 9 = some (true, cb1, m1) ∧
      (Pointer.cbuff_uint8_count Pointer.exFull.1 = Pointer.cbuff_uint8_capacity Pointer.exFull.1 →
        Pointer.contents (cb1, m1) = (Pointer.contents Pointer.exFull).tail ++ [9] ∧
        Pointer.cbuff_uint8_count cb1 = Pointer.cbuff_uint8_capacity cb1))) ∧
    MirroredW.cbuff_uint8_count 16 Mirrored.exFull.1 = Mirrored.cbuff_uint8_capacity Mirrored.exFull.1 ∧
    MirroredW.cbuff_uint8_enqueue_overwrite 16 Mirrored.exFull.1 Mirrored.exFull.2 9
      = some (true, ⟨4, 100, 1, 5⟩, ⟨100, [9, 1, 2, 3]⟩) ∧
    MirroredW.contents 16 (⟨4, 100, 1, 5⟩, ⟨100, [9, 1, 2, 3]⟩) = [1, 2, 3, 9] :=
  have t := C6_enqueue_overwrite_bounded 16 4 (by decide) 9
    Index.exFull Index.idx_exFull_reachable
    Mirrored.exFull
    Pointer.exFull Pointer.ptr_exFull_reachable
  ⟨⟨t.1, t.2.1 (by decide) MirroredW.mw_exFull_reachable, t.2.2⟩, by decide, by decide,
    by decide⟩

/-- C8, counterexample: the mirrored-index variant on a 4-bit `size_t` with
capacity 6 (`2 * 6 < 2 ^ 4`).  In the reachable full state with head 11 that
holds 12, .., 17 the count is 6 and the offset 5 is below it; in `peek` the sum
`head + 5 = 16` wraps to 0, so `peek` with offset 5 returns 13, the byte of
slot 0, while the sixth of six `dequeue` calls returns 17.  The same sum on a
16-bit `size_t`: capacity 24576, head 49151, offset 24575 give slot 8190
instead of 24574.  With capacity 10 on a 4-bit `size_t` (`capacity * 2` wraps
to 4), in the reachable state with head 3 and tail 1 the count is 2; `peek`
with offset 1 reads slot 4 and returns 0, while the second of two `dequeue`
calls reads slot 0 and returns 20. -/
theorem C8_peek_differs_from_dequeue :
    MirroredW.Reachable 4 6 MirroredW.exWrap ∧ 2 * 6 < 2 ^ 4 ∧
    5 < MirroredW.cbuff_uint8_count 4 MirroredW.exWrap.1 ∧
    wadd 4 MirroredW.exWrap.1.head 5 = 0 ∧
    MirroredW.cbuff_uint8_peek 4 MirroredW.exWrap.1 MirroredW.exWrap.2 0xFF 5
      = some (true, 13, MirroredW.exWrap.1, MirroredW.exWrap.2) ∧
    (∃ res cb1, dequeueSeq (MirroredW.cbuff_uint8_dequeue 4) MirroredW.exWrap.1
        MirroredW.exWrap.2 0xFF (5 + 1) = some (res, cb1, MirroredW.exWrap.2) ∧
      res.length = 5 + 1 ∧ res[5]? = some (true, 17)) ∧
    (2 * 24576 < 2 ^ 16 ∧ 49151 < 2 * 24576 ∧ 24575 < 24576 ∧
      wadd 16 49151 24575 % 24576 = 8190 ∧ (49151 + 24575) % 24576 = 24574) ∧
    (MirroredW.Reachable 4 10 MirroredW.exTenWrap ∧
      1 < MirroredW.cbuff_uint8_count 4 MirroredW.exTenWrap.1 ∧
      MirroredW.cbuff_uint8_peek 4 MirroredW.exTenWrap.1 MirroredW.exTenWrap.2 0xFF 1
        = some (true, 0, MirroredW.exTenWrap.1, MirroredW.exTenWrap.2) ∧
      (∃ res cb1, dequeueSeq (MirroredW.cbuff_uint8_dequeue 4) MirroredW.exTenWrap.1
          MirroredW.exTenWrap.2 0xFF (1 + 1) = some (res, cb1, MirroredW.exTenWrap.2) ∧
        res.length = 1 + 1 ∧ res[1]? = some (true, 20))) :=
  ⟨MirroredW.mw_exWrap_reachable, by decide, by decide, by decide, by decide,
    ⟨_, _, rfl, by decide, by decide⟩, by decide,
    ⟨MirroredW.mw_exTenWrap_reachable, by decide, by decide,
      ⟨_, _, rfl, by decide, by decide⟩⟩⟩

/-- C8, amended. In each of the three variants on a `w`-bit `size_t`, in every
reachable state of capacity `C >= 1` (mirrored-index: with `2 * C < 2 ^ w`) and
for every offset `i < count` for which the sum `head + i` that `peek` forms is
below `2 ^ w` (`head` is the head index, in the pointer-based variant the
offset of the head cursor): `peek i` returns success with the byte that the
last of `i + 1` consecutive dequeue calls made from that state returns, and
`peek` leaves the structure and the storage unchanged.  The sum is below
`2 ^ w` for every `i < count` when `2 * C <= 2 ^ w + 1` (counted-index,
pointer-based) and when `3 * C <= 2 ^ w + 1` (mirrored-index). -/
theorem C8_peek_matches_dequeue_bounded (w C : Nat) (hC : 1 ≤ C) (d d2 : Byte) (i : Nat)
    (si : Index.cbuff_t × Mem) (hri : Index.Reachable C si)
    (sm : Mirrored.cbuff_uint8_t × Mem)
    (sp : Pointer.cbuff_uint8_t × Mem) (hrp : Pointer.Reachable C sp) :
    (i < Index.cbuff_count si.1 → si.1.head + i < 2 ^ w →
      ∃ v, IndexW.cbuff_peek w si.1 si.2 d i = some (true, v, si.1, si.2) ∧
        ∃ res cb1, dequeueSeq Index.cbuff_dequeue si.1 si.2 d2 (i + 1)
            = some (res, cb1, si.2) ∧
          res.length = i + 1 ∧ res[i]? = some (true, v)) ∧
    (2 * C < 2 ^ w → MirroredW.Reachable w C sm →
      i < MirroredW.cbuff_uint8_count w sm.1 → sm.1.head + i < 2 ^ w →
      ∃ v, MirroredW.cbuff_uint8_peek w sm.1 sm.2 d i = some (true, v, sm.1, sm.2) ∧
        ∃ res cb1, dequeueSeq (MirroredW.cbuff_uint8_dequeue w) sm.1 sm.2 d2 (i + 1)
            = some (res, cb1, sm.2) ∧
          res.length = i + 1 ∧ res[i]? = some (true, v)) ∧
    (i < Pointer.cbuff_uint8_count sp.1 → sp.1.head - sp.1.buffer + i < 2 ^ w →
      ∃ v, PointerW.cbuff_uint8_peek w sp.1 sp.2 d i = some (true, v, sp.1, sp.2) ∧
        ∃ res cb1, dequeueSeq Pointer.cbuff_uint8_dequeue sp.1 sp.2 d2 (i + 1)
            = some (res, cb1, sp.2) ∧
          res.length = i + 1 ∧ res[i]? = some (true, v)) ∧
    ((2 * C ≤ 2 ^ w + 1 → ∀ j, j < Index.cbuff_count si.1 → si.1.head + j < 2 ^ w) ∧
      (2 * C < 2 ^ w → MirroredW.Reachable w C sm → 3 * C ≤ 2 ^ w + 1 →
        ∀ j, j < MirroredW.cbuff_uint8_count w sm.1 → sm.1.head + j < 2 ^ w) ∧
      (2 * C ≤ 2 ^ w + 1 → ∀ j, j < Pointer.cbuff_uint8_count sp.1 →
        sp.1.head - sp.1.buffer + j < 2 ^ w)) := by
  have hi := hri.idx_inv hC
  have hp := hrp.ptr_inv hC
  refine ⟨fun hii hsi => IndexW.iw_peek_as_dequeue si.1 si.2 d d2 i hi hii hsi, ?_,
    fun hip hsp => PointerW.pw_peek_as_dequeue sp.1 sp.2 d d2 i hp hip hsp, ?_, ?_, ?_⟩
  · intro hw hrm him hsm
    exact MirroredW.mw_peek_as_dequeue sm.1 sm.2 d d2 i (MirroredW.mw_inv hC hw hrm) hw him hsm
  · intro h2 j hj
    have hhd : si.1.head < C := hi.hd
    have hcnt : si.1.count ≤ C := hi.cnt
    have hj2 : j < si.1.count := hj
    omega
  · intro hw hrm h3 j hj
    have hm := MirroredW.mw_inv hC hw hrm
    have hhd : sm.1.head < C * 2 := hm.hd
    have hcnt : Mirrored.cbuff_uint8_count sm.1 ≤ C := hm.cnt
    rw [MirroredW.mw_count_eq hm hw] at hj
    omega
  · intro h2 j hj
    have hbuf : sp.1.buffer = sp.2.base := hp.buf
    have hlt : sp.1.head < sp.2.base + C := hp.hd_lt
    have hcnt : sp.1.count ≤ C := hp.cnt
    have hj2 : j < sp.1.count := hj
    omega

/-- C8, witness: capacity 3 on a 16-bit `size_t` after `enqueue_overwrite` of
1, 2, 3, 4, offset 2; the three peeks give 2, 3, 4. -/
theorem C8_peek_matches_dequeue_bounded_witness :
    ((∃ v, IndexW.cbuff_peek 16 Index.exPeek.1 Index.exPeek.2 0xFF 2 = some (true, v, Index.exPeek.1, Index.exPeek.2) ∧
      ∃ res cb1, dequeueSeq Index.cbuff_dequeue Index.exPeek.1 Index.exPeek.2 0xFF (2 + 1)
          = some (res, cb1, Index.exPeek.2) ∧
        res.length = 2 + 1 ∧ res[2]? = some (true, v)) ∧
     (∃ v, MirroredW.cbuff_uint8_peek 16 Mirrored.exPeek.1 Mirrored.exPeek.2 0xFF 2 = some (true, v, Mirrored.exPeek.1, Mirrored.exPeek.2) ∧
      ∃ res cb1, dequeueSeq (MirroredW.cbuff_uint8_dequeue 16) Mirrored.exPeek.1 Mirrored.exPeek.2 0xFF (2 + 1)
          = some (res, cb1, Mirrored.exPeek.2) ∧
        res.length = 2 + 1 ∧ res[2]? = some (true, v)) ∧
     (∃ v, PointerW.cbuff_uint8_peek 16 Pointer.exPeek.1 Pointer.exPeek.2 0xFF 2 = some (true, v, Pointer.exPeek.1, Pointer.exPeek.2) ∧
      ∃ res cb1, dequeueSeq Pointer.cbuff_uint8_dequeue Pointer.exPeek.1 Pointer.exPeek.2 0xFF (2 + 1)
          = some (res, cb1, Pointer.exPeek.2) ∧
        res.length = 2 + 1 ∧ res[2]? = some (true, v))) ∧
    (IndexW.cbuff_peek 16 Index.exPeek.1 Index.exPeek.2 0xFF 0
        = some (true, 2, Index.exPeek.1, Index.exPeek.2) ∧
      IndexW.cbuff_peek 16 Index.exPeek.1 Index.exPeek.2 0xFF 1
        = some (true, 3, Index.exPeek.1, Index.exPeek.2) ∧
      IndexW.cbuff_peek 16 Index.exPeek.1 Index.exPeek.2 0xFF 2
        = some (true, 4, Index.exPeek.1, Index.exPeek.2)) ∧
    (MirroredW.cbuff_uint8_peek 16 Mirrored.exPeek.1 Mirrored.exPeek.2 0xFF 0
        = some (true, 2, Mirrored.exPeek.1, Mirrored.exPeek.2) ∧
      MirroredW.cbuff_uint8_peek 16 Mirrored.exPeek.1 Mirrored.exPeek.2 0xFF 1
        = some (true, 3, Mirrored.exPeek.1, Mirrored.exPeek.2) ∧
      MirroredW.cbuff_uint8_peek 16 Mirrored.exPeek.1 Mirrored.exPeek.2 0xFF 2
        = some (true, 4, Mirrored.exPeek.1, Mirrored.exPeek.2)) ∧
    (PointerW.cbuff_uint8_peek 16 Pointer.exPeek.1 Pointer.exPeek.2 0xFF 0
        = some (true, 2, Pointer.exPeek.1, Pointer.exPeek.2) ∧
      PointerW.cbuff_uint8_peek 16 Pointer.exPeek.1 Pointer.exPeek.2 0xFF 1
        = some (true, 3, Pointer.exPeek.1, Pointer.exPeek.2) ∧
      PointerW.cbuff_uint8_peek 16 Pointer.exPeek.1 Pointer.exPeek.2 0xFF 2
        = some (true, 4, Pointer.exPeek.1, Pointer.exPeek.2)) :=
  have t := C8_peek_matches_dequeue_bounded 16 3 (by decide) 0xFF 0xFF 2
    Index.exPeek Index.idx_exPeek_reachable
    Mirrored.exPeek
    Pointer.exPeek Pointer.ptr_exPeek_reachable
  ⟨⟨t.1 (by decide) (by decide),
      t.2.1 (by decide) MirroredW.mw_exPeek_reachable (by decide) (by decide),
      t.2.2.1 (by decide) (by decide)⟩,
    by decide, by decide, by decide⟩

/-- C13, counterexample: the mirrored-index variant on a 4-bit `size_t` with
capacity 8 on eight bytes of storage.  In the reachable state `init` leaves,
the buffer is not full; `enqueue` and `enqueue_overwrite` reach the store to
slot 0, which is inside the storage, and then take the remainder
`(tail + 1) % (capacity * 2)` with `capacity * 2` wrapped to 0: neither call
has a result, so neither is a call that writes one slot and returns.  The same
on a 16-bit `size_t` with capacity `2 ^ 15` on `2 ^ 15` bytes of storage. -/
theorem C13_enqueue_undefined_after_store :
    MirroredW.Reachable 4 8 MirroredW.exHalf ∧
    MirroredW.cbuff_uint8_is_full 4 MirroredW.exHalf.1 = 0 ∧
    urem MirroredW.exHalf.1.tail MirroredW.exHalf.1.capacity = some 0 ∧
    MirroredW.exHalf.2.store (MirroredW.exHalf.1.buffer + 0) 5
      = some ⟨100, [5, 0, 0, 0, 0, 0, 0, 0]⟩ ∧
    urem (wadd 4 MirroredW.exHalf.1.tail 1) (wmul 4 MirroredW.exHalf.1.capacity 2) = none ∧
    MirroredW.cbuff_uint8_enqueue 4 MirroredW.exHalf.1 MirroredW.exHalf.2 5 = none ∧
    MirroredW.cbuff_uint8_enqueue_overwrite 4 MirroredW.exHalf.1 MirroredW.exHalf.2 5 = none ∧
    (MirroredW.Reachable 16 32768 MirroredW.exHalf16 ∧
      MirroredW.cbuff_uint8_enqueue 16 MirroredW.exHalf16.1 MirroredW.exHalf16.2 5 = none ∧
      MirroredW.cbuff_uint8_enqueue_overwrite 16 MirroredW.exHalf16.1 MirroredW.exHalf16.2 5
        = none) :=
  ⟨MirroredW.mw_exHalf_reachable, by decide, by decide, by decide, by decide, by decide,
    by decide,
    ⟨MirroredW.mw_exHalf16_reachable, (MirroredW.mw_exHalf16_undefined 5).1,
      (MirroredW.mw_exHalf16_undefined 5).2⟩⟩

/-- C13, amended. In the counted-index and the pointer-based variant for every
capacity `C >= 1`, and in the mirrored-index variant on a `w`-bit `size_t` for
every capacity `C >= 1` with `2 * C < 2 ^ w`, in every reachable state: a
successful `enqueue b` and every `enqueue_overwrite b` write `b` to exactly one
slot of the storage, whose index is below `C` (`tail`, `tail % C`, or the
offset of the tail cursor), and leave every other byte unchanged; a failed
`enqueue` leaves the storage as it was. -/
theorem C13_enqueue_writes_one_slot_bounded (w C : Nat) (hC : 1 ≤ C) (b : Byte)
    (si : Index.cbuff_t × Mem) (hri : Index.Reachable C si)
    (sm : Mirrored.cbuff_uint8_t × Mem)
    (sp : Pointer.cbuff_uint8_t × Mem) (hrp : Pointer.Reachable C sp) :
    ((∃ r cb1 m1, Index.cbuff_enqueue si.1 si.2 b = some (r, cb1, m1) ∧
        (r = true → si.1.tail < C ∧ WritesOne si.2 m1 (si.1.tail) b) ∧
        (r = false → m1 = si.2)) ∧
      (∃ cb1 m1, Index.cbuff_enqueue_overwrite si.1 si.2 b = some (true, cb1, m1) ∧
        si.1.tail < C ∧ WritesOne si.2 m1 (si.1.tail) b)) ∧
    (2 * C < 2 ^ w → MirroredW.Reachable w C sm →
      (∃ r cb1 m1, MirroredW.cbuff_uint8_enqueue w sm.1 sm.2 b = some (r, cb1, m1) ∧
        (r = true → sm.1.tail % C < C ∧ WritesOne sm.2 m1 (sm.1.tail % C) b) ∧
        (r = false → m1 = sm.2)) ∧
      (∃ cb1 m1, MirroredW.cbuff_uint8_enqueue_overwrite w sm.1 sm.2 b
          = some (true, cb1, m1) ∧
        sm.1.tail % C < C ∧ WritesOne sm.2 m1 (sm.1.tail % C) b)) ∧
    ((∃ r cb1 m1, Pointer.cbuff_uint8_enqueue sp.1 sp.2 b = some (r, cb1, m1) ∧
        (r = true → sp.1.tail - sp.1.buffer < C ∧ WritesOne sp.2 m1 (sp.1.tail - sp.1.buffer) b) ∧
        (r = false → m1 = sp.2)) ∧
      (∃ cb1 m1, Pointer.cbuff_uint8_enqueue_overwrite sp.1 sp.2 b = some (true, cb1, m1) ∧
        sp.1.tail - sp.1.buffer < C ∧ WritesOne sp.2 m1 (sp.1.tail - sp.1.buffer) b)) :=
  ⟨⟨Index.idx_enqueue_writes si.1 si.2 b (hri.idx_inv hC),
      Index.idx_overwrite_writes si.1 si.2 b (hri.idx_inv hC)⟩,
    fun hw hrm =>
      ⟨MirroredW.mw_enqueue_writes sm.1 sm.2 b (MirroredW.mw_inv hC hw hrm) hw,
        MirroredW.mw_overwrite_writes sm.1 sm.2 b (MirroredW.mw_inv hC hw hrm) hw⟩,
    ⟨Pointer.ptr_enqueue_writes sp.1 sp.2 b (hrp.ptr_inv hC),
      Pointer.ptr_overwrite_writes sp.1 sp.2 b (hrp.ptr_inv hC)⟩⟩

/-- C13, witness: capacity 3 on a 16-bit `size_t` after `enqueue_overwrite` of
1, 2, 3, 4 (a full buffer with tail at slot 1), byte 5. -/
theorem C13_enqueue_writes_one_slot_bounded_witness :
    ((∃ r cb1 m1, Index.cbuff_enqueue Index.exPeek.1 Index.exPeek.2 5 = some (r, cb1, m1) ∧
        (r = true → Index.exPeek.1.tail < 3 ∧ WritesOne Index.exPeek.2 m1 (Index.exPeek.1.tail) 5) ∧
        (r = false → m1 = Index.exPeek.2)) ∧
      (∃ cb1 m1, Index.cbuff_enqueue_overwrite Index.exPeek.1 Index.exPeek.2 5 = some (true, cb1, m1) ∧
        Index.exPeek.1.tail < 3 ∧ WritesOne Index.exPeek.2 m1 (Index.exPeek.1.tail) 5)) ∧
    ((∃ r cb1 m1, MirroredW.cbuff_uint8_enqueue 16 Mirrored.exPeek.1 Mirrored.exPeek.2 5 = some (r, cb1, m1) ∧
        (r = true → Mirrored.exPeek.1.tail % 3 < 3 ∧ WritesOne Mirrored.exPeek.2 m1 (Mirrored.exPeek.1.tail % 3) 5) ∧
        (r = false → m1 = Mirrored.exPeek.2)) ∧
      (∃ cb1 m1, MirroredW.cbuff_uint8_enqueue_overwrite 16 Mirrored.exPeek.1 Mirrored.exPeek.2 5 = some (true, cb1, m1) ∧
        Mirrored.exPeek.1.tail % 3 < 3 ∧ WritesOne Mirrored.exPeek.2 m1 (Mirrored.exPeek.1.tail % 3) 5)) ∧
    ((∃ r cb1 m1, Pointer.cbuff_uint8_enqueue Pointer.exPeek.1 Pointer.exPeek.2 5 = some (r, cb1, m1) ∧
        (r = true → Pointer.exPeek.1.tail - Pointer.exPeek.1.buffer < 3 ∧ WritesOne Pointer.exPeek.2 m1 (Pointer.exPeek.1.tail - Pointer.exPeek.1.buffer) 5) ∧
        (r = false → m1 = Pointer.exPeek.2)) ∧
      (∃ cb1 m1, Pointer.cbuff_uint8_enqueue_overwrite Pointer.exPeek.1 Pointer.exPeek.2 5 = some (true, cb1, m1) ∧
        Pointer.exPeek.1.tail - Pointer.exPeek.1.buffer < 3 ∧ WritesOne Pointer.exPeek.2 m1 (Pointer.exPeek.1.tail - Pointer.exPeek.1.buffer) 5)) :=
  have t := C13_enqueue_writes_one_slot_bounded 16 3 (by decide) 5
    Index.exPeek Index.idx_exPeek_reachable
    Mirrored.exPeek
    Pointer.exPeek Pointer.ptr_exPeek_reachable
  ⟨t.1, t.2.1 (by decide) MirroredW.mw_exPeek_reachable, t.2.2⟩

/-- C18, counterexample, on a 4-bit `size_t`.  With capacity 6
(`2 * 6 < 2 ^ 4 < 3 * 6`), after `enqueue` of 1, .., 6 and `enqueue_overwrite`
of 7, .., 17 made on both variants, `peek` with offset 5 returns 13 in the
mirrored-index variant (the sum `11 + 5` wraps to 0) and 17 in the
counted-index variant.  With capacity 10 (`10 * 2` wraps to 4), after four
`enqueue` calls `count` returns 0 in the mirrored-index variant and 4 in the
counted-index variant. -/
theorem C18_mirrored_differs_from_counted :
    (2 * 6 < 2 ^ 4 ∧ 2 ^ 4 < 3 * 6 ∧
      ∃ rm sm ri si,
        MirroredW.calls 4
            (Mirrored.cbuff_uint8_struct_full_prefill 6 100, ⟨100, [0, 0, 0, 0, 0, 0]⟩)
            [.enqueue 1, .enqueue 2, .enqueue 3, .enqueue 4, .enqueue 5, .enqueue 6,
              .enqueue_overwrite 7, .enqueue_overwrite 8, .enqueue_overwrite 9,
              .enqueue_overwrite 10, .enqueue_overwrite 11, .enqueue_overwrite 12,
              .enqueue_overwrite 13, .enqueue_overwrite 14, .enqueue_overwrite 15,
              .enqueue_overwrite 16, .enqueue_overwrite 17, .peek 0xFF 5]
          = some (rm, sm) ∧
        IndexW.calls 4
            (Index.cbuff_struct_full_prefill 6 100, ⟨100, [0, 0, 0, 0, 0, 0]⟩)
            [.enqueue 1, .enqueue 2, .enqueue 3, .enqueue 4, .enqueue 5, .enqueue 6,
              .enqueue_overwrite 7, .enqueue_overwrite 8, .enqueue_overwrite 9,
              .enqueue_overwrite 10, .enqueue_overwrite 11, .enqueue_overwrite 12,
              .enqueue_overwrite 13, .enqueue_overwrite 14, .enqueue_overwrite 15,
              .enqueue_overwrite 16, .enqueue_overwrite 17, .peek 0xFF 5]
          = some (ri, si) ∧
        rm.getLast? = some (.out true 13) ∧ ri.getLast? = some (.out true 17)) ∧
    (∃ rm sm ri si,
      MirroredW.calls 4 MirroredW.exTen
          [.enqueue 1, .enqueue 2, .enqueue 3, .enqueue 4, .count]
        = some (rm, sm) ∧
      IndexW.calls 4 (Index.cbuff_struct_full_prefill 10 100, MirroredW.exTen.2)
          [.enqueue 1, .enqueue 2, .enqueue 3, .enqueue 4, .count]
        = some (ri, si) ∧
      rm = [.flag true, .flag true, .flag true, .flag true, .size 0] ∧
      ri = [.flag true, .flag true, .flag true, .flag true, .size 4]) :=
  ⟨⟨by decide, by decide, _, _, _, _, rfl, rfl, by decide, by decide⟩,
    ⟨_, _, _, _, rfl, rfl, by decide, by decide⟩⟩

/-- C18, amended. On a `w`-bit `size_t` the mirrored-index and the
counted-index variant realise the same abstract data type for every capacity
`C >= 1` with `3 * C <= 2 ^ w`: `init` with capacity `C` on the same non-null
storage succeeds in both, and for every finite sequence of calls (reset,
enqueue, enqueue_overwrite, dequeue, peek, capacity, count, is_full, is_empty)
made on both, every call returns the same result and the same output byte in
both, and afterwards the storage is the same, the mirrored head and tail
reduced modulo `C` are the counted head and tail, and the derived count, which
is `(tail - head) mod (2 * C)` over the integers, is the stored count.  As the
sequence is arbitrary this holds after each step. -/
theorem C18_mirrored_refines_counted_bounded (w C : Nat) (hC : 1 ≤ C) (h3 : 3 * C ≤ 2 ^ w)
    (m0 : Mem) (hb : m0.base ≠ 0) (hlen : C ≤ m0.bytes.length)
    (oldm : Mirrored.cbuff_uint8_t) (oldi : Index.cbuff_t) (cs : List Call) :
    Mirrored.cbuff_uint8_init (some oldm) C m0.base
      = (true, some (Mirrored.cbuff_uint8_struct_full_prefill C m0.base)) ∧
    Index.cbuff_init (some oldi) C m0.base
      = (true, some (Index.cbuff_struct_full_prefill C m0.base)) ∧
    ∃ rs sm si,
      MirroredW.calls w (Mirrored.cbuff_uint8_struct_full_prefill C m0.base, m0) cs
        = some (rs, sm) ∧
      IndexW.calls w (Index.cbuff_struct_full_prefill C m0.base, m0) cs = some (rs, si) ∧
      sm.2 = si.2 ∧ sm.1.head % C = si.1.head ∧ sm.1.tail % C = si.1.tail ∧
      MirroredW.cbuff_uint8_count w sm.1 = Index.cbuff_count si.1 ∧
      ((sm.1.tail : Int) - (sm.1.head : Int)) % (2 * (C : Int))
        = (Index.cbuff_count si.1 : Int) := by
  refine ⟨Mirrored.mir_init_eq oldm C m0.base hb, Index.idx_init_eq oldi C m0.base hb, ?_⟩
  obtain ⟨rs, sm, si, e1, e2, hm, _, hmem, hhd, htl, hcnt⟩ :=
    simMirroredW_calls h3 cs _ _ (simMirrored_init hC m0 hb hlen)
  have hw : 2 * C < 2 ^ w := by omega
  refine ⟨rs, sm, si, e1, e2, hmem, hhd, htl, ?_, ?_⟩
  · rw [MirroredW.mw_count_eq hm hw]
    exact hcnt
  · have e := Mirrored.mir_sub_emod hm
    rw [e]
    exact congrArg Int.ofNat hcnt

/-- C18, witness: capacity 3 on a 16-bit `size_t`, on three bytes at address
100, with a sequence that fills the buffer, overwrites, peeks (also at the
count), empties it past the wrap of the mirrored indices and resets. -/
theorem C18_mirrored_refines_counted_bounded_witness :
    Mirrored.cbuff_uint8_init (some Mirrored.exOne.1) 3 (⟨100, [0, 0, 0]⟩ : Mem).base
      = (true, some (Mirrored.cbuff_uint8_struct_full_prefill 3 (⟨100, [0, 0, 0]⟩ : Mem).base)) ∧
    Index.cbuff_init (some Index.exOne.1) 3 (⟨100, [0, 0, 0]⟩ : Mem).base
      = (true, some (Index.cbuff_struct_full_prefill 3 (⟨100, [0, 0, 0]⟩ : Mem).base)) ∧
    ∃ rs sm si,
      MirroredW.calls 16
          (Mirrored.cbuff_uint8_struct_full_prefill 3 (⟨100, [0, 0, 0]⟩ : Mem).base,
            ⟨100, [0, 0, 0]⟩)
          [.is_empty, .enqueue 1, .enqueue 2, .peek 0 2, .enqueue 3, .enqueue 4, .is_full,
            .enqueue_overwrite 5, .count, .dequeue 0, .dequeue 0, .dequeue 0, .dequeue 0,
            .enqueue 6, .enqueue 7, .enqueue 8, .peek 0 1, .capacity, .reset, .is_empty]
        = some (rs, sm) ∧
      IndexW.calls 16
          (Index.cbuff_struct_full_prefill 3 (⟨100, [0, 0, 0]⟩ : Mem).base, ⟨100, [0, 0, 0]⟩)
          [.is_empty, .enqueue 1, .enqueue 2, .peek 0 2, .enqueue 3, .enqueue 4, .is_full,
            .enqueue_overwrite 5, .count, .dequeue 0, .dequeue 0, .dequeue 0, .dequeue 0,
            .enqueue 6, .enqueue 7, .enqueue 8, .peek 0 1, .capacity, .reset, .is_empty]
        = some (rs, si) ∧
      sm.2 = si.2 ∧ sm.1.head % 3 = si.1.head ∧ sm.1.tail % 3 = si.1.tail ∧
      MirroredW.cbuff_uint8_count 16 sm.1 = Index.cbuff_count si.1 ∧
      ((sm.1.tail : Int) - (sm.1.head : Int)) % (2 * ((3 : Nat) : Int))
        = (Index.cbuff_count si.1 : Int) :=
  C18_mirrored_refines_counted_bounded 16 3 (by decide) (by decide) ⟨100, [0, 0, 0]⟩
    (by decide) (by decide) Mirrored.exOne.1 Index.exOne.1
    [.is_empty, .enqueue 1, .enqueue 2, .peek 0 2, .enqueue 3, .enqueue 4, .is_full,
      .enqueue_overwrite 5, .count, .dequeue 0, .dequeue 0, .dequeue 0, .dequeue 0,
      .enqueue 6, .enqueue 7, .enqueue 8, .peek 0 1, .capacity, .reset, .is_empty]

/-- C21, counterexample: capacity 4 holding 0, 1, 2, 3, a reachable state with
head 0; `enqueue_overwrite 9` returns success and leaves head at 1.  The same
on a 16-bit `size_t`. -/
theorem C21_overwrite_moves_head :
    (Mirrored.Reachable 4 Mirrored.exFull ∧ Mirrored.exFull.1.head = 0 ∧
      Mirrored.cbuff_uint8_enqueue_overwrite Mirrored.exFull.1 Mirrored.exFull.2 9
        = some (true, ⟨4, 100, 1, 5⟩, ⟨100, [9, 1, 2, 3]⟩) ∧
      (⟨4, 100, 1, 5⟩ : Mirrored.cbuff_uint8_t).head ≠ Mirrored.exFull.1.head) ∧
    (MirroredW.Reachable 16 4 Mirrored.exFull ∧ 2 * 4 < 2 ^ 16 ∧
      MirroredW.cbuff_uint8_enqueue_overwrite 16 Mirrored.exFull.1 Mirrored.exFull.2 9
        = some (true, ⟨4, 100, 1, 5⟩, ⟨100, [9, 1, 2, 3]⟩)) :=
  ⟨⟨Mirrored.mir_exFull_reachable, by decide, by decide, by decide⟩,
    ⟨MirroredW.mw_exFull_reachable, by decide, by decide⟩⟩

/-- C21, amended. Mirrored-index variant on a `w`-bit `size_t`, in every
reachable state of capacity `C >= 1` with `2 * C < 2 ^ w` and for every byte
`b`: `enqueue b` returns and leaves head unchanged; `enqueue_overwrite b`
returns success and advances tail by one modulo `2 * C`; it leaves head
unchanged when the buffer is not full, and on a full buffer it advances head by
one modulo `2 * C`, so head changes. -/
theorem C21_overwrite_head_unless_full_bounded (w C : Nat) (hC : 1 ≤ C)
    (hw : 2 * C < 2 ^ w) (b : Byte)
    (s : Mirrored.cbuff_uint8_t × Mem) (hr : MirroredW.Reachable w C s) :
    (∃ r cb1 m1, MirroredW.cbuff_uint8_enqueue w s.1 s.2 b = some (r, cb1, m1) ∧
      cb1.head = s.1.head) ∧
    (∃ cb1 m1, MirroredW.cbuff_uint8_enqueue_overwrite w s.1 s.2 b = some (true, cb1, m1) ∧
      (MirroredW.cbuff_uint8_count w s.1 < Mirrored.cbuff_uint8_capacity s.1 →
        cb1.head = s.1.head) ∧
      (MirroredW.cbuff_uint8_count w s.1 = Mirrored.cbuff_uint8_capacity s.1 →
        cb1.head = (s.1.head + 1) % (2 * C) ∧ cb1.head ≠ s.1.head) ∧
      cb1.tail = (s.1.tail + 1) % (2 * C)) :=
  MirroredW.mw_overwrite_head s.1 s.2 b (MirroredW.mw_inv hC hw hr) hw

/-- C21, witness: capacity 4 on a 16-bit `size_t` holding 0, 1, 2, 3 (full)
and byte 9. -/
theorem C21_overwrite_head_unless_full_bounded_witness :
    (∃ r cb1 m1,
      MirroredW.cbuff_uint8_enqueue 16 Mirrored.exFull.1 Mirrored.exFull.2 9
        = some (r, cb1, m1) ∧
      cb1.head = Mirrored.exFull.1.head) ∧
    (∃ cb1 m1,
      MirroredW.cbuff_uint8_enqueue_overwrite 16 Mirrored.exFull.1 Mirrored.exFull.2 9
        = some (true, cb1, m1) ∧
      (MirroredW.cbuff_uint8_count 16 Mirrored.exFull.1
          < Mirrored.cbuff_uint8_capacity Mirrored.exFull.1 →
        cb1.head = Mirrored.exFull.1.head) ∧
      (MirroredW.cbuff_uint8_count 16 Mirrored.exFull.1
          = Mirrored.cbuff_uint8_capacity Mirrored.exFull.1 →
        cb1.head = (Mirrored.exFull.1.head + 1) % (2 * 4) ∧
        cb1.head ≠ Mirrored.exFull.1.head) ∧
      cb1.tail = (Mirrored.exFull.1.tail + 1) % (2 * 4)) :=
  C21_overwrite_head_unless_full_bounded 16 4 (by decide) (by decide) 9 Mirrored.exFull
    MirroredW.mw_exFull_reachable

/-- C23, counterexample: the mirrored-index variant on a 4-bit `size_t` with
capacity 6 (`2 * 6 < 2 ^ 4`).  In the reachable full state with head 11 and
tail 5 the count is 6; the slot `(head + count) % 6` is 5, the slot at tail,
and holds 12, as the slot of `peek` with offset 0 does.  In `peek` with offset
6 the sum `11 + 6 = 17` wraps to 1, so the call reads slot 1 and returns 14.
The same sum on a 16-bit `size_t`: capacity 24576, head 49151, count 24576
give slot 8191 instead of 24575.  With capacity 10 on a 4-bit `size_t`
(`capacity * 2` wraps to 4), in the reachable state with head 3 and tail 1 the
count is 2 and `peek` with offset 2 reads slot `(3 + 2) % 10 = 5`, which is
not the slot 1 at tail. -/
theorem C23_peek_at_count_wraps :
    MirroredW.Reachable 4 6 MirroredW.exWrap ∧ 2 * 6 < 2 ^ 4 ∧
    MirroredW.cbuff_uint8_count 4 MirroredW.exWrap.1 = 6 ∧
    (MirroredW.exWrap.1.head + 6) % 6 = 5 ∧ MirroredW.exWrap.1.tail % 6 = 5 ∧
    MirroredW.exWrap.2.bytes.getD 5 0 = 12 ∧
    MirroredW.cbuff_uint8_peek 4 MirroredW.exWrap.1 MirroredW.exWrap.2 0xFF 0
      = some (true, 12, MirroredW.exWrap.1, MirroredW.exWrap.2) ∧
    wadd 4 MirroredW.exWrap.1.head 6 % 6 = 1 ∧
    MirroredW.cbuff_uint8_peek 4 MirroredW.exWrap.1 MirroredW.exWrap.2 0xFF 6
      = some (true, 14, MirroredW.exWrap.1, MirroredW.exWrap.2) ∧
    (2 * 24576 < 2 ^ 16 ∧ 49151 < 2 * 24576 ∧
      wadd 16 49151 24576 % 24576 = 8191 ∧ (49151 + 24576) % 24576 = 24575) ∧
    (MirroredW.Reachable 4 10 MirroredW.exTenWrap ∧
      MirroredW.cbuff_uint8_count 4 MirroredW.exTenWrap.1 = 2 ∧
      wadd 4 MirroredW.exTenWrap.1.head 2 % 10 = 5 ∧ MirroredW.exTenWrap.1.tail % 10 = 1 ∧
      MirroredW.cbuff_uint8_peek 4 MirroredW.exTenWrap.1 MirroredW.exTenWrap.2 0xFF 2
        = some (true, MirroredW.exTenWrap.2.bytes.getD 5 0, MirroredW.exTenWrap.1,
            MirroredW.exTenWrap.2)) :=
  ⟨MirroredW.mw_exWrap_reachable, by decide, by decide, by decide, by decide, by decide,
    by decide, by decide, by decide, by decide,
    ⟨MirroredW.mw_exTenWrap_reachable, by decide, by decide, by decide, by decide⟩⟩

/-- C23, amended. Exact bound check of `peek`, in each of the three variants
on a `w`-bit `size_t`: in every reachable state of capacity `C >= 1`
(mirrored-index: with `2 * C < 2 ^ w`) and for every offset, `peek` returns
(leaving the structure and the storage as they were) and fails if and only if
`count = 0` or `count < offset`; so on a non-empty buffer `peek` with the
offset `count` succeeds, and when the sum `head + count` that it forms is below
`2 ^ w` (`head` is the head index, in the pointer-based variant the offset of
the head cursor) it yields the byte of the slot `(head + count) % C`, which is
the slot at tail, one past the logical contents; on a full buffer that is the
slot of the head and the call equals `peek` with offset 0.  The sum is below
`2 ^ w` in every reachable state when `2 * C <= 2 ^ w` (counted-index,
pointer-based) and when `3 * C <= 2 ^ w` (mirrored-index). -/
theorem C23_peek_exact_bound_bounded (w C : Nat) (hC : 1 ≤ C) (d : Byte) (offset : Nat)
    (si : Index.cbuff_t × Mem) (hri : Index.Reachable C si)
    (sm : Mirrored.cbuff_uint8_t × Mem)
    (sp : Pointer.cbuff_uint8_t × Mem) (hrp : Pointer.Reachable C sp) :
    ((∃ r d1, IndexW.cbuff_peek w si.1 si.2 d offset = some (r, d1, si.1, si.2) ∧
        (r = false ↔ Index.cbuff_count si.1 = 0 ∨ Index.cbuff_count si.1 < offset)) ∧
      (Index.cbuff_count si.1 ≠ 0 →
        (∃ v, IndexW.cbuff_peek w si.1 si.2 d (Index.cbuff_count si.1)
          = some (true, v, si.1, si.2)) ∧
        (si.1.head + Index.cbuff_count si.1 < 2 ^ w →
          IndexW.cbuff_peek w si.1 si.2 d (Index.cbuff_count si.1)
            = some (true, si.2.bytes.getD ((si.1.head + Index.cbuff_count si.1) % C) 0,
                si.1, si.2) ∧
          (si.1.head + Index.cbuff_count si.1) % C = si.1.tail ∧
          (Index.cbuff_count si.1 = C →
            (si.1.head + Index.cbuff_count si.1) % C = si.1.head % C ∧
            IndexW.cbuff_peek w si.1 si.2 d (Index.cbuff_count si.1)
              = IndexW.cbuff_peek w si.1 si.2 d 0)))) ∧
    (2 * C < 2 ^ w → MirroredW.Reachable w C sm →
      (∃ r d1, MirroredW.cbuff_uint8_peek w sm.1 sm.2 d offset = some (r, d1, sm.1, sm.2) ∧
        (r = false ↔ MirroredW.cbuff_uint8_count w sm.1 = 0 ∨
          MirroredW.cbuff_uint8_count w sm.1 < offset)) ∧
      (MirroredW.cbuff_uint8_count w sm.1 ≠ 0 →
        (∃ v, MirroredW.cbuff_uint8_peek w sm.1 sm.2 d (MirroredW.cbuff_uint8_count w sm.1)
          = some (true, v, sm.1, sm.2)) ∧
        (sm.1.head + MirroredW.cbuff_uint8_count w sm.1 < 2 ^ w →
          MirroredW.cbuff_uint8_peek w sm.1 sm.2 d (MirroredW.cbuff_uint8_count w sm.1)
            = some (true,
                sm.2.bytes.getD ((sm.1.head + MirroredW.cbuff_uint8_count w sm.1) % C) 0,
                sm.1, sm.2) ∧
          (sm.1.head + MirroredW.cbuff_uint8_count w sm.1) % C = sm.1.tail % C ∧
          (MirroredW.cbuff_uint8_count w sm.1 = C →
            (sm.1.head + MirroredW.cbuff_uint8_count w sm.1) % C = sm.1.head % C ∧
            MirroredW.cbuff_uint8_peek w sm.1 sm.2 d (MirroredW.cbuff_uint8_count w sm.1)
              = MirroredW.cbuff_uint8_peek w sm.1 sm.2 d 0)))) ∧
    ((∃ r d1, PointerW.cbuff_uint8_peek w sp.1 sp.2 d offset = some (r, d1, sp.1, sp.2) ∧
        (r = false ↔ Pointer.cbuff_uint8_count sp.1 = 0 ∨
          Pointer.cbuff_uint8_count sp.1 < offset)) ∧
      (Pointer.cbuff_uint8_count sp.1 ≠ 0 →
        (∃ v, PointerW.cbuff_uint8_peek w sp.1 sp.2 d (Pointer.cbuff_uint8_count sp.1)
          = some (true, v, sp.1, sp.2)) ∧
        (sp.1.head - sp.1.buffer + Pointer.cbuff_uint8_count sp.1 < 2 ^ w →
          PointerW.cbuff_uint8_peek w sp.1 sp.2 d (Pointer.cbuff_uint8_count sp.1)
            = some (true,
                sp.2.bytes.getD
                  ((sp.1.head - sp.1.buffer + Pointer.cbuff_uint8_count sp.1) % C) 0,
                sp.1, sp.2) ∧
          (sp.1.head - sp.1.buffer + Pointer.cbuff_uint8_count sp.1) % C
            = sp.1.tail - sp.1.buffer ∧
          (Pointer.cbuff_uint8_count sp.1 = C →
            (sp.1.head - sp.1.buffer + Pointer.cbuff_uint8_count sp.1) % C
              = (sp.1.head - sp.1.buffer) % C ∧
            PointerW.cbuff_uint8_peek w sp.1 sp.2 d (Pointer.cbuff_uint8_count sp.1)
              = PointerW.cbuff_uint8_peek w sp.1 sp.2 d 0)))) ∧
    ((2 * C ≤ 2 ^ w → si.1.head + Index.cbuff_count si.1 < 2 ^ w) ∧
      (2 * C < 2 ^ w → MirroredW.Reachable w C sm → 3 * C ≤ 2 ^ w →
        sm.1.head + MirroredW.cbuff_uint8_count w sm.1 < 2 ^ w) ∧
      (2 * C ≤ 2 ^ w → sp.1.head - sp.1.buffer + Pointer.cbuff_uint8_count sp.1 < 2 ^ w)) := by
  have hi := hri.idx_inv hC
  have hp := hrp.ptr_inv hC
  refine ⟨IndexW.iw_peek_exact si.1 si.2 d offset hi,
    fun hw hrm => MirroredW.mw_peek_exact sm.1 sm.2 d offset (MirroredW.mw_inv hC hw hrm) hw,
    PointerW.pw_peek_exact sp.1 sp.2 d offset hp, ?_, ?_, ?_⟩
  · intro h2
    have hhd : si.1.head < C := hi.hd
    have hcnt : si.1.count ≤ C := hi.cnt
    show si.1.head + si.1.count < 2 ^ w
    omega
  · intro hw hrm h3
    have hm := MirroredW.mw_inv hC hw hrm
    have hhd : sm.1.head < C * 2 := hm.hd
    have hcnt : Mirrored.cbuff_uint8_count sm.1 ≤ C := hm.cnt
    rw [MirroredW.mw_count_eq hm hw]
    omega
  · intro h2
    have hbuf : sp.1.buffer = sp.2.base := hp.buf
    have hlt : sp.1.head < sp.2.base + C := hp.hd_lt
    have hcnt : sp.1.count ≤ C := hp.cnt
    show sp.1.head - sp.1.buffer + sp.1.count < 2 ^ w
    omega

/-- C23, witness: capacity 4 on a 16-bit `size_t`, a storage array filled with
9, holding the single byte 7; offset 1, the count: `peek` succeeds with the
byte 9 of the slot at tail, and `peek` with offset 2 fails. -/
theorem C23_peek_exact_bound_bounded_witness :
    ((IndexW.cbuff_peek 16 Index.exOne.1 Index.exOne.2 0xFF (Index.cbuff_count Index.exOne.1)
          = some (true,
              Index.exOne.2.bytes.getD ((Index.exOne.1.head + Index.cbuff_count Index.exOne.1) % 4) 0,
              Index.exOne.1, Index.exOne.2) ∧
        (Index.exOne.1.head + Index.cbuff_count Index.exOne.1) % 4 = Index.exOne.1.tail ∧
        (Index.cbuff_count Index.exOne.1 = 4 →
          (Index.exOne.1.head + Index.cbuff_count Index.exOne.1) % 4 = Index.exOne.1.head % 4 ∧
          IndexW.cbuff_peek 16 Index.exOne.1 Index.exOne.2 0xFF (Index.cbuff_count Index.exOne.1)
            = IndexW.cbuff_peek 16 Index.exOne.1 Index.exOne.2 0xFF 0)) ∧
      (MirroredW.cbuff_uint8_peek 16 Mirrored.exOne.1 Mirrored.exOne.2 0xFF
            (MirroredW.cbuff_uint8_count 16 Mirrored.exOne.1)
          = some (true,
              Mirrored.exOne.2.bytes.getD
                ((Mirrored.exOne.1.head + MirroredW.cbuff_uint8_count 16 Mirrored.exOne.1) % 4) 0,
              Mirrored.exOne.1, Mirrored.exOne.2) ∧
        (Mirrored.exOne.1.head + MirroredW.cbuff_uint8_count 16 Mirrored.exOne.1) % 4
          = Mirrored.exOne.1.tail % 4 ∧
        (MirroredW.cbuff_uint8_count 16 Mirrored.exOne.1 = 4 →
          (Mirrored.exOne.1.head + MirroredW.cbuff_uint8_count 16 Mirrored.exOne.1) % 4
            = Mirrored.exOne.1.head % 4 ∧
          MirroredW.cbuff_uint8_peek 16 Mirrored.exOne.1 Mirrored.exOne.2 0xFF
              (MirroredW.cbuff_uint8_count 16 Mirrored.exOne.1)
            = MirroredW.cbuff_uint8_peek 16 Mirrored.exOne.1 Mirrored.exOne.2 0xFF 0)) ∧
      (PointerW.cbuff_uint8_peek 16 Pointer.exOne.1 Pointer.exOne.2 0xFF
            (Pointer.cbuff_uint8_count Pointer.exOne.1)
          = some (true,
              Pointer.exOne.2.bytes.getD
                ((Pointer.exOne.1.head - Pointer.exOne.1.buffer
                  + Pointer.cbuff_uint8_count Pointer.exOne.1) % 4) 0,
              Pointer.exOne.1, Pointer.exOne.2) ∧
        (Pointer.exOne.1.head - Pointer.exOne.1.buffer
            + Pointer.cbuff_uint8_count Pointer.exOne.1) % 4
          = Pointer.exOne.1.tail - Pointer.exOne.1.buffer ∧
        (Pointer.cbuff_uint8_count Pointer.exOne.1 = 4 →
          (Pointer.exOne.1.head - Pointer.exOne.1.buffer
              + Pointer.cbuff_uint8_count Pointer.exOne.1) % 4
            = (Pointer.exOne.1.head - Pointer.exOne.1.buffer) % 4 ∧
          PointerW.cbuff_uint8_peek 16 Pointer.exOne.1 Pointer.exOne.2 0xFF
              (Pointer.cbuff_uint8_count Pointer.exOne.1)
            = PointerW.cbuff_uint8_peek 16 Pointer.exOne.1 Pointer.exOne.2 0xFF 0))) ∧
    (Index.cbuff_count Index.exOne.1 = 1 ∧
      IndexW.cbuff_peek 16 Index.exOne.1 Index.exOne.2 0xFF 1
        = some (true, 9, Index.exOne.1, Index.exOne.2) ∧
      IndexW.cbuff_peek 16 Index.exOne.1 Index.exOne.2 0xFF 2
        = some (false, 0xFF, Index.exOne.1, Index.exOne.2)) ∧
    (MirroredW.cbuff_uint8_count 16 Mirrored.exOne.1 = 1 ∧
      MirroredW.cbuff_uint8_peek 16 Mirrored.exOne.1 Mirrored.exOne.2 0xFF 1
        = some (true, 9, Mirrored.exOne.1, Mirrored.exOne.2) ∧
      MirroredW.cbuff_uint8_peek 16 Mirrored.exOne.1 Mirrored.exOne.2 0xFF 2
        = some (false, 0xFF, Mirrored.exOne.1, Mirrored.exOne.2)) ∧
    (Pointer.cbuff_uint8_count Pointer.exOne.1 = 1 ∧
      PointerW.cbuff_uint8_peek 16 Pointer.exOne.1 Pointer.exOne.2 0xFF 1
        = some (true, 9, Pointer.exOne.1, Pointer.exOne.2) ∧
      PointerW.cbuff_uint8_peek 16 Pointer.exOne.1 Pointer.exOne.2 0xFF 2
        = some (false, 0xFF, Pointer.exOne.1, Pointer.exOne.2)) :=
  have t := C23_peek_exact_bound_bounded 16 4 (by decide) 0xFF 1
    Index.exOne Index.idx_exOne_reachable
    Mirrored.exOne
    Pointer.exOne Pointer.ptr_exOne_reachable
  ⟨⟨(t.1.2 (by decide)).2 (by decide),
      ((t.2.1 (by decide) MirroredW.mw_exOne_reachable).2 (by decide)).2 (by decide),
      (t.2.2.1.2 (by decide)).2 (by decide)⟩,
    by decide, by decide, by decide⟩

/-- C24, counterexample: the mirrored-index variant on a 4-bit `size_t` with
capacity 8 on eight bytes of storage.  The reachable state `init` leaves is
not full (the count is 0); `capacity * 2` wraps to 0, and both `enqueue` and
`enqueue_overwrite` take the remainder `(tail + 1) % (capacity * 2)` by zero:
neither returns success.  The same on a 16-bit `size_t` with capacity `2 ^ 15`
on `2 ^ 15` bytes of storage. -/
theorem C24_enqueue_undefined_when_not_full :
    MirroredW.Reachable 4 8 MirroredW.exHalf ∧
    MirroredW.cbuff_uint8_count 4 MirroredW.exHalf.1
      < Mirrored.cbuff_uint8_capacity MirroredW.exHalf.1 ∧
    wmul 4 MirroredW.exHalf.1.capacity 2 = 0 ∧
    (¬ ∃ cb1 m1, MirroredW.cbuff_uint8_enqueue 4 MirroredW.exHalf.1 MirroredW.exHalf.2 5
      = some (true, cb1, m1)) ∧
    (¬ ∃ cb1 m1,
      MirroredW.cbuff_uint8_enqueue_overwrite 4 MirroredW.exHalf.1 MirroredW.exHalf.2 5
        = some (true, cb1, m1)) ∧
    (MirroredW.Reachable 16 32768 MirroredW.exHalf16 ∧
      MirroredW.cbuff_uint8_count 16 MirroredW.exHalf16.1
        < Mirrored.cbuff_uint8_capacity MirroredW.exHalf16.1 ∧
      MirroredW.cbuff_uint8_enqueue 16 MirroredW.exHalf16.1 MirroredW.exHalf16.2 5 = none ∧
      MirroredW.cbuff_uint8_enqueue_overwrite 16 MirroredW.exHalf16.1 MirroredW.exHalf16.2 5
        = none) := by
  have e1 : MirroredW.cbuff_uint8_enqueue 4 MirroredW.exHalf.1 MirroredW.exHalf.2 5 = none := by
    decide
  have e2 : MirroredW.cbuff_uint8_enqueue_overwrite 4 MirroredW.exHalf.1 MirroredW.exHalf.2 5
      = none := by decide
  refine ⟨MirroredW.mw_exHalf_reachable, by decide, by decide, ?_, ?_,
    MirroredW.mw_exHalf16_reachable, by decide, (MirroredW.mw_exHalf16_undefined 5).1,
    (MirroredW.mw_exHalf16_undefined 5).2⟩
  · rintro ⟨cb1, m1, e⟩
    rw [e1] at e
    exact Option.noConfusion e
  · rintro ⟨cb1, m1, e⟩
    rw [e2] at e
    exact Option.noConfusion e

/-- C24, amended. In the counted-index and the pointer-based variant for every
capacity `C >= 1`, and in the mirrored-index variant on a `w`-bit `size_t` for
every capacity `C >= 1` with `2 * C < 2 ^ w`, in every reachable state and for
every byte `b`: when the buffer is not full, `enqueue_overwrite b` and
`enqueue b` return the same result, which is success, with the same structure
and the same storage; when the buffer is full the two calls differ. -/
theorem C24_overwrite_equals_enqueue_unless_full_bounded (w C : Nat) (hC : 1 ≤ C) (b : Byte)
    (si : Index.cbuff_t × Mem) (hri : Index.Reachable C si)
    (sm : Mirrored.cbuff_uint8_t × Mem)
    (sp : Pointer.cbuff_uint8_t × Mem) (hrp : Pointer.Reachable C sp) :
    ((Index.cbuff_count si.1 < Index.cbuff_capacity si.1 →
        Index.cbuff_enqueue_overwrite si.1 si.2 b = Index.cbuff_enqueue si.1 si.2 b ∧
        ∃ cb1 m1, Index.cbuff_enqueue si.1 si.2 b = some (true, cb1, m1)) ∧
      (Index.cbuff_count si.1 = Index.cbuff_capacity si.1 →
        Index.cbuff_enqueue_overwrite si.1 si.2 b ≠ Index.cbuff_enqueue si.1 si.2 b)) ∧
    (2 * C < 2 ^ w → MirroredW.Reachable w C sm →
      (MirroredW.cbuff_uint8_count w sm.1 < Mirrored.cbuff_uint8_capacity sm.1 →
        MirroredW.cbuff_uint8_enqueue_overwrite w sm.1 sm.2 b
          = MirroredW.cbuff_uint8_enqueue w sm.1 sm.2 b ∧
        ∃ cb1 m1, MirroredW.cbuff_uint8_enqueue w sm.1 sm.2 b = some (true, cb1, m1)) ∧
      (MirroredW.cbuff_uint8_count w sm.1 = Mirrored.cbuff_uint8_capacity sm.1 →
        MirroredW.cbuff_uint8_enqueue_overwrite w sm.1 sm.2 b
          ≠ MirroredW.cbuff_uint8_enqueue w sm.1 sm.2 b)) ∧
    ((Pointer.cbuff_uint8_count sp.1 < Pointer.cbuff_uint8_capacity sp.1 →
        Pointer.cbuff_uint8_enqueue_overwrite sp.1 sp.2 b = Pointer.cbuff_uint8_enqueue sp.1 sp.2 b ∧
        ∃ cb1 m1, Pointer.cbuff_uint8_enqueue sp.1 sp.2 b = some (true, cb1, m1)) ∧
      (Pointer.cbuff_uint8_count sp.1 = Pointer.cbuff_uint8_capacity sp.1 →
        Pointer.cbuff_uint8_enqueue_overwrite sp.1 sp.2 b ≠ Pointer.cbuff_uint8_enqueue sp.1 sp.2 b)) :=
  ⟨Index.idx_overwrite_vs_enqueue si.1 si.2 b (hri.idx_inv hC),
    fun hw hrm =>
      MirroredW.mw_overwrite_vs_enqueue sm.1 sm.2 b (MirroredW.mw_inv hC hw hrm) hw,
    Pointer.ptr_overwrite_vs_enqueue sp.1 sp.2 b (hrp.ptr_inv hC)⟩

/-- C24, witness: capacity 4 on a 16-bit `size_t`, byte 5: on the states
holding one byte the two calls agree, on the full states holding 0, 1, 2, 3
they differ. -/
theorem C24_overwrite_equals_enqueue_unless_full_bounded_witness :
    ((Index.cbuff_enqueue_overwrite Index.exOne.1 Index.exOne.2 5
          = Index.cbuff_enqueue Index.exOne.1 Index.exOne.2 5 ∧
        ∃ cb1 m1, Index.cbuff_enqueue Index.exOne.1 Index.exOne.2 5 = some (true, cb1, m1)) ∧
      Index.cbuff_enqueue_overwrite Index.exFull.1 Index.exFull.2 5
        ≠ Index.cbuff_enqueue Index.exFull.1 Index.exFull.2 5) ∧
    ((MirroredW.cbuff_uint8_enqueue_overwrite 16 Mirrored.exOne.1 Mirrored.exOne.2 5
          = MirroredW.cbuff_uint8_enqueue 16 Mirrored.exOne.1 Mirrored.exOne.2 5 ∧
        ∃ cb1 m1, MirroredW.cbuff_uint8_enqueue 16 Mirrored.exOne.1 Mirrored.exOne.2 5
          = some (true, cb1, m1)) ∧
      MirroredW.cbuff_uint8_enqueue_overwrite 16 Mirrored.exFull.1 Mirrored.exFull.2 5
        ≠ MirroredW.cbuff_uint8_enqueue 16 Mirrored.exFull.1 Mirrored.exFull.2 5) ∧
    ((Pointer.cbuff_uint8_enqueue_overwrite Pointer.exOne.1 Pointer.exOne.2 5
          = Pointer.cbuff_uint8_enqueue Pointer.exOne.1 Pointer.exOne.2 5 ∧
        ∃ cb1 m1, Pointer.cbuff_uint8_enqueue Pointer.exOne.1 Pointer.exOne.2 5 = some (true, cb1, m1)) ∧
      Pointer.cbuff_uint8_enqueue_overwrite Pointer.exFull.1 Pointer.exFull.2 5
        ≠ Pointer.cbuff_uint8_enqueue Pointer.exFull.1 Pointer.exFull.2 5) :=
  have one := C24_overwrite_equals_enqueue_unless_full_bounded 16 4 (by decide) 5
    Index.exOne Index.idx_exOne_reachable
    Mirrored.exOne
    Pointer.exOne Pointer.ptr_exOne_reachable
  have full := C24_overwrite_equals_enqueue_unless_full_bounded 16 4 (by decide) 5
    Index.exFull Index.idx_exFull_reachable
    Mirrored.exFull
    Pointer.exFull Pointer.ptr_exFull_reachable
  ⟨⟨one.1.1 (by decide), full.1.2 (by decide)⟩,
    ⟨(one.2.1 (by decide) MirroredW.mw_exOne_reachable).1 (by decide),
      (full.2.1 (by decide) MirroredW.mw_exFull_reachable).2 (by decide)⟩,
    ⟨one.2.2.1 (by decide), full.2.2.2 (by decide)⟩⟩
